import Mathlib

/-!
# AI-builder: pipeline orchestration, fix sub-protocol and gateway retry

A shallow embedding of the parts of the repository that the specification's
testable properties talk about:

* `src/utils/groqClient.js`: `delay`, `isRetryableError`, `callGroq`, `callGroqStream`;
* `src/agents/fixAgent.js`: `fixAgent` in multi-file mode (`fixMultipleFiles`, `getRelatedFiles`);
* `src/server.js`: the `POST /generate-website` handler and `validateRequiredFiles`.

Asynchronous code is embedded as pure functions that take the outcome of every
external call (the hosted model, the stage agents) as an argument and return the
value produced together with the ordered log of observable effects (attempts,
delays, callback invocations, SSE frames).
-/

set_option autoImplicit false

namespace AiBuilder

/-! ## JavaScript strings -/

/-- Substring test on character lists: the pattern occurs at some position of the text. -/
def includesChars (text pat : List Char) : Bool :=
  match text with
  | [] => pat.isPrefixOf []
  | c :: rest => pat.isPrefixOf (c :: rest) || includesChars rest pat

/-- The method `String.prototype.includes`, for a string argument. -/
def jsIncludes (text pat : String) : Bool :=
  includesChars text.data pat.data

/-- The method `String.prototype.toLowerCase`; exact on ASCII text, which is what
the patterns matched against it consist of. -/
def toLowerCase (s : String) : String :=
  String.mk (s.data.map Char.toLower)

/-- How a template literal renders a possibly absent string: `undefined` is
printed as the word undefined. -/
def templateString : Option String → String
  | some s => s
  | none => "undefined"

/-! ## src/utils/groqClient.js -/

/-- An error value as caught by the retry loops: only `message` and `code` are read. -/
structure JsError where
  message : Option String
  code : Option String
deriving DecidableEq, Repr

/-- The expression `new Error(msg)`. -/
def JsError.ofMessage (msg : String) : JsError :=
  { message := some msg, code := none }

/-- The milliseconds passed to `setTimeout` by `delay(attempt)`:
`Math.pow(2, attempt - 1) * 1000`. The attempt number is 1-based. The value is
the delay requested; a power of two times 1000 is computed without rounding in
double precision. -/
def delayMs (attempt : Nat) : Nat :=
  2 ^ (attempt - 1) * 1000

/-- The function `isRetryableError` of groqClient.js. -/
def isRetryableError (error : JsError) : Bool :=
  let errorMessage := (error.message.map toLowerCase).getD ""
  let errorCode := (error.code.map toLowerCase).getD ""
  if jsIncludes errorMessage "rate limit" || jsIncludes errorMessage "429"
      || errorCode == "rate_limit_exceeded" then true
  else if jsIncludes errorMessage "network" || jsIncludes errorMessage "econnrefused"
      || jsIncludes errorMessage "enotfound" then true
  else if jsIncludes errorMessage "timeout" || errorCode == "etimedout" then true
  else if jsIncludes errorMessage "500" || jsIncludes errorMessage "502"
      || jsIncludes errorMessage "503" || jsIncludes errorMessage "504" then true
  else false

/-- A chat message. -/
structure Message where
  role : String
  content : String
deriving DecidableEq, Repr

/-- The `messages` field of the call parameters as JavaScript sees it. -/
inductive MessagesArg where
  | missing
  | notArray
  | array (msgs : List Message)
deriving DecidableEq, Repr

/-- The test `!messages || !Array.isArray(messages) || messages.length === 0`. -/
def MessagesArg.invalid : MessagesArg → Bool
  | .missing => true
  | .notArray => true
  | .array msgs => msgs.isEmpty

/-- What a gateway call does that an observer can see, in order. -/
inductive CallEvent where
  | attempt (n : Nat)
  | chunk (content : String)
  | delay (ms : Nat)
deriving DecidableEq, Repr

/-- Result and effect log of one gateway call. -/
structure CallRun (α : Type) where
  result : Except JsError α
  events : List CallEvent

/-- Put events in front of a run's log. -/
def CallRun.after {α : Type} (pre : List CallEvent) (r : CallRun α) : CallRun α :=
  { result := r.result, events := pre ++ r.events }

/-- Number of network attempts in a log. -/
def attemptCount (evs : List CallEvent) : Nat :=
  (evs.filter (fun e => match e with | .attempt _ => true | _ => false)).length

/-- The delays of a log, in order. -/
def delaysOf : List CallEvent → List Nat
  | [] => []
  | .delay ms :: rest => ms :: delaysOf rest
  | _ :: rest => delaysOf rest

/-- Total time slept in a log. -/
def totalWait (evs : List CallEvent) : Nat :=
  (delaysOf evs).sum

/-- The chunks handed to `onChunk` in a log, in order. -/
def chunksOf : List CallEvent → List String
  | [] => []
  | .chunk c :: rest => c :: chunksOf rest
  | _ :: rest => chunksOf rest

/-- The statement after the retry loop: `throw new Error(prefix + lastError.message)`.
When the loop body never ran `lastError` is undefined and reading `.message`
raises a TypeError instead. -/
def exhausted (label : String) (retries : Nat) (lastError : Option JsError) : JsError :=
  match lastError with
  | some e => JsError.ofMessage (label ++ toString retries ++ " attempts: " ++ templateString e.message)
  | none => JsError.ofMessage "Cannot read properties of undefined (reading 'message')"

/-- The `for (attempt = ...; attempt <= retries; attempt++)` loop of `callGroq`,
entered at `attempt` with `remaining = retries + 1 - attempt` iterations left.
`create n` is the outcome of the `n`-th call of `chat.completions.create`. -/
def callGroqLoop {α : Type} (create : Nat → Except JsError α) (retries : Nat) :
    (remaining : Nat) → (attempt : Nat) → (lastError : Option JsError) → CallRun α
  | 0, _, lastError =>
    { result := .error (exhausted "Groq API call failed after " retries lastError), events := [] }
  | remaining + 1, attempt, _ =>
    match create attempt with
    | .ok response => { result := .ok response, events := [.attempt attempt] }
    | .error error =>
      if !isRetryableError error then
        { result := .error error, events := [.attempt attempt] }
      else if attempt < retries then
        (callGroqLoop create retries remaining (attempt + 1) (some error)).after
          [.attempt attempt, .delay (delayMs attempt)]
      else
        (callGroqLoop create retries remaining (attempt + 1) (some error)).after
          [.attempt attempt]

/-- The function `callGroq(params, retries = 3)`: the two configuration checks,
then the retry loop. -/
def callGroq {α : Type} (clientInitialised : Bool) (messages : MessagesArg)
    (create : Nat → Except JsError α) (retries : Nat) : CallRun α :=
  if !clientInitialised then
    { result := .error (JsError.ofMessage "Groq client not initialized. Call createGroqClient() first."),
      events := [] }
  else if messages.invalid then
    { result := .error (JsError.ofMessage "Messages array is required and must not be empty"),
      events := [] }
  else
    callGroqLoop create retries retries 1 none

/-- One streaming attempt: the fragments the stream delivers (the value of
`chunk.choices[0]?.delta?.content`, absent when the chunk has none) and the
error that interrupts it, if any. An attempt whose `create` call itself fails
delivers no fragment. -/
structure StreamAttempt where
  fragments : List (Option String)
  failure : Option JsError
deriving DecidableEq, Repr

/-- The fragments that pass the test `if (content)` after `|| ''`. -/
def contentFragments : List (Option String) → List String
  | [] => []
  | some c :: rest => if c = "" then contentFragments rest else c :: contentFragments rest
  | none :: rest => contentFragments rest

/-- The retry loop of `callGroqStream`. -/
def callGroqStreamLoop (create : Nat → StreamAttempt) (retries : Nat) :
    (remaining : Nat) → (attempt : Nat) → (lastError : Option JsError) → CallRun String
  | 0, _, lastError =>
    { result := .error (exhausted "Groq API streaming call failed after " retries lastError),
      events := [] }
  | remaining + 1, attempt, _ =>
    let s := create attempt
    let delivered := contentFragments s.fragments
    let seen : List CallEvent := .attempt attempt :: delivered.map CallEvent.chunk
    match s.failure with
    | none => { result := .ok (String.join delivered), events := seen }
    | some error =>
      if !isRetryableError error then
        { result := .error error, events := seen }
      else if attempt < retries then
        (callGroqStreamLoop create retries remaining (attempt + 1) (some error)).after
          (seen ++ [.delay (delayMs attempt)])
      else
        (callGroqStreamLoop create retries remaining (attempt + 1) (some error)).after seen

/-- The function `callGroqStream(params, onChunk, retries = 3)`. -/
def callGroqStream (clientInitialised : Bool) (onChunkIsFunction : Bool) (messages : MessagesArg)
    (create : Nat → StreamAttempt) (retries : Nat) : CallRun String :=
  if !clientInitialised then
    { result := .error (JsError.ofMessage "Groq client not initialized. Call createGroqClient() first."),
      events := [] }
  else if !onChunkIsFunction then
    { result := .error (JsError.ofMessage "onChunk callback function is required"), events := [] }
  else if messages.invalid then
    { result := .error (JsError.ofMessage "Messages array is required and must not be empty"),
      events := [] }
  else
    callGroqStreamLoop create retries retries 1 none

/-! ## src/agents/fixAgent.js (multi-file mode) -/

/-- A generated file: the objects with `path` and `content` that the stages exchange. -/
structure FileArtifact where
  path : String
  content : String
deriving DecidableEq, Repr

/-- The value of `affectedFiles` of an entry of `crossFileIssues`, as far as the
fix stage reads it: missing or falsy (`absent`); an array, of which only the
string entries can equal a path (`paths`); a string (`text`), which has an
`includes` method but no `forEach`; or another truthy value, a number, `true` or
an object (`other`), which has neither. -/
inductive AffectedFiles where
  | absent
  | paths (paths : List String)
  | text (s : String)
  | other
deriving DecidableEq, Repr

/-- An entry of `crossFileIssues` as the quality stage lets it through (any
parsed value): null, or a value with its `affectedFiles` (absent for a value
that is not an object); the other fields are only serialised into the prompt. -/
inductive CrossFileIssue where
  | null
  | issue (affectedFiles : AffectedFiles) (description : String)
deriving DecidableEq, Repr

/-- A multi-file quality report. `filesWithIssues`, `fileIssues` and
`crossFileIssues` are read with a default for a missing value, so they may be
absent; `fileIssues` is the object from path to that file's issues, each issue
kept as its serialised text. -/
structure QualityReport where
  filesWithIssues : Option (List String)
  fileIssues : Option (List (String × List String))
  crossFileIssues : Option (List CrossFileIssue)
  needsRevision : Bool
  overallQuality : String
deriving DecidableEq, Repr

/-- The lookup `fileMap.get(filePath)` after `files.forEach(file => fileMap.set(file.path, file))`:
a later file with the same path overwrites an earlier one. -/
def fileMapGet (files : List FileArtifact) (filePath : String) : Option FileArtifact :=
  files.foldl (fun found file => if file.path = filePath then some file else found) none

/-- The lookup `fileIssuesMap[filePath] || []`. -/
def fileIssuesFor (fileIssuesMap : List (String × List String)) (filePath : String) : List String :=
  match fileIssuesMap.find? (fun kv => kv.1 == filePath) with
  | some kv => kv.2
  | none => []

/-- The test `issue.affectedFiles && issue.affectedFiles.includes(filePath)` of
the filter; `none` when it throws a TypeError: `affectedFiles` of null cannot be
read, and a truthy value that is neither an array nor a string has no
`includes` method. On a string, `includes` looks for a substring. -/
def affects (filePath : String) : CrossFileIssue → Option Bool
  | .null => none
  | .issue .absent _ => some false
  | .issue (.paths paths) _ => some (paths.contains filePath)
  | .issue (.text s) _ => if s = "" then some false else some (jsIncludes s filePath)
  | .issue .other _ => none

/-- The call `crossFileIssues.filter(issue => ...)`: the entries that affect the
file, or `none` when the test throws on some entry. -/
def relevantIssues (filePath : String) : List CrossFileIssue → Option (List CrossFileIssue)
  | [] => some []
  | issue :: rest =>
    match affects filePath issue with
    | none => none
    | some keep =>
      match relevantIssues filePath rest with
      | none => none
      | some kept => some (if keep then issue :: kept else kept)

/-- The set `relatedPaths` that `getRelatedFiles` collects with
`issue.affectedFiles.forEach(...)` from the entries with a truthy
`affectedFiles`; `none` when that throws a TypeError: only an array has a
`forEach` method. -/
def relatedPathsOf (filePath : String) : List CrossFileIssue → Option (List String)
  | [] => some []
  | .null :: _ => none
  | .issue .absent _ :: rest => relatedPathsOf filePath rest
  | .issue (.paths paths) _ :: rest =>
    match relatedPathsOf filePath rest with
    | none => none
    | some later => some (paths.filter (fun path => path != filePath) ++ later)
  | .issue (.text s) _ :: rest => if s = "" then relatedPathsOf filePath rest else none
  | .issue .other _ :: _ => none

/-- The function `getRelatedFiles`: the input files, other than `filePath`, that
some relevant cross-file issue names, in input order; `none` when it throws. -/
def getRelatedFiles (filePath : String) (allFiles : List FileArtifact)
    (crossFileIssues : List CrossFileIssue) : Option (List FileArtifact) :=
  match relatedPathsOf filePath crossFileIssues with
  | none => none
  | some relatedPaths => some (allFiles.filter (fun file => relatedPaths.contains file.path))

/-- What one per-file `callGroqStream` call of the fix stage is given: the file
to fix and the context gathered from the report. `buildMultiFileFixContext`
serialises these together with the architecture specification, and the
conversation history is appended to the messages as it is. -/
structure FixCall where
  file : FileArtifact
  fileSpecificIssues : List String
  relevantCrossFileIssues : List CrossFileIssue
  relatedFiles : List FileArtifact
deriving DecidableEq, Repr

/-- The outcome of one `callGroqStream` call as its caller sees it: the chunks
passed to `onChunk`, then the returned text or the thrown error. -/
structure StreamResult where
  chunks : List String
  result : Except JsError String

/-- What the fix stage does that its caller can see, in order. -/
inductive FixEvent where
  | fileStart (filePath : String)
  | gatewayCall (call : FixCall)
  | chunk (content : String)
  | fileComplete (filePath : String) (content : String)
deriving DecidableEq, Repr

/-- The statements of the per-file `try` between `onFileStart` and the call of
`callGroqStream`: what the call is given, or `none` when the filter of the
cross-file issues or `getRelatedFiles` throws. Building the messages from these
values does not throw. -/
def fixCallFor (files : List FileArtifact) (fileIssuesMap : List (String × List String))
    (crossFileIssues : List CrossFileIssue) (originalFile : FileArtifact) (filePath : String) :
    Option FixCall :=
  match relevantIssues filePath crossFileIssues with
  | none => none
  | some relevantCrossFileIssues =>
    match getRelatedFiles filePath files relevantCrossFileIssues with
    | none => none
    | some relatedFiles =>
      some { file := originalFile
             fileSpecificIssues := fileIssuesFor fileIssuesMap filePath
             relevantCrossFileIssues := relevantCrossFileIssues
             relatedFiles := relatedFiles }

/-- The loop `for (const filePath of filesWithIssues)` of `fixMultipleFiles`.
`gateway k call` is the outcome of the `k`-th `callGroqStream` call (counted
from 0) of this run. Returns the files pushed to `resultFiles` and the events.
Everything from `onFileStart` to `onFileComplete` is inside the per-file `try`:
when the preparation of the call throws, or the call does, the `catch` keeps the
original file. The three callbacks are taken to return normally, as the ones
the server and the tests pass do. -/
def fixLoop (files : List FileArtifact) (fileIssuesMap : List (String × List String))
    (crossFileIssues : List CrossFileIssue) (gateway : Nat → FixCall → StreamResult) :
    List String → Nat → List FileArtifact × List FixEvent
  | [], _ => ([], [])
  | filePath :: rest, k =>
    match fileMapGet files filePath with
    | none => fixLoop files fileIssuesMap crossFileIssues gateway rest k
    | some originalFile =>
      match fixCallFor files fileIssuesMap crossFileIssues originalFile filePath with
      | none =>
        let later := fixLoop files fileIssuesMap crossFileIssues gateway rest k
        (originalFile :: later.1,
          [.fileStart filePath, .fileComplete filePath originalFile.content] ++ later.2)
      | some call =>
        let out := gateway k call
        let later := fixLoop files fileIssuesMap crossFileIssues gateway rest (k + 1)
        let before : List FixEvent :=
          [.fileStart filePath, .gatewayCall call] ++ out.chunks.map FixEvent.chunk
        match out.result with
        | .ok fixedContent =>
          ({ path := filePath, content := fixedContent } :: later.1,
            before ++ [.fileComplete filePath fixedContent] ++ later.2)
        | .error _ =>
          (originalFile :: later.1,
            before ++ [.fileComplete filePath originalFile.content] ++ later.2)

/-- Result and callback log of a run of the fix stage. -/
structure FixRun where
  result : Except String (List FileArtifact)
  events : List FixEvent

/-- The function `fixMultipleFiles`, called with a report object and three
callback functions: the empty-array check, the fix loop, then the files whose
path `filesWithIssues` does not include. The error is the thrown message. -/
def fixMultipleFiles (files : List FileArtifact) (qualityReport : QualityReport)
    (gateway : Nat → FixCall → StreamResult) : FixRun :=
  if files.isEmpty then
    { result := .error "Files array is required and must not be empty", events := [] }
  else
    let filesWithIssues := qualityReport.filesWithIssues.getD []
    let fileIssuesMap := qualityReport.fileIssues.getD []
    let crossFileIssues := qualityReport.crossFileIssues.getD []
    let fixed := fixLoop files fileIssuesMap crossFileIssues gateway filesWithIssues 0
    let unchanged := files.filter (fun file => !filesWithIssues.contains file.path)
    { result := .ok (fixed.1 ++ unchanged), events := fixed.2 }

/-- The function `fixAgent` on an array first argument (multi-file mode): it
delegates to `fixMultipleFiles` and rewraps any error as `Fix Agent failed: ...`. -/
def fixAgent (files : List FileArtifact) (qualityReport : QualityReport)
    (gateway : Nat → FixCall → StreamResult) : FixRun :=
  let run := fixMultipleFiles files qualityReport gateway
  match run.result with
  | .ok resultFiles => { result := .ok resultFiles, events := run.events }
  | .error message => { result := .error ("Fix Agent failed: " ++ message), events := run.events }

/-- The entry makes the preparation of the fix call for `filePath` throw: it is
null, its `affectedFiles` is a truthy value that is neither an array nor a
string, or it is a string that contains the path. -/
def CrossFileIssue.breaksFor (filePath : String) : CrossFileIssue → Bool
  | .null => true
  | .issue .other _ => true
  | .issue (.text s) _ => s != "" && jsIncludes s filePath
  | _ => false

/-- The paths for which the fix stage called the gateway, in call order. -/
def gatewayCallPaths : List FixEvent → List String
  | [] => []
  | .gatewayCall call :: rest => call.file.path :: gatewayCallPaths rest
  | _ :: rest => gatewayCallPaths rest

/-- The paths passed to `onFileStart`, in call order. -/
def fileStartPaths : List FixEvent → List String
  | [] => []
  | .fileStart p :: rest => p :: fileStartPaths rest
  | _ :: rest => fileStartPaths rest

/-- The paths passed to `onFileComplete`, in call order. -/
def fileCompletePaths : List FixEvent → List String
  | [] => []
  | .fileComplete p _ :: rest => p :: fileCompletePaths rest
  | _ :: rest => fileCompletePaths rest

/-! ## src/server.js: frames of `POST /generate-website` -/

/-- A number as `JSON.stringify` writes it: NaN and the infinities become null. -/
inductive JsonNum where
  | num (n : Nat)
  | null
deriving DecidableEq, Repr

/-- An entry of `fileGenerationErrors`. -/
structure FileGenError where
  fileName : String
  error : String
deriving DecidableEq, Repr

/-- The object sent under the key `review`. -/
structure ReviewSummary where
  filesWithIssues : List String
  totalIssues : Nat
  needsRevision : Bool
  overallQuality : String
deriving DecidableEq, Repr

/-- An SSE frame: the object handed to `sendSSE`, a key being absent when the
handler does not set it. -/
structure Frame where
  stage : Option String := none
  progress : Option JsonNum := none
  message : Option String := none
  error : Option String := none
  details : Option String := none
  warning : Option String := none
  currentFile : Option String := none
  fileName : Option String := none
  filesCompleted : Option Nat := none
  totalFiles : Option Nat := none
  fileComplete : Option (String × Nat) := none
  fileGenerationErrors : Option (List FileGenError) := none
  missingFiles : Option (List String) := none
  review : Option ReviewSummary := none
  filesFixed : Option Nat := none
  totalFilesToFix : Option Nat := none
  chunk : Option String := none
  files : Option (List FileArtifact) := none
  backendIncluded : Option Bool := none
  backendFilesCount : Option Nat := none
deriving DecidableEq, Repr

/-- A manifest entry of the architecture specification. -/
structure FileSpec where
  name : String
  path : String
deriving DecidableEq, Repr

/-- The `fileStructure` object; each category is read with a default for a
missing value. -/
structure FileStructure where
  config : Option (List FileSpec)
  entry : Option (List FileSpec)
  routing : Option (List FileSpec)
  layouts : Option (List FileSpec)
  components : Option (List FileSpec)
  pages : Option (List FileSpec)
deriving DecidableEq, Repr

/-- The architecture specification as the handler reads it: `fileStructure` is
absent when the field is missing or not an object. -/
structure ArchitectureSpec where
  fileStructure : Option FileStructure
deriving DecidableEq, Repr

/-- The stages whose agents the handler calls. -/
inductive Stage where
  | architecture
  | planning
  | designing
  | generating
  | reviewing
  | fixing
  | backend
deriving DecidableEq, Repr

/-- The stage names as they appear in frames. -/
def Stage.name : Stage → String
  | .architecture => "architecture"
  | .planning => "planning"
  | .designing => "designing"
  | .generating => "generating"
  | .reviewing => "reviewing"
  | .fixing => "fixing"
  | .backend => "backend"

/-- What `codeAgentMultiFile` does to the callbacks it is given, in order. -/
inductive CodeEvent where
  | fileStart (filePath : String)
  | chunk (content : String)
  | fileComplete (file : FileArtifact)
deriving DecidableEq, Repr

/-- A run of the code-generation stage: `codeAgentMultiFile` is not part of the
sources, so its behaviour is an input: any sequence of callback invocations,
then the returned files or the thrown message. -/
structure CodeRun where
  events : List CodeEvent
  result : Except String (List FileArtifact)

/-- A run of the optional backend stage (everything inside its `try`): the
chunks passed to its callback, then the files or the thrown message. -/
structure BackendRun where
  chunks : List String
  result : Except String (List FileArtifact)

/-- The outcomes of the stage calls of one request. A failure carries the
`message` of the thrown error. The values of the planning and design stages
are only forwarded to later stage calls. -/
structure Outcomes where
  architecture : Except String (Option ArchitectureSpec)
  planning : Except String Unit
  design : Except String Unit
  code : CodeRun
  quality : Except String QualityReport
  fix : List FileArtifact → QualityReport → FixRun
  backend : BackendRun

/-- The fields of an accepted request body that steer the pipeline: `enableQA`
(absent, or the truthiness of the value given) and the truthiness of
`includeBackend`. -/
structure Request where
  enableQA : Option Bool
  includeBackend : Bool
deriving DecidableEq, Repr

/-- The assignment `qaEnabled = enableQA !== undefined ? Boolean(enableQA) : true`. -/
def Request.qaEnabled (req : Request) : Bool :=
  req.enableQA.getD true

/-- A call of a stage agent made by the handler, and whether the call threw. -/
structure StageCall where
  stage : Stage
  threw : Bool
deriving DecidableEq, Repr

/-- Frames sent and stage agents called by (a part of) a run, in order. -/
structure Run where
  frames : List Frame
  calls : List StageCall
deriving DecidableEq, Repr

/-- Put frames and calls in front of the rest of a run. -/
def Run.after (frames : List Frame) (calls : List StageCall) (rest : Run) : Run :=
  { frames := frames ++ rest.frames, calls := calls ++ rest.calls }

/-- The length of a category, `fileStructure.x?.length || 0`. -/
def categoryLength (category : Option (List FileSpec)) : Nat :=
  (category.getD []).length

/-- The sum `totalFiles` of the six category lengths. -/
def totalFilesOf (fs : FileStructure) : Nat :=
  categoryLength fs.config + categoryLength fs.entry + categoryLength fs.routing
    + categoryLength fs.layouts + categoryLength fs.components + categoryLength fs.pages

/-- The value `40 + Math.floor((filesCompleted / totalFiles) * 40)` as serialised.
With `totalFiles = 0` the quotient is NaN or Infinity, written as null. The
floor is taken of the exact quotient, where the source rounds the quotient to
double precision first. -/
def fileProgress (filesCompleted totalFiles : Nat) : JsonNum :=
  if totalFiles = 0 then .null else .num (40 + filesCompleted * 40 / totalFiles)

/-- The marker that a placeholder artifact carries. -/
def errorMarker : String := "// Error generating this file:"

/-- The property `content.length`: the number of UTF-16 code units. -/
def jsLength (s : String) : Nat :=
  (s.data.map (fun c => if c.toNat < 65536 then 1 else 2)).sum

/-- The test `file.content && file.content.includes(marker)` of `onFileComplete`. -/
def hasErrorMarker (file : FileArtifact) : Bool :=
  jsIncludes file.content errorMarker

/-- The frames sent by the `onFileStart` and `onFileComplete` callbacks given
to `codeAgentMultiFile` (`onChunk` sends nothing), starting from the given
value of the counter `filesCompleted`. -/
def codeCallbackFrames (totalFiles : Nat) : (filesCompleted : Nat) → List CodeEvent → List Frame
  | _, [] => []
  | n, .fileStart filePath :: rest =>
    { stage := some "generating", progress := some (fileProgress n totalFiles),
      currentFile := some filePath, filesCompleted := some n, totalFiles := some totalFiles,
      message := some ("Generating " ++ filePath ++ "...") }
      :: codeCallbackFrames totalFiles n rest
  | n, .chunk _ :: rest => codeCallbackFrames totalFiles n rest
  | n, .fileComplete file :: rest =>
    (if hasErrorMarker file then
      { stage := some "generating", progress := some (fileProgress (n + 1) totalFiles),
        error := some ("Failed to generate " ++ file.path), fileName := some file.path,
        filesCompleted := some (n + 1), totalFiles := some totalFiles }
    else
      { stage := some "generating", progress := some (fileProgress (n + 1) totalFiles),
        filesCompleted := some (n + 1), totalFiles := some totalFiles,
        fileComplete := some (file.path, jsLength file.content) })
      :: codeCallbackFrames totalFiles (n + 1) rest

/-- The array `fileGenerationErrors` after the given callback invocations. -/
def codeCallbackErrors : List CodeEvent → List FileGenError
  | [] => []
  | .fileComplete file :: rest =>
    if hasErrorMarker file then
      { fileName := file.path, error := "File generation failed" } :: codeCallbackErrors rest
    else codeCallbackErrors rest
  | _ :: rest => codeCallbackErrors rest

/-- The list `allRequiredFiles` of `validateRequiredFiles`. -/
def allRequiredFiles (fs : FileStructure) : List FileSpec :=
  fs.config.getD [] ++ fs.entry.getD [] ++ fs.routing.getD [] ++ fs.layouts.getD []
    ++ fs.components.getD [] ++ fs.pages.getD []

/-- The function `validateRequiredFiles`. -/
def validateRequiredFiles (fs : FileStructure) (generatedFiles : List FileArtifact) : List String :=
  let generatedPaths := generatedFiles.map (fun f => f.path)
  ((allRequiredFiles fs).filter (fun fileSpec => !generatedPaths.contains fileSpec.path)).map
    (fun fileSpec => fileSpec.path)

/-- The allow-list `criticalFiles`. -/
def criticalFiles : List String :=
  ["package.json", "index.html", "src/main.jsx", "src/App.jsx"]

/-- The list `missingCriticalFiles`. -/
def missingCriticalFiles (missingFiles : List String) : List String :=
  missingFiles.filter (fun f => criticalFiles.any (fun cf => jsIncludes f cf))

/-! ## src/server.js: the `POST /generate-website` handler, stage by stage -/

/-- COMPLETION STAGE: the final frame. -/
def completionStage (req : Request) (finalFiles : List FileArtifact) (backendFilesCount : Nat) :
    Run :=
  { frames :=
      [{ stage := some "complete", progress := some (.num 100), files := some finalFiles,
         backendIncluded := some req.includeBackend, backendFilesCount := some backendFilesCount,
         message := some (if req.includeBackend then "Full-stack application generation complete!"
                          else "Website generation complete!") }],
    calls := [] }

/-- BACKEND GENERATION STAGE (optional), followed by completion. -/
def backendStage (req : Request) (o : Outcomes) (finalFiles : List FileArtifact) : Run :=
  if req.includeBackend then
    let opening : List Frame :=
      { stage := some "backend", progress := some (.num 85),
        message := some "Generating backend code..." }
        :: o.backend.chunks.map (fun c => ({ chunk := some c } : Frame))
    match o.backend.result with
    | .ok backendFiles =>
      (completionStage req (finalFiles ++ backendFiles) backendFiles.length).after
        opening [⟨.backend, false⟩]
    | .error message =>
      (completionStage req finalFiles 0).after
        (opening ++ [{ warning := some ("Backend generation failed: " ++ message),
                       stage := some "backend" }])
        [⟨.backend, true⟩]
  else
    completionStage req finalFiles 0

/-- The frames sent by the callbacks given to `fixAgent` (`onChunk` sends
nothing), starting from the given value of the counter `filesFixed`. -/
def fixCallbackFrames (filesToFix : Nat) : (filesFixed : Nat) → List FixEvent → List Frame
  | _, [] => []
  | n, .fileStart filePath :: rest =>
    { stage := some "fixing", progress := some (.num 90), currentFile := some filePath,
      message := some ("Fixing " ++ filePath ++ "...") }
      :: fixCallbackFrames filesToFix n rest
  | n, .fileComplete _ _ :: rest =>
    { stage := some "fixing", progress := some (.num 90), filesFixed := some (n + 1),
      totalFilesToFix := some filesToFix }
      :: fixCallbackFrames filesToFix (n + 1) rest
  | n, _ :: rest => fixCallbackFrames filesToFix n rest

/-- FIX STAGE, entered when the report has `needsRevision === true`, followed by
the backend stage. A failure of `fixAgent` is reported and the run continues
with the unfixed files. -/
def fixStage (req : Request) (o : Outcomes) (generatedFiles : List FileArtifact)
    (qualityReport : QualityReport) : Run :=
  if qualityReport.needsRevision then
    let filesToFix := (qualityReport.filesWithIssues.getD []).length
    let run := o.fix generatedFiles qualityReport
    let opening : List Frame :=
      { stage := some "fixing", progress := some (.num 90),
        message := some "Fixing identified issues..." }
        :: fixCallbackFrames filesToFix 0 run.events
    match run.result with
    | .ok fixedFiles => (backendStage req o fixedFiles).after opening [⟨.fixing, false⟩]
    | .error message =>
      (backendStage req o generatedFiles).after
        (opening ++ [{ error := some ("Fix stage failed: " ++ message), stage := some "fixing",
                       warning := some "Continuing with unfixed files" }])
        [⟨.fixing, true⟩]
  else
    backendStage req o generatedFiles

/-- The number `totalIssues` of the review summary. -/
def totalIssuesOf (qualityReport : QualityReport) : Nat :=
  (((qualityReport.fileIssues.getD []).map (fun kv => kv.2.length)).sum)
    + (qualityReport.crossFileIssues.getD []).length

/-- QUALITY ASSURANCE STAGE (when QA is enabled), followed by the fix stage. -/
def qualityStage (req : Request) (o : Outcomes) (generatedFiles : List FileArtifact) : Run :=
  if req.qaEnabled then
    let opening : Frame :=
      { stage := some "reviewing", progress := some (.num 85),
        message := some "Reviewing code quality..." }
    match o.quality with
    | .ok qualityReport =>
      (fixStage req o generatedFiles qualityReport).after
        [opening,
         { review := some
             { filesWithIssues := qualityReport.filesWithIssues.getD []
               totalIssues := totalIssuesOf qualityReport
               needsRevision := qualityReport.needsRevision
               overallQuality := qualityReport.overallQuality } }]
        [⟨.reviewing, false⟩]
    | .error message =>
      { frames := [opening, { error := some ("Quality review stage failed: " ++ message),
                              stage := some "reviewing" }],
        calls := [⟨.reviewing, true⟩] }
  else
    backendStage req o generatedFiles

/-- The frame sent by the `catch` of the code-generation stage. -/
def generatingErrorFrame (message : String) (fileGenerationErrors : List FileGenError) : Frame :=
  if fileGenerationErrors.length > 0 then
    { error := some ("Code generation stage failed: " ++ message), stage := some "generating",
      fileGenerationErrors := some fileGenerationErrors,
      details := some (toString fileGenerationErrors.length ++ " file(s) failed during generation") }
  else
    { error := some ("Code generation stage failed: " ++ message), stage := some "generating" }

/-- The string `errorSummary.join('; ')` of the warning frame. -/
def errorSummary (fileGenerationErrors : List FileGenError) (missingFiles : List String) : String :=
  "; ".intercalate
    ((if fileGenerationErrors.length > 0 then
        [toString fileGenerationErrors.length ++ " file(s) failed to generate"] else [])
     ++ (if missingFiles.length > 0 then
        [toString missingFiles.length ++ " required file(s) missing"] else []))

/-- MULTI-FILE CODE GENERATION STAGE, followed by quality assurance. -/
def generatingStage (req : Request) (o : Outcomes) (fs : FileStructure) : Run :=
  let totalFiles := totalFilesOf fs
  let fileGenerationErrors := codeCallbackErrors o.code.events
  let opening : List Frame :=
    { stage := some "generating", progress := some (.num 40),
      message := some "Generating website files..." }
      :: codeCallbackFrames totalFiles 0 o.code.events
  match o.code.result with
  | .error message =>
    { frames := opening ++ [generatingErrorFrame message fileGenerationErrors],
      calls := [⟨.generating, true⟩] }
  | .ok generatedFiles =>
    let missingFiles := validateRequiredFiles fs generatedFiles
    if fileGenerationErrors.length > 0 || missingFiles.length > 0 then
      let warningFrame : Frame :=
        { stage := some "generating", progress := some (.num 80),
          warning := some (errorSummary fileGenerationErrors missingFiles),
          fileGenerationErrors := some fileGenerationErrors,
          missingFiles := some missingFiles,
          message := some "Code generation completed with warnings" }
      if (missingCriticalFiles missingFiles).length > 0 then
        { frames := opening ++ [warningFrame,
            generatingErrorFrame
              ("Critical files missing: " ++ ", ".intercalate (missingCriticalFiles missingFiles)
                ++ ". Cannot proceed with website generation.")
              fileGenerationErrors],
          calls := [⟨.generating, false⟩] }
      else
        (qualityStage req o generatedFiles).after (opening ++ [warningFrame])
          [⟨.generating, false⟩]
    else
      (qualityStage req o generatedFiles).after opening [⟨.generating, false⟩]

/-- DESIGN STAGE, followed by code generation. -/
def designStage (req : Request) (o : Outcomes) (fs : FileStructure) : Run :=
  let opening : Frame :=
    { stage := some "designing", progress := some (.num 25),
      message := some "Creating design system..." }
  match o.design with
  | .ok _ => (generatingStage req o fs).after [opening] [⟨.designing, false⟩]
  | .error message =>
    { frames := [opening, { error := some ("Design stage failed: " ++ message),
                            stage := some "designing" }],
      calls := [⟨.designing, true⟩] }

/-- PLANNING STAGE, followed by design. -/
def planningStage (req : Request) (o : Outcomes) (fs : FileStructure) : Run :=
  let opening : Frame :=
    { stage := some "planning", progress := some (.num 15),
      message := some "Creating technical specifications..." }
  match o.planning with
  | .ok _ => (designStage req o fs).after [opening] [⟨.planning, false⟩]
  | .error message =>
    { frames := [opening, { error := some ("Planning stage failed: " ++ message),
                            stage := some "planning" }],
      calls := [⟨.planning, true⟩] }

/-- The two checks of the value returned by `architectureAgent`; the error is
the message thrown. -/
def architectureChecks : Option ArchitectureSpec → Except String FileStructure
  | none => .error "Architecture Agent returned invalid specification format"
  | some spec =>
    match spec.fileStructure with
    | none => .error "Architecture specification missing fileStructure"
    | some fs => .ok fs

/-- The frame sent by the `catch` of the architecture stage. -/
def architectureErrorFrame (message : String) : Frame :=
  { error := some ("Architecture planning failed: " ++ message),
    stage := some "architecture",
    details := some
      "Unable to generate project structure. Please try again with a more detailed prompt." }

/-- The handler of `POST /generate-website` for an accepted request, from the
ARCHITECTURE STAGE on: the frames handed to `sendSSE` and the stage agents
called, in order. On a response that stays open (`StaysOpen`) these are the
frames written; in general, given the 120-second timer and the state of the
connection, the frames written are `websiteFramesWritten`. -/
def generateWebsite (req : Request) (o : Outcomes) : Run :=
  let opening : Frame :=
    { stage := some "architecture", progress := some (.num 5),
      message := some "Planning project structure..." }
  match o.architecture with
  | .error message =>
    { frames := [opening, architectureErrorFrame message], calls := [⟨.architecture, true⟩] }
  | .ok value =>
    match architectureChecks value with
    | .error message =>
      { frames := [opening, architectureErrorFrame message], calls := [⟨.architecture, false⟩] }
    | .ok fs => (planningStage req o fs).after [opening] [⟨.architecture, false⟩]

/-- The progress values of the frames that carry one, in emission order. -/
def progressValues (frames : List Frame) : List JsonNum :=
  frames.filterMap (fun f => f.progress)

/-- The comparison `a <= b` of two progress values that are numbers. -/
def JsonNum.le : JsonNum → JsonNum → Bool
  | .num a, .num b => a ≤ b
  | _, _ => false

/-- Every progress value is a number not below the one before it. -/
def nonDecreasing : List JsonNum → Bool
  | [] => true
  | [.num _] => true
  | [.null] => false
  | a :: b :: rest => a.le b && nonDecreasing (b :: rest)

/-- A frame with stage `complete`. -/
def Frame.isComplete (f : Frame) : Bool :=
  f.stage == some "complete"

/-- A frame carrying an `error` field. -/
def Frame.hasError (f : Frame) : Bool :=
  f.error.isSome

/-- A frame that ends a run as the specification defines it: stage `complete`,
or else an `error` field. -/
def Frame.isSpecTerminal (f : Frame) : Bool :=
  f.isComplete != f.hasError

/-- An `error` frame that reports the failure of a stage and ends the run: it
carries neither `fileName` (as the per-file failure notices of the generating
stage do) nor `warning` (as the notice of a failed fix stage does). -/
def Frame.isFatalError (f : Frame) : Bool :=
  f.error.isSome && f.fileName.isNone && f.warning.isNone

/-- A terminal frame of the handler: stage `complete`, or else a fatal error. -/
def Frame.isTerminal (f : Frame) : Bool :=
  f.isComplete != f.isFatalError

/-- An `error` frame tagged with the given stage that is not a per-file notice. -/
def Frame.isStageError (s : Stage) (f : Frame) : Bool :=
  f.error.isSome && f.stage == some s.name && f.fileName.isNone

/-- An `error` frame tagged with the given stage. -/
def Frame.isErrorTagged (s : Stage) (f : Frame) : Bool :=
  f.error.isSome && f.stage == some s.name

/-- A frame that neither completes nor aborts a run. -/
def Frame.isPlain (f : Frame) : Prop :=
  f.isComplete = false ∧ f.isFatalError = false

/-- The frames end with a terminal frame (stage `complete`, or else a fatal
error) and no earlier frame completes or aborts the run. -/
def EndsWithOneTerminal (frames : List Frame) : Prop :=
  ∃ init last, frames = init ++ [last] ∧ last.isTerminal = true ∧ ∀ f ∈ init, f.isPlain

/-- A frame that may precede the failure report of stage `s`: it does not
complete the run and does not report a failure of `s`. -/
def Frame.isCleanFor (s : Stage) (f : Frame) : Prop :=
  f.isComplete = false ∧ f.isStageError s = false
    ∧ (s ≠ .generating → f.isErrorTagged s = false)

/-- The run was truncated by the failure of the call of stage `s`: that call is
the last stage call, no frame has stage `complete`, exactly one frame reports
the failure of `s`, and it is the last frame. -/
def TruncatedAt (s : Stage) (r : Run) : Prop :=
  r.calls.getLast? = some ⟨s, true⟩
    ∧ (∀ f ∈ r.frames, f.isComplete = false)
    ∧ (r.frames.filter (Frame.isStageError s)).length = 1
    ∧ (s ≠ .generating → (r.frames.filter (Frame.isErrorTagged s)).length = 1)
    ∧ ∃ f, r.frames.getLast? = some f ∧ f.isStageError s = true

/-- The run went on after a failed fix stage: exactly one frame reports the
failure, the last frame has stage `complete`, and the backend stage, when
requested, is the last stage called. -/
def ContinuesAfterFix (req : Request) (r : Run) : Prop :=
  (r.frames.filter (Frame.isErrorTagged .fixing)).length = 1
    ∧ (∃ f, r.frames.getLast? = some f ∧ f.isComplete = true)
    ∧ (req.includeBackend = true → ∃ b, r.calls.getLast? = some ⟨.backend, b⟩)

/-- The number of `onFileComplete` invocations among the callbacks: the final
value of the counter `filesCompleted`. -/
def completedCount : List CodeEvent → Nat
  | [] => 0
  | .fileComplete _ :: rest => completedCount rest + 1
  | _ :: rest => completedCount rest

/-- The values are numbers between `lo` and `hi`, none below an earlier one. -/
def Rising (lo hi : Nat) (vs : List JsonNum) : Prop :=
  vs.Pairwise (fun a b => a.le b = true) ∧ ∀ v ∈ vs, ∃ n, v = .num n ∧ lo ≤ n ∧ n ≤ hi

/-! ## Sample inputs -/

/-- A manifest of four files. -/
def sampleStructure : FileStructure :=
  { config := some [⟨"package.json", "package.json"⟩]
    entry := some [⟨"main", "src/main.jsx"⟩]
    routing := some []
    layouts := some [⟨"Layout", "src/layouts/Layout.jsx"⟩]
    components := some []
    pages := some [⟨"Home", "src/pages/Home.jsx"⟩] }

/-- The four files of the manifest, generated. -/
def sampleFiles : List FileArtifact :=
  [⟨"package.json", "{}"⟩, ⟨"src/main.jsx", "render()"⟩,
   ⟨"src/layouts/Layout.jsx", "export default Layout"⟩,
   ⟨"src/pages/Home.jsx", "export default Home"⟩]

/-- The callbacks of a code-generation run that produces the given files one by one. -/
def codeEventsFor (files : List FileArtifact) : List CodeEvent :=
  files.flatMap (fun f => [.fileStart f.path, .fileComplete f])

/-- A report asking for a revision of the home page. -/
def sampleReport : QualityReport :=
  { filesWithIssues := some ["src/pages/Home.jsx"]
    fileIssues := some [("src/pages/Home.jsx", ["missing key prop"])]
    crossFileIssues := some []
    needsRevision := true
    overallQuality := "fair" }

/-- Every stage succeeds; the fix stage is the multi-file `fixAgent` with a
gateway that answers every call. -/
def sampleOutcomes : Outcomes :=
  { architecture := .ok (some ⟨some sampleStructure⟩)
    planning := .ok ()
    design := .ok ()
    code := { events := codeEventsFor sampleFiles, result := .ok sampleFiles }
    quality := .ok sampleReport
    fix := fun files report => fixAgent files report (fun _ _ => ⟨[], .ok "export default Home2"⟩)
    backend := { chunks := [], result := .ok [⟨"server/index.js", "listen()"⟩] } }

/-- The sample files with a placeholder in place of the home page. -/
def sampleFilesWithPlaceholder : List FileArtifact :=
  [⟨"package.json", "{}"⟩, ⟨"src/main.jsx", "render()"⟩,
   ⟨"src/layouts/Layout.jsx", "export default Layout"⟩,
   ⟨"src/pages/Home.jsx", "// Error generating this file: Request timeout"⟩]

/-- As `sampleOutcomes`, but the generation of the home page failed and left a
placeholder. -/
def outcomesWithFailedFile : Outcomes :=
  { sampleOutcomes with
    code := { events := codeEventsFor sampleFilesWithPlaceholder,
              result := .ok sampleFilesWithPlaceholder } }

/-- As `sampleOutcomes`, but the call of `fixAgent` throws. -/
def outcomesWithFailedFix : Outcomes :=
  { sampleOutcomes with
    fix := fun _ _ => { result := .error "Fix Agent failed: Request timeout", events := [] } }

/-! ## Expected effect logs of the retry loops -/

/-- The log of `n` failed attempts numbered from `a`, each followed by its
backoff delay. -/
def retrySchedule : Nat → Nat → List CallEvent
  | _, 0 => []
  | a, n + 1 => .attempt a :: .delay (delayMs a) :: retrySchedule (a + 1) n

/-- The log of one streaming attempt: the attempt, then one `onChunk` call per
non-empty fragment. -/
def streamAttemptEvents (create : Nat → StreamAttempt) (i : Nat) : List CallEvent :=
  .attempt i :: (contentFragments (create i).fragments).map CallEvent.chunk

/-- The log of `n` failed streaming attempts numbered from `a`, each followed by
its backoff delay. -/
def streamSchedule (create : Nat → StreamAttempt) : Nat → Nat → List CallEvent
  | _, 0 => []
  | a, n + 1 => streamAttemptEvents create a ++ .delay (delayMs a) :: streamSchedule create (a + 1) n


/-! ## The retry classification as the specification words it -/

/-- The texts whose presence in the lower-cased message marks an error as transient. -/
def retryableMessagePatterns : List String :=
  ["rate limit", "429", "network", "econnrefused", "enotfound", "timeout",
   "500", "502", "503", "504"]

/-- The lower-cased error codes that mark an error as transient. -/
def retryableCodes : List String :=
  ["rate_limit_exceeded", "etimedout"]

/-- The classification in the specification's words: the lower-cased message
contains one of the listed texts, or the lower-cased code is one of the listed
codes; a missing message or code counts as the empty string. -/
def isRetryableBySpec (error : JsError) : Bool :=
  retryableMessagePatterns.any (fun p => jsIncludes (toLowerCase (error.message.getD "")) p)
    || retryableCodes.contains (toLowerCase (error.code.getD ""))


/-! ## src/server.js: `sendSSE` -/

/-- The two properties of the response that `sendSSE` reads. -/
structure ResponseState where
  writableEnded : Bool
  destroyed : Bool
deriving DecidableEq, Repr

/-- What a call of `sendSSE` does: the value it returns (or the message of an
error it lets escape), the number of calls of `res.write`, and the texts that
`res.write` accepted. -/
structure SendOutcome where
  returned : Except String Bool
  writeCalls : Nat
  written : List String
deriving Repr

/-- The function `sendSSE(res, data)`. `json` is the outcome of
`JSON.stringify(data)` (the text, or the message it throws with, for instance
on a circular object) and `writeThrows` tells whether `res.write` throws. The
whole body is inside `try`, and the `catch` returns false. -/
def sendSSE (res : ResponseState) (json : Except String String) (writeThrows : Bool) :
    SendOutcome :=
  if res.writableEnded || res.destroyed then
    { returned := .ok false, writeCalls := 0, written := [] }
  else
    match json with
    | .error _ => { returned := .ok false, writeCalls := 0, written := [] }
    | .ok text =>
      if writeThrows then
        { returned := .ok false, writeCalls := 1, written := [] }
      else
        { returned := .ok true, writeCalls := 1, written := ["data: " ++ text ++ "\n\n"] }

/-- What happens to a response during a run: a frame is sent, the handler (or
its timeout) calls `res.end()`, or the client hangs up. -/
inductive ResponseAction where
  | send (json : Except String String) (writeThrows : Bool)
  | endResponse
  | hangUp

/-- The texts written to the response by a sequence of actions, in order. -/
def writtenBy : ResponseState → List ResponseAction → List String
  | _, [] => []
  | res, .send json writeThrows :: rest =>
    (sendSSE res json writeThrows).written ++ writtenBy res rest
  | res, .endResponse :: rest => writtenBy { res with writableEnded := true } rest
  | res, .hangUp :: rest => writtenBy { res with destroyed := true } rest


/-! ## Further sample inputs -/

/-- The sample files with a placeholder in place of `package.json`, a critical file. -/
def sampleFilesWithFailedPackage : List FileArtifact :=
  [⟨"package.json", "// Error generating this file: Request timeout"⟩,
   ⟨"src/main.jsx", "render()"⟩,
   ⟨"src/layouts/Layout.jsx", "export default Layout"⟩,
   ⟨"src/pages/Home.jsx", "export default Home"⟩]

/-- As `sampleOutcomes`, but the generation of `package.json` failed and left a
placeholder. -/
def outcomesWithFailedPackage : Outcomes :=
  { sampleOutcomes with
    code := { events := codeEventsFor sampleFilesWithFailedPackage,
              result := .ok sampleFilesWithFailedPackage } }

/-- As `sampleOutcomes`, but the code-generation stage returns no `package.json`. -/
def outcomesWithMissingPackage : Outcomes :=
  { sampleOutcomes with
    code := { events := codeEventsFor sampleFiles.tail, result := .ok sampleFiles.tail } }

/-- The value of `backendFiles` when the handler builds the `complete` frame. -/
def backendFilesOf (req : Request) (o : Outcomes) : List FileArtifact :=
  if req.includeBackend then
    match o.backend.result with
    | .ok backendFiles => backendFiles
    | .error _ => []
  else []


/-- Frontend files that include an environment example, as a Next.js manifest may. -/
def sampleFilesWithEnv : List FileArtifact :=
  sampleFiles ++ [⟨".env.local.example", "NEXT_PUBLIC_API_URL=http://localhost:3000"⟩]

/-- As `sampleOutcomes`, with the environment example among the frontend files
and the two files that the backend stage returns for the `supabase` backend
type (`generateSupabaseConfig`). -/
def outcomesWithSupabaseBackend : Outcomes :=
  { sampleOutcomes with
    code := { events := codeEventsFor sampleFilesWithEnv, result := .ok sampleFilesWithEnv }
    backend :=
      { chunks := [],
        result := .ok [⟨"lib/supabase.ts", "export const supabase = createClient(url, key)"⟩,
                       ⟨".env.local.example", "NEXT_PUBLIC_SUPABASE_URL=your-supabase-url"⟩] } }


/-! ## src/agents/qualityAgent.js (multi-file review) -/

/-- A value as `JSON.parse` returns it. An object lists each of its keys once,
in property order (the order of `Object.keys`). Such a value has no callable
property of its own, and its prototype is `Object.prototype` or
`Array.prototype` whatever its keys are (`JSON.parse` defines `__proto__` as an
own property). A number written as an integer literal is kept as that integer; a number whose
literal has a fraction or an exponent part is the double nearest to the
literal, which is not computed here: the literal is kept. -/
inductive Json where
  | null
  | bool (b : Bool)
  | num (n : Int)
  | decimal (literal : String)
  | str (s : String)
  | arr (items : List Json)
  | obj (fields : List (String × Json))

/-- The own property `key` of a parsed value; only objects have the keys the
quality stage asks for. -/
def Json.get (key : String) : Json → Option Json
  | .obj fields => fields.lookup key
  | _ => none

/-- The test `typeof v === 'object' && v !== null`. -/
def Json.isObjectType : Json → Bool
  | .obj _ => true
  | .arr _ => true
  | _ => false

/-- The test `Array.isArray(v)`. -/
def Json.isArray : Json → Bool
  | .arr _ => true
  | _ => false

/-- The test `typeof v === 'boolean'`. -/
def Json.isBoolean : Json → Bool
  | .bool _ => true
  | _ => false

/-- The test `typeof v === 'string'`. -/
def Json.isString : Json → Bool
  | .str _ => true
  | _ => false

/-- The test `v === null`. -/
def Json.isNull : Json → Bool
  | .null => true
  | _ => false

/-- The list `Object.values(v)` of an object or an array. -/
def Json.values : Json → List Json
  | .obj fields => fields.map (fun kv => kv.2)
  | .arr items => items
  | _ => []

mutual
/-- Converting the value to a primitive (`String(v)`, a template literal, an
operand of `+`) throws a TypeError: an object with an own key `toString` has no
callable `toString`, and `valueOf` returns the object itself; an array is joined,
which converts each element other than null. -/
def Json.displayThrows : Json → Bool
  | .arr items => itemsDisplayThrow items
  | .obj fields => (fields.lookup "toString").isSome
  | _ => false
/-- Some element of the array cannot be converted. -/
def itemsDisplayThrow : List Json → Bool
  | [] => false
  | v :: rest => v.displayThrows || itemsDisplayThrow rest
end

/-- The same for a property that may be missing; `undefined` is printed. -/
def displayThrowsOption : Option Json → Bool
  | some v => v.displayThrows
  | none => false

/-- The message of the TypeError that `sum + issues.length` raises for a value of
`fileIssues`, if it raises one: null has no properties, and an own `length` that
is an object must be converted to a primitive for the addition. -/
def lengthError : Json → Option String
  | .null => some "Cannot read properties of null (reading 'length')"
  | .obj fields =>
    match fields.lookup "length" with
    | some v => if v.displayThrows then some "Cannot convert object to primitive value" else none
    | none => none
  | _ => none

/-- The checks that `qualityAgent` runs on the parsed reply of a multi-file
review, in source order; the error is the message thrown. Reading
`hasOwnProperty` of null raises a TypeError, and so does calling it on a reply
that has an own key `hasOwnProperty`, whose value is not a function. While the
issues are counted, an entry of `fileIssues` whose `length` cannot be read or
added raises a TypeError, and so does the log line that prints `needsRevision`
and `overallQuality` when one of them cannot be converted to a string. -/
def validateMultiFileReview (qualityReview : Json) : Except String Json :=
  if qualityReview.isNull then
    .error "Cannot read properties of null (reading 'hasOwnProperty')"
  else if (qualityReview.get "hasOwnProperty").isSome then
    .error "qualityReview.hasOwnProperty is not a function"
  else
    match qualityReview.get "fileIssues" with
    | none => .error "Multi-file quality review missing required field: fileIssues"
    | some fileIssues =>
      match qualityReview.get "crossFileIssues" with
      | none => .error "Multi-file quality review missing required field: crossFileIssues"
      | some crossFileIssues =>
        match qualityReview.get "filesWithIssues" with
        | none => .error "Multi-file quality review missing required field: filesWithIssues"
        | some filesWithIssues =>
          if !fileIssues.isObjectType then
            .error "Quality review field \"fileIssues\" must be an object"
          else if !crossFileIssues.isArray then
            .error "Quality review field \"crossFileIssues\" must be an array"
          else if !filesWithIssues.isArray then
            .error "Quality review field \"filesWithIssues\" must be an array"
          else
          match fileIssues.values.findSome? lengthError with
          | some message => .error message
          | none =>
          if displayThrowsOption (qualityReview.get "needsRevision")
              || displayThrowsOption (qualityReview.get "overallQuality") then
            .error "Cannot convert object to primitive value"
          else
            match qualityReview.get "needsRevision" with
            | none => .error "Quality review missing required field: needsRevision"
            | some needsRevision =>
              match qualityReview.get "overallQuality" with
              | none => .error "Quality review missing required field: overallQuality"
              | some overallQuality =>
                if !needsRevision.isBoolean then
                  .error "Quality review field \"needsRevision\" must be a boolean"
                else if !overallQuality.isString then
                  .error "Quality review field \"overallQuality\" must be a string"
                else .ok qualityReview

/-- The input checks of `qualityAgent` on an array of files: the first file with
an empty path or empty content decides the message thrown. -/
def validateReviewInput (files : List FileArtifact) : Except String Unit :=
  if files.isEmpty then .error "Files array cannot be empty"
  else
    match files.find? (fun file => file.path = "" || file.content = "") with
    | some file =>
      if file.path = "" then .error "Each file must have a valid path string"
      else .error "Each file must have valid content string"
    | none => .ok ()

/-- The function `qualityAgent` on an array of files. `parsed` is the outcome of
the steps between the input checks and the validation (the gateway call, the
extraction of the content and `parseJSON`): the parsed reply, or the message
thrown. Every error is rethrown as `Quality Agent failed: ...`. -/
def qualityAgentMultiFile (files : List FileArtifact) (parsed : Except String Json) :
    Except String Json :=
  match validateReviewInput files with
  | .error message => .error ("Quality Agent failed: " ++ message)
  | .ok _ =>
    match parsed with
    | .error message => .error ("Quality Agent failed: " ++ message)
    | .ok qualityReview =>
      match validateMultiFileReview qualityReview with
      | .error message => .error ("Quality Agent failed: " ++ message)
      | .ok report => .ok report

/-- The entries of an array that are strings. -/
def Json.strings : Json → List String
  | .arr items => items.filterMap (fun v => match v with | .str s => some s | _ => none)
  | _ => []

/-- The keys of an object. -/
def Json.keys : Json → List String
  | .obj fields => fields.map (fun kv => kv.1)
  | _ => []

/-- The paths named in `affectedFiles` by the entries of `crossFileIssues`. -/
def affectedPaths (report : Json) : List String :=
  match report.get "crossFileIssues" with
  | some (.arr issues) =>
    issues.flatMap (fun issue =>
      match issue.get "affectedFiles" with
      | some affected => affected.strings
      | none => [])
  | _ => []

/-- The invariant the specification states for a multi-file report: each path in
`filesWithIssues` is a key of `fileIssues` or is named in `affectedFiles` by some
entry of `crossFileIssues`. -/
def satisfiesReportInvariant (report : Json) : Bool :=
  ((report.get "filesWithIssues").getD .null).strings.all (fun p =>
    ((report.get "fileIssues").getD .null).keys.contains p
      || (affectedPaths report).contains p)

/-- A reply of the right shape that flags a path its issues never mention. -/
def reportWithUnexplainedPath : Json :=
  .obj [("fileIssues", .obj [("src/App.jsx", .arr [.str "RouterProvider not imported"])]),
        ("crossFileIssues", .arr []),
        ("filesWithIssues", .arr [.str "src/App.jsx", .str "src/ghost.jsx"]),
        ("needsRevision", .bool true),
        ("overallQuality", .str "fair")]


/-! ## src/server.js: the `POST /generate-advanced` handler -/

/-- A single-component quality report as `qualityAgent` returns it. -/
structure SingleReport where
  issues : List String
  needsRevision : Bool
  overallQuality : String
deriving DecidableEq, Repr

/-- An SSE frame of `/generate-advanced`. -/
structure AdvancedFrame where
  stage : Option String := none
  progress : Option Nat := none
  error : Option String := none
  chunk : Option String := none
  review : Option SingleReport := none
  code : Option String := none
deriving DecidableEq, Repr

/-- A run of a stage that streams code: the chunks passed to its callback, then
the code or the thrown message. -/
structure CodeStreamRun where
  chunks : List String
  result : Except String String

/-- The outcomes of the stage calls of one `/generate-advanced` request. -/
structure AdvancedOutcomes where
  planning : Except String Unit
  design : Except String Unit
  code : CodeStreamRun
  quality : Except String SingleReport
  fix : String → SingleReport → CodeStreamRun

/-- Frames sent and stage agents called by (a part of) a `/generate-advanced` run. -/
structure AdvancedRun where
  frames : List AdvancedFrame
  calls : List StageCall
deriving DecidableEq, Repr

/-- Put frames and calls in front of the rest of a run. -/
def AdvancedRun.after (frames : List AdvancedFrame) (calls : List StageCall)
    (rest : AdvancedRun) : AdvancedRun :=
  { frames := frames ++ rest.frames, calls := calls ++ rest.calls }

/-- COMPLETION STAGE of `/generate-advanced`. -/
def advancedCompletion (finalCode : String) : AdvancedRun :=
  { frames := [{ stage := some "complete", progress := some 100, code := some finalCode }],
    calls := [] }

/-- FIX STAGE of `/generate-advanced`, entered when the report has
`needsRevision === true`; here a failure ends the run. -/
def advancedFixStage (o : AdvancedOutcomes) (generatedCode : String) (report : SingleReport) :
    AdvancedRun :=
  if report.needsRevision then
    let run := o.fix generatedCode report
    let opening : List AdvancedFrame :=
      { stage := some "fixing", progress := some 85 }
        :: run.chunks.map (fun c => ({ chunk := some c } : AdvancedFrame))
    match run.result with
    | .ok fixedCode => (advancedCompletion fixedCode).after opening [⟨.fixing, false⟩]
    | .error message =>
      { frames := opening ++ [{ error := some ("Fix stage failed: " ++ message),
                                stage := some "fixing" }],
        calls := [⟨.fixing, true⟩] }
  else advancedCompletion generatedCode

/-- QUALITY ASSURANCE STAGE of `/generate-advanced`. -/
def advancedQualityStage (enableQA : Option Bool) (o : AdvancedOutcomes)
    (generatedCode : String) : AdvancedRun :=
  if enableQA.getD true then
    let opening : AdvancedFrame := { stage := some "reviewing", progress := some 75 }
    match o.quality with
    | .ok report =>
      (advancedFixStage o generatedCode report).after [opening, { review := some report }]
        [⟨.reviewing, false⟩]
    | .error message =>
      { frames := [opening, { error := some ("Quality review stage failed: " ++ message),
                              stage := some "reviewing" }],
        calls := [⟨.reviewing, true⟩] }
  else advancedCompletion generatedCode

/-- CODE GENERATION STAGE of `/generate-advanced`. -/
def advancedGeneratingStage (enableQA : Option Bool) (o : AdvancedOutcomes) : AdvancedRun :=
  let opening : List AdvancedFrame :=
    { stage := some "generating", progress := some 50 }
      :: o.code.chunks.map (fun c => ({ chunk := some c } : AdvancedFrame))
  match o.code.result with
  | .ok generatedCode =>
    (advancedQualityStage enableQA o generatedCode).after opening [⟨.generating, false⟩]
  | .error message =>
    { frames := opening ++ [{ error := some ("Code generation stage failed: " ++ message),
                              stage := some "generating" }],
      calls := [⟨.generating, true⟩] }

/-- DESIGN STAGE of `/generate-advanced`. -/
def advancedDesignStage (enableQA : Option Bool) (o : AdvancedOutcomes) : AdvancedRun :=
  let opening : AdvancedFrame := { stage := some "designing", progress := some 30 }
  match o.design with
  | .ok _ => (advancedGeneratingStage enableQA o).after [opening] [⟨.designing, false⟩]
  | .error message =>
    { frames := [opening, { error := some ("Design stage failed: " ++ message),
                            stage := some "designing" }],
      calls := [⟨.designing, true⟩] }

/-- The handler of `POST /generate-advanced` for an accepted request, from the
PLANNING STAGE on: the frames handed to `sendSSE` and the stage agents called,
in order. On a response that stays open these are the frames written; in
general, given the 60-second timer and the state of the connection, the frames
written are `framesWritten advancedTimeoutFrame`.
`enableQA` is absent or the truthiness of the value given. -/
def generateAdvanced (enableQA : Option Bool) (o : AdvancedOutcomes) : AdvancedRun :=
  let opening : AdvancedFrame := { stage := some "planning", progress := some 10 }
  match o.planning with
  | .ok _ => (advancedDesignStage enableQA o).after [opening] [⟨.planning, false⟩]
  | .error message =>
    { frames := [opening, { error := some ("Planning stage failed: " ++ message),
                            stage := some "planning" }],
      calls := [⟨.planning, true⟩] }

/-- The distinct stage names of the frames, in order of first appearance, as the
end-to-end test collects them. -/
def distinctStages (frames : List Frame) : List String :=
  frames.foldl
    (fun stages f =>
      match f.stage with
      | some s => if stages.contains s then stages else stages ++ [s]
      | none => stages)
    []

/-- A stage call of the given stage is in the list, thrown or not. -/
def invoked (s : Stage) (calls : List StageCall) : Prop :=
  ∃ threw, (⟨s, threw⟩ : StageCall) ∈ calls

/-- Outcomes of a `/generate-advanced` request in which every stage succeeds and
the review asks for a revision. -/
def sampleAdvancedOutcomes : AdvancedOutcomes :=
  { planning := .ok ()
    design := .ok ()
    code := { chunks := ["export default ", "App"], result := .ok "export default App" }
    quality := .ok ⟨["missing alt text"], true, "needs-work"⟩
    fix := fun _ _ => { chunks := ["export default App2"], result := .ok "export default App2" } }

/-! ## JavaScript values of a request body -/

/-- A number literal that has a fraction or an exponent part denotes zero: every
digit before the exponent is 0. -/
def literalIsZero (literal : String) : Bool :=
  (literal.data.takeWhile (fun c => c != 'e' && c != 'E')).all (fun c => !c.isDigit || c == '0')

/-- JavaScript truthiness, `Boolean(v)`; `!v` is its negation. -/
def Json.truthy : Json → Bool
  | .null => false
  | .bool b => b
  | .num n => n != 0
  | .decimal literal => !literalIsZero literal
  | .str s => s != ""
  | .arr _ => true
  | .obj _ => true

/-- The characters that `String.prototype.trim` removes: WhiteSpace (TAB, VT,
FF, ZWNBSP and the space separators) and LineTerminator (LF, CR, LS, PS). -/
def isJsWhitespace (c : Char) : Bool :=
  c.toNat = 0x09 || c.toNat = 0x0A || c.toNat = 0x0B || c.toNat = 0x0C || c.toNat = 0x0D
    || c.toNat = 0x20 || c.toNat = 0xA0 || c.toNat = 0x1680
    || (0x2000 ≤ c.toNat && c.toNat ≤ 0x200A)
    || c.toNat = 0x2028 || c.toNat = 0x2029 || c.toNat = 0x202F || c.toNat = 0x205F
    || c.toNat = 0x3000 || c.toNat = 0xFEFF

/-- The method `trim` on the characters of a string. -/
def jsTrimChars (cs : List Char) : List Char :=
  ((cs.dropWhile isJsWhitespace).reverse.dropWhile isJsWhitespace).reverse

/-- The method `String.prototype.trim`. -/
def jsTrim (s : String) : String :=
  String.mk (jsTrimChars s.data)

mutual
/-- The text that a template literal prints for a value, `String(v)`: an array
prints its elements joined by commas (null as nothing), an object prints
`[object Object]`. -/
def Json.display : Json → String
  | .null => "null"
  | .bool b => if b then "true" else "false"
  | .num n => toString n
  | .decimal literal => literal
  | .str s => s
  | .arr items => ",".intercalate (displayItems items)
  | .obj _ => "[object Object]"
/-- The elements of an array as `Array.prototype.join` prints them. -/
def displayItems : List Json → List String
  | [] => []
  | .null :: rest => "" :: displayItems rest
  | v :: rest => v.display :: displayItems rest
end

/-- How a template literal prints a property that may be missing. -/
def displayOption : Option Json → String
  | some v => v.display
  | none => "undefined"

/-- The test `!prompt || typeof prompt !== 'string' || prompt.trim().length === 0`
at the head of the three generation handlers. -/
def promptRejected : Option Json → Bool
  | some (.str s) => s == "" || jsLength (jsTrim s) == 0
  | _ => true

/-- The test `conversationHistory !== undefined && !Array.isArray(conversationHistory)`. -/
def historyRejected : Option Json → Bool
  | none => false
  | some v => !v.isArray

/-- The array `validTemplates`. -/
def validTemplates : List String := ["vite-react", "nextjs", "vite-react-ts"]

/-- The test `template !== undefined && !validTemplates.includes(template)`. -/
def templateRejected : Option Json → Bool
  | none => false
  | some (.str s) => !validTemplates.contains s
  | some _ => true

/-- What a handler answers: one JSON body with a status, sent with
`res.status(..).json(..)` before any SSE header is set, or an SSE stream
(`setupSSEHeaders` has run) whose run is given. -/
inductive Response (ρ : Type) where
  | json (status : Nat) (error : String)
  | stream (run : ρ)

/-- The response is the JSON error body with status 400. -/
def Response.isBadRequest {ρ : Type} : Response ρ → Bool
  | .json status _ => status == 400
  | .stream _ => false

/-- The expression `error.message || fallback`. -/
def messageOr (error : JsError) (fallback : String) : String :=
  match error.message with
  | some m => if m = "" then fallback else m
  | none => fallback

/-! ## src/server.js: the `POST /generate-simple` handler -/

/-- An SSE frame of `/generate-simple`. -/
structure SimpleFrame where
  chunk : Option String := none
  stage : Option String := none
  code : Option String := none
  error : Option String := none
deriving DecidableEq, Repr

/-- A chat message read off an entry of `conversationHistory`; the gateway model
only counts the messages. -/
def Message.ofJson (v : Json) : Message :=
  { role := match v.get "role" with
            | some (.str s) => s
            | _ => "",
    content := match v.get "content" with
               | some (.str s) => s
               | _ => "" }

/-- The entries that `if (conversationHistory && conversationHistory.length > 0)
messages.push(...conversationHistory)` adds. -/
def historyMessages : Option Json → List Message
  | some (.arr items) => items.map Message.ofJson
  | _ => []

/-- The `messages` array that `/generate-simple` builds. -/
def simpleMessages (systemPrompt : String) (body : Json) : List Message :=
  ⟨"system", systemPrompt⟩ :: historyMessages (body.get "conversationHistory")
    ++ [⟨"user", match body.get "prompt" with
                 | some (.str s) => s
                 | _ => ""⟩]

/-- The frames of `/generate-simple` after a gateway run: the `onChunk` callback
appends every chunk to `fullCode` and sends it; after the call returns, the
`complete` frame carries `fullCode`; when the call throws, the `catch` sends
the error frame (the SSE headers are sent by then). -/
def simpleFrames (run : CallRun String) : List SimpleFrame :=
  let chunks := chunksOf run.events
  let chunkFrames := chunks.map (fun c => ({ chunk := some c } : SimpleFrame))
  match run.result with
  | .ok _ => chunkFrames ++ [{ stage := some "complete", code := some (String.join chunks) }]
  | .error error =>
    chunkFrames ++ [{ error := some (messageOr error "An error occurred during code generation") }]

/-- The handler of `POST /generate-simple`, on a connection that stays open and
within the time limit. `create n` is the `n`-th streaming attempt of the
gateway; the client handle is initialised at start-up. -/
def generateSimple (systemPrompt : String) (body : Json) (create : Nat → StreamAttempt) :
    Response (List SimpleFrame) :=
  if promptRejected (body.get "prompt") then
    .json 400 "Prompt is required and must be a non-empty string"
  else if historyRejected (body.get "conversationHistory") then
    .json 400 "conversationHistory must be an array"
  else
    .stream (simpleFrames (callGroqStream true true (.array (simpleMessages systemPrompt body))
      create 3))

/-- The frames written when the wall-clock timer of a handler fires after
`firedAfter` frames of the run have been written: the timer's frame is written,
`res.end()` is called, and `sendSSE` drops every later frame. The last frame of
a run is followed by `clearTimeout` without an `await` in between, so the
timer can only fire before it. -/
def withTimeout {α : Type} (timeoutFrame : α) (frames : List α) (firedAfter : Option Nat) :
    List α :=
  match firedAfter with
  | some k => if k < frames.length then frames.take k ++ [timeoutFrame] else frames
  | none => frames

/-- The frame of the 60-second timer of `/generate-simple`. -/
def simpleTimeoutFrame : SimpleFrame :=
  { error := some "Request timeout - generation took longer than 60 seconds" }

/-- The frame of the 60-second timer of `/generate-advanced`. -/
def advancedTimeoutFrame : AdvancedFrame :=
  { error := some "Request timeout - generation took longer than 60 seconds" }

/-- The frame of the 120-second timer of `/generate-website`. -/
def websiteTimeoutFrame : Frame :=
  { error := some "Request timeout - generation took longer than 120 seconds" }

/-! ## src/server.js: request validation of `POST /generate-website` -/

/-- The pipeline options read off the body: `enableQA` and `req.body.includeBackend || false`. -/
def requestOf (body : Json) : Request :=
  { enableQA := (body.get "enableQA").map Json.truthy,
    includeBackend := ((body.get "includeBackend").map Json.truthy).getD false }

/-- The value `selectedTemplate = template || 'vite-react'`. -/
def selectedTemplate (body : Json) : Json :=
  match body.get "template" with
  | some v => if v.truthy then v else .str "vite-react"
  | none => .str "vite-react"

/-- The handler of `POST /generate-website`: the three checks of the body in
source order, then the pipeline. `outcomes` gives, for the selected template,
the outcomes of the stage calls. The message for a rejected template prints the
template; when that throws (the template cannot be converted to a string), the
outer `catch` answers, before any header is sent, with status 500 and the
message of the TypeError. -/
def handleGenerateWebsite (body : Json) (outcomes : Json → Outcomes) : Response (Json × Run) :=
  if promptRejected (body.get "prompt") then
    .json 400 "Prompt is required and must be a non-empty string"
  else if templateRejected (body.get "template") then
    if displayThrowsOption (body.get "template") then
      .json 500 "Cannot convert object to primitive value"
    else
      .json 400 ("Invalid template: " ++ displayOption (body.get "template")
        ++ ". Must be one of: " ++ ", ".intercalate validTemplates)
  else if historyRejected (body.get "conversationHistory") then
    .json 400 "conversationHistory must be an array"
  else
    .stream (selectedTemplate body,
      generateWebsite (requestOf body) (outcomes (selectedTemplate body)))

/-- The body's prompt is missing, not a string, or blank after trimming. -/
def PromptUnusable (body : Json) : Prop :=
  ∀ s, body.get "prompt" = some (.str s) → jsTrim s = ""

/-- The body's template is present and not one of the three valid names. -/
def TemplateInvalid (body : Json) : Prop :=
  ∃ v, body.get "template" = some v ∧ ∀ t ∈ validTemplates, v ≠ .str t

/-- The body's template is present and cannot be converted to a string: it is
an object with an own key `toString`, or an array that holds such a value. -/
def TemplateUnprintable (body : Json) : Prop :=
  ∃ v, body.get "template" = some v ∧ v.displayThrows = true

/-- A body whose template is an object with an own key `toString`. -/
def bodyWithUnprintableTemplate : Json :=
  .obj [("prompt", .str "Create a website"), ("template", .obj [("toString", .num 1)])]

/-- The body's conversationHistory is present and not an array. -/
def HistoryInvalid (body : Json) : Prop :=
  ∃ v, body.get "conversationHistory" = some v ∧ ∀ items, v ≠ .arr items

/-- A body with a prompt and no other field. -/
def bodyWithPromptOnly : Json :=
  .obj [("prompt", .str "Create a simple website"), ("enableQA", .bool false)]

/-- A body whose template is not a valid name. -/
def bodyWithInvalidTemplate : Json :=
  .obj [("prompt", .str "Create a website"), ("template", .str "invalid-template"),
        ("conversationHistory", .str "not-an-array")]

/-- A gateway whose first streaming attempt breaks off after one fragment with a
network error and whose second attempt streams to its end. -/
def streamRestartedOnce (n : Nat) : StreamAttempt :=
  if n = 1 then ⟨[some "const a"], some ⟨some "network error", none⟩⟩
  else ⟨[some "const a", some " = 1"], none⟩

/-- If the frame carries an `error` field, the error text is not empty and the
frame carries a `stage` field that names a stage whose agent was called. -/
def Frame.NamesStage (calls : List StageCall) (f : Frame) : Prop :=
  ∀ e, f.error = some e → e ≠ "" ∧ ∃ s : Stage, f.stage = some s.name ∧ invoked s calls

/-- The same for the frames of `/generate-advanced`. -/
def AdvancedFrame.NamesStage (calls : List StageCall) (f : AdvancedFrame) : Prop :=
  ∀ e, f.error = some e → e ≠ "" ∧ ∃ s : Stage, f.stage = some s.name ∧ invoked s calls

/-- A gateway that refuses every streaming attempt with an error that is not retried. -/
def streamRefused (_ : Nat) : StreamAttempt :=
  ⟨[], some ⟨some "Invalid API Key", some "invalid_api_key"⟩⟩

/-! ## JSON text: `JSON.stringify` -/

/-- The quotation mark. -/
def quoteMark : Char := Char.ofNat 34

/-- The reverse solidus. -/
def reverseSolidus : Char := Char.ofNat 92

/-- A hexadecimal digit in lower case. -/
def hexDigitChar (n : Nat) : Char :=
  if n < 10 then Char.ofNat (48 + n) else Char.ofNat (87 + n)

/-- How `QuoteJSONString` writes one character: the quotation mark and the
reverse solidus are escaped, the control characters are written as `\b`, `\t`,
`\n`, `\f`, `\r` or as a `\u00XX` escape, every other character stands for
itself. -/
def quoteChar (c : Char) : List Char :=
  if c = quoteMark then [reverseSolidus, quoteMark]
  else if c = reverseSolidus then [reverseSolidus, reverseSolidus]
  else if c.toNat = 8 then [reverseSolidus, 'b']
  else if c.toNat = 9 then [reverseSolidus, 't']
  else if c.toNat = 10 then [reverseSolidus, 'n']
  else if c.toNat = 12 then [reverseSolidus, 'f']
  else if c.toNat = 13 then [reverseSolidus, 'r']
  else if c.toNat < 32 then
    [reverseSolidus, 'u', '0', '0', hexDigitChar (c.toNat / 16), hexDigitChar (c.toNat % 16)]
  else [c]

/-- The characters of a quoted JSON string. -/
def quoteChars (cs : List Char) : List Char :=
  quoteMark :: cs.flatMap quoteChar ++ [quoteMark]

/-- The operation `QuoteJSONString` of `JSON.stringify`. -/
def jsonQuote (s : String) : String :=
  String.mk (quoteChars s.data)

/-- The decimal digits of a natural number, most significant first. -/
def decimalDigits (n : Nat) : List Char :=
  if n = 0 then ['0'] else ((Nat.digits 10 n).map (fun d => Char.ofNat (48 + d))).reverse

/-- How `JSON.stringify` writes an integer. -/
def integerChars : Int → List Char
  | .ofNat n => decimalDigits n
  | .negSucc n => '-' :: decimalDigits (n + 1)

mutual
/-- The characters of `JSON.stringify(v)`, without indentation. -/
def Json.chars : Json → List Char
  | .null => "null".data
  | .bool b => if b then "true".data else "false".data
  | .num n => integerChars n
  | .decimal literal => literal.data
  | .str s => quoteChars s.data
  | .arr items => '[' :: itemsChars items ++ [']']
  | .obj fields => (Char.ofNat 123) :: fieldsChars fields ++ [Char.ofNat 125]
/-- The elements of an array, separated by commas. -/
def itemsChars : List Json → List Char
  | [] => []
  | [v] => v.chars
  | v :: rest => v.chars ++ ',' :: itemsChars rest
/-- The properties of an object, separated by commas. -/
def fieldsChars : List (String × Json) → List Char
  | [] => []
  | [(k, v)] => quoteChars k.data ++ ':' :: v.chars
  | (k, v) :: rest => quoteChars k.data ++ ':' :: v.chars ++ ',' :: fieldsChars rest
end

/-- The function `JSON.stringify(v)` on a value that `JSON.parse` can return. -/
def jsonStringify (v : Json) : String :=
  String.mk v.chars

mutual
/-- The text `JSON.stringify(v, null, 2)` at the given indentation. -/
def Json.pretty (indent : String) : Json → String
  | .null => "null"
  | .bool b => if b then "true" else "false"
  | .num n => String.mk (integerChars n)
  | .decimal literal => literal
  | .str s => jsonQuote s
  | .arr items =>
    if items.isEmpty then "[]"
    else "[\n" ++ indent ++ "  " ++ (",\n" ++ indent ++ "  ").intercalate
      (prettyItems (indent ++ "  ") items) ++ "\n" ++ indent ++ "]"
  | .obj fields =>
    if fields.isEmpty then "\x7b\x7d"
    else "\x7b\n" ++ indent ++ "  " ++ (",\n" ++ indent ++ "  ").intercalate
      (prettyFields (indent ++ "  ") fields) ++ "\n" ++ indent ++ "\x7d"
/-- The elements of an array, each at the given indentation. -/
def prettyItems (indent : String) : List Json → List String
  | [] => []
  | v :: rest => v.pretty indent :: prettyItems indent rest
/-- The properties of an object, each at the given indentation. -/
def prettyFields (indent : String) : List (String × Json) → List String
  | [] => []
  | (k, v) :: rest => (jsonQuote k ++ ": " ++ v.pretty indent) :: prettyFields indent rest
end

/-- The function `JSON.stringify(v, null, 2)`. -/
def jsonStringifyPretty (v : Json) : String :=
  v.pretty ""

/-! ## src/agents/designAgent.js and src/agents/planningAgent.js -/

/-- The test `typeof v === 'object'`, which null passes. -/
def Json.typeofObject : Json → Bool
  | .null => true
  | .arr _ => true
  | .obj _ => true
  | _ => false

/-- A chat message object. -/
def chatMessage (role content : String) : Json :=
  .obj [("role", .str role), ("content", .str content)]

/-- The elements that the spread `...v` puts into an array literal: those of an
array, the characters of a string; any other value is not iterable and the
spread throws a TypeError, whose message is given as V8 words it for the
variable spread. -/
def spreadItems (operand : String) : Json → Except String (List Json)
  | .arr items => .ok items
  | .str s => .ok (s.data.map (fun c => .str (String.singleton c)))
  | _ => .error (operand ++ " is not iterable")

/-- The part of `designAgent(technicalSpec, conversationHistoryOrArchitectureSpec
= [], planningSpec = null, conversationHistory = [])` up to the gateway call:
the `messages` passed to `callGroq`, or the message of the error thrown before
the call. An argument is absent when the caller passes none (or undefined);
`designPrompt` is the constant `DESIGN_PROMPT`. -/
def designAgentMessages (designPrompt : String) (technicalSpec : Option Json)
    (conversationHistoryOrArchitectureSpec planningSpec conversationHistory : Option Json) :
    Except String (List Json) :=
  let second := conversationHistoryOrArchitectureSpec.getD (.arr [])
  let planning := planningSpec.getD .null
  let history := conversationHistory.getD (.arr [])
  let isMultiPage := !planning.isNull && second.typeofObject && !second.isArray
  let architectureSpec : Json := if isMultiPage then second else .null
  let actualPlanningSpec : Option Json := if isMultiPage then some planning else technicalSpec
  let actualConversationHistory : Json :=
    if isMultiPage then history else if second.isArray then second else .arr []
  match actualPlanningSpec with
  | none =>
    .error "Design Agent failed: Technical/Planning specification is required and must be an object"
  | some spec =>
    if !spec.truthy || !spec.typeofObject then
      .error "Design Agent failed: Technical/Planning specification is required and must be an object"
    else
      let contextMessage :=
        if isMultiPage && architectureSpec.truthy then
          "Architecture Specification:\n" ++ jsonStringifyPretty architectureSpec
            ++ "\n\nPlanning Specification:\n" ++ jsonStringifyPretty spec
            ++ "\n\nBased on these specifications, create a comprehensive design system for the entire website with component-specific styling guidelines, layout system, breakpoints, and global styles."
        else
          "Technical Specification:\n" ++ jsonStringifyPretty spec
            ++ "\n\nBased on this technical specification, create a cohesive design system."
      match spreadItems "actualConversationHistory" actualConversationHistory with
      | .error message => .error ("Design Agent failed: " ++ message)
      | .ok items =>
        .ok (chatMessage "system" designPrompt :: items ++ [chatMessage "user" contextMessage])

/-- The call `designAgent(architectureSpec, planningSpec, conversationHistory || [])`
of the DESIGN STAGE of `/generate-website`. -/
def websiteDesignCall (designPrompt : String) (architectureSpec planningSpec : Json)
    (conversationHistory : Option Json) : Except String (List Json) :=
  designAgentMessages designPrompt (some architectureSpec) (some planningSpec)
    (some (match conversationHistory with
           | some v => if v.truthy then v else .arr []
           | none => .arr []))
    none

/-- The operator `key in v`: an own property of an object; on an array only
indices and `length` are properties; on a primitive value the operator throws
a TypeError (the message is V8's). -/
def Json.hasKey (key : String) : Json → Except String Bool
  | .obj fields => .ok ((fields.lookup key).isSome)
  | .arr _ => .ok false
  | v => .error ("Cannot use 'in' operator to search for '" ++ key ++ "' in " ++ v.display)

/-- The property read `v.key`: undefined (absent) on a value without that
property, a TypeError on null (the message is V8's). The properties that
arrays and strings inherit are not among the keys read. -/
def Json.prop (key : String) : Json → Except String (Option Json)
  | .obj fields => .ok (fields.lookup key)
  | .null => .error ("Cannot read properties of null (reading '" ++ key ++ "')")
  | _ => .ok none

/-- The fields of `requiredFields` that are not `in` the value, or the TypeError. -/
def missingKeys (requiredFields : List String) (v : Json) : Except String (List String) :=
  requiredFields.foldr
    (fun field acc =>
      match v.hasKey field, acc with
      | .error message, _ => .error message
      | .ok _, .error message => .error message
      | .ok present, .ok missing => .ok (if present then missing else field :: missing))
    (.ok [])

/-- The test `list.includes(v)` for a list of strings. -/
def includesValue (list : List String) : Option Json → Bool
  | some (.str s) => list.contains s
  | _ => false

/-- The test `Array.isArray(v)` of a property that may be absent. -/
def isArrayOption : Option Json → Bool
  | some v => v.isArray
  | none => false

/-- The test `!v` of a property that may be absent. -/
def falsyOption : Option Json → Bool
  | some v => !v.truthy
  | none => true

/-- The check of one entry of `pages` in the multi-page validation. -/
def planningPageCheck (index : Nat) (page : Json) : Except String Unit :=
  match page.prop "name", page.prop "purpose", page.prop "components", page.prop "features" with
  | .ok name, .ok purpose, .ok components, .ok features =>
    if falsyOption name || falsyOption purpose || !isArrayOption components
        || !isArrayOption features then
      .error ("Page at index " ++ toString index
        ++ " is missing required fields (name, purpose, components, features)")
    else .ok ()
  | .error message, _, _, _ => .error message
  | _, .error message, _, _ => .error message
  | _, _, .error message, _ => .error message
  | _, _, _, .error message => .error message

/-- The loop `technicalSpec.pages.forEach(...)`: the first failing page throws. -/
def planningPagesCheck : Nat → List Json → Except String Unit
  | _, [] => .ok ()
  | index, page :: rest =>
    match planningPageCheck index page with
    | .error message => .error message
    | .ok _ => planningPagesCheck (index + 1) rest

/-- The multi-page validation of `planningAgent`. -/
def validateMultiPageSpec (technicalSpec : Json) : Except String Unit :=
  match missingKeys ["appType", "pages", "sharedComponents", "routing", "designStyle"]
      technicalSpec with
  | .error message => .error message
  | .ok (field :: missing) =>
    .error ("Missing required fields in technical specification: "
      ++ ", ".intercalate (field :: missing))
  | .ok [] =>
    if !includesValue ["multi-page-website", "web-app", "portfolio", "blog", "ecommerce", "other"]
        (technicalSpec.get "appType") then
      .error ("Invalid appType for multi-page website: "
        ++ displayOption (technicalSpec.get "appType"))
    else
      match technicalSpec.get "pages" with
      | some (.arr pages) =>
        match planningPagesCheck 0 pages with
        | .error message => .error message
        | .ok _ =>
          if !isArrayOption (technicalSpec.get "sharedComponents") then
            .error "sharedComponents must be an array"
          else if falsyOption (technicalSpec.get "routing")
              || !((technicalSpec.get "routing").getD .null).typeofObject then
            .error "routing must be an object"
          else .ok ()
      | _ => .error "pages must be an array"

/-- The single-component validation of `planningAgent` ("original logic"). -/
def validateSingleComponentSpec (technicalSpec : Json) : Except String Unit :=
  match missingKeys ["appType", "components", "features", "complexity", "designStyle"]
      technicalSpec with
  | .error message => .error message
  | .ok (field :: missing) =>
    .error ("Missing required fields in technical specification: "
      ++ ", ".intercalate (field :: missing))
  | .ok [] =>
    if !includesValue ["dashboard", "landing", "form", "tool", "other"]
        (technicalSpec.get "appType") then
      .error ("Invalid appType: " ++ displayOption (technicalSpec.get "appType")
        ++ ". Must be one of: dashboard, landing, form, tool, other")
    else if !isArrayOption (technicalSpec.get "components") then
      .error "components must be an array"
    else if !isArrayOption (technicalSpec.get "features") then
      .error "features must be an array"
    else if !includesValue ["simple", "medium", "complex"] (technicalSpec.get "complexity") then
      .error ("Invalid complexity: " ++ displayOption (technicalSpec.get "complexity")
        ++ ". Must be one of: simple, medium, complex")
    else if !includesValue ["modern", "minimal", "playful", "elegant"]
        (technicalSpec.get "designStyle") then
      .error ("Invalid designStyle: " ++ displayOption (technicalSpec.get "designStyle")
        ++ ". Must be one of: modern, minimal, playful, elegant")
    else .ok ()

/-- What a call of `planningAgent` does: the `messages` it passes to `callGroq`
(none when it throws before the call) and the value it returns or the message
of the error it throws. -/
structure PlanningRun where
  messages : Option (List Json)
  result : Except String Json

/-- The function `planningAgent(prompt, architectureSpec = null,
conversationHistory = [])`. `reply` is the outcome of the gateway call, the
content check and `parseJSON`: the parsed technical specification, or the
message thrown. `planningPrompt` is the constant `PLANNING_PROMPT`. -/
def planningAgent (planningPrompt : String) (prompt : Option Json)
    (architectureSpec conversationHistory : Option Json) (reply : Except String Json) :
    PlanningRun :=
  match prompt with
  | some (.str text) =>
    if text = "" then
      { messages := none,
        result := .error "Planning Agent failed: Prompt is required and must be a string" }
    else
      let architecture := architectureSpec.getD .null
      let userMessage :=
        if architecture.truthy then
          "User Request: " ++ text ++ "\n\nArchitecture Specification:\n"
            ++ jsonStringifyPretty architecture
            ++ "\n\nBased on the architecture specification above, create detailed technical specifications for each page and component."
        else text
      match spreadItems "conversationHistory" (conversationHistory.getD (.arr [])) with
      | .error message => { messages := none, result := .error ("Planning Agent failed: " ++ message) }
      | .ok items =>
        let messages := chatMessage "system" planningPrompt :: items ++ [chatMessage "user" userMessage]
        match reply with
        | .error message =>
          { messages := some messages, result := .error ("Planning Agent failed: " ++ message) }
        | .ok technicalSpec =>
          match (if architecture.truthy then validateMultiPageSpec technicalSpec
                 else validateSingleComponentSpec technicalSpec) with
          | .error message =>
            { messages := some messages, result := .error ("Planning Agent failed: " ++ message) }
          | .ok _ => { messages := some messages, result := .ok technicalSpec }
  | _ =>
    { messages := none,
      result := .error "Planning Agent failed: Prompt is required and must be a string" }

/-- The call `planningAgent(prompt, conversationHistory || [])` of the PLANNING
STAGE of `/generate-advanced`. -/
def advancedPlanningCall (planningPrompt : String) (body : Json) (reply : Except String Json) :
    PlanningRun :=
  planningAgent planningPrompt (body.get "prompt")
    (some (match body.get "conversationHistory" with
           | some v => if v.truthy then v else .arr []
           | none => .arr []))
    none reply

/-- A well-formed single-component technical specification. -/
def sampleSingleComponentSpec : Json :=
  .obj [("appType", .str "form"), ("components", .arr [.str "LoginForm"]),
        ("features", .arr [.str "validation"]), ("complexity", .str "simple"),
        ("designStyle", .str "modern")]

/-! ## src/agents/architectureAgent.js: `validateArchitectureSpec` -/

/-- The result of `typeof v`. -/
def Json.typeofName : Json → String
  | .null => "object"
  | .bool _ => "boolean"
  | .num _ => "number"
  | .decimal _ => "number"
  | .str _ => "string"
  | .arr _ => "object"
  | .obj _ => "object"

/-- The test `!file.name || !file.path` (with `!page.route` too for a page) on
one entry of a manifest category; reading a property of null throws. -/
def manifestEntryCheck (keys : List String) (label ending : String) (entry : Json) :
    Except String Unit :=
  keys.foldr
    (fun key acc =>
      match entry.prop key with
      | .error message => .error message
      | .ok value =>
        if falsyOption value then .error (label ++ jsonStringify entry ++ ending) else acc)
    (.ok ())

/-- A loop over the entries of a category: the first failing entry throws. -/
def manifestEntriesCheck (keys : List String) (label ending : String) :
    List Json → Except String Unit
  | [] => .ok ()
  | entry :: rest =>
    match manifestEntryCheck keys label ending entry with
    | .error message => .error message
    | .ok _ => manifestEntriesCheck keys label ending rest

/-- The entries of a category that has passed the test `Array.isArray`. -/
def categoryItems (fileStructure : Json) (category : String) : List Json :=
  match fileStructure.get category with
  | some (.arr items) => items
  | _ => []

/-- The first of the given categories that is not an array, if any. -/
def firstNonArray (fileStructure : Json) : List String → Option String
  | [] => none
  | category :: rest =>
    if isArrayOption (fileStructure.get category) then firstNonArray fileStructure rest
    else some category

/-- The loops over `layouts`, `components`, `config`, `routing` and `entry`. -/
def fileArraysCheck (fileStructure : Json) : List String → Except String Unit
  | [] => .ok ()
  | arrayName :: rest =>
    match manifestEntriesCheck ["name", "path"] ("Invalid file object in " ++ arrayName ++ ": ")
        ". Must have name and path" (categoryItems fileStructure arrayName) with
    | .error message => .error message
    | .ok _ => fileArraysCheck fileStructure rest

/-- The function `validateArchitectureSpec(spec, template)`, to the end of the
checks on `fileStructure`; the checks of `dependencies` and `features` that
follow can only reject more. The error is the message thrown. -/
def validateFileStructure (spec : Json) : Except String Unit :=
  match missingKeys ["projectName", "template", "fileStructure", "dependencies", "features"]
      spec with
  | .error message => .error message
  | .ok (field :: missing) =>
    .error ("Missing required fields in architecture specification: "
      ++ ", ".intercalate (field :: missing))
  | .ok [] =>
    if !(match spec.get "projectName" with
         | some (.str s) => s != ""
         | _ => false) then
      .error "projectName must be a non-empty string"
    else if !includesValue validTemplates (spec.get "template") then
      .error ("Invalid template in spec: " ++ displayOption (spec.get "template")
        ++ ". Must be one of: " ++ ", ".intercalate validTemplates)
    else
      match spec.get "fileStructure" with
      | none => .error "fileStructure must be an object"
      | some fileStructure =>
        if !fileStructure.isObjectType then .error "fileStructure must be an object"
        else
          match missingKeys ["pages", "layouts", "components", "config", "routing", "entry"]
              fileStructure with
          | .error message => .error message
          | .ok (field :: missing) =>
            .error ("Missing required fields in fileStructure: "
              ++ ", ".intercalate (field :: missing))
          | .ok [] =>
            match firstNonArray fileStructure
                ["pages", "layouts", "components", "config", "routing", "entry"] with
            | some field => .error ("fileStructure." ++ field ++ " must be an array")
            | none =>
              if (categoryItems fileStructure "pages").length = 0 then
                .error "fileStructure.pages must contain at least one page"
              else
                match manifestEntriesCheck ["name", "path", "route"] "Invalid page object: "
                    ". Must have name, path, and route" (categoryItems fileStructure "pages") with
                | .error message => .error message
                | .ok _ =>
                  if (categoryItems fileStructure "layouts").length = 0 then
                    .error "fileStructure.layouts must contain at least one layout"
                  else
                    fileArraysCheck fileStructure
                      ["layouts", "components", "config", "routing", "entry"]

/-- The checks of `dependencies` and `features` at the end of
`validateArchitectureSpec`. -/
def validateDependenciesAndFeatures (spec : Json) : Except String Unit :=
  match spec.get "dependencies" with
  | some (.arr dependencies) =>
    let missingDeps := ["react", "react-dom"].filter
      (fun dep => !dependencies.any (fun d => match d with
                                              | .str s => s == dep
                                              | _ => false))
    if missingDeps.length > 0 then
      .error ("Missing required dependencies: " ++ ", ".intercalate missingDeps)
    else
      match spec.get "features" with
      | some features =>
        if !features.isObjectType then .error "features must be an object"
        else
          match missingKeys ["routing", "stateManagement", "apiIntegration", "authentication",
              "forms"] features with
          | .error message => .error message
          | .ok (field :: missing) =>
            .error ("Missing required features: " ++ ", ".intercalate (field :: missing))
          | .ok [] =>
            match features with
            | .obj fields =>
              match fields.find? (fun kv => !kv.2.isBoolean) with
              | some kv =>
                .error ("Feature " ++ kv.1 ++ " must be a boolean, got " ++ kv.2.typeofName)
              | none => .ok ()
            | _ => .ok ()
      | none => .error "features must be an object"
  | _ => .error "dependencies must be an array"

/-- The function `validateArchitectureSpec(spec, template)`; the parameter
`template` is not read. -/
def validateArchitectureSpec (spec : Json) : Except String Unit :=
  match validateFileStructure spec with
  | .error message => .error message
  | .ok _ => validateDependenciesAndFeatures spec

/-- A manifest entry as the handler reads it. -/
def FileSpec.ofJson (entry : Json) : FileSpec :=
  { name := match entry.get "name" with
            | some v => v.display
            | none => "",
    path := match entry.get "path" with
            | some v => v.display
            | none => "" }

/-- A category of `fileStructure` as the handler reads it: absent when the
property is missing or not an array. -/
def categoryOfJson (fileStructure : Json) (category : String) : Option (List FileSpec) :=
  match fileStructure.get category with
  | some (.arr items) => some (items.map FileSpec.ofJson)
  | _ => none

/-- The `fileStructure` object of a parsed architecture specification. -/
def FileStructure.ofJson (fileStructure : Json) : FileStructure :=
  { config := categoryOfJson fileStructure "config"
    entry := categoryOfJson fileStructure "entry"
    routing := categoryOfJson fileStructure "routing"
    layouts := categoryOfJson fileStructure "layouts"
    components := categoryOfJson fileStructure "components"
    pages := categoryOfJson fileStructure "pages" }

/-- The per-file progress `40 + Math.floor((filesCompleted / totalFiles) * 40)`
with the two roundings of double-precision arithmetic made explicit: `round`
is applied to the quotient and to the product. -/
def fileProgressRounded (round : ℚ → ℚ) (filesCompleted totalFiles : Nat) : Int :=
  40 + ⌊round (round ((filesCompleted : ℚ) / (totalFiles : ℚ)) * 40)⌋

/-- An architecture specification with one page and one layout. -/
def sampleArchitectureJson : Json :=
  .obj [("projectName", .str "portfolio"), ("template", .str "vite-react"),
        ("fileStructure", .obj [
          ("pages", .arr [.obj [("name", .str "Home"), ("path", .str "src/pages/Home.jsx"),
                                ("route", .str "/")]]),
          ("layouts", .arr [.obj [("name", .str "Layout"),
                                  ("path", .str "src/layouts/Layout.jsx")]]),
          ("components", .arr []), ("config", .arr []), ("routing", .arr []),
          ("entry", .arr [])]),
        ("dependencies", .arr [.str "react", .str "react-dom"]),
        ("features", .obj [("routing", .bool true), ("stateManagement", .bool false),
                           ("apiIntegration", .bool false), ("authentication", .bool false),
                           ("forms", .bool false)])]

/-! ## JSON text: `JSON.parse` -/

/-- The tokens of a JSON text. -/
inductive JsonToken where
  | beginObject
  | endObject
  | beginArray
  | endArray
  | colon
  | comma
  | string (s : String)
  | number (literal : List Char)
  | literalTrue
  | literalFalse
  | literalNull
deriving DecidableEq, Repr

/-- The four characters that the JSON grammar allows between tokens. -/
def isJsonWhitespace (c : Char) : Bool :=
  c.toNat = 9 || c.toNat = 10 || c.toNat = 13 || c.toNat = 32

/-- The characters that a number literal can consist of. -/
def isNumberChar (c : Char) : Bool :=
  c.isDigit || c = '-' || c = '+' || c = '.' || c = 'e' || c = 'E'

/-- The exponent part of a number literal, or nothing. -/
def isExponent : List Char → Bool
  | [] => true
  | c :: rest =>
    (c = 'e' || c = 'E') &&
      (match rest with
       | s :: digits =>
         if s = '+' || s = '-' then !digits.isEmpty && digits.all Char.isDigit
         else (s :: digits).all Char.isDigit
       | [] => false)

/-- The fraction and exponent parts of a number literal, or nothing. -/
def isFractionAndExponent : List Char → Bool
  | '.' :: rest =>
    !(rest.takeWhile Char.isDigit).isEmpty && isExponent (rest.dropWhile Char.isDigit)
  | rest => isExponent rest

/-- The JSON grammar of a number: an optional minus, an integer part without a
leading zero, an optional fraction, an optional exponent. -/
def isJsonNumber (literal : List Char) : Bool :=
  let unsigned := match literal with
    | '-' :: rest => rest
    | _ => literal
  let integerPart := unsigned.takeWhile Char.isDigit
  (integerPart = ['0'] || (!integerPart.isEmpty && integerPart.head? != some '0'))
    && isFractionAndExponent (unsigned.dropWhile Char.isDigit)

/-- The natural number that a list of decimal digits denotes. -/
def digitsValue (digits : List Char) : Nat :=
  digits.foldl (fun acc c => acc * 10 + (c.toNat - 48)) 0

/-- The value of a number literal (see `Json`). -/
def numberValue (literal : List Char) : Json :=
  match literal with
  | '-' :: digits =>
    if digits.all Char.isDigit then .num (-(digitsValue digits : Int))
    else .decimal (String.mk literal)
  | digits =>
    if digits.all Char.isDigit then .num (digitsValue digits : Int)
    else .decimal (String.mk literal)

/-- The value of a hexadecimal digit. -/
def hexValue (c : Char) : Option Nat :=
  if c.isDigit then some (c.toNat - 48)
  else if 97 ≤ c.toNat ∧ c.toNat ≤ 102 then some (c.toNat - 87)
  else if 65 ≤ c.toNat ∧ c.toNat ≤ 70 then some (c.toNat - 55)
  else none

/-- The UTF-16 code units of a character. -/
def utf16Units (c : Char) : List Nat :=
  if c.toNat < 65536 then [c.toNat]
  else [55296 + (c.toNat - 65536) / 1024, 56320 + (c.toNat - 65536) % 1024]

/-- The character of a code unit that stands alone; a lone surrogate, which a
JavaScript string can hold, is shown as U+FFFD. -/
def unitChar (u : Nat) : Char :=
  if 55296 ≤ u ∧ u < 57344 then Char.ofNat 65533 else Char.ofNat u

/-- The characters of a sequence of UTF-16 code units. -/
def utf16Decode : List Nat → List Char
  | [] => []
  | [u] => [unitChar u]
  | hi :: lo :: rest =>
    if 55296 ≤ hi ∧ hi < 56320 ∧ 56320 ≤ lo ∧ lo < 57344 then
      Char.ofNat (65536 + (hi - 55296) * 1024 + (lo - 56320)) :: utf16Decode rest
    else unitChar hi :: utf16Decode (lo :: rest)

/-- The state of the scanner between two characters of a JSON text. Inside a
string the code units read so far are kept, last first. -/
inductive LexState where
  | ready
  | inString (units : List Nat)
  | escape (units : List Nat)
  | unicode (units : List Nat) (digits : List Nat)
  | inNumber (literal : List Char)
  | inWord (token : JsonToken) (expected : List Char)
deriving DecidableEq, Repr

/-- A character met between tokens: whitespace is skipped, a punctuator is a
token, a quotation mark, a minus or digit, and `t`, `f`, `n` start a token;
every other character is a syntax error. -/
def startToken (c : Char) : Option (LexState × List JsonToken) :=
  if isJsonWhitespace c then some (.ready, [])
  else if c.toNat < 33 ∨ 125 < c.toNat then none
  else if c.toNat = 123 then some (.ready, [.beginObject])
  else if c.toNat = 125 then some (.ready, [.endObject])
  else if c = '[' then some (.ready, [.beginArray])
  else if c = ']' then some (.ready, [.endArray])
  else if c = ':' then some (.ready, [.colon])
  else if c = ',' then some (.ready, [.comma])
  else if c = quoteMark then some (.inString [], [])
  else if c = '-' || c.isDigit then some (.inNumber [c], [])
  else if c = 't' then some (.inWord .literalTrue ['r', 'u', 'e'], [])
  else if c = 'f' then some (.inWord .literalFalse ['a', 'l', 's', 'e'], [])
  else if c = 'n' then some (.inWord .literalNull ['u', 'l', 'l'], [])
  else none

/-- The code unit that a one-letter escape stands for. -/
def escapeUnit (c : Char) : Option Nat :=
  if c = quoteMark then some 34
  else if c = reverseSolidus then some 92
  else if c = '/' then some 47
  else if c = 'b' then some 8
  else if c = 'f' then some 12
  else if c = 'n' then some 10
  else if c = 'r' then some 13
  else if c = 't' then some 9
  else none

/-- One step of the scanner: the next state and the tokens completed by the
character, or nothing on a syntax error. -/
def lexStep : LexState → Char → Option (LexState × List JsonToken)
  | .ready, c => startToken c
  | .inString units, c =>
    if c = quoteMark then some (.ready, [.string (String.mk (utf16Decode units.reverse))])
    else if c = reverseSolidus then some (.escape units, [])
    else if c.toNat < 32 then none
    else some (.inString ((utf16Units c).reverse ++ units), [])
  | .escape units, c =>
    if c = 'u' then some (.unicode units [], [])
    else (escapeUnit c).map (fun u => (.inString (u :: units), []))
  | .unicode units digits, c =>
    (hexValue c).map (fun d =>
      if digits.length = 3 then
        (.inString ((digits ++ [d]).foldl (fun acc h => acc * 16 + h) 0 :: units), [])
      else (.unicode units (digits ++ [d]), []))
  | .inNumber literal, c =>
    if isNumberChar c then some (.inNumber (c :: literal), [])
    else if isJsonNumber literal.reverse then
      (startToken c).map (fun r => (r.1, .number literal.reverse :: r.2))
    else none
  | .inWord token expected, c =>
    match expected with
    | [] => none
    | [e] => if c.isLower ∧ c = e then some (.ready, [token]) else none
    | e :: rest => if c.isLower ∧ c = e then some (.inWord token rest, []) else none

/-- The end of the text: only between tokens or after a number literal. -/
def lexFinish : LexState → Option (List JsonToken)
  | .ready => some []
  | .inNumber literal =>
    if isJsonNumber literal.reverse then some [.number literal.reverse] else none
  | _ => none

/-- The tokens of a text, read from a given state. -/
def lex : LexState → List Char → Option (List JsonToken)
  | state, [] => lexFinish state
  | state, c :: rest =>
    match lexStep state c with
    | none => none
    | some (next, tokens) => (lex next rest).map (fun more => tokens ++ more)

/-- The property definition of `JSON.parse` for a member of an object: a name
that occurred before gets the new value and keeps its place. (That a name which
is an array index is moved in front of the other names is not modelled.) -/
def setField (fields : List (String × Json)) (key : String) (value : Json) :
    List (String × Json) :=
  if fields.any (fun kv => kv.1 == key) then
    fields.map (fun kv => if kv.1 == key then (key, value) else kv)
  else fields ++ [(key, value)]

mutual
/-- A JSON value at the head of the tokens, and the tokens after it. The first
argument bounds the depth of the recursion. -/
def parseValue : Nat → List JsonToken → Option (Json × List JsonToken)
  | 0, _ => none
  | _ + 1, [] => none
  | fuel + 1, token :: rest =>
    match token with
    | .string s => some (.str s, rest)
    | .number literal => some (numberValue literal, rest)
    | .literalTrue => some (.bool true, rest)
    | .literalFalse => some (.bool false, rest)
    | .literalNull => some (.null, rest)
    | .beginArray =>
      match rest with
      | .endArray :: after => some (.arr [], after)
      | _ => (parseItems fuel rest).map (fun r => (.arr r.1, r.2))
    | .beginObject =>
      match rest with
      | .endObject :: after => some (.obj [], after)
      | _ => (parseMembers fuel [] rest).map (fun r => (.obj r.1, r.2))
    | _ => none
/-- The elements of an array up to its closing bracket. -/
def parseItems : Nat → List JsonToken → Option (List Json × List JsonToken)
  | 0, _ => none
  | fuel + 1, tokens =>
    match parseValue fuel tokens with
    | some (v, .comma :: rest) => (parseItems fuel rest).map (fun r => (v :: r.1, r.2))
    | some (v, .endArray :: rest) => some ([v], rest)
    | _ => none
/-- The members of an object up to its closing brace, added to those read. -/
def parseMembers : Nat → List (String × Json) → List JsonToken →
    Option (List (String × Json) × List JsonToken)
  | 0, _, _ => none
  | fuel + 1, fields, .string key :: .colon :: tokens =>
    match parseValue fuel tokens with
    | some (v, .comma :: rest) => parseMembers fuel (setField fields key v) rest
    | some (v, .endObject :: rest) => some (setField fields key v, rest)
    | _ => none
  | _ + 1, _, _ => none
end

/-- The function `JSON.parse` on a text: the value, or nothing when the text is
not valid JSON (a SyntaxError is thrown). -/
def jsonParse (text : String) : Option Json :=
  match lex .ready text.data with
  | none => none
  | some tokens =>
    match parseValue (tokens.length + 1) tokens with
    | some (v, []) => some v
    | _ => none

/-! ## src/utils/groqClient.js: `parseJSON` -/

/-- The replacement `text.replace(/PATTERN\n?/g, '')` for a pattern of plain
characters: the text is read from left to right, and where the pattern
occurs it is left out, together with a line feed that directly follows it.
`skip` counts the characters of an occurrence that are still to be left out. -/
def removePattern (pattern : List Char) : (skip : Nat) → List Char → List Char
  | _, [] => []
  | skip + 1, _ :: rest => removePattern pattern skip rest
  | 0, c :: rest =>
    if pattern.isPrefixOf (c :: rest) then
      removePattern pattern
        (pattern.length - 1 + (if (c :: rest).get? pattern.length = some '\n' then 1 else 0)) rest
    else c :: removePattern pattern 0 rest

/-- The expression
`text.replace(/[3 backticks]json\n?/g, '').replace(/[3 backticks]\n?/g, '').trim()`. -/
def cleanText (text : String) : String :=
  jsTrim (String.mk (removePattern "```".data 0 (removePattern "```json".data 0 text.data)))

/-- The UTF-16 code units of a string. -/
def utf16 (s : String) : List Nat :=
  s.data.flatMap utf16Units

/-- The method `text.substring(0, n)`, which counts UTF-16 code units; a
surrogate pair cut in half leaves a lone surrogate (see `unitChar`). -/
def substringTo (n : Nat) (text : String) : String :=
  String.mk (utf16Decode ((utf16 text).take n))

/-- The function `parseJSON(text)`. `syntaxErrorMessage` gives the message of
the SyntaxError that `JSON.parse` throws on a text that is not valid JSON,
which depends on the engine. -/
def parseJSON (syntaxErrorMessage : String → String) (text : String) : Except String Json :=
  match jsonParse (cleanText text) with
  | some v => .ok v
  | none =>
    .error ("Failed to parse JSON: " ++ syntaxErrorMessage (cleanText text) ++ ". Text: "
      ++ substringTo 100 text ++ "...")

/-- The JSON text of a file artifact whose content is a fenced shell command, as
a reply of the model may hold it; it is valid JSON. -/
def readmeArtifactText : String :=
  "\x7b\"path\":\"README.md\",\"content\":\"```bash\\nnpm install\\n```\"\x7d"

/-- The state that the scanner reaches over characters that complete no token. -/
def lexSilently : LexState → List Char → Option LexState
  | state, [] => some state
  | state, c :: rest =>
    match lexStep state c with
    | some (next, []) => lexSilently next rest
    | _ => none

/-- The text after a number literal starts with no character of a number. -/
def Terminated (rest : List Char) : Prop :=
  ∀ c, rest.head? = some c → isNumberChar c = false

/-! ## The tokens of a value and the values that `JSON.stringify` writes back -/

mutual
/-- The tokens of the text that `JSON.stringify` writes for a value. -/
def Json.tokens : Json → List JsonToken
  | .null => [.literalNull]
  | .bool b => [if b then .literalTrue else .literalFalse]
  | .num n => [.number (integerChars n)]
  | .decimal literal => [.number literal.data]
  | .str s => [.string s]
  | .arr items => .beginArray :: itemsTokens items ++ [.endArray]
  | .obj fields => .beginObject :: fieldsTokens fields ++ [.endObject]
/-- The tokens of the elements of an array, with the commas between them. -/
def itemsTokens : List Json → List JsonToken
  | [] => []
  | [v] => v.tokens
  | v :: rest => v.tokens ++ .comma :: itemsTokens rest
/-- The tokens of the members of an object, with the commas between them. -/
def fieldsTokens : List (String × Json) → List JsonToken
  | [] => []
  | [(k, v)] => .string k :: .colon :: v.tokens
  | (k, v) :: rest => .string k :: .colon :: v.tokens ++ .comma :: fieldsTokens rest
end

mutual
/-- A value that the model writes as JavaScript does and that has the shape of a
JavaScript object: its numbers are integers and no object holds a name twice. -/
def Json.serialisable : Json → Bool
  | .decimal _ => false
  | .arr items => itemsSerialisable items
  | .obj fields => decide ((fields.map (fun kv => kv.1)).Nodup) && fieldsSerialisable fields
  | _ => true
/-- Every element is serialisable. -/
def itemsSerialisable : List Json → Bool
  | [] => true
  | v :: rest => v.serialisable && itemsSerialisable rest
/-- Every member's value is serialisable. -/
def fieldsSerialisable : List (String × Json) → Bool
  | [] => true
  | (_, v) :: rest => v.serialisable && fieldsSerialisable rest
end

/-! ## The frame decoder of the tests (src/test-website-generation.js) -/

/-- The pieces of `text.split('\n\n')`, read from left to right: `current` holds
the characters of the piece being read, last first; a line feed that directly
follows a line feed of the piece ends the piece. -/
def splitBlankLines : (current : List Char) → List Char → List (List Char)
  | current, [] => [current.reverse]
  | current, c :: rest =>
    if c = '\n' ∧ current.head? = some '\n' then
      current.tail.reverse :: splitBlankLines [] rest
    else splitBlankLines (c :: current) rest

/-- What the decoder does with one complete line: a line that starts with
`data: ` is parsed from its seventh character on, giving the event, or nothing
when `JSON.parse` throws (the failure is logged); any other line is skipped. -/
def decodeLine (line : List Char) : Option (Option Json) :=
  if "data: ".data.isPrefixOf line then some (jsonParse (String.mk (line.drop 6))) else none

/-- The events that the decoder reads off a whole stream: the text is split on
blank lines, the last piece (what is left in the buffer) is dropped. -/
def decodeStream (stream : String) : List (Option Json) :=
  (splitBlankLines [] stream.data).dropLast.filterMap decodeLine

/-- The decoder as the tests run it, on the chunks in which the stream arrives:
each chunk is appended to the buffer, the buffer is split on blank lines, the
last piece becomes the new buffer and the pieces before it are decoded. The
chunks are taken to end between characters. -/
def decodeChunks : (buffer : List Char) → List String → List (Option Json)
  | _, [] => []
  | buffer, chunk :: rest =>
    let lines := splitBlankLines [] (buffer ++ chunk.data)
    lines.dropLast.filterMap decodeLine ++ decodeChunks (lines.getLast?.getD []) rest

/-- The text that `sendSSE` writes for an event. -/
def frameText (event : Json) : String :=
  "data: " ++ jsonStringify event ++ "\n\n"

/-- The call `sendSSE(res, event)` with a write that succeeds. -/
def sendEvent (event : Json) : ResponseAction :=
  .send (.ok (jsonStringify event)) false

/-- No two line feeds stand next to each other. -/
def NoBlankLine (cs : List Char) : Prop :=
  cs.Chain' (fun a b => ¬ (a = '\n' ∧ b = '\n'))

/-- Three frames as `/generate-website` sends them. -/
def sampleEvents : List Json :=
  [.obj [("stage", .str "planning"), ("progress", .num 15),
         ("message", .str "Creating technical specifications...")],
   .obj [("chunk", .str "line one\n\nline \"two\"")],
   .obj [("stage", .str "complete"), ("progress", .num 100),
         ("files", .arr [.obj [("path", .str "package.json"),
                               ("content", .str "\x7b\n  \"name\": \"site\"\n\x7d\n")]]),
         ("backendIncluded", .bool false)]]


/-- The stream of the sample events cut in four chunks: inside a frame, between
the two line feeds of a blank line, and inside the last frame. -/
def sampleChunks : List String :=
  ["data: \x7b\"stage\":\"planning\",\"progress\":15,\"mess",
   "age\":\"Creating technical specifications...\"\x7d\n",
   "\ndata: \x7b\"chunk\":\"line one\\n\\nline \\\"two\\\"\"\x7d\n\ndata: \x7b\"stage\":\"complete\",\"progress\":100,",
   "\"files\":[\x7b\"path\":\"package.json\",\"content\":\"\x7b\\n  \\\"name\\\": \\\"site\\\"\\n\x7d\\n\"\x7d],\"backendIncluded\":false\x7d\n\n"]


/-! ## src/server.js: the frames that reach the client -/

/-- The frames written to the response, of the frames that a run hands to
`sendSSE` in order. The wall-clock timer of the handler fires after `firedAfter`
of them (see `withTimeout`); the client disconnects after `closedAfter` frames
have been written, which sets `res.destroyed`, so that `sendSSE` drops every
later frame, the timer's frame included. `none` stands for an event that does
not happen during the run. Neither event stops the pipeline: no handler checks
the value returned by `sendSSE`, so the stage agents are called all the same. -/
def framesWritten {α : Type} (timeoutFrame : α) (frames : List α)
    (firedAfter closedAfter : Option Nat) : List α :=
  match closedAfter with
  | some k => (withTimeout timeoutFrame frames firedAfter).take k
  | none => withTimeout timeoutFrame frames firedAfter

/-- The response is open whenever the run sends a frame: the timer does not fire
and the client does not disconnect before the last frame of the run is written. -/
def StaysOpen {α : Type} (frames : List α) (firedAfter closedAfter : Option Nat) : Prop :=
  (∀ k, firedAfter = some k → frames.length ≤ k)
    ∧ (∀ k, closedAfter = some k → frames.length ≤ k)

/-- The frames written to the response of `POST /generate-website` for an
accepted request: those of the pipeline, cut by the 120-second timer or by the
client's disconnection. -/
def websiteFramesWritten (req : Request) (o : Outcomes) (firedAfter closedAfter : Option Nat) :
    List Frame :=
  framesWritten websiteTimeoutFrame (generateWebsite req o).frames firedAfter closedAfter

/-! ## Lemmas on the retry loops -/

theorem CallRun.after_nil {α : Type} (r : CallRun α) : r.after [] = r := by
  cases r; rfl

theorem CallRun.after_after {α : Type} (p q : List CallEvent) (r : CallRun α) :
    (r.after q).after p = r.after (p ++ q) := by
  simp [CallRun.after, List.append_assoc]

theorem attemptCount_append (xs ys : List CallEvent) :
    attemptCount (xs ++ ys) = attemptCount xs + attemptCount ys := by
  simp [attemptCount]

theorem delaysOf_append (xs ys : List CallEvent) :
    delaysOf (xs ++ ys) = delaysOf xs ++ delaysOf ys := by
  induction xs with
  | nil => rfl
  | cons x xs ih => cases x <;> simp [delaysOf, ih]

theorem attemptCount_retrySchedule (a n : Nat) : attemptCount (retrySchedule a n) = n := by
  induction n generalizing a with
  | zero => rfl
  | succ n ih =>
    have h := ih (a + 1)
    simp only [attemptCount] at h
    simp [retrySchedule, attemptCount, h]

theorem delaysOf_retrySchedule (a n : Nat) :
    delaysOf (retrySchedule a n) = (List.range' a n).map delayMs := by
  induction n generalizing a with
  | zero => rfl
  | succ n ih => simp [retrySchedule, delaysOf, ih, List.range'_succ]

theorem attemptCount_chunks (cs : List String) :
    attemptCount (cs.map CallEvent.chunk) = 0 := by
  induction cs with
  | nil => rfl
  | cons c cs ih =>
    simp only [attemptCount] at ih
    simp [attemptCount, ih]

theorem delaysOf_chunks (cs : List String) : delaysOf (cs.map CallEvent.chunk) = [] := by
  induction cs with
  | nil => rfl
  | cons c cs ih => simp [delaysOf, ih]

theorem attemptCount_streamAttemptEvents (create : Nat → StreamAttempt) (i : Nat) :
    attemptCount (streamAttemptEvents create i) = 1 := by
  have h := attemptCount_chunks (contentFragments (create i).fragments)
  simp only [attemptCount] at h
  simp [streamAttemptEvents, attemptCount, h]

theorem delaysOf_streamAttemptEvents (create : Nat → StreamAttempt) (i : Nat) :
    delaysOf (streamAttemptEvents create i) = [] := by
  simp [streamAttemptEvents, delaysOf, delaysOf_chunks]

theorem attemptCount_streamSchedule (create : Nat → StreamAttempt) (a n : Nat) :
    attemptCount (streamSchedule create a n) = n := by
  induction n generalizing a with
  | zero => rfl
  | succ n ih =>
    rw [streamSchedule, attemptCount_append, attemptCount_streamAttemptEvents]
    have h := ih (a + 1)
    simp only [attemptCount] at h
    simp [attemptCount, h]
    omega

theorem delaysOf_streamSchedule (create : Nat → StreamAttempt) (a n : Nat) :
    delaysOf (streamSchedule create a n) = (List.range' a n).map delayMs := by
  induction n generalizing a with
  | zero => rfl
  | succ n ih =>
    rw [streamSchedule, delaysOf_append, delaysOf_streamAttemptEvents]
    simp [delaysOf, ih, List.range'_succ]

/-- The backoff delays after attempts `1, ..., n` add up to `(2 ^ n - 1) * 1000` ms. -/
theorem sum_delayMs (n : Nat) : ((List.range' 1 n).map delayMs).sum = (2 ^ n - 1) * 1000 := by
  induction n with
  | zero => rfl
  | succ n ih =>
    rw [List.range'_concat, List.map_append, List.sum_append, ih]
    have h : 1 ≤ 2 ^ n := Nat.one_le_two_pow
    simp only [List.map_cons, List.map_nil, List.sum_cons, List.sum_nil, delayMs, Nat.mul_one,
      Nat.add_zero, Nat.one_mul]
    have e : 1 + n - 1 = n := by omega
    rw [e, Nat.pow_succ]
    omega

/-- While attempts fail with retryable errors and attempts remain, `callGroq`
logs the attempt and its delay and goes on with the next attempt. -/
theorem callGroqLoop_failing_run {α : Type} (create : Nat → Except JsError α) (retries : Nat) :
    ∀ (d a : Nat) (last : Option JsError), a + d ≤ retries →
      (∀ i, a ≤ i → i < a + d → ∃ e, create i = .error e ∧ isRetryableError e = true) →
      ∃ last1, callGroqLoop create retries (retries + 1 - a) a last
        = (callGroqLoop create retries (retries + 1 - (a + d)) (a + d) last1).after
            (retrySchedule a d) := by
  intro d
  induction d with
  | zero =>
    intro a last _ _
    exact ⟨last, by simp [retrySchedule, CallRun.after_nil]⟩
  | succ d ih =>
    intro a last hle hfail
    obtain ⟨e, he, hr⟩ := hfail a (Nat.le_refl a) (by omega)
    obtain ⟨last1, h1⟩ := ih (a + 1) (some e) (by omega)
      (fun i hi hlt => hfail i (by omega) (by omega))
    refine ⟨last1, ?_⟩
    have e1 : retries + 1 - a = (retries - a) + 1 := by omega
    have e2 : retries + 1 - (a + 1) = retries - a := by omega
    have e3 : a + 1 + d = a + (d + 1) := by omega
    have hlt : a < retries := by omega
    rw [e1, callGroqLoop, he]
    simp only [hr, Bool.not_true, Bool.false_eq_true, if_false, hlt, if_true]
    rw [← e2, h1, CallRun.after_after, e3]
    rfl

/-- The streaming counterpart of `callGroqLoop_failing_run`. -/
theorem callGroqStreamLoop_failing_run (create : Nat → StreamAttempt) (retries : Nat) :
    ∀ (d a : Nat) (last : Option JsError), a + d ≤ retries →
      (∀ i, a ≤ i → i < a + d →
        ∃ e, (create i).failure = some e ∧ isRetryableError e = true) →
      ∃ last1, callGroqStreamLoop create retries (retries + 1 - a) a last
        = (callGroqStreamLoop create retries (retries + 1 - (a + d)) (a + d) last1).after
            (streamSchedule create a d) := by
  intro d
  induction d with
  | zero =>
    intro a last _ _
    exact ⟨last, by simp [streamSchedule, CallRun.after_nil]⟩
  | succ d ih =>
    intro a last hle hfail
    obtain ⟨e, he, hr⟩ := hfail a (Nat.le_refl a) (by omega)
    obtain ⟨last1, h1⟩ := ih (a + 1) (some e) (by omega)
      (fun i hi hlt => hfail i (by omega) (by omega))
    refine ⟨last1, ?_⟩
    have e1 : retries + 1 - a = (retries - a) + 1 := by omega
    have e2 : retries + 1 - (a + 1) = retries - a := by omega
    have e3 : a + 1 + d = a + (d + 1) := by omega
    have hlt : a < retries := by omega
    rw [e1, callGroqStreamLoop]
    simp only [he, hr, Bool.not_true, Bool.false_eq_true, if_false, hlt, if_true]
    rw [← e2, h1, CallRun.after_after, e3]
    simp [streamSchedule, streamAttemptEvents, List.append_assoc]

/-! ## Gateway retry: claims C8, C9, C10 -/

/-- C8: if the first `k - 1` attempts of `callGroq` fail with retryable errors and
the `k`-th attempt (`1 ≤ k ≤ retries`) succeeds, then `callGroq` returns the
`k`-th response after exactly `k` attempts; the log is attempt `i`, delay
`1000 * 2 ^ (i - 1)` ms for `i < k`, then attempt `k`; the total wait is
`(2 ^ (k - 1) - 1) * 1000` ms. -/
theorem callGroq_returns_kth_response {α : Type} (msgs : List Message)
    (create : Nat → Except JsError α) (retries k : Nat) (response : α)
    (hmsgs : msgs ≠ []) (hk1 : 1 ≤ k) (hk : k ≤ retries)
    (hfail : ∀ i, 1 ≤ i → i < k → ∃ e, create i = .error e ∧ isRetryableError e = true)
    (hok : create k = .ok response) :
    (callGroq true (.array msgs) create retries).result = .ok response
    ∧ (callGroq true (.array msgs) create retries).events
        = retrySchedule 1 (k - 1) ++ [.attempt k]
    ∧ attemptCount (callGroq true (.array msgs) create retries).events = k
    ∧ delaysOf (callGroq true (.array msgs) create retries).events
        = (List.range' 1 (k - 1)).map (fun i => 1000 * 2 ^ (i - 1))
    ∧ totalWait (callGroq true (.array msgs) create retries).events
        = (2 ^ (k - 1) - 1) * 1000 := by
  have hinv : (MessagesArg.array msgs).invalid = false := by
    cases msgs with
    | nil => exact absurd rfl hmsgs
    | cons m ms => rfl
  obtain ⟨last1, h1⟩ := callGroqLoop_failing_run create retries (k - 1) 1 none (by omega)
    (fun i hi hlt => hfail i hi (by omega))
  have ek : 1 + (k - 1) = k := by omega
  have er : retries + 1 - k = (retries - k) + 1 := by omega
  rw [ek, er, callGroqLoop, hok] at h1
  rw [Nat.add_sub_cancel] at h1
  have hrun : callGroq true (.array msgs) create retries
      = { result := .ok response, events := retrySchedule 1 (k - 1) ++ [.attempt k] } := by
    simp only [callGroq, hinv, Bool.not_true, Bool.false_eq_true, if_false]
    rw [h1]
    rfl
  rw [hrun]
  refine ⟨rfl, rfl, ?_, ?_, ?_⟩
  · rw [attemptCount_append, attemptCount_retrySchedule]
    simp [attemptCount]
    omega
  · rw [delaysOf_append, delaysOf_retrySchedule]
    simp [delaysOf, delayMs, Nat.mul_comm]
  · rw [totalWait, delaysOf_append, delaysOf_retrySchedule]
    simp [delaysOf, sum_delayMs]

/-- C8, at a concrete input: two rate-limit failures, then success with the
default three retries; the waits are 1 s and 2 s. -/
theorem callGroq_returns_kth_response_witness :
    (callGroq true (.array [⟨"user", "hi"⟩])
        (fun n => if n < 3 then .error ⟨some "Rate limit exceeded", none⟩ else .ok "done")
        3).result = .ok "done"
    ∧ totalWait (callGroq true (.array [⟨"user", "hi"⟩])
        (fun n => if n < 3 then .error ⟨some "Rate limit exceeded", none⟩ else .ok "done")
        3).events = 3000 := by
  have h := callGroq_returns_kth_response [⟨"user", "hi"⟩]
    (fun n => if n < 3 then .error ⟨some "Rate limit exceeded", none⟩ else .ok "done")
    3 3 "done" (by simp) (by decide) (by decide)
    (fun i _ hlt => ⟨⟨some "Rate limit exceeded", none⟩, by simp [hlt], by decide⟩)
    (by simp)
  exact ⟨h.1, h.2.2.2.2⟩

/-- C9: if the `k`-th attempt of `callGroq` or of `callGroqStream` fails with an
error that `isRetryableError` rejects (the earlier attempts having failed with
retryable errors), that very error is the one thrown, the log ends with the
`k`-th attempt (no further attempt, no delay after it), `k` attempts were made,
and the wait is that of the `k - 1` earlier delays: zero when `k = 1`. -/
theorem nonretryable_error_is_rethrown_at_once {α : Type} (msgs : List Message)
    (create : Nat → Except JsError α) (stream : Nat → StreamAttempt) (retries k : Nat)
    (error : JsError)
    (hmsgs : msgs ≠ []) (hk1 : 1 ≤ k) (hk : k ≤ retries)
    (hfail : ∀ i, 1 ≤ i → i < k → ∃ e, create i = .error e ∧ isRetryableError e = true)
    (hsfail : ∀ i, 1 ≤ i → i < k →
      ∃ e, (stream i).failure = some e ∧ isRetryableError e = true)
    (herr : create k = .error error) (hserr : (stream k).failure = some error)
    (hnon : isRetryableError error = false) :
    ((callGroq true (.array msgs) create retries).result = .error error
      ∧ (callGroq true (.array msgs) create retries).events
          = retrySchedule 1 (k - 1) ++ [.attempt k]
      ∧ attemptCount (callGroq true (.array msgs) create retries).events = k
      ∧ totalWait (callGroq true (.array msgs) create retries).events
          = (2 ^ (k - 1) - 1) * 1000)
    ∧ ((callGroqStream true true (.array msgs) stream retries).result = .error error
      ∧ (callGroqStream true true (.array msgs) stream retries).events
          = streamSchedule stream 1 (k - 1) ++ streamAttemptEvents stream k
      ∧ attemptCount (callGroqStream true true (.array msgs) stream retries).events = k
      ∧ totalWait (callGroqStream true true (.array msgs) stream retries).events
          = (2 ^ (k - 1) - 1) * 1000) := by
  have hinv : (MessagesArg.array msgs).invalid = false := by
    cases msgs with
    | nil => exact absurd rfl hmsgs
    | cons m ms => rfl
  have ek : 1 + (k - 1) = k := by omega
  have er : retries + 1 - k = (retries - k) + 1 := by omega
  constructor
  · obtain ⟨last1, h1⟩ := callGroqLoop_failing_run create retries (k - 1) 1 none (by omega)
      (fun i hi hlt => hfail i hi (by omega))
    rw [ek, er, callGroqLoop, herr] at h1
    simp only [hnon, Bool.not_false, if_true] at h1
    rw [Nat.add_sub_cancel] at h1
    have hrun : callGroq true (.array msgs) create retries
        = { result := .error error, events := retrySchedule 1 (k - 1) ++ [.attempt k] } := by
      simp only [callGroq, hinv, Bool.not_true, Bool.false_eq_true, if_false]
      rw [h1]
      rfl
    rw [hrun]
    refine ⟨rfl, rfl, ?_, ?_⟩
    · rw [attemptCount_append, attemptCount_retrySchedule]
      simp [attemptCount]
      omega
    · rw [totalWait, delaysOf_append, delaysOf_retrySchedule]
      simp [delaysOf, sum_delayMs]
  · obtain ⟨last1, h1⟩ := callGroqStreamLoop_failing_run stream retries (k - 1) 1 none
      (by omega) (fun i hi hlt => hsfail i hi (by omega))
    rw [ek, er, callGroqStreamLoop] at h1
    simp only [hserr, hnon, Bool.not_false, if_true] at h1
    rw [Nat.add_sub_cancel] at h1
    have hrun : callGroqStream true true (.array msgs) stream retries
        = { result := .error error,
            events := streamSchedule stream 1 (k - 1) ++ streamAttemptEvents stream k } := by
      simp only [callGroqStream, hinv, Bool.not_true, Bool.false_eq_true, if_false]
      rw [h1]
      rfl
    rw [hrun]
    refine ⟨rfl, rfl, ?_, ?_⟩
    · rw [attemptCount_append, attemptCount_streamSchedule, attemptCount_streamAttemptEvents]
      omega
    · rw [totalWait, delaysOf_append, delaysOf_streamSchedule, delaysOf_streamAttemptEvents]
      simp [sum_delayMs]

/-- C9, at a concrete input: an authentication error on the first attempt is
thrown after one attempt and no wait, by both calls. -/
theorem nonretryable_error_is_rethrown_at_once_witness :
    ((callGroq true (.array [⟨"user", "hi"⟩])
        (fun _ => (.error ⟨some "Invalid API key", some "invalid_api_key"⟩ : Except JsError String))
        3).result = .error ⟨some "Invalid API key", some "invalid_api_key"⟩
      ∧ attemptCount (callGroq true (.array [⟨"user", "hi"⟩])
        (fun _ => (.error ⟨some "Invalid API key", some "invalid_api_key"⟩ : Except JsError String))
        3).events = 1
      ∧ totalWait (callGroq true (.array [⟨"user", "hi"⟩])
        (fun _ => (.error ⟨some "Invalid API key", some "invalid_api_key"⟩ : Except JsError String))
        3).events = 0)
    ∧ ((callGroqStream true true (.array [⟨"user", "hi"⟩])
        (fun _ => ⟨[some "par"], some ⟨some "Invalid API key", some "invalid_api_key"⟩⟩)
        3).result = .error ⟨some "Invalid API key", some "invalid_api_key"⟩
      ∧ attemptCount (callGroqStream true true (.array [⟨"user", "hi"⟩])
        (fun _ => ⟨[some "par"], some ⟨some "Invalid API key", some "invalid_api_key"⟩⟩)
        3).events = 1
      ∧ totalWait (callGroqStream true true (.array [⟨"user", "hi"⟩])
        (fun _ => ⟨[some "par"], some ⟨some "Invalid API key", some "invalid_api_key"⟩⟩)
        3).events = 0) := by
  have h := nonretryable_error_is_rethrown_at_once [⟨"user", "hi"⟩]
    (fun _ => (.error ⟨some "Invalid API key", some "invalid_api_key"⟩ : Except JsError String))
    (fun _ => ⟨[some "par"], some ⟨some "Invalid API key", some "invalid_api_key"⟩⟩)
    3 1 ⟨some "Invalid API key", some "invalid_api_key"⟩ (by simp) (by decide) (by decide)
    (fun i h1 hlt => absurd hlt (by omega)) (fun i h1 hlt => absurd hlt (by omega))
    rfl rfl (by decide)
  exact ⟨⟨h.1.1, h.1.2.2.1, h.1.2.2.2⟩, ⟨h.2.1, h.2.2.2.1, h.2.2.2.2⟩⟩

/-- C10: if every one of the `n ≥ 1` attempts of `callGroq` fails with a retryable
error, the log is attempt `i`, delay `1000 * 2 ^ (i - 1)` ms for `i < n`, then
attempt `n` with no delay after it: `n` attempts, `n - 1` delays,
`(2 ^ (n - 1) - 1) * 1000` ms in total; and the error thrown is a new Error with
message `Groq API call failed after n attempts: ` followed by the message of the
last attempt's error. -/
theorem callGroq_exhausts_retries {α : Type} (msgs : List Message)
    (create : Nat → Except JsError α) (n : Nat) (lastError : JsError)
    (hmsgs : msgs ≠ []) (hn : 1 ≤ n)
    (hfail : ∀ i, 1 ≤ i → i ≤ n → ∃ e, create i = .error e ∧ isRetryableError e = true)
    (hlast : create n = .error lastError) :
    (callGroq true (.array msgs) create n).events = retrySchedule 1 (n - 1) ++ [.attempt n]
    ∧ attemptCount (callGroq true (.array msgs) create n).events = n
    ∧ (delaysOf (callGroq true (.array msgs) create n).events).length = n - 1
    ∧ totalWait (callGroq true (.array msgs) create n).events = (2 ^ (n - 1) - 1) * 1000
    ∧ (callGroq true (.array msgs) create n).result
        = .error (JsError.ofMessage ("Groq API call failed after " ++ toString n ++ " attempts: "
            ++ templateString lastError.message)) := by
  have hinv : (MessagesArg.array msgs).invalid = false := by
    cases msgs with
    | nil => exact absurd rfl hmsgs
    | cons m ms => rfl
  have ek : 1 + (n - 1) = n := by omega
  have er : n + 1 - n = 0 + 1 := by omega
  obtain ⟨last1, h1⟩ := callGroqLoop_failing_run create n (n - 1) 1 none (by omega)
    (fun i hi hlt => hfail i hi (by omega))
  obtain ⟨e, he, hr⟩ := hfail n hn (Nat.le_refl n)
  have hee : e = lastError := by
    rw [he] at hlast
    exact Except.error.inj hlast
  subst hee
  rw [ek, er, callGroqLoop, he] at h1
  simp only [hr, Bool.not_true, Bool.false_eq_true, if_false, Nat.lt_irrefl, callGroqLoop] at h1
  rw [Nat.add_sub_cancel] at h1
  have hrun : callGroq true (.array msgs) create n
      = { result := .error (JsError.ofMessage ("Groq API call failed after " ++ toString n
              ++ " attempts: " ++ templateString e.message)),
          events := retrySchedule 1 (n - 1) ++ [.attempt n] } := by
    simp only [callGroq, hinv, Bool.not_true, Bool.false_eq_true, if_false]
    rw [h1]
    simp [CallRun.after, exhausted]
  rw [hrun]
  refine ⟨rfl, ?_, ?_, ?_, rfl⟩
  · rw [attemptCount_append, attemptCount_retrySchedule]
    simp [attemptCount]
    omega
  · rw [delaysOf_append, delaysOf_retrySchedule]
    simp [delaysOf]
  · rw [totalWait, delaysOf_append, delaysOf_retrySchedule]
    simp [delaysOf, sum_delayMs]

/-- C10, at a concrete input: three timeouts with the default three retries
give three attempts, two delays (1 s, 2 s) and the wrapped message. -/
theorem callGroq_exhausts_retries_witness :
    (callGroq true (.array [⟨"user", "hi"⟩])
        (fun _ => (.error ⟨some "Request timeout", none⟩ : Except JsError String)) 3).events
      = [.attempt 1, .delay 1000, .attempt 2, .delay 2000, .attempt 3]
    ∧ (callGroq true (.array [⟨"user", "hi"⟩])
        (fun _ => (.error ⟨some "Request timeout", none⟩ : Except JsError String)) 3).result
      = .error (JsError.ofMessage "Groq API call failed after 3 attempts: Request timeout") := by
  have h := callGroq_exhausts_retries [⟨"user", "hi"⟩]
    (fun _ => (.error ⟨some "Request timeout", none⟩ : Except JsError String)) 3
    ⟨some "Request timeout", none⟩ (by simp) (by decide)
    (fun i _ _ => ⟨⟨some "Request timeout", none⟩, rfl, by decide⟩) rfl
  exact ⟨h.1, h.2.2.2.2⟩

/-! ## Fix sub-protocol: lemmas -/

theorem fileMapGet_foldl_some (filePath : String) (files : List FileArtifact) :
    ∀ (init : Option FileArtifact) (r : FileArtifact),
      files.foldl (fun found file => if file.path = filePath then some file else found) init
          = some r →
      init = some r ∨ (r ∈ files ∧ r.path = filePath) := by
  induction files with
  | nil => intro init r h; exact Or.inl h
  | cons f fs ih =>
    intro init r h
    rw [List.foldl_cons] at h
    rcases ih _ r h with h1 | ⟨hm, hp⟩
    · by_cases hf : f.path = filePath
      · rw [if_pos hf] at h1
        have : f = r := Option.some.inj h1
        subst this
        exact Or.inr ⟨List.mem_cons_self _ _, hf⟩
      · rw [if_neg hf] at h1
        exact Or.inl h1
    · exact Or.inr ⟨List.mem_cons_of_mem _ hm, hp⟩

theorem fileMapGet_foldl_isSome_of_init (filePath : String) (files : List FileArtifact) :
    ∀ (init : Option FileArtifact), init.isSome = true →
      (files.foldl (fun found file => if file.path = filePath then some file else found)
        init).isSome = true := by
  induction files with
  | nil => intro init h; exact h
  | cons f fs ih =>
    intro init h
    rw [List.foldl_cons]
    apply ih
    by_cases hf : f.path = filePath
    · rw [if_pos hf]; rfl
    · rw [if_neg hf]; exact h

theorem fileMapGet_foldl_isSome_of_mem (filePath : String) (files : List FileArtifact) :
    ∀ (init : Option FileArtifact), (∃ f ∈ files, f.path = filePath) →
      (files.foldl (fun found file => if file.path = filePath then some file else found)
        init).isSome = true := by
  induction files with
  | nil => intro init h; obtain ⟨f, hf, _⟩ := h; cases hf
  | cons f fs ih =>
    intro init h
    rw [List.foldl_cons]
    obtain ⟨g, hg, hp⟩ := h
    rcases List.mem_cons.mp hg with heq | hmem
    · subst heq
      apply fileMapGet_foldl_isSome_of_init
      rw [if_pos hp]; rfl
    · exact ih _ ⟨g, hmem, hp⟩

/-- A file found in the map is an input file with the path looked up. -/
theorem fileMapGet_some {files : List FileArtifact} {filePath : String} {r : FileArtifact}
    (h : fileMapGet files filePath = some r) : r ∈ files ∧ r.path = filePath := by
  rcases fileMapGet_foldl_some filePath files none r h with h1 | h2
  · cases h1
  · exact h2

/-- The map has an entry for a path exactly when some input file has that path. -/
theorem fileMapGet_isSome_iff (files : List FileArtifact) (filePath : String) :
    (fileMapGet files filePath).isSome = true ↔ filePath ∈ files.map (fun f => f.path) := by
  constructor
  · intro h
    obtain ⟨r, hr⟩ := Option.isSome_iff_exists.mp h
    obtain ⟨hm, hp⟩ := fileMapGet_some hr
    exact List.mem_map.mpr ⟨r, hm, hp⟩
  · intro h
    obtain ⟨f, hf, hp⟩ := List.mem_map.mp h
    exact fileMapGet_foldl_isSome_of_mem filePath files none ⟨f, hf, hp⟩

theorem gatewayCallPaths_append (xs ys : List FixEvent) :
    gatewayCallPaths (xs ++ ys) = gatewayCallPaths xs ++ gatewayCallPaths ys := by
  induction xs with
  | nil => rfl
  | cons x xs ih => cases x <;> simp [gatewayCallPaths, ih]

theorem fileStartPaths_append (xs ys : List FixEvent) :
    fileStartPaths (xs ++ ys) = fileStartPaths xs ++ fileStartPaths ys := by
  induction xs with
  | nil => rfl
  | cons x xs ih => cases x <;> simp [fileStartPaths, ih]

theorem fileCompletePaths_append (xs ys : List FixEvent) :
    fileCompletePaths (xs ++ ys) = fileCompletePaths xs ++ fileCompletePaths ys := by
  induction xs with
  | nil => rfl
  | cons x xs ih => cases x <;> simp [fileCompletePaths, ih]

theorem gatewayCallPaths_chunks (cs : List String) :
    gatewayCallPaths (cs.map FixEvent.chunk) = [] := by
  induction cs with
  | nil => rfl
  | cons c cs ih => simp [gatewayCallPaths, ih]

theorem fileStartPaths_chunks (cs : List String) :
    fileStartPaths (cs.map FixEvent.chunk) = [] := by
  induction cs with
  | nil => rfl
  | cons c cs ih => simp [fileStartPaths, ih]

theorem fileCompletePaths_chunks (cs : List String) :
    fileCompletePaths (cs.map FixEvent.chunk) = [] := by
  induction cs with
  | nil => rfl
  | cons c cs ih => simp [fileCompletePaths, ih]

theorem relevantIssues_none_of_mem (filePath : String) (issue : CrossFileIssue)
    (hthrows : affects filePath issue = none) :
    ∀ crossFileIssues : List CrossFileIssue, issue ∈ crossFileIssues →
      relevantIssues filePath crossFileIssues = none := by
  intro crossFileIssues
  induction crossFileIssues with
  | nil => intro h; cases h
  | cons i rest ih =>
    intro h
    rw [relevantIssues]
    rcases List.mem_cons.mp h with h1 | h1
    · subst h1
      rw [hthrows]
    · cases affects filePath i with
      | none => rfl
      | some keep => simp only [ih h1]

/-- When the filter does not throw, it keeps the entries that affect the file. -/
theorem relevantIssues_some (filePath : String) :
    ∀ (crossFileIssues kept : List CrossFileIssue),
      relevantIssues filePath crossFileIssues = some kept →
        kept = crossFileIssues.filter (fun i => affects filePath i == some true) := by
  intro crossFileIssues
  induction crossFileIssues with
  | nil => intro kept h; simp [relevantIssues] at h; simp [h]
  | cons i rest ih =>
    intro kept h
    rw [relevantIssues] at h
    cases ha : affects filePath i with
    | none => simp [ha] at h
    | some keep =>
      cases hr : relevantIssues filePath rest with
      | none => simp [ha, hr] at h
      | some later =>
        simp only [ha, hr, Option.some.injEq] at h
        have hlater := ih later hr
        cases keep <;> simp_all [List.filter_cons]

theorem relevantIssues_isSome (filePath : String) :
    ∀ crossFileIssues : List CrossFileIssue,
      (∀ i ∈ crossFileIssues, affects filePath i ≠ none) →
        ∃ kept, relevantIssues filePath crossFileIssues = some kept := by
  intro crossFileIssues
  induction crossFileIssues with
  | nil => intro _; exact ⟨[], rfl⟩
  | cons i rest ih =>
    intro h
    obtain ⟨later, hlater⟩ := ih (fun j hj => h j (List.mem_cons_of_mem _ hj))
    cases ha : affects filePath i with
    | none => exact absurd ha (h i (List.mem_cons_self _ _))
    | some keep => exact ⟨_, by rw [relevantIssues, ha, hlater]⟩

/-- A non-empty string among the relevant `affectedFiles` makes `getRelatedFiles` throw. -/
theorem relatedPathsOf_none_of_text (filePath s description : String) (hs : s ≠ "") :
    ∀ issues : List CrossFileIssue, CrossFileIssue.issue (.text s) description ∈ issues →
      relatedPathsOf filePath issues = none := by
  intro issues
  induction issues with
  | nil => intro h; cases h
  | cons i rest ih =>
    intro h
    rcases List.mem_cons.mp h with h1 | h1
    · subst h1
      rw [relatedPathsOf, if_neg hs]
    · cases i with
      | null => rfl
      | issue affectedFiles d =>
        cases affectedFiles with
        | absent => rw [relatedPathsOf]; exact ih h1
        | paths ps => rw [relatedPathsOf, ih h1]
        | text t =>
          rw [relatedPathsOf]
          split
          · exact ih h1
          · rfl
        | other => rfl

theorem relatedPathsOf_isSome (filePath : String) :
    ∀ issues : List CrossFileIssue,
      (∀ i ∈ issues, ∃ ps d, i = CrossFileIssue.issue (.paths ps) d) →
        ∃ related, relatedPathsOf filePath issues = some related := by
  intro issues
  induction issues with
  | nil => intro _; exact ⟨[], rfl⟩
  | cons i rest ih =>
    intro h
    obtain ⟨later, hlater⟩ := ih (fun j hj => h j (List.mem_cons_of_mem _ hj))
    obtain ⟨ps, d, hi⟩ := h i (List.mem_cons_self _ _)
    subst hi
    exact ⟨_, by rw [relatedPathsOf, hlater]⟩

/-- The preparation of the fix call for a path throws exactly when some entry of
`crossFileIssues` breaks it. -/
theorem fixCallFor_eq_none_iff (files : List FileArtifact)
    (fileIssuesMap : List (String × List String)) (crossFileIssues : List CrossFileIssue)
    (originalFile : FileArtifact) (filePath : String) :
    fixCallFor files fileIssuesMap crossFileIssues originalFile filePath = none
      ↔ crossFileIssues.any (CrossFileIssue.breaksFor filePath) = true := by
  constructor
  · intro hnone
    by_contra hany
    have hall : ∀ i ∈ crossFileIssues, CrossFileIssue.breaksFor filePath i = false := by
      intro i hi
      cases hb : CrossFileIssue.breaksFor filePath i with
      | false => rfl
      | true => exact absurd (List.any_eq_true.mpr ⟨i, hi, hb⟩) hany
    have haffects : ∀ i ∈ crossFileIssues, affects filePath i ≠ none := by
      intro i hi
      have hb := hall i hi
      cases i with
      | null => simp [CrossFileIssue.breaksFor] at hb
      | issue affectedFiles d =>
        cases affectedFiles with
        | absent => simp [affects]
        | paths ps => simp [affects]
        | text t => rw [affects]; split <;> simp
        | other => simp [CrossFileIssue.breaksFor] at hb
    obtain ⟨kept, hkept⟩ := relevantIssues_isSome filePath crossFileIssues haffects
    have hfilter := relevantIssues_some filePath crossFileIssues kept hkept
    have hshape : ∀ i ∈ kept, ∃ ps d, i = CrossFileIssue.issue (.paths ps) d := by
      intro i hi
      rw [hfilter, List.mem_filter] at hi
      obtain ⟨hmem, htrue⟩ := hi
      have hb := hall i hmem
      cases i with
      | null => simp [CrossFileIssue.breaksFor] at hb
      | issue affectedFiles d =>
        cases affectedFiles with
        | absent => simp [affects] at htrue
        | paths ps => exact ⟨ps, d, rfl⟩
        | text t =>
          by_cases ht : t = ""
          · simp [affects, ht] at htrue
          · simp [affects, ht] at htrue
            simp [CrossFileIssue.breaksFor, ht, htrue] at hb
        | other => simp [CrossFileIssue.breaksFor] at hb
    obtain ⟨related, hrelated⟩ := relatedPathsOf_isSome filePath kept hshape
    simp [fixCallFor, hkept, getRelatedFiles, hrelated] at hnone
  · intro hany
    obtain ⟨i, hi, hb⟩ := List.any_eq_true.mp hany
    cases hkept : relevantIssues filePath crossFileIssues with
    | none => simp [fixCallFor, hkept]
    | some kept =>
      have hfilter := relevantIssues_some filePath crossFileIssues kept hkept
      cases i with
      | null =>
        rw [relevantIssues_none_of_mem filePath .null rfl crossFileIssues hi] at hkept
        cases hkept
      | issue affectedFiles d =>
        cases affectedFiles with
        | absent => simp [CrossFileIssue.breaksFor] at hb
        | paths ps => simp [CrossFileIssue.breaksFor] at hb
        | text t =>
          simp only [CrossFileIssue.breaksFor, Bool.and_eq_true, bne_iff_ne, ne_eq] at hb
          have hmem : CrossFileIssue.issue (.text t) d ∈ kept := by
            rw [hfilter, List.mem_filter]
            exact ⟨hi, by simp [affects, hb.1, hb.2]⟩
          have hrelated := relatedPathsOf_none_of_text filePath t d hb.1 kept hmem
          simp [fixCallFor, hkept, getRelatedFiles, hrelated]
        | other =>
          rw [relevantIssues_none_of_mem filePath (.issue .other d) rfl crossFileIssues hi]
            at hkept
          cases hkept

/-- A prepared fix call is for the original file. -/
theorem fixCallFor_file {files : List FileArtifact}
    {fileIssuesMap : List (String × List String)} {crossFileIssues : List CrossFileIssue}
    {originalFile : FileArtifact} {filePath : String} {call : FixCall}
    (h : fixCallFor files fileIssuesMap crossFileIssues originalFile filePath = some call) :
    call.file = originalFile := by
  unfold fixCallFor at h
  split at h
  · cases h
  · split at h
    · cases h
    · cases h; rfl

/-- The paths pushed by the fix loop and both callbacks follow the entries of
`filesWithIssues` that the file map knows, in order; the gateway calls follow
those of them whose preparation does not throw. -/
theorem fixLoop_paths (files : List FileArtifact) (fileIssuesMap : List (String × List String))
    (crossFileIssues : List CrossFileIssue) (gateway : Nat → FixCall → StreamResult) :
    ∀ (flagged : List String) (k : Nat),
      let run := fixLoop files fileIssuesMap crossFileIssues gateway flagged k
      let known := flagged.filter (fun p => (fileMapGet files p).isSome)
      run.1.map (fun f => f.path) = known
      ∧ gatewayCallPaths run.2
          = flagged.filter (fun p => (fileMapGet files p).isSome
              && !crossFileIssues.any (CrossFileIssue.breaksFor p))
      ∧ fileStartPaths run.2 = known
      ∧ fileCompletePaths run.2 = known := by
  intro flagged
  induction flagged with
  | nil => intro k; simp [fixLoop, gatewayCallPaths, fileStartPaths, fileCompletePaths]
  | cons filePath rest ih =>
    intro k
    cases hget : fileMapGet files filePath with
    | none =>
      have h := ih k
      simp only [fixLoop, hget, List.filter_cons, Option.isSome_none, Bool.false_eq_true,
        if_false, Bool.false_and]
      exact h
    | some originalFile =>
      have hp : originalFile.path = filePath := (fileMapGet_some hget).2
      cases hcall : fixCallFor files fileIssuesMap crossFileIssues originalFile filePath with
      | none =>
        have hbreak := (fixCallFor_eq_none_iff files fileIssuesMap crossFileIssues originalFile
          filePath).mp hcall
        obtain ⟨h1, h2, h3, h4⟩ := ih k
        simp only [fixLoop, hget, hcall, List.filter_cons, Option.isSome_some, if_true, hbreak,
          Bool.not_true, Bool.and_false, Bool.false_eq_true, if_false]
        simp [gatewayCallPaths, fileStartPaths, fileCompletePaths, h1, h2, h3, h4, hp]
      | some call =>
        have hbreak : crossFileIssues.any (CrossFileIssue.breaksFor filePath) = false := by
          cases hb : crossFileIssues.any (CrossFileIssue.breaksFor filePath) with
          | false => rfl
          | true =>
            rw [(fixCallFor_eq_none_iff files fileIssuesMap crossFileIssues originalFile
              filePath).mpr hb] at hcall
            cases hcall
        have hfile : call.file.path = filePath := by rw [fixCallFor_file hcall]; exact hp
        obtain ⟨h1, h2, h3, h4⟩ := ih (k + 1)
        simp only [fixLoop, hget, hcall, List.filter_cons, Option.isSome_some, if_true, hbreak,
          Bool.not_false, Bool.and_true]
        split
        · simp [gatewayCallPaths_append, fileStartPaths_append, fileCompletePaths_append,
            gatewayCallPaths, fileStartPaths, fileCompletePaths, gatewayCallPaths_chunks,
            fileStartPaths_chunks, fileCompletePaths_chunks, h1, h2, h3, h4, hp, hfile]
        · simp [gatewayCallPaths_append, fileStartPaths_append, fileCompletePaths_append,
            gatewayCallPaths, fileStartPaths, fileCompletePaths, gatewayCallPaths_chunks,
            fileStartPaths_chunks, fileCompletePaths_chunks, h1, h2, h3, h4, hp, hfile]

/-- Every file pushed by the fix loop is an input file (kept because the
preparation of its fix call or the call itself failed) or carries the text
returned by a successful fix call for its path. -/
theorem fixLoop_mem_origin (files : List FileArtifact)
    (fileIssuesMap : List (String × List String)) (crossFileIssues : List CrossFileIssue)
    (gateway : Nat → FixCall → StreamResult) :
    ∀ (flagged : List String) (k : Nat),
      ∀ f ∈ (fixLoop files fileIssuesMap crossFileIssues gateway flagged k).1,
        f ∈ files ∨ ∃ j call, (gateway j call).result = .ok f.content
          ∧ call.file.path = f.path := by
  intro flagged
  induction flagged with
  | nil => intro k f hf; simp [fixLoop] at hf
  | cons filePath rest ih =>
    intro k f hf
    cases hget : fileMapGet files filePath with
    | none =>
      simp only [fixLoop, hget] at hf
      exact ih k f hf
    | some originalFile =>
      cases hcall : fixCallFor files fileIssuesMap crossFileIssues originalFile filePath with
      | none =>
        simp only [fixLoop, hget, hcall, List.mem_cons] at hf
        rcases hf with h | h
        · left; rw [h]; exact (fileMapGet_some hget).1
        · exact ih k f h
      | some call =>
        simp only [fixLoop, hget, hcall] at hf
        split at hf
        · rename_i fixedContent hres
          simp only [List.mem_cons] at hf
          rcases hf with h | h
          · right
            subst h
            exact ⟨k, call, hres, by rw [fixCallFor_file hcall]; exact (fileMapGet_some hget).2⟩
          · exact ih (k + 1) f h
        · simp only [List.mem_cons] at hf
          rcases hf with h | h
          · left; rw [h]; exact (fileMapGet_some hget).1
          · exact ih (k + 1) f h

/-- On a non-empty files array the multi-file `fixAgent` returns the files
pushed by the fix loop followed by the unflagged input files. -/
theorem fixAgent_eq (files : List FileArtifact) (qualityReport : QualityReport)
    (gateway : Nat → FixCall → StreamResult) (hne : files ≠ []) :
    fixAgent files qualityReport gateway =
      { result := .ok
          ((fixLoop files (qualityReport.fileIssues.getD []) (qualityReport.crossFileIssues.getD [])
              gateway (qualityReport.filesWithIssues.getD []) 0).1
            ++ files.filter
                (fun file => !(qualityReport.filesWithIssues.getD []).contains file.path)),
        events :=
          (fixLoop files (qualityReport.fileIssues.getD []) (qualityReport.crossFileIssues.getD [])
              gateway (qualityReport.filesWithIssues.getD []) 0).2 } := by
  cases files with
  | nil => exact absurd rfl hne
  | cons f fs => simp [fixAgent, fixMultipleFiles]

/-! ## Fix sub-protocol: claims C4, C5, C6, C7 -/

/-- C4 (the code does not keep the promised length): with one input file `a.jsx`
and a report that lists `a.jsx` twice in `filesWithIssues`, the multi-file
`fixAgent` returns two entries for one input file, whatever the two fix calls
do. -/
theorem fixAgent_repeated_flag_returns_two_entries (gateway : Nat → FixCall → StreamResult) :
    ∃ out, (fixAgent [⟨"a.jsx", "const a = 1"⟩]
              ⟨some ["a.jsx", "a.jsx"], some [], some [], true, "fair"⟩ gateway).result = .ok out
      ∧ out.map (fun f => f.path) = ["a.jsx", "a.jsx"]
      ∧ out.length = 2
      ∧ [(⟨"a.jsx", "const a = 1"⟩ : FileArtifact)].length = 1 := by
  rw [fixAgent_eq _ _ _ (by simp)]
  have h := (fixLoop_paths [⟨"a.jsx", "const a = 1"⟩] [] [] gateway ["a.jsx", "a.jsx"] 0).1
  have hk : (["a.jsx", "a.jsx"].filter
      (fun p => (fileMapGet [⟨"a.jsx", "const a = 1"⟩] p).isSome)) = ["a.jsx", "a.jsx"] := by
    decide
  rw [hk] at h
  refine ⟨_, rfl, ?_, ?_, rfl⟩
  · simpa using h
  · have hl := congrArg List.length h
    simpa using hl

/-- The length promise of the fix stage holds whenever the input paths are
pairwise distinct and `filesWithIssues` has no repeated entry. -/
theorem fixAgent_length_of_nodup (files : List FileArtifact)
    (qualityReport : QualityReport) (gateway : Nat → FixCall → StreamResult)
    (hne : files ≠ []) (hpaths : (files.map (fun f => f.path)).Nodup)
    (hflags : (qualityReport.filesWithIssues.getD []).Nodup) :
    ∃ out, (fixAgent files qualityReport gateway).result = .ok out
      ∧ out.length = files.length := by
  rw [fixAgent_eq files qualityReport gateway hne]
  obtain ⟨h1, _, _, _⟩ := fixLoop_paths files (qualityReport.fileIssues.getD [])
    (qualityReport.crossFileIssues.getD []) gateway (qualityReport.filesWithIssues.getD []) 0
  refine ⟨_, rfl, ?_⟩
  have hfixed := congrArg List.length h1
  rw [List.length_map] at hfixed
  have hperm : ((qualityReport.filesWithIssues.getD []).filter
        (fun p => (fileMapGet files p).isSome)).Perm
      ((files.map (fun f => f.path)).filter
        (fun q => (qualityReport.filesWithIssues.getD []).contains q)) := by
    rw [List.perm_ext_iff_of_nodup (hflags.filter _) (hpaths.filter _)]
    intro x
    simp only [List.mem_filter, fileMapGet_isSome_iff, List.elem_iff, List.contains]
    exact And.comm
  have hsplit := List.length_eq_length_filter_add (l := files)
    (fun f => (qualityReport.filesWithIssues.getD []).contains f.path)
  have hmap : ((files.map (fun f => f.path)).filter
        (fun q => (qualityReport.filesWithIssues.getD []).contains q)).length
      = (files.filter
          (fun f => (qualityReport.filesWithIssues.getD []).contains f.path)).length := by
    rw [List.filter_map, List.length_map]
    rfl
  rw [List.length_append, hfixed, hperm.length_eq, hmap, hsplit]

/-- C5: every input file whose path `filesWithIssues` does not list is returned
as it is (same path, same content); these files keep their relative order (the
unflagged entries of the result are the unflagged input files, in input order);
and the gateway is called only for listed paths. -/
theorem fixAgent_passes_unflagged_files_through (files : List FileArtifact)
    (qualityReport : QualityReport) (gateway : Nat → FixCall → StreamResult)
    (hne : files ≠ []) :
    ∃ out, (fixAgent files qualityReport gateway).result = .ok out
      ∧ (∀ f ∈ files, f.path ∉ qualityReport.filesWithIssues.getD [] → f ∈ out)
      ∧ out.filter (fun f => !(qualityReport.filesWithIssues.getD []).contains f.path)
          = files.filter (fun f => !(qualityReport.filesWithIssues.getD []).contains f.path)
      ∧ (∀ p ∈ gatewayCallPaths (fixAgent files qualityReport gateway).events,
          p ∈ qualityReport.filesWithIssues.getD []) := by
  rw [fixAgent_eq files qualityReport gateway hne]
  obtain ⟨h1, h2, _, _⟩ := fixLoop_paths files (qualityReport.fileIssues.getD [])
    (qualityReport.crossFileIssues.getD []) gateway (qualityReport.filesWithIssues.getD []) 0
  refine ⟨_, rfl, ?_, ?_, ?_⟩
  · intro f hf hnot
    apply List.mem_append_right
    simp [List.mem_filter, hf, hnot]
  · rw [List.filter_append, List.filter_filter]
    have hfixed : (fixLoop files (qualityReport.fileIssues.getD [])
        (qualityReport.crossFileIssues.getD []) gateway
        (qualityReport.filesWithIssues.getD []) 0).1.filter
        (fun f => !(qualityReport.filesWithIssues.getD []).contains f.path) = [] := by
      rw [List.filter_eq_nil_iff]
      intro f hf
      have hmem : f.path ∈ (fixLoop files (qualityReport.fileIssues.getD [])
          (qualityReport.crossFileIssues.getD []) gateway
          (qualityReport.filesWithIssues.getD []) 0).1.map (fun f => f.path) :=
        List.mem_map.mpr ⟨f, hf, rfl⟩
      rw [h1] at hmem
      have := (List.mem_filter.mp hmem).1
      simp [this]
    rw [hfixed]
    simp
  · intro p hp
    simp only at hp
    rw [h2] at hp
    exact (List.mem_filter.mp hp).1

/-- C5, at a concrete input: `b.jsx` is not flagged and comes back unchanged,
and the only gateway call is for the flagged `a.jsx`. -/
theorem fixAgent_passes_unflagged_files_through_witness :
    ∃ out, (fixAgent [⟨"a.jsx", "A"⟩, ⟨"b.jsx", "B"⟩] ⟨some ["a.jsx"], none, none, true, "fair"⟩
              (fun _ _ => ⟨[], .ok "fixed A"⟩)).result = .ok out
      ∧ (⟨"b.jsx", "B"⟩ : FileArtifact) ∈ out := by
  obtain ⟨out, h, hmem, _, _⟩ := fixAgent_passes_unflagged_files_through
    [⟨"a.jsx", "A"⟩, ⟨"b.jsx", "B"⟩] ⟨some ["a.jsx"], none, none, true, "fair"⟩
    (fun _ _ => ⟨[], .ok "fixed A"⟩) (by simp)
  exact ⟨out, h, hmem ⟨"b.jsx", "B"⟩ (by simp) (by decide)⟩

/-- C6: on a non-empty files array the set of paths of the result of the
multi-file `fixAgent` equals the set of paths of the input files, for every
report (flagged paths absent from the input included) and every outcome of the
fix calls; and every returned file is an input file, unless a fix call for its
path succeeded and returned its content (so a failed fix call keeps the
original file). -/
theorem fixAgent_preserves_path_set (files : List FileArtifact)
    (qualityReport : QualityReport) (gateway : Nat → FixCall → StreamResult)
    (hne : files ≠ []) :
    ∃ out, (fixAgent files qualityReport gateway).result = .ok out
      ∧ (∀ p, p ∈ out.map (fun f => f.path) ↔ p ∈ files.map (fun f => f.path))
      ∧ (∀ f ∈ out, f ∈ files ∨ ∃ j call, (gateway j call).result = .ok f.content
            ∧ call.file.path = f.path) := by
  rw [fixAgent_eq files qualityReport gateway hne]
  obtain ⟨h1, _, _, _⟩ := fixLoop_paths files (qualityReport.fileIssues.getD [])
    (qualityReport.crossFileIssues.getD []) gateway (qualityReport.filesWithIssues.getD []) 0
  refine ⟨_, rfl, ?_, ?_⟩
  · intro p
    rw [List.map_append, List.mem_append, h1]
    constructor
    · rintro (h | h)
      · exact (fileMapGet_isSome_iff files p).mp (by simpa using (List.mem_filter.mp h).2)
      · obtain ⟨f, hf, hp⟩ := List.mem_map.mp h
        exact List.mem_map.mpr ⟨f, (List.mem_filter.mp hf).1, hp⟩
    · intro h
      by_cases hfl : p ∈ qualityReport.filesWithIssues.getD []
      · left
        exact List.mem_filter.mpr ⟨hfl, by simpa using (fileMapGet_isSome_iff files p).mpr h⟩
      · right
        obtain ⟨f, hf, hp⟩ := List.mem_map.mp h
        refine List.mem_map.mpr ⟨f, List.mem_filter.mpr ⟨hf, ?_⟩, hp⟩
        have hp1 : f.path = p := hp
        simp [hp1, hfl]
  · intro f hf
    rcases List.mem_append.mp hf with h | h
    · exact fixLoop_mem_origin files _ _ gateway _ 0 f h
    · exact Or.inl (List.mem_filter.mp h).1

/-- C6, at a concrete input: `ghost.jsx` is flagged but absent, the fix call for
`a.jsx` fails; the result has exactly the paths `a.jsx` and `b.jsx`. -/
theorem fixAgent_preserves_path_set_witness :
    ∃ out, (fixAgent [⟨"a.jsx", "A"⟩, ⟨"b.jsx", "B"⟩]
              ⟨some ["ghost.jsx", "a.jsx"], none, none, true, "poor"⟩
              (fun _ _ => ⟨[], .error ⟨some "Bad request", none⟩⟩)).result = .ok out
      ∧ ("ghost.jsx" ∉ out.map (fun f => f.path))
      ∧ ("a.jsx" ∈ out.map (fun f => f.path))
      ∧ ("b.jsx" ∈ out.map (fun f => f.path)) := by
  obtain ⟨out, h, hp, _⟩ := fixAgent_preserves_path_set
    [⟨"a.jsx", "A"⟩, ⟨"b.jsx", "B"⟩] ⟨some ["ghost.jsx", "a.jsx"], none, none, true, "poor"⟩
    (fun _ _ => ⟨[], .error ⟨some "Bad request", none⟩⟩) (by simp)
  refine ⟨out, h, ?_, ?_, ?_⟩
  · rw [hp]; decide
  · rw [hp]; decide
  · rw [hp]; decide

theorem fileMapGet_filter_eq (files : List FileArtifact) (l : List String) :
    l.filter (fun p => (fileMapGet files p).isSome)
      = l.filter (fun p => (files.map (fun f => f.path)).contains p) := by
  apply List.filter_congr
  intro p _
  by_cases hp : p ∈ files.map (fun f => f.path)
  · rw [(fileMapGet_isSome_iff files p).mpr hp]
    exact (List.elem_iff.mpr hp).symm
  · have h1 : (fileMapGet files p).isSome = false := by
      cases hs : (fileMapGet files p).isSome with
      | false => rfl
      | true => exact absurd ((fileMapGet_isSome_iff files p).mp hs) hp
    have h2 : (files.map (fun f => f.path)).contains p = false := by
      cases hc : (files.map (fun f => f.path)).contains p with
      | false => rfl
      | true => exact absurd (List.elem_iff.mp hc) hp
    rw [h1, h2]

theorem fileMapGet_filter_and_eq (files : List FileArtifact) (q : String → Bool)
    (l : List String) :
    l.filter (fun p => (fileMapGet files p).isSome && q p)
      = l.filter (fun p => (files.map (fun f => f.path)).contains p && q p) := by
  rw [← List.filter_filter, ← List.filter_filter, fileMapGet_filter_eq]

/-- C7, as the specification states it, fails: with the input file `a.jsx`
flagged and a report whose `crossFileIssues` holds a null entry (a reply that
the quality stage accepts), the filter of the cross-file issues throws inside
the per-file `try`: `onFileStart` and `onFileComplete` are called for `a.jsx`,
the original file is kept, and the gateway is not called at all. -/
theorem null_cross_file_issue_skips_fix_call :
    qualityAgentMultiFile [⟨"a.jsx", "A"⟩]
        (.ok (.obj [("fileIssues", .obj []), ("crossFileIssues", .arr [.null]),
                    ("filesWithIssues", .arr [.str "a.jsx"]), ("needsRevision", .bool true),
                    ("overallQuality", .str "fair")]))
      = .ok (.obj [("fileIssues", .obj []), ("crossFileIssues", .arr [.null]),
                   ("filesWithIssues", .arr [.str "a.jsx"]), ("needsRevision", .bool true),
                   ("overallQuality", .str "fair")])
    ∧ (fixAgent [⟨"a.jsx", "A"⟩] ⟨some ["a.jsx"], some [], some [.null], true, "fair"⟩
        (fun _ _ => ⟨["fixed A"], .ok "fixed A"⟩)).events
      = [.fileStart "a.jsx", .fileComplete "a.jsx" "A"]
    ∧ gatewayCallPaths
        (fixAgent [⟨"a.jsx", "A"⟩] ⟨some ["a.jsx"], some [], some [.null], true, "fair"⟩
          (fun _ _ => ⟨["fixed A"], .ok "fixed A"⟩)).events = []
    ∧ (fixAgent [⟨"a.jsx", "A"⟩] ⟨some ["a.jsx"], some [], some [.null], true, "fair"⟩
        (fun _ _ => ⟨["fixed A"], .ok "fixed A"⟩)).result = .ok [⟨"a.jsx", "A"⟩] := by
  refine ⟨rfl, by decide, by decide, ?_⟩
  exact congrArg Except.ok (by decide)

/-- C7, amended: on a non-empty files array the multi-file `fixAgent` calls
`onFileStart` and `onFileComplete` once, in order, for each entry of
`filesWithIssues` that is the path of an input file, and calls the gateway once
for each of these entries for which the preparation of the call does not throw,
in order, and for no other file. The preparation throws, inside the per-file
`try`, exactly when some entry of `crossFileIssues` is null, or has a truthy
`affectedFiles` that is neither an array nor a string, or has a string
`affectedFiles` that contains the path. In particular when `filesWithIssues` is
the single path `p` of an input file and no entry of `crossFileIssues` breaks
the preparation for `p`, there is exactly one fix call, for `p`, and
`onFileStart` and `onFileComplete` are each called exactly once, with `p`. -/
theorem fixAgent_calls_gateway_once_per_known_flag (files : List FileArtifact)
    (qualityReport : QualityReport) (gateway : Nat → FixCall → StreamResult)
    (hne : files ≠ []) :
    gatewayCallPaths (fixAgent files qualityReport gateway).events
        = (qualityReport.filesWithIssues.getD []).filter
            (fun p => (files.map (fun f => f.path)).contains p
              && !(qualityReport.crossFileIssues.getD []).any (CrossFileIssue.breaksFor p))
    ∧ fileStartPaths (fixAgent files qualityReport gateway).events
        = (qualityReport.filesWithIssues.getD []).filter
            (fun p => (files.map (fun f => f.path)).contains p)
    ∧ fileCompletePaths (fixAgent files qualityReport gateway).events
        = (qualityReport.filesWithIssues.getD []).filter
            (fun p => (files.map (fun f => f.path)).contains p)
    ∧ ((∀ issue ∈ qualityReport.crossFileIssues.getD [],
          ∀ p ∈ qualityReport.filesWithIssues.getD [], issue.breaksFor p = false) →
        gatewayCallPaths (fixAgent files qualityReport gateway).events
          = (qualityReport.filesWithIssues.getD []).filter
              (fun p => (files.map (fun f => f.path)).contains p))
    ∧ (∀ p, qualityReport.filesWithIssues = some [p] → p ∈ files.map (fun f => f.path) →
        (∀ issue ∈ qualityReport.crossFileIssues.getD [], issue.breaksFor p = false) →
        gatewayCallPaths (fixAgent files qualityReport gateway).events = [p]
        ∧ fileStartPaths (fixAgent files qualityReport gateway).events = [p]
        ∧ fileCompletePaths (fixAgent files qualityReport gateway).events = [p]) := by
  rw [fixAgent_eq files qualityReport gateway hne]
  obtain ⟨_, h2, h3, h4⟩ := fixLoop_paths files (qualityReport.fileIssues.getD [])
    (qualityReport.crossFileIssues.getD []) gateway (qualityReport.filesWithIssues.getD []) 0
  simp only at h2 h3 h4 ⊢
  rw [fileMapGet_filter_and_eq] at h2
  rw [fileMapGet_filter_eq] at h3 h4
  have hclean : (∀ issue ∈ qualityReport.crossFileIssues.getD [],
        ∀ p ∈ qualityReport.filesWithIssues.getD [], issue.breaksFor p = false) →
      (qualityReport.filesWithIssues.getD []).filter
          (fun p => (files.map (fun f => f.path)).contains p
            && !(qualityReport.crossFileIssues.getD []).any (CrossFileIssue.breaksFor p))
        = (qualityReport.filesWithIssues.getD []).filter
            (fun p => (files.map (fun f => f.path)).contains p) := by
    intro hall
    apply List.filter_congr
    intro p hp
    have hany : (qualityReport.crossFileIssues.getD []).any (CrossFileIssue.breaksFor p)
        = false := by
      rw [List.any_eq_false]
      intro issue hissue
      rw [hall issue hissue p hp]
      simp
    rw [hany]
    simp
  refine ⟨h2, h3, h4, fun hall => by rw [h2, hclean hall], ?_⟩
  intro p hflag hp hall
  have hc : (files.map (fun f => f.path)).contains p = true := List.elem_iff.mpr hp
  have hall1 : ∀ issue ∈ qualityReport.crossFileIssues.getD [],
      ∀ q ∈ qualityReport.filesWithIssues.getD [], issue.breaksFor q = false := by
    intro issue hissue q hq
    rw [hflag] at hq
    simp only [Option.getD_some, List.mem_singleton] at hq
    subst hq
    exact hall issue hissue
  rw [h2, hclean hall1, h3, h4, hflag]
  simp only [Option.getD_some, List.filter_cons, hc, if_true, List.filter_nil, and_self]

/-- C7 amended, at the scenario of the specification: `filesWithIssues = ["a.jsx"]`
with `a.jsx` and `b.jsx` as input, and a cross-file issue that names both files. -/
theorem fixAgent_calls_gateway_once_per_known_flag_witness :
    gatewayCallPaths (fixAgent [⟨"a.jsx", "A"⟩, ⟨"b.jsx", "B"⟩]
        ⟨some ["a.jsx"], none, some [.issue (.paths ["a.jsx", "b.jsx"]) "import path"], true,
          "fair"⟩ (fun _ _ => ⟨["fixed A"], .ok "fixed A"⟩)).events
      = ["a.jsx"]
    ∧ fileStartPaths (fixAgent [⟨"a.jsx", "A"⟩, ⟨"b.jsx", "B"⟩]
        ⟨some ["a.jsx"], none, some [.issue (.paths ["a.jsx", "b.jsx"]) "import path"], true,
          "fair"⟩ (fun _ _ => ⟨["fixed A"], .ok "fixed A"⟩)).events
      = ["a.jsx"]
    ∧ fileCompletePaths (fixAgent [⟨"a.jsx", "A"⟩, ⟨"b.jsx", "B"⟩]
        ⟨some ["a.jsx"], none, some [.issue (.paths ["a.jsx", "b.jsx"]) "import path"], true,
          "fair"⟩ (fun _ _ => ⟨["fixed A"], .ok "fixed A"⟩)).events
      = ["a.jsx"] :=
  (fixAgent_calls_gateway_once_per_known_flag [⟨"a.jsx", "A"⟩, ⟨"b.jsx", "B"⟩]
    ⟨some ["a.jsx"], none, some [.issue (.paths ["a.jsx", "b.jsx"]) "import path"], true, "fair"⟩
    (fun _ _ => ⟨["fixed A"], .ok "fixed A"⟩)
    (by simp)).2.2.2.2 "a.jsx" rfl (by simp) (by decide)

/-! ## The handler: terminal frames (claim C1) -/

theorem endsWithOneTerminal_after {rest : Run} (pre : List Frame) (calls : List StageCall)
    (hrest : EndsWithOneTerminal rest.frames) (hpre : ∀ f ∈ pre, f.isPlain) :
    EndsWithOneTerminal (rest.after pre calls).frames := by
  obtain ⟨init, last, hfr, hlast, hinit⟩ := hrest
  refine ⟨pre ++ init, last, ?_, hlast, ?_⟩
  · simp [Run.after, hfr, List.append_assoc]
  · intro f hf
    rcases List.mem_append.mp hf with h | h
    · exact hpre f h
    · exact hinit f h

theorem endsWithOneTerminal_concat (pre : List Frame) (last : Frame)
    (hpre : ∀ f ∈ pre, f.isPlain) (hlast : last.isTerminal = true) :
    EndsWithOneTerminal (pre ++ [last]) :=
  ⟨pre, last, rfl, hlast, hpre⟩

theorem endsWithOneTerminal_concat_two (pre : List Frame) (w last : Frame)
    (hpre : ∀ f ∈ pre, f.isPlain) (hw : w.isPlain) (hlast : last.isTerminal = true) :
    EndsWithOneTerminal (pre ++ [w, last]) := by
  refine ⟨pre ++ [w], last, by simp, hlast, ?_⟩
  intro f hf
  rcases List.mem_append.mp hf with h | h
  · exact hpre f h
  · rw [List.mem_singleton] at h
    subst h; exact hw

theorem codeCallbackFrames_plain (totalFiles : Nat) (events : List CodeEvent) :
    ∀ (n : Nat), ∀ f ∈ codeCallbackFrames totalFiles n events, f.isPlain := by
  induction events with
  | nil => intro n f hf; simp [codeCallbackFrames] at hf
  | cons ev rest ih =>
    intro n f hf
    cases ev with
    | fileStart filePath =>
      simp only [codeCallbackFrames, List.mem_cons] at hf
      rcases hf with h | h
      · subst h
        simp [Frame.isPlain, Frame.isComplete, Frame.isFatalError]
      · exact ih n f h
    | chunk c =>
      simp only [codeCallbackFrames] at hf
      exact ih n f hf
    | fileComplete file =>
      simp only [codeCallbackFrames, List.mem_cons] at hf
      rcases hf with h | h
      · subst h
        split <;> simp [Frame.isPlain, Frame.isComplete, Frame.isFatalError]
      · exact ih (n + 1) f h

theorem fixCallbackFrames_plain (filesToFix : Nat) (events : List FixEvent) :
    ∀ (n : Nat), ∀ f ∈ fixCallbackFrames filesToFix n events, f.isPlain := by
  induction events with
  | nil => intro n f hf; simp [fixCallbackFrames] at hf
  | cons ev rest ih =>
    intro n f hf
    cases ev with
    | fileStart filePath =>
      simp only [fixCallbackFrames, List.mem_cons] at hf
      rcases hf with h | h
      · subst h
        simp [Frame.isPlain, Frame.isComplete, Frame.isFatalError]
      · exact ih n f h
    | gatewayCall call =>
      simp only [fixCallbackFrames] at hf
      exact ih n f hf
    | chunk c =>
      simp only [fixCallbackFrames] at hf
      exact ih n f hf
    | fileComplete filePath content =>
      simp only [fixCallbackFrames, List.mem_cons] at hf
      rcases hf with h | h
      · subst h
        simp [Frame.isPlain, Frame.isComplete, Frame.isFatalError]
      · exact ih (n + 1) f h

theorem chunkFrames_plain (chunks : List String) :
    ∀ f ∈ chunks.map (fun c => ({ chunk := some c } : Frame)), f.isPlain := by
  intro f hf
  obtain ⟨c, _, hc⟩ := List.mem_map.mp hf
  subst hc
  simp [Frame.isPlain, Frame.isComplete, Frame.isFatalError]

theorem generatingErrorFrame_isTerminal (message : String) (errs : List FileGenError) :
    (generatingErrorFrame message errs).isTerminal = true := by
  unfold generatingErrorFrame
  split <;> simp [Frame.isTerminal, Frame.isComplete, Frame.isFatalError]

theorem completionStage_ends (req : Request) (finalFiles : List FileArtifact) (count : Nat) :
    EndsWithOneTerminal (completionStage req finalFiles count).frames :=
  endsWithOneTerminal_concat [] _ (by simp)
    (by simp [Frame.isTerminal, Frame.isComplete, Frame.isFatalError])

theorem backendStage_ends (req : Request) (o : Outcomes) (finalFiles : List FileArtifact) :
    EndsWithOneTerminal (backendStage req o finalFiles).frames := by
  unfold backendStage
  split
  · split
    · apply endsWithOneTerminal_after _ _ (completionStage_ends _ _ _)
      intro f hf
      rcases List.mem_cons.mp hf with h | h
      · subst h; simp [Frame.isPlain, Frame.isComplete, Frame.isFatalError]
      · exact chunkFrames_plain _ f h
    · apply endsWithOneTerminal_after _ _ (completionStage_ends _ _ _)
      intro f hf
      rcases List.mem_append.mp hf with h | h
      · rcases List.mem_cons.mp h with h1 | h1
        · subst h1; simp [Frame.isPlain, Frame.isComplete, Frame.isFatalError]
        · exact chunkFrames_plain _ f h1
      · rw [List.mem_singleton] at h
        subst h; simp [Frame.isPlain, Frame.isComplete, Frame.isFatalError]
  · exact completionStage_ends _ _ _

theorem fixStage_ends (req : Request) (o : Outcomes) (generatedFiles : List FileArtifact)
    (qualityReport : QualityReport) :
    EndsWithOneTerminal (fixStage req o generatedFiles qualityReport).frames := by
  unfold fixStage
  split
  · simp only
    split
    · apply endsWithOneTerminal_after _ _ (backendStage_ends _ _ _)
      intro f hf
      rcases List.mem_cons.mp hf with h | h
      · subst h; simp [Frame.isPlain, Frame.isComplete, Frame.isFatalError]
      · exact fixCallbackFrames_plain _ _ _ f h
    · apply endsWithOneTerminal_after _ _ (backendStage_ends _ _ _)
      intro f hf
      rcases List.mem_append.mp hf with h | h
      · rcases List.mem_cons.mp h with h1 | h1
        · subst h1; simp [Frame.isPlain, Frame.isComplete, Frame.isFatalError]
        · exact fixCallbackFrames_plain _ _ _ f h1
      · rw [List.mem_singleton] at h
        subst h; simp [Frame.isPlain, Frame.isComplete, Frame.isFatalError]
  · exact backendStage_ends _ _ _

theorem qualityStage_ends (req : Request) (o : Outcomes) (generatedFiles : List FileArtifact) :
    EndsWithOneTerminal (qualityStage req o generatedFiles).frames := by
  unfold qualityStage
  split
  · split
    · apply endsWithOneTerminal_after _ _ (fixStage_ends _ _ _ _)
      intro f hf
      simp only [List.mem_cons, List.mem_singleton, List.not_mem_nil, or_false] at hf
      rcases hf with h | h <;> subst h <;>
        simp [Frame.isPlain, Frame.isComplete, Frame.isFatalError]
    · exact endsWithOneTerminal_concat [_] _
        (by intro f hf
            rw [List.mem_singleton] at hf
            subst hf; simp [Frame.isPlain, Frame.isComplete, Frame.isFatalError])
        (by simp [Frame.isTerminal, Frame.isComplete, Frame.isFatalError])
  · exact backendStage_ends _ _ _

theorem generatingOpening_plain (totalFiles : Nat) (events : List CodeEvent) :
    ∀ f ∈ ({ stage := some "generating", progress := some (.num 40),
             message := some "Generating website files..." } : Frame)
          :: codeCallbackFrames totalFiles 0 events, f.isPlain := by
  intro f hf
  rcases List.mem_cons.mp hf with h | h
  · subst h; simp [Frame.isPlain, Frame.isComplete, Frame.isFatalError]
  · exact codeCallbackFrames_plain _ _ _ f h

theorem generatingStage_ends (req : Request) (o : Outcomes) (fs : FileStructure) :
    EndsWithOneTerminal (generatingStage req o fs).frames := by
  unfold generatingStage
  split
  · exact endsWithOneTerminal_concat _ _ (generatingOpening_plain _ _)
      (generatingErrorFrame_isTerminal _ _)
  · simp only
    split
    · split
      · exact endsWithOneTerminal_concat_two _ _ _ (generatingOpening_plain _ _)
          (by simp [Frame.isPlain, Frame.isComplete, Frame.isFatalError])
          (generatingErrorFrame_isTerminal _ _)
      · apply endsWithOneTerminal_after _ _ (qualityStage_ends _ _ _)
        intro f hf
        rcases List.mem_append.mp hf with h | h
        · exact generatingOpening_plain _ _ f h
        · rw [List.mem_singleton] at h
          subst h; simp [Frame.isPlain, Frame.isComplete, Frame.isFatalError]
    · exact endsWithOneTerminal_after _ _ (qualityStage_ends _ _ _)
        (generatingOpening_plain _ _)

theorem designStage_ends (req : Request) (o : Outcomes) (fs : FileStructure) :
    EndsWithOneTerminal (designStage req o fs).frames := by
  unfold designStage
  split
  · apply endsWithOneTerminal_after _ _ (generatingStage_ends _ _ _)
    intro f hf
    rw [List.mem_singleton] at hf
    subst hf; simp [Frame.isPlain, Frame.isComplete, Frame.isFatalError]
  · exact endsWithOneTerminal_concat [_] _
      (by intro f hf
          rw [List.mem_singleton] at hf
          subst hf; simp [Frame.isPlain, Frame.isComplete, Frame.isFatalError])
      (by simp [Frame.isTerminal, Frame.isComplete, Frame.isFatalError])

theorem planningStage_ends (req : Request) (o : Outcomes) (fs : FileStructure) :
    EndsWithOneTerminal (planningStage req o fs).frames := by
  unfold planningStage
  split
  · apply endsWithOneTerminal_after _ _ (designStage_ends _ _ _)
    intro f hf
    rw [List.mem_singleton] at hf
    subst hf; simp [Frame.isPlain, Frame.isComplete, Frame.isFatalError]
  · exact endsWithOneTerminal_concat [_] _
      (by intro f hf
          rw [List.mem_singleton] at hf
          subst hf; simp [Frame.isPlain, Frame.isComplete, Frame.isFatalError])
      (by simp [Frame.isTerminal, Frame.isComplete, Frame.isFatalError])

theorem architectureError_ends (message : String) :
    EndsWithOneTerminal
      [({ stage := some "architecture", progress := some (.num 5),
          message := some "Planning project structure..." } : Frame),
        architectureErrorFrame message] :=
  endsWithOneTerminal_concat [_] _
    (by intro f hf
        rw [List.mem_singleton] at hf
        subst hf; simp [Frame.isPlain, Frame.isComplete, Frame.isFatalError])
    (by simp [architectureErrorFrame, Frame.isTerminal, Frame.isComplete, Frame.isFatalError])

/-- C1, as the specification states it, fails: in the run where the generation
of the home page fails and leaves a placeholder (QA off, no backend), two
frames are terminal in the specification's sense (the per-file notice carrying
`error`, and `complete`), and the first of them is followed by two more frames. -/
theorem spec_terminal_frame_is_not_unique :
    ((generateWebsite ⟨some false, false⟩ outcomesWithFailedFile).frames.filter
        Frame.isSpecTerminal).length = 2
    ∧ (generateWebsite ⟨some false, false⟩ outcomesWithFailedFile).frames.map
        Frame.isSpecTerminal
      = [false, false, false, false, false, false, false, false, false, false, false,
         true, false, true] := by
  decide

/-- C1, amended: every run of the handler on an open connection sends exactly
one terminal frame, as its last frame, where a terminal frame has stage
`complete` or else is a fatal error: an `error` frame that is neither a per-file
failure notice of the generating stage (those carry `fileName`) nor the notice
of a failed fix stage (it carries `warning`); both of these are followed by
further frames. -/
theorem generateWebsite_ends_with_one_terminal_frame (req : Request) (o : Outcomes) :
    ∃ init last, (generateWebsite req o).frames = init ++ [last]
      ∧ (last.isComplete != last.isFatalError) = true
      ∧ ∀ f ∈ init, f.isComplete = false ∧ f.isFatalError = false := by
  have h : EndsWithOneTerminal (generateWebsite req o).frames := by
    unfold generateWebsite
    split
    · exact architectureError_ends _
    · split
      · exact architectureError_ends _
      · apply endsWithOneTerminal_after _ _ (planningStage_ends _ _ _)
        intro f hf
        rw [List.mem_singleton] at hf
        subst hf; simp [Frame.isPlain, Frame.isComplete, Frame.isFatalError]
  exact h

/-! ## The handler: stage failures (claim C3) -/

theorem truncatedAt_after {s : Stage} {rest : Run} (pre : List Frame) (calls : List StageCall)
    (hrest : TruncatedAt s rest) (hpre : ∀ f ∈ pre, f.isCleanFor s) :
    TruncatedAt s (rest.after pre calls) := by
  obtain ⟨hc, hnc, hcount, hcount2, f, hl, hf⟩ := hrest
  have hpre1 : pre.filter (Frame.isStageError s) = [] := by
    rw [List.filter_eq_nil_iff]
    intro g hg
    simp [(hpre g hg).2.1]
  refine ⟨?_, ?_, ?_, ?_, f, ?_, hf⟩
  · simp [Run.after, List.getLast?_append, hc]
  · intro g hg
    rcases List.mem_append.mp hg with h | h
    · exact (hpre g h).1
    · exact hnc g h
  · simp [Run.after, List.filter_append, hpre1, hcount]
  · intro hs
    have hpre2 : pre.filter (Frame.isErrorTagged s) = [] := by
      rw [List.filter_eq_nil_iff]
      intro g hg
      simp [(hpre g hg).2.2 hs]
    simp [Run.after, List.filter_append, hpre2, hcount2 hs]
  · simp [Run.after, List.getLast?_append, hl]

theorem truncatedAt_leaf (s : Stage) (pre : List Frame) (err : Frame)
    (hpre : ∀ f ∈ pre, f.isCleanFor s) (herr : err.isStageError s = true)
    (hnc : err.isComplete = false) :
    TruncatedAt s { frames := pre ++ [err], calls := [⟨s, true⟩] } := by
  have hpre1 : pre.filter (Frame.isStageError s) = [] := by
    rw [List.filter_eq_nil_iff]
    intro g hg
    simp [(hpre g hg).2.1]
  have htag : err.isErrorTagged s = true := by
    simp only [Frame.isStageError, Bool.and_eq_true] at herr
    simp [Frame.isErrorTagged, herr.1.1, herr.1.2]
  refine ⟨rfl, ?_, ?_, ?_, err, ?_, herr⟩
  · intro g hg
    rcases List.mem_append.mp hg with h | h
    · exact (hpre g h).1
    · rw [List.mem_singleton] at h
      subst h; exact hnc
  · simp [List.filter_append, hpre1, herr]
  · intro hs
    have hpre2 : pre.filter (Frame.isErrorTagged s) = [] := by
      rw [List.filter_eq_nil_iff]
      intro g hg
      simp [(hpre g hg).2.2 hs]
    simp [List.filter_append, hpre2, htag]
  · simp

theorem codeCallbackFrames_clean (s : Stage) (totalFiles : Nat) (events : List CodeEvent) :
    ∀ (n : Nat), ∀ f ∈ codeCallbackFrames totalFiles n events, f.isCleanFor s := by
  induction events with
  | nil => intro n f hf; simp [codeCallbackFrames] at hf
  | cons ev rest ih =>
    intro n f hf
    cases ev with
    | fileStart filePath =>
      simp only [codeCallbackFrames, List.mem_cons] at hf
      rcases hf with h | h
      · subst h
        simp [Frame.isCleanFor, Frame.isComplete, Frame.isStageError, Frame.isErrorTagged]
      · exact ih n f h
    | chunk c =>
      simp only [codeCallbackFrames] at hf
      exact ih n f hf
    | fileComplete file =>
      simp only [codeCallbackFrames, List.mem_cons] at hf
      rcases hf with h | h
      · subst h
        split
        · cases s <;>
            simp [Frame.isCleanFor, Frame.isComplete, Frame.isStageError, Frame.isErrorTagged,
              Stage.name]
        · simp [Frame.isCleanFor, Frame.isComplete, Frame.isStageError, Frame.isErrorTagged]
      · exact ih (n + 1) f h

theorem generatingOpening_clean (s : Stage) (totalFiles : Nat) (events : List CodeEvent) :
    ∀ f ∈ ({ stage := some "generating", progress := some (.num 40),
             message := some "Generating website files..." } : Frame)
          :: codeCallbackFrames totalFiles 0 events, f.isCleanFor s := by
  intro f hf
  rcases List.mem_cons.mp hf with h | h
  · subst h
    simp [Frame.isCleanFor, Frame.isComplete, Frame.isStageError, Frame.isErrorTagged]
  · exact codeCallbackFrames_clean s _ _ _ f h

theorem generatingErrorFrame_isStageError (message : String) (errs : List FileGenError) :
    (generatingErrorFrame message errs).isStageError .generating = true
      ∧ (generatingErrorFrame message errs).isComplete = false := by
  unfold generatingErrorFrame
  split <;> simp [Frame.isStageError, Frame.isComplete, Stage.name]

theorem backendStage_calls (req : Request) (o : Outcomes) (finalFiles : List FileArtifact) :
    ∀ c ∈ (backendStage req o finalFiles).calls, c.stage = .backend := by
  unfold backendStage
  split
  · split <;> simp [Run.after, completionStage]
  · simp [completionStage]

theorem fixStage_calls (req : Request) (o : Outcomes) (generatedFiles : List FileArtifact)
    (qualityReport : QualityReport) :
    ∀ c ∈ (fixStage req o generatedFiles qualityReport).calls,
      c.stage = .fixing ∨ c.stage = .backend := by
  unfold fixStage
  split
  · simp only
    split
    · intro c hc
      simp only [Run.after, List.mem_append, List.mem_singleton] at hc
      rcases hc with h | h
      · subst h; exact Or.inl rfl
      · exact Or.inr (backendStage_calls _ _ _ c h)
    · intro c hc
      simp only [Run.after, List.mem_append, List.mem_singleton] at hc
      rcases hc with h | h
      · subst h; exact Or.inl rfl
      · exact Or.inr (backendStage_calls _ _ _ c h)
  · intro c hc
    exact Or.inr (backendStage_calls _ _ _ c hc)

theorem qualityStage_truncated (s : Stage) (hs1 : s ≠ .fixing) (hs2 : s ≠ .backend)
    (req : Request) (o : Outcomes) (generatedFiles : List FileArtifact)
    (hmem : (⟨s, true⟩ : StageCall) ∈ (qualityStage req o generatedFiles).calls) :
    TruncatedAt s (qualityStage req o generatedFiles) := by
  unfold qualityStage at hmem ⊢
  split at hmem
  · rw [if_pos (by assumption)]
    simp only at hmem ⊢
    split at hmem
    · rename_i report hq
      simp only [Run.after, List.mem_append, List.mem_singleton, StageCall.mk.injEq,
        Bool.true_eq_false, and_false, false_or] at hmem
      rcases fixStage_calls _ _ _ _ _ hmem with h | h
      · exact absurd h hs1
      · exact absurd h hs2
    · rename_i message hq
      simp only [List.mem_singleton, StageCall.mk.injEq, and_true] at hmem
      subst hmem
      exact truncatedAt_leaf .reviewing [_] _
        (by intro f hf
            rw [List.mem_singleton] at hf
            subst hf
            simp [Frame.isCleanFor, Frame.isComplete, Frame.isStageError, Frame.isErrorTagged])
        (by simp [Frame.isStageError, Stage.name])
        (by simp [Frame.isComplete])
  · have h := backendStage_calls _ _ _ _ hmem
    exact absurd h hs2

theorem generatingStage_truncated (s : Stage) (hs1 : s ≠ .fixing) (hs2 : s ≠ .backend)
    (req : Request) (o : Outcomes) (fs : FileStructure)
    (hmem : (⟨s, true⟩ : StageCall) ∈ (generatingStage req o fs).calls) :
    TruncatedAt s (generatingStage req o fs) := by
  unfold generatingStage at hmem ⊢
  simp only at hmem ⊢
  split at hmem
  · rename_i message hc
    simp only [List.mem_singleton, StageCall.mk.injEq, and_true] at hmem
    subst hmem
    exact truncatedAt_leaf .generating _ _ (generatingOpening_clean _ _ _)
      (generatingErrorFrame_isStageError _ _).1 (generatingErrorFrame_isStageError _ _).2
  · rename_i generatedFiles hc
    split at hmem
    · rw [if_pos (by assumption)]
      split at hmem
      · simp at hmem
      · rw [if_neg (by assumption)]
        simp only [Run.after, List.mem_append, List.mem_singleton, StageCall.mk.injEq,
          Bool.true_eq_false, and_false, false_or] at hmem
        apply truncatedAt_after _ _ (qualityStage_truncated s hs1 hs2 _ _ _ hmem)
        intro f hf
        rcases List.mem_append.mp hf with h | h
        · exact generatingOpening_clean _ _ _ f h
        · rw [List.mem_singleton] at h
          subst h
          simp [Frame.isCleanFor, Frame.isComplete, Frame.isStageError, Frame.isErrorTagged]
    · rw [if_neg (by assumption)]
      simp only [Run.after, List.mem_append, List.mem_singleton, StageCall.mk.injEq,
        Bool.true_eq_false, and_false, false_or] at hmem
      exact truncatedAt_after _ _ (qualityStage_truncated s hs1 hs2 _ _ _ hmem)
        (generatingOpening_clean _ _ _)

theorem designStage_truncated (s : Stage) (hs1 : s ≠ .fixing) (hs2 : s ≠ .backend)
    (req : Request) (o : Outcomes) (fs : FileStructure)
    (hmem : (⟨s, true⟩ : StageCall) ∈ (designStage req o fs).calls) :
    TruncatedAt s (designStage req o fs) := by
  unfold designStage at hmem ⊢
  simp only at hmem ⊢
  split at hmem
  · rename_i u hd
    simp only [Run.after, List.mem_append, List.mem_singleton, StageCall.mk.injEq,
      Bool.true_eq_false, and_false, false_or] at hmem
    apply truncatedAt_after _ _ (generatingStage_truncated s hs1 hs2 _ _ _ hmem)
    intro f hf
    rw [List.mem_singleton] at hf
    subst hf
    simp [Frame.isCleanFor, Frame.isComplete, Frame.isStageError, Frame.isErrorTagged]
  · rename_i message hd
    simp only [List.mem_singleton, StageCall.mk.injEq, and_true] at hmem
    subst hmem
    exact truncatedAt_leaf .designing [_] _
      (by intro f hf
          rw [List.mem_singleton] at hf
          subst hf
          simp [Frame.isCleanFor, Frame.isComplete, Frame.isStageError, Frame.isErrorTagged])
      (by simp [Frame.isStageError, Stage.name])
      (by simp [Frame.isComplete])

theorem planningStage_truncated (s : Stage) (hs1 : s ≠ .fixing) (hs2 : s ≠ .backend)
    (req : Request) (o : Outcomes) (fs : FileStructure)
    (hmem : (⟨s, true⟩ : StageCall) ∈ (planningStage req o fs).calls) :
    TruncatedAt s (planningStage req o fs) := by
  unfold planningStage at hmem ⊢
  simp only at hmem ⊢
  split at hmem
  · rename_i u hd
    simp only [Run.after, List.mem_append, List.mem_singleton, StageCall.mk.injEq,
      Bool.true_eq_false, and_false, false_or] at hmem
    apply truncatedAt_after _ _ (designStage_truncated s hs1 hs2 _ _ _ hmem)
    intro f hf
    rw [List.mem_singleton] at hf
    subst hf
    simp [Frame.isCleanFor, Frame.isComplete, Frame.isStageError, Frame.isErrorTagged]
  · rename_i message hd
    simp only [List.mem_singleton, StageCall.mk.injEq, and_true] at hmem
    subst hmem
    exact truncatedAt_leaf .planning [_] _
      (by intro f hf
          rw [List.mem_singleton] at hf
          subst hf
          simp [Frame.isCleanFor, Frame.isComplete, Frame.isStageError, Frame.isErrorTagged])
      (by simp [Frame.isStageError, Stage.name])
      (by simp [Frame.isComplete])

theorem generateWebsite_truncated (s : Stage) (hs1 : s ≠ .fixing) (hs2 : s ≠ .backend)
    (req : Request) (o : Outcomes)
    (hmem : (⟨s, true⟩ : StageCall) ∈ (generateWebsite req o).calls) :
    TruncatedAt s (generateWebsite req o) := by
  unfold generateWebsite at hmem ⊢
  simp only at hmem ⊢
  split at hmem
  · rename_i message ha
    simp only [List.mem_singleton, StageCall.mk.injEq, and_true] at hmem
    subst hmem
    exact truncatedAt_leaf .architecture [_] _
      (by intro f hf
          rw [List.mem_singleton] at hf
          subst hf
          simp [Frame.isCleanFor, Frame.isComplete, Frame.isStageError, Frame.isErrorTagged])
      (by simp [architectureErrorFrame, Frame.isStageError, Stage.name])
      (by simp [architectureErrorFrame, Frame.isComplete])
  · rename_i value ha
    split at hmem
    · simp at hmem
    · rename_i fs hch
      simp only [Run.after, List.mem_append, List.mem_singleton, StageCall.mk.injEq,
        Bool.true_eq_false, and_false, false_or] at hmem
      apply truncatedAt_after _ _ (planningStage_truncated s hs1 hs2 _ _ _ hmem)
      intro f hf
      rw [List.mem_singleton] at hf
      subst hf
      simp [Frame.isCleanFor, Frame.isComplete, Frame.isStageError, Frame.isErrorTagged]

theorem getLast?_append_of_some {α : Type} (pre l : List α) (x : α)
    (h : l.getLast? = some x) : (pre ++ l).getLast? = some x := by
  rw [List.getLast?_append, h]
  rfl

theorem continuesAfterFix_after {req : Request} {rest : Run} (pre : List Frame)
    (calls : List StageCall) (hrest : ContinuesAfterFix req rest)
    (hpre : ∀ f ∈ pre, f.isErrorTagged .fixing = false) :
    ContinuesAfterFix req (rest.after pre calls) := by
  obtain ⟨hcount, ⟨f, hl, hf⟩, hb⟩ := hrest
  have hpre1 : pre.filter (Frame.isErrorTagged .fixing) = [] := by
    rw [List.filter_eq_nil_iff]
    intro g hg
    simp [hpre g hg]
  refine ⟨?_, ⟨f, ?_, hf⟩, ?_⟩
  · simp [Run.after, List.filter_append, hpre1, hcount]
  · exact getLast?_append_of_some _ _ _ hl
  · intro hreq
    obtain ⟨b, hlast⟩ := hb hreq
    exact ⟨b, getLast?_append_of_some _ _ _ hlast⟩

theorem backendStage_noError (req : Request) (o : Outcomes) (finalFiles : List FileArtifact) :
    ∀ f ∈ (backendStage req o finalFiles).frames, f.hasError = false := by
  unfold backendStage
  split
  · simp only
    split
    · intro f hf
      simp only [Run.after, completionStage, List.mem_append, List.mem_cons, List.mem_map,
        List.mem_singleton, List.not_mem_nil, or_false] at hf
      rcases hf with (h | ⟨c, _, h⟩) | h <;> subst h <;> simp [Frame.hasError]
    · intro f hf
      simp only [Run.after, completionStage, List.mem_append, List.mem_cons, List.mem_map,
        List.mem_singleton, List.not_mem_nil, or_false] at hf
      rcases hf with ((h | ⟨c, _, h⟩) | h) | h <;> subst h <;> simp [Frame.hasError]
  · intro f hf
    simp only [completionStage, List.mem_singleton] at hf
    subst hf; simp [Frame.hasError]

theorem backendStage_last_complete (req : Request) (o : Outcomes)
    (finalFiles : List FileArtifact) :
    ∃ f, (backendStage req o finalFiles).frames.getLast? = some f ∧ f.isComplete = true := by
  unfold backendStage
  split
  · simp only
    split
    · exact ⟨_, getLast?_append_of_some _ _ _ rfl, by simp [Frame.isComplete]⟩
    · exact ⟨_, getLast?_append_of_some _ _ _ rfl, by simp [Frame.isComplete]⟩
  · exact ⟨_, rfl, by simp [Frame.isComplete]⟩

theorem backendStage_calls_last (req : Request) (o : Outcomes) (finalFiles : List FileArtifact)
    (hreq : req.includeBackend = true) :
    ∃ b, (backendStage req o finalFiles).calls.getLast? = some ⟨.backend, b⟩ := by
  unfold backendStage
  rw [if_pos hreq]
  simp only
  split
  · exact ⟨false, by simp [Run.after, completionStage]⟩
  · exact ⟨true, by simp [Run.after, completionStage]⟩

theorem fixCallbackFrames_noError (filesToFix : Nat) (events : List FixEvent) :
    ∀ (n : Nat), ∀ f ∈ fixCallbackFrames filesToFix n events, f.hasError = false := by
  induction events with
  | nil => intro n f hf; simp [fixCallbackFrames] at hf
  | cons ev rest ih =>
    intro n f hf
    cases ev with
    | fileStart filePath =>
      simp only [fixCallbackFrames, List.mem_cons] at hf
      rcases hf with h | h
      · subst h; simp [Frame.hasError]
      · exact ih n f h
    | gatewayCall call =>
      simp only [fixCallbackFrames] at hf
      exact ih n f hf
    | chunk c =>
      simp only [fixCallbackFrames] at hf
      exact ih n f hf
    | fileComplete filePath content =>
      simp only [fixCallbackFrames, List.mem_cons] at hf
      rcases hf with h | h
      · subst h; simp [Frame.hasError]
      · exact ih (n + 1) f h

theorem isErrorTagged_of_noError {f : Frame} (s : Stage) (h : f.hasError = false) :
    f.isErrorTagged s = false := by
  simp only [Frame.hasError] at h
  simp [Frame.isErrorTagged, h]

theorem fixStage_continues (req : Request) (o : Outcomes) (generatedFiles : List FileArtifact)
    (qualityReport : QualityReport)
    (hmem : (⟨.fixing, true⟩ : StageCall) ∈ (fixStage req o generatedFiles qualityReport).calls) :
    ContinuesAfterFix req (fixStage req o generatedFiles qualityReport) := by
  unfold fixStage at hmem ⊢
  split at hmem
  · rw [if_pos (by assumption)]
    simp only at hmem ⊢
    split at hmem
    · simp only [Run.after, List.mem_append, List.mem_singleton, StageCall.mk.injEq,
        Bool.true_eq_false, and_false, false_or] at hmem
      have h := backendStage_calls _ _ _ _ hmem
      cases h
    · obtain ⟨f, hl, hf⟩ := backendStage_last_complete req o generatedFiles
      have hb : (backendStage req o generatedFiles).frames.filter (Frame.isErrorTagged .fixing)
          = [] := by
        rw [List.filter_eq_nil_iff]
        intro g hg
        simp [isErrorTagged_of_noError .fixing (backendStage_noError _ _ _ g hg)]
      have hc : ∀ (n : Nat) (evs : List FixEvent) (k : Nat),
          (fixCallbackFrames n k evs).filter (Frame.isErrorTagged .fixing) = [] := by
        intro n evs k
        rw [List.filter_eq_nil_iff]
        intro g hg
        simp [isErrorTagged_of_noError .fixing (fixCallbackFrames_noError _ _ _ g hg)]
      refine ⟨?_, ⟨f, ?_, hf⟩, ?_⟩
      · simp [Run.after, List.filter_append, List.filter_cons, hb, hc, Frame.isErrorTagged,
          Stage.name]
      · exact getLast?_append_of_some _ _ _ hl
      · intro hreq
        obtain ⟨b, hlast⟩ := backendStage_calls_last req o generatedFiles hreq
        exact ⟨b, getLast?_append_of_some _ _ _ hlast⟩
  · have h := backendStage_calls _ _ _ _ hmem
    cases h

theorem qualityStage_continues (req : Request) (o : Outcomes) (generatedFiles : List FileArtifact)
    (hmem : (⟨.fixing, true⟩ : StageCall) ∈ (qualityStage req o generatedFiles).calls) :
    ContinuesAfterFix req (qualityStage req o generatedFiles) := by
  unfold qualityStage at hmem ⊢
  split at hmem
  · rw [if_pos (by assumption)]
    simp only at hmem ⊢
    split at hmem
    · simp only [Run.after, List.mem_append, List.mem_singleton, StageCall.mk.injEq,
        Bool.true_eq_false, and_false, false_or] at hmem
      apply continuesAfterFix_after _ _ (fixStage_continues _ _ _ _ hmem)
      intro f hf
      simp only [List.mem_cons, List.mem_singleton, List.not_mem_nil, or_false] at hf
      rcases hf with h | h <;> subst h <;> simp [Frame.isErrorTagged]
    · simp at hmem
  · have h := backendStage_calls _ _ _ _ hmem
    cases h

theorem codeCallbackFrames_notFixing (totalFiles : Nat) (events : List CodeEvent) (n : Nat) :
    ∀ f ∈ codeCallbackFrames totalFiles n events, f.isErrorTagged .fixing = false := by
  intro f hf
  exact (codeCallbackFrames_clean .fixing totalFiles events n f hf).2.2 (by decide)

theorem generatingStage_continues (req : Request) (o : Outcomes) (fs : FileStructure)
    (hmem : (⟨.fixing, true⟩ : StageCall) ∈ (generatingStage req o fs).calls) :
    ContinuesAfterFix req (generatingStage req o fs) := by
  unfold generatingStage at hmem ⊢
  simp only at hmem ⊢
  split at hmem
  · simp at hmem
  · split at hmem
    · rw [if_pos (by assumption)]
      split at hmem
      · simp at hmem
      · rw [if_neg (by assumption)]
        simp only [Run.after, List.mem_append, List.mem_singleton, StageCall.mk.injEq,
          Bool.true_eq_false, and_false, false_or] at hmem
        apply continuesAfterFix_after _ _ (qualityStage_continues _ _ _ hmem)
        intro f hf
        rcases List.mem_append.mp hf with h | h
        · rcases List.mem_cons.mp h with h1 | h1
          · subst h1; simp [Frame.isErrorTagged]
          · exact codeCallbackFrames_notFixing _ _ _ f h1
        · rw [List.mem_singleton] at h
          subst h; simp [Frame.isErrorTagged]
    · rw [if_neg (by assumption)]
      simp only [Run.after, List.mem_append, List.mem_singleton, StageCall.mk.injEq,
        Bool.true_eq_false, and_false, false_or] at hmem
      apply continuesAfterFix_after _ _ (qualityStage_continues _ _ _ hmem)
      intro f hf
      rcases List.mem_cons.mp hf with h1 | h1
      · subst h1; simp [Frame.isErrorTagged]
      · exact codeCallbackFrames_notFixing _ _ _ f h1

theorem designStage_continues (req : Request) (o : Outcomes) (fs : FileStructure)
    (hmem : (⟨.fixing, true⟩ : StageCall) ∈ (designStage req o fs).calls) :
    ContinuesAfterFix req (designStage req o fs) := by
  unfold designStage at hmem ⊢
  simp only at hmem ⊢
  split at hmem
  · simp only [Run.after, List.mem_append, List.mem_singleton, StageCall.mk.injEq,
      Bool.true_eq_false, and_false, false_or] at hmem
    apply continuesAfterFix_after _ _ (generatingStage_continues _ _ _ hmem)
    intro f hf
    rw [List.mem_singleton] at hf
    subst hf; simp [Frame.isErrorTagged]
  · simp at hmem

theorem planningStage_continues (req : Request) (o : Outcomes) (fs : FileStructure)
    (hmem : (⟨.fixing, true⟩ : StageCall) ∈ (planningStage req o fs).calls) :
    ContinuesAfterFix req (planningStage req o fs) := by
  unfold planningStage at hmem ⊢
  simp only at hmem ⊢
  split at hmem
  · simp only [Run.after, List.mem_append, List.mem_singleton, StageCall.mk.injEq,
      Bool.true_eq_false, and_false, false_or] at hmem
    apply continuesAfterFix_after _ _ (designStage_continues _ _ _ hmem)
    intro f hf
    rw [List.mem_singleton] at hf
    subst hf; simp [Frame.isErrorTagged]
  · simp at hmem

theorem generateWebsite_continues (req : Request) (o : Outcomes)
    (hmem : (⟨.fixing, true⟩ : StageCall) ∈ (generateWebsite req o).calls) :
    ContinuesAfterFix req (generateWebsite req o) := by
  unfold generateWebsite at hmem ⊢
  simp only at hmem ⊢
  split at hmem
  · simp at hmem
  · split at hmem
    · simp at hmem
    · simp only [Run.after, List.mem_append, List.mem_singleton, StageCall.mk.injEq,
        Bool.true_eq_false, and_false, false_or] at hmem
      apply continuesAfterFix_after _ _ (planningStage_continues _ _ _ hmem)
      intro f hf
      rw [List.mem_singleton] at hf
      subst hf; simp [Frame.isErrorTagged]

/-- C3, as the specification states it, fails for the fixing stage: in the run
where the call of `fixAgent` throws (backend requested, the response open to the
end), the frame reporting the failure of `fixing` is followed by the backend
stage and by a `complete` frame. -/
theorem fix_failure_does_not_end_run :
    (⟨.fixing, true⟩ : StageCall) ∈ (generateWebsite ⟨some true, true⟩ outcomesWithFailedFix).calls
    ∧ (generateWebsite ⟨some true, true⟩ outcomesWithFailedFix).calls.getLast?
        = some ⟨.backend, false⟩
    ∧ (websiteFramesWritten ⟨some true, true⟩ outcomesWithFailedFix none none).map
        (fun f => (f.isErrorTagged .fixing, f.isComplete))
      = [(false, false), (false, false), (false, false), (false, false), (false, false),
         (false, false), (false, false), (false, false), (false, false), (false, false),
         (false, false), (false, false), (false, false), (false, false), (false, false),
         (true, false), (false, false), (false, true)] := by
  decide

/-! ## The handler: progress values (claim C2) -/

theorem JsonNum.le_num (a b : Nat) : (JsonNum.num a).le (.num b) = decide (a ≤ b) := rfl

theorem rising_nil (lo hi : Nat) : Rising lo hi [] :=
  ⟨List.Pairwise.nil, fun _ h => absurd h (List.not_mem_nil _)⟩

theorem rising_singleton (lo hi n : Nat) (h1 : lo ≤ n) (h2 : n ≤ hi) :
    Rising lo hi [.num n] :=
  ⟨List.pairwise_singleton _ _, fun _ hv => ⟨n, List.mem_singleton.mp hv, h1, h2⟩⟩

theorem rising_mono {lo hi lo1 hi1 : Nat} {vs : List JsonNum} (h : Rising lo hi vs)
    (hlo : lo1 ≤ lo) (hhi : hi ≤ hi1) : Rising lo1 hi1 vs :=
  ⟨h.1, fun v hv => by
    obtain ⟨n, hn, h1, h2⟩ := h.2 v hv
    exact ⟨n, hn, by omega, by omega⟩⟩

theorem rising_append {lo mid hi : Nat} {xs ys : List JsonNum} (hx : Rising lo mid xs)
    (hy : Rising mid hi ys) (h1 : lo ≤ mid) (h2 : mid ≤ hi) : Rising lo hi (xs ++ ys) := by
  refine ⟨List.pairwise_append.mpr ⟨hx.1, hy.1, ?_⟩, ?_⟩
  · intro a ha b hb
    obtain ⟨n, hn, _, hn2⟩ := hx.2 a ha
    obtain ⟨m, hm, hm1, _⟩ := hy.2 b hb
    subst hn; subst hm
    rw [JsonNum.le_num]
    exact decide_eq_true (by omega)
  · intro v hv
    rcases List.mem_append.mp hv with h | h
    · obtain ⟨n, hn, a, b⟩ := hx.2 v h
      exact ⟨n, hn, a, by omega⟩
    · obtain ⟨n, hn, a, b⟩ := hy.2 v h
      exact ⟨n, hn, by omega, b⟩

theorem rising_cons {lo hi n : Nat} {vs : List JsonNum} (hv : Rising n hi vs)
    (h1 : lo ≤ n) (h2 : n ≤ hi) : Rising lo hi (.num n :: vs) :=
  rising_append (rising_singleton lo n n h1 (Nat.le_refl n)) hv h1 h2

theorem nonDecreasing_of_rising {lo hi : Nat} :
    ∀ {vs : List JsonNum}, Rising lo hi vs → nonDecreasing vs = true := by
  intro vs
  induction vs with
  | nil => intro _; rfl
  | cons a rest ih =>
    intro h
    have hrest : Rising lo hi rest :=
      ⟨(List.pairwise_cons.mp h.1).2, fun v hv => h.2 v (List.mem_cons_of_mem _ hv)⟩
    obtain ⟨n, hn, _, _⟩ := h.2 a (List.mem_cons_self _ _)
    subst hn
    cases rest with
    | nil => rfl
    | cons b rest2 =>
      have hab := (List.pairwise_cons.mp h.1).1 b (List.mem_cons_self _ _)
      simp only [nonDecreasing, hab, Bool.true_and]
      exact ih hrest

theorem progressValues_nil : progressValues [] = [] := rfl

theorem progressValues_append (xs ys : List Frame) :
    progressValues (xs ++ ys) = progressValues xs ++ progressValues ys := by
  simp [progressValues, List.filterMap_append]

theorem progressValues_cons (f : Frame) (fs : List Frame) :
    progressValues (f :: fs) = (match f.progress with
      | some v => v :: progressValues fs
      | none => progressValues fs) := by
  simp only [progressValues, List.filterMap_cons]
  cases f.progress <;> rfl

theorem progressValues_chunks (chunks : List String) :
    progressValues (chunks.map (fun c => ({ chunk := some c } : Frame))) = [] := by
  induction chunks with
  | nil => rfl
  | cons c cs ih => rw [List.map_cons, progressValues_cons]; exact ih

theorem fileProgress_bounds (n m t : Nat) (hnm : n ≤ m) (hm : m ≤ t) :
    40 + n * 40 / t ≤ 40 + m * 40 / t ∧ 40 + m * 40 / t ≤ 80 := by
  constructor
  · exact Nat.add_le_add_left (Nat.div_le_div_right (Nat.mul_le_mul_right 40 hnm)) 40
  · have h : m * 40 / t ≤ 40 := by
      apply Nat.div_le_of_le_mul
      calc m * 40 ≤ t * 40 := Nat.mul_le_mul_right 40 hm
        _ = t * 40 := rfl
    omega

/-- The per-file progress values never fall and stay within the band up to 80,
as long as the counter `filesCompleted` does not exceed `totalFiles`. -/
theorem codeCallbackFrames_rising (t : Nat) (ht : 1 ≤ t) (events : List CodeEvent) :
    ∀ (n : Nat), n + completedCount events ≤ t →
      Rising (40 + n * 40 / t) 80 (progressValues (codeCallbackFrames t n events)) := by
  have htne : t ≠ 0 := by omega
  induction events with
  | nil => intro n _; exact rising_nil _ _
  | cons ev rest ih =>
    intro n hn
    cases ev with
    | fileStart filePath =>
      simp only [completedCount] at hn
      simp only [codeCallbackFrames, progressValues_cons, fileProgress, htne, if_false]
      exact rising_cons (ih n hn) (Nat.le_refl _)
        (fileProgress_bounds n n t (Nat.le_refl n) (by omega)).2
    | chunk c =>
      simp only [completedCount] at hn
      simp only [codeCallbackFrames]
      exact ih n hn
    | fileComplete file =>
      simp only [completedCount] at hn
      have hb := fileProgress_bounds n (n + 1) t (by omega) (by omega)
      have hrest := ih (n + 1) (by omega)
      simp only [codeCallbackFrames]
      split
      · simp only [progressValues_cons, fileProgress, htne, if_false]
        exact rising_cons hrest hb.1 hb.2
      · simp only [progressValues_cons, fileProgress, htne, if_false]
        exact rising_cons hrest hb.1 hb.2

theorem fixCallbackFrames_rising (filesToFix : Nat) (events : List FixEvent) :
    ∀ (n : Nat), Rising 90 90 (progressValues (fixCallbackFrames filesToFix n events)) := by
  induction events with
  | nil => intro n; exact rising_nil _ _
  | cons ev rest ih =>
    intro n
    cases ev with
    | fileStart filePath =>
      simp only [fixCallbackFrames, progressValues_cons]
      exact rising_cons (ih n) (Nat.le_refl _) (Nat.le_refl _)
    | gatewayCall call => simp only [fixCallbackFrames]; exact ih n
    | chunk c => simp only [fixCallbackFrames]; exact ih n
    | fileComplete filePath content =>
      simp only [fixCallbackFrames, progressValues_cons]
      exact rising_cons (ih (n + 1)) (Nat.le_refl _) (Nat.le_refl _)

theorem completionStage_rising (req : Request) (finalFiles : List FileArtifact) (count : Nat) :
    Rising 100 100 (progressValues (completionStage req finalFiles count).frames) := by
  simp only [completionStage, progressValues_cons]
  exact rising_singleton _ _ _ (Nat.le_refl _) (Nat.le_refl _)

theorem backendStage_rising (req : Request) (o : Outcomes) (finalFiles : List FileArtifact) :
    Rising 85 100 (progressValues (backendStage req o finalFiles).frames)
    ∧ (req.includeBackend = false →
        Rising 100 100 (progressValues (backendStage req o finalFiles).frames)) := by
  unfold backendStage
  split
  · rename_i hreq
    refine ⟨?_, fun h => by rw [h] at hreq; cases hreq⟩
    simp only
    split
    · simp only [Run.after, progressValues_append, progressValues_cons, progressValues_chunks,
        List.nil_append]
      exact rising_cons (rising_mono (completionStage_rising _ _ _) (by omega) (by omega))
        (by omega) (by omega)
    · simp only [Run.after, progressValues_append, progressValues_cons, progressValues_chunks,
        List.nil_append]
      exact rising_cons (rising_mono (completionStage_rising _ _ _) (by omega) (by omega))
        (by omega) (by omega)
  · exact ⟨rising_mono (completionStage_rising _ _ _) (by omega) (by omega),
      fun _ => completionStage_rising _ _ _⟩

theorem fixStage_rising (req : Request) (o : Outcomes) (generatedFiles : List FileArtifact)
    (qualityReport : QualityReport)
    (h : req.includeBackend = false ∨ qualityReport.needsRevision = false) :
    Rising 85 100 (progressValues (fixStage req o generatedFiles qualityReport).frames) := by
  unfold fixStage
  split
  · rename_i hrev
    have hreq : req.includeBackend = false := by
      rcases h with h | h
      · exact h
      · rw [h] at hrev; cases hrev
    simp only
    split
    · simp only [Run.after, progressValues_append, progressValues_cons]
      exact rising_cons (rising_append (rising_mono (fixCallbackFrames_rising _ _ _)
          (Nat.le_refl _) (Nat.le_refl _))
        (rising_mono ((backendStage_rising _ _ _).2 hreq) (by omega) (by omega))
        (Nat.le_refl _) (by omega)) (by omega) (by omega)
    · simp only [Run.after, progressValues_append, progressValues_cons, progressValues_nil,
        List.append_nil]
      exact rising_cons (rising_append (rising_mono (fixCallbackFrames_rising _ _ _)
          (Nat.le_refl _) (Nat.le_refl _))
        (rising_mono ((backendStage_rising _ _ _).2 hreq) (by omega) (by omega))
        (Nat.le_refl _) (by omega)) (by omega) (by omega)
  · exact (backendStage_rising _ _ _).1

theorem qualityStage_rising (req : Request) (o : Outcomes) (generatedFiles : List FileArtifact)
    (h : req.includeBackend = false ∨ req.qaEnabled = false
      ∨ ∀ r, o.quality = .ok r → r.needsRevision = false) :
    Rising 85 100 (progressValues (qualityStage req o generatedFiles).frames) := by
  unfold qualityStage
  split
  · rename_i hqa
    simp only
    split
    · rename_i report hq
      have h1 : req.includeBackend = false ∨ report.needsRevision = false := by
        rcases h with h | h | h
        · exact Or.inl h
        · rw [h] at hqa; cases hqa
        · exact Or.inr (h report hq)
      simp only [Run.after, progressValues_append, progressValues_cons, List.nil_append,
        progressValues, List.filterMap_nil]
      exact rising_cons (rising_mono (fixStage_rising _ _ _ _ h1) (Nat.le_refl _)
        (Nat.le_refl _)) (Nat.le_refl _) (by omega)
    · simp only [progressValues_cons, progressValues_nil]
      exact rising_singleton _ _ _ (Nat.le_refl _) (by omega)
  · exact (backendStage_rising _ _ _).1

theorem generatingStage_rising (req : Request) (o : Outcomes) (fs : FileStructure)
    (h : req.includeBackend = false ∨ req.qaEnabled = false
      ∨ ∀ r, o.quality = .ok r → r.needsRevision = false)
    (ht : 1 ≤ totalFilesOf fs) (hc : completedCount o.code.events ≤ totalFilesOf fs) :
    Rising 40 100 (progressValues (generatingStage req o fs).frames) := by
  have hcb := codeCallbackFrames_rising (totalFilesOf fs) ht o.code.events 0 (by omega)
  simp only [Nat.zero_mul, Nat.zero_div, Nat.add_zero] at hcb
  have hq := qualityStage_rising req o
  have herr : ∀ m errs, progressValues [generatingErrorFrame m errs] = [] := by
    intro m errs
    unfold generatingErrorFrame
    split <;> simp [progressValues]
  unfold generatingStage
  simp only
  split
  · simp only [progressValues_append, progressValues_cons, herr, List.append_nil]
    exact rising_cons (rising_mono hcb (Nat.le_refl _) (by omega)) (Nat.le_refl _) (by omega)
  · split
    · split
      · have e : ∀ (w e1 : Frame), [w, e1] = [w] ++ [e1] := fun _ _ => rfl
        simp only [e, progressValues_append, progressValues_cons, progressValues_nil, herr,
          List.append_nil]
        exact rising_cons (rising_append hcb
          (rising_singleton 80 100 80 (Nat.le_refl _) (by omega)) (by omega) (by omega))
          (Nat.le_refl _) (by omega)
      · simp only [Run.after, progressValues_append, progressValues_cons]
        simp only [progressValues, List.filterMap_nil, List.append_assoc, List.nil_append,
          List.cons_append]
        exact rising_cons (rising_append hcb
          (rising_cons (rising_mono (hq _ h) (by omega) (Nat.le_refl _)) (Nat.le_refl _)
            (by omega)) (by omega) (by omega))
          (Nat.le_refl _) (by omega)
    · simp only [Run.after, progressValues_append, progressValues_cons]
      exact rising_cons (rising_append hcb
        (rising_mono (hq _ h) (by omega) (Nat.le_refl _)) (by omega) (by omega))
        (Nat.le_refl _) (by omega)

/-- Apart from the backend frame that follows a fix stage, the handler keeps the
progress promise: when the backend is not requested, or QA is disabled, or the
report asks for no revision, and the counter `filesCompleted` stays within a
positive `totalFiles`, the progress values of a run never decrease. -/
theorem progress_nonDecreasing_unless_backend_after_fix (req : Request) (o : Outcomes)
    (h : req.includeBackend = false ∨ req.qaEnabled = false
      ∨ ∀ r, o.quality = .ok r → r.needsRevision = false)
    (hfiles : ∀ value fs, o.architecture = .ok value → architectureChecks value = .ok fs →
      1 ≤ totalFilesOf fs ∧ completedCount o.code.events ≤ totalFilesOf fs) :
    nonDecreasing (progressValues (generateWebsite req o).frames) = true := by
  have hr : Rising 5 100 (progressValues (generateWebsite req o).frames) := by
    unfold generateWebsite
    simp only
    split
    · simp only [progressValues_cons, architectureErrorFrame, progressValues_nil]
      exact rising_singleton _ _ _ (Nat.le_refl _) (by omega)
    · rename_i value ha
      split
      · simp only [progressValues_cons, architectureErrorFrame, progressValues_nil]
        exact rising_singleton _ _ _ (Nat.le_refl _) (by omega)
      · rename_i fs hfs
        obtain ⟨ht, hc⟩ := hfiles value fs ha hfs
        have hg := generatingStage_rising req o fs h ht hc
        have hd : Rising 25 100 (progressValues (designStage req o fs).frames) := by
          unfold designStage
          simp only
          split
          · simp only [Run.after, progressValues_append, progressValues_cons,
              progressValues_nil, List.nil_append]
            exact rising_cons (rising_mono hg (by omega) (Nat.le_refl _)) (Nat.le_refl _)
              (by omega)
          · simp only [progressValues_cons, progressValues_nil]
            exact rising_singleton _ _ _ (Nat.le_refl _) (by omega)
        have hp : Rising 15 100 (progressValues (planningStage req o fs).frames) := by
          unfold planningStage
          simp only
          split
          · simp only [Run.after, progressValues_append, progressValues_cons,
              progressValues_nil, List.nil_append]
            exact rising_cons (rising_mono hd (by omega) (Nat.le_refl _)) (Nat.le_refl _)
              (by omega)
          · simp only [progressValues_cons, progressValues_nil]
            exact rising_singleton _ _ _ (Nat.le_refl _) (by omega)
        simp only [Run.after, progressValues_append, progressValues_cons,
          progressValues_nil, List.nil_append]
        exact rising_cons (rising_mono hp (by omega) (Nat.le_refl _)) (Nat.le_refl _)
          (by omega)
  exact nonDecreasing_of_rising hr

/-- C2 (the code lets the progress fall): in the run where every stage succeeds,
QA is enabled, the report asks for a revision and a backend is requested, the
progress values are 5, 15, 25, 40, ..., 80, 85, 90, 90, 90, then 85 for the
backend stage, then 100: the sequence is not non-decreasing. -/
theorem backend_progress_falls_below_fixing :
    progressValues (generateWebsite ⟨some true, true⟩ sampleOutcomes).frames
      = [.num 5, .num 15, .num 25, .num 40, .num 40, .num 50, .num 50, .num 60, .num 60,
         .num 70, .num 70, .num 80, .num 85, .num 90, .num 90, .num 90, .num 85, .num 100]
    ∧ nonDecreasing (progressValues (generateWebsite ⟨some true, true⟩ sampleOutcomes).frames)
        = false := by
  decide


/-! ## Gateway configuration checks and streaming: claims C11, C12 -/

theorem contentFragments_eq (fragments : List (Option String)) :
    contentFragments fragments = (fragments.filterMap id).filter (fun c => c ≠ "") := by
  induction fragments with
  | nil => rfl
  | cons x rest ih =>
    cases x with
    | none => simpa [contentFragments] using ih
    | some c =>
      by_cases hc : c = ""
      · simp [contentFragments, hc, ih]
      · simp [contentFragments, hc, ih]

theorem chunksOf_chunks (cs : List String) : chunksOf (cs.map CallEvent.chunk) = cs := by
  induction cs with
  | nil => rfl
  | cons c cs ih => simp [chunksOf, ih]

/-- C11: when the first attempt of a `callGroqStream` call (client initialised,
`onChunk` a function, messages non-empty, at least one attempt allowed) streams
to its end without error, `onChunk` is invoked once for each non-empty content
fragment, in arrival order and for nothing else, no second attempt or delay
takes place, and the returned string is the concatenation of those fragments in
that order. -/
theorem callGroqStream_first_attempt_completes (msgs : List Message)
    (stream : Nat → StreamAttempt) (retries : Nat)
    (hmsgs : msgs ≠ []) (hretries : 1 ≤ retries) (hok : (stream 1).failure = none) :
    chunksOf (callGroqStream true true (.array msgs) stream retries).events
        = ((stream 1).fragments.filterMap id).filter (fun c => c ≠ "")
    ∧ (callGroqStream true true (.array msgs) stream retries).events
        = .attempt 1 :: (((stream 1).fragments.filterMap id).filter (fun c => c ≠ "")).map
            CallEvent.chunk
    ∧ (callGroqStream true true (.array msgs) stream retries).result
        = .ok (String.join (((stream 1).fragments.filterMap id).filter (fun c => c ≠ ""))) := by
  have hinv : (MessagesArg.array msgs).invalid = false := by
    cases msgs with
    | nil => exact absurd rfl hmsgs
    | cons m ms => rfl
  obtain ⟨r, hr⟩ : ∃ r, retries = r + 1 := ⟨retries - 1, by omega⟩
  subst hr
  have hrun : callGroqStream true true (.array msgs) stream (r + 1)
      = { result := .ok (String.join (contentFragments (stream 1).fragments)),
          events := .attempt 1 :: (contentFragments (stream 1).fragments).map CallEvent.chunk } := by
    simp only [callGroqStream, hinv, Bool.not_true, Bool.false_eq_true, if_false,
      callGroqStreamLoop, hok]
  rw [hrun, ← contentFragments_eq]
  refine ⟨?_, rfl, rfl⟩
  simp [chunksOf, chunksOf_chunks]

/-- C11, at a concrete input: a stream with an empty fragment and a chunk without
content delivers the two non-empty fragments and returns their concatenation. -/
theorem callGroqStream_first_attempt_completes_witness :
    chunksOf (callGroqStream true true (.array [⟨"user", "hi"⟩])
        (fun _ => ⟨[some "const ", none, some "", some "a = 1"], none⟩) 3).events
      = ["const ", "a = 1"]
    ∧ (callGroqStream true true (.array [⟨"user", "hi"⟩])
        (fun _ => ⟨[some "const ", none, some "", some "a = 1"], none⟩) 3).result
      = .ok "const a = 1" := by
  have h := callGroqStream_first_attempt_completes [⟨"user", "hi"⟩]
    (fun _ => ⟨[some "const ", none, some "", some "a = 1"], none⟩) 3 (by simp) (by decide) rfl
  refine ⟨?_, ?_⟩
  · rw [h.1]; decide
  · rw [h.2.2]; exact congrArg Except.ok (by decide)

/-- C12: `callGroq` and `callGroqStream` throw without any attempt or delay when
the client handle is not initialised (whatever the other arguments are: this
check comes first), or when `messages` is missing, not an array or empty;
`callGroqStream` also does so when `onChunk` is not a function (checked before
the messages). No attempt being made, nothing is retried. -/
theorem config_errors_throw_before_any_attempt {α : Type} (onChunkIsFunction : Bool)
    (messages : MessagesArg) (create : Nat → Except JsError α) (stream : Nat → StreamAttempt)
    (retries : Nat) :
    (callGroq false messages create retries
        = { result := .error (JsError.ofMessage
              "Groq client not initialized. Call createGroqClient() first."), events := [] }
      ∧ callGroqStream false onChunkIsFunction messages stream retries
        = { result := .error (JsError.ofMessage
              "Groq client not initialized. Call createGroqClient() first."), events := [] })
    ∧ (messages = .missing ∨ messages = .notArray ∨ messages = .array [] →
        callGroq true messages create retries
          = { result := .error (JsError.ofMessage
                "Messages array is required and must not be empty"), events := [] }
        ∧ callGroqStream true true messages stream retries
          = { result := .error (JsError.ofMessage
                "Messages array is required and must not be empty"), events := [] })
    ∧ (onChunkIsFunction = false →
        callGroqStream true onChunkIsFunction messages stream retries
          = { result := .error (JsError.ofMessage "onChunk callback function is required"),
              events := [] }) := by
  refine ⟨⟨rfl, rfl⟩, ?_, ?_⟩
  · intro h
    have hinv : messages.invalid = true := by
      rcases h with h | h | h <;> subst h <;> rfl
    simp [callGroq, callGroqStream, hinv]
  · intro h
    subst h
    rfl

/-- C12, at concrete inputs: an empty messages array and a missing `onChunk`. -/
theorem config_errors_throw_before_any_attempt_witness :
    attemptCount (callGroq true (.array [])
        (fun _ => (.ok "never asked" : Except JsError String)) 3).events = 0
    ∧ (callGroqStream true false (.array [⟨"user", "hi"⟩]) (fun _ => ⟨[some "x"], none⟩) 3).events
        = [] := by
  have h := config_errors_throw_before_any_attempt false (.array [])
    (fun _ => (.ok "never asked" : Except JsError String)) (fun _ => ⟨[some "x"], none⟩) 3
  have h2 := config_errors_throw_before_any_attempt false (.array [⟨"user", "hi"⟩])
    (fun _ => (.ok "never asked" : Except JsError String)) (fun _ => ⟨[some "x"], none⟩) 3
  refine ⟨?_, ?_⟩
  · rw [(h.2.1 (Or.inr (Or.inr rfl))).1]; rfl
  · rw [h2.2.2 rfl]


/-! ## Retry classification: claims C13, C14 -/

theorem isPrefixOf_map (f : Char → Char) :
    ∀ (pat text : List Char), pat.isPrefixOf text = true →
      (pat.map f).isPrefixOf (text.map f) = true := by
  intro pat
  induction pat with
  | nil => intro text _; simp
  | cons a as ih =>
    intro text h
    cases text with
    | nil => simp at h
    | cons b bs =>
      simp only [List.isPrefixOf, Bool.and_eq_true, beq_iff_eq] at h
      simp only [List.map_cons, List.isPrefixOf, Bool.and_eq_true, beq_iff_eq]
      exact ⟨congrArg f h.1, ih bs h.2⟩

theorem includesChars_map (f : Char → Char) (pat : List Char) :
    ∀ (text : List Char), includesChars text pat = true →
      includesChars (text.map f) (pat.map f) = true := by
  intro text
  induction text with
  | nil =>
    intro h
    simp only [includesChars] at h
    simpa [includesChars] using isPrefixOf_map f pat [] h
  | cons c rest ih =>
    intro h
    simp only [includesChars, Bool.or_eq_true] at h
    simp only [List.map_cons, includesChars, Bool.or_eq_true]
    rcases h with h | h
    · exact Or.inl (by simpa using isPrefixOf_map f pat (c :: rest) h)
    · exact Or.inr (ih h)

/-- A text that lower-casing leaves alone is found in the lower-cased message
whenever it is found in the message. -/
theorem jsIncludes_toLowerCase (message pat : String) (hpat : toLowerCase pat = pat)
    (h : jsIncludes message pat = true) : jsIncludes (toLowerCase message) pat = true := by
  have h1 := includesChars_map Char.toLower pat.data message.data h
  have h2 : pat.data.map Char.toLower = pat.data := by
    have := congrArg String.data hpat
    simpa [toLowerCase] using this
  rw [h2] at h1
  simpa [jsIncludes, toLowerCase] using h1

/-- C13 (the code does not do what its comment `Server errors (5xx)` says): an
error whose message reports the 5xx status 501 is not classified as transient by
`isRetryableError`, and `callGroq` throws it after one attempt without retrying. -/
theorem status_501_is_not_retried :
    isRetryableError ⟨some "501 Not Implemented", none⟩ = false
    ∧ (callGroq true (.array [⟨"user", "hi"⟩])
        (fun _ => (.error ⟨some "501 Not Implemented", none⟩ : Except JsError String)) 3).events
      = [.attempt 1]
    ∧ (callGroq true (.array [⟨"user", "hi"⟩])
        (fun _ => (.error ⟨some "501 Not Implemented", none⟩ : Except JsError String)) 3).result
      = .error ⟨some "501 Not Implemented", none⟩ := by
  refine ⟨by decide, by decide, ?_⟩
  exact congrArg Except.error (by decide)

/-- The four server errors that the check does list: every error whose message
contains `500`, `502`, `503` or `504`
is classified as transient by `isRetryableError`, and when the first attempt of
`callGroq` fails with such an error and a second attempt is allowed, `callGroq`
waits 1000 ms and makes the second attempt. -/
theorem listed_server_error_is_retried {α : Type} (msgs : List Message)
    (create : Nat → Except JsError α) (retries : Nat) (error : JsError) (message : String)
    (hmessage : error.message = some message)
    (hstatus : jsIncludes message "500" = true ∨ jsIncludes message "502" = true
      ∨ jsIncludes message "503" = true ∨ jsIncludes message "504" = true) :
    isRetryableError error = true
    ∧ (msgs ≠ [] → 2 ≤ retries → create 1 = .error error →
        ∃ rest, (callGroq true (.array msgs) create retries).events
          = .attempt 1 :: .delay 1000 :: .attempt 2 :: rest) := by
  have hretry : isRetryableError error = true := by
    rcases hstatus with h | h | h | h
    · have := jsIncludes_toLowerCase message "500" (by decide) h
      simp [isRetryableError, hmessage, this]
    · have := jsIncludes_toLowerCase message "502" (by decide) h
      simp [isRetryableError, hmessage, this]
    · have := jsIncludes_toLowerCase message "503" (by decide) h
      simp [isRetryableError, hmessage, this]
    · have := jsIncludes_toLowerCase message "504" (by decide) h
      simp [isRetryableError, hmessage, this]
  refine ⟨hretry, ?_⟩
  intro hmsgs hretries hfirst
  have hinv : (MessagesArg.array msgs).invalid = false := by
    cases msgs with
    | nil => exact absurd rfl hmsgs
    | cons m ms => rfl
  obtain ⟨r, hr⟩ : ∃ r, retries = r + 2 := ⟨retries - 2, by omega⟩
  subst hr
  have hlt : 1 < r + 2 := by omega
  simp only [callGroq, hinv, Bool.not_true, Bool.false_eq_true, if_false, callGroqLoop, hfirst,
    hretry, hlt, if_true]
  cases hsecond : create 2 with
  | ok response => exact ⟨[], by simp [CallRun.after, delayMs]⟩
  | error e2 =>
    simp only
    split
    · exact ⟨[], by simp [CallRun.after, delayMs]⟩
    · split
      · exact ⟨_, by simp [CallRun.after, delayMs]; rfl⟩
      · exact ⟨_, by simp [CallRun.after, delayMs]; rfl⟩

/-- At a concrete input: a 503 on the first attempt is followed by a 1000 ms wait
and a second attempt. -/
theorem listed_server_error_is_retried_witness :
    isRetryableError ⟨some "503 Service Unavailable", none⟩ = true
    ∧ ∃ rest, (callGroq true (.array [⟨"user", "hi"⟩])
        (fun n => if n < 2 then .error ⟨some "503 Service Unavailable", none⟩ else .ok "done")
        3).events = .attempt 1 :: .delay 1000 :: .attempt 2 :: rest := by
  have h := listed_server_error_is_retried [⟨"user", "hi"⟩]
    (fun n => if n < 2 then .error ⟨some "503 Service Unavailable", none⟩ else .ok "done")
    3 ⟨some "503 Service Unavailable", none⟩ "503 Service Unavailable" rfl
    (Or.inr (Or.inr (Or.inl (by decide))))
  exact ⟨h.1, h.2 (by simp) (by decide) rfl⟩

theorem toLowerCase_empty : toLowerCase "" = "" := by decide

/-- C14: `isRetryableError` is true exactly when the lower-cased message contains
one of the ten listed texts or the lower-cased code is one of the two listed
codes (it agrees with the classification as the specification words it); a
missing message or code gives the same result as the empty string; and two
errors whose messages and codes differ only in letter case get the same result. -/
theorem isRetryableError_iff_listed :
    (∀ error : JsError, isRetryableError error = isRetryableBySpec error)
    ∧ (∀ error : JsError, isRetryableError error = true ↔
        ((∃ p ∈ retryableMessagePatterns,
            jsIncludes (toLowerCase (error.message.getD "")) p = true)
          ∨ toLowerCase (error.code.getD "") ∈ retryableCodes))
    ∧ (∀ message code, isRetryableError ⟨none, code⟩ = isRetryableError ⟨some "", code⟩
        ∧ isRetryableError ⟨message, none⟩ = isRetryableError ⟨message, some ""⟩)
    ∧ (∀ e1 e2 : JsError, e1.message.map toLowerCase = e2.message.map toLowerCase →
        e1.code.map toLowerCase = e2.code.map toLowerCase →
        isRetryableError e1 = isRetryableError e2) := by
  have hm : ∀ m : Option String, (m.map toLowerCase).getD "" = toLowerCase (m.getD "") := by
    intro m
    cases m with
    | none => exact toLowerCase_empty.symm
    | some s => rfl
  have hspec : ∀ error : JsError, isRetryableError error = isRetryableBySpec error := by
    intro error
    simp only [isRetryableError, isRetryableBySpec, hm, retryableMessagePatterns, retryableCodes,
      List.any_cons, List.any_nil, List.contains, List.elem, Bool.or_false]
    generalize toLowerCase (error.message.getD "") = m
    generalize toLowerCase (error.code.getD "") = c
    cases jsIncludes m "rate limit" <;> cases jsIncludes m "429" <;>
      cases jsIncludes m "network" <;> cases jsIncludes m "econnrefused" <;>
      cases jsIncludes m "enotfound" <;> cases jsIncludes m "timeout" <;>
      cases jsIncludes m "500" <;> cases jsIncludes m "502" <;>
      cases jsIncludes m "503" <;> cases jsIncludes m "504" <;>
      cases (c == "rate_limit_exceeded") <;> cases (c == "etimedout") <;> rfl
  refine ⟨hspec, ?_, ?_, ?_⟩
  · intro error
    rw [hspec]
    simp only [isRetryableBySpec, Bool.or_eq_true, List.any_eq_true, List.contains, List.elem_iff]
  · intro message code
    exact ⟨rfl, rfl⟩
  · intro e1 e2 h1 h2
    simp only [isRetryableError, h1, h2]

/-- C14, at a concrete input: an upper-case rate-limit message is classified like
its lower-case form, as transient. -/
theorem isRetryableError_iff_listed_witness :
    isRetryableError ⟨some "RATE LIMIT reached", some "X"⟩
      = isRetryableError ⟨some "rate limit reached", some "x"⟩
    ∧ isRetryableError ⟨some "RATE LIMIT reached", some "X"⟩ = true :=
  ⟨isRetryableError_iff_listed.2.2.2 ⟨some "RATE LIMIT reached", some "X"⟩
      ⟨some "rate limit reached", some "x"⟩ (by decide) (by decide),
    by decide⟩


/-! ## Manifest check: claim C15 -/

/-- C15: `validateRequiredFiles` returns exactly the manifest paths, taken in the
order config, entry, routing, layouts, components, pages, that are not the
path of any generated file. Hence every manifest path is the path of a
generated file or is reported, every reported path is a manifest path that was
not generated, and the result is empty exactly when every manifest path was
generated. -/
theorem validateRequiredFiles_reports_missing_paths (fs : FileStructure)
    (generatedFiles : List FileArtifact) :
    validateRequiredFiles fs generatedFiles
        = ((fs.config.getD [] ++ fs.entry.getD [] ++ fs.routing.getD [] ++ fs.layouts.getD []
              ++ fs.components.getD [] ++ fs.pages.getD []).map (fun s => s.path)).filter
            (fun p => decide (p ∉ generatedFiles.map (fun f => f.path)))
    ∧ (∀ p ∈ (allRequiredFiles fs).map (fun s => s.path),
        p ∈ generatedFiles.map (fun f => f.path) ∨ p ∈ validateRequiredFiles fs generatedFiles)
    ∧ (∀ p ∈ validateRequiredFiles fs generatedFiles,
        p ∈ (allRequiredFiles fs).map (fun s => s.path)
          ∧ p ∉ generatedFiles.map (fun f => f.path))
    ∧ (validateRequiredFiles fs generatedFiles = [] ↔
        ∀ p ∈ (allRequiredFiles fs).map (fun s => s.path),
          p ∈ generatedFiles.map (fun f => f.path)) := by
  have hmem : ∀ p, p ∈ validateRequiredFiles fs generatedFiles ↔
      (p ∈ (allRequiredFiles fs).map (fun s => s.path)
        ∧ p ∉ generatedFiles.map (fun f => f.path)) := by
    intro p
    simp only [validateRequiredFiles, List.mem_map, List.mem_filter, List.contains,
      Bool.not_eq_true', List.elem_eq_mem, decide_eq_false_iff_not]
    constructor
    · rintro ⟨s, ⟨hs, hn⟩, rfl⟩
      exact ⟨⟨s, hs, rfl⟩, hn⟩
    · rintro ⟨⟨s, hs, rfl⟩, hn⟩
      exact ⟨s, ⟨hs, hn⟩, rfl⟩
  refine ⟨?_, ?_, ?_, ?_⟩
  · simp only [validateRequiredFiles, allRequiredFiles, List.filter_map]
    congr 1
    apply List.filter_congr
    intro s _
    by_cases h : s.path ∈ generatedFiles.map (fun f => f.path)
    · have hc : (generatedFiles.map (fun f => f.path)).contains s.path = true :=
        List.elem_iff.mpr h
      simp only [Function.comp, hc, Bool.not_true]
      exact (decide_eq_false (not_not.mpr h)).symm
    · have hc : (generatedFiles.map (fun f => f.path)).contains s.path = false := by
        cases hb : (generatedFiles.map (fun f => f.path)).contains s.path with
        | false => rfl
        | true => exact absurd (List.elem_iff.mp hb) h
      simp only [Function.comp, hc, Bool.not_false]
      exact (decide_eq_true h).symm
  · intro p hp
    by_cases hg : p ∈ generatedFiles.map (fun f => f.path)
    · exact Or.inl hg
    · exact Or.inr ((hmem p).mpr ⟨hp, hg⟩)
  · intro p hp
    exact (hmem p).mp hp
  · constructor
    · intro hnil p hp
      by_contra hg
      have := (hmem p).mpr ⟨hp, hg⟩
      rw [hnil] at this
      cases this
    · intro hall
      apply List.eq_nil_iff_forall_not_mem.mpr
      intro p hp
      exact ((hmem p).mp hp).2 (hall p ((hmem p).mp hp).1)


/-! ## `sendSSE`: claim C20 -/

theorem writtenBy_closed (res : ResponseState) (h : res.writableEnded = true ∨ res.destroyed = true) :
    ∀ actions : List ResponseAction, writtenBy res actions = [] := by
  intro actions
  induction actions generalizing res with
  | nil => rfl
  | cons a rest ih =>
    cases a with
    | send json writeThrows =>
      have hclosed : (res.writableEnded || res.destroyed) = true := by
        rcases h with h | h <;> simp [h]
      simp only [writtenBy, sendSSE, hclosed, if_true, List.nil_append]
      exact ih res h
    | endResponse => exact ih _ (Or.inl rfl)
    | hangUp => exact ih _ (Or.inr rfl)

theorem writtenBy_append (actions later : List ResponseAction) :
    ∀ res : ResponseState, (res.writableEnded = true ∨ res.destroyed = true ∨
        .endResponse ∈ actions ∨ .hangUp ∈ actions) →
      writtenBy res (actions ++ later) = writtenBy res actions := by
  induction actions with
  | nil =>
    intro res h
    rcases h with h | h | h | h
    · simp [writtenBy, writtenBy_closed res (Or.inl h)]
    · simp [writtenBy, writtenBy_closed res (Or.inr h)]
    · cases h
    · cases h
  | cons a rest ih =>
    intro res h
    cases a with
    | send json writeThrows =>
      have hrest := ih res (by
        rcases h with h | h | h | h
        · exact Or.inl h
        · exact Or.inr (Or.inl h)
        · exact Or.inr (Or.inr (Or.inl (by simpa using h)))
        · exact Or.inr (Or.inr (Or.inr (by simpa using h))))
      exact congrArg (fun w => (sendSSE res json writeThrows).written ++ w) hrest
    | endResponse =>
      simp only [List.cons_append, writtenBy]
      exact ih _ (Or.inl rfl)
    | hangUp =>
      simp only [List.cons_append, writtenBy]
      exact ih _ (Or.inr (Or.inl rfl))

/-- C20: `sendSSE` never throws (it always returns a boolean). On a response that
is ended or destroyed it calls `res.write` not at all and returns false; when
`res.write` throws it returns false; on an open response with data that
serialises and a write that succeeds it calls `res.write` exactly once, with
the frame text, and returns true. Hence, in any sequence of sends, `res.end()`
calls and hang-ups, nothing is written after the response has been ended or the
client has hung up. -/
theorem sendSSE_never_throws_and_skips_closed_response :
    (∀ res json writeThrows, ∃ b, (sendSSE res json writeThrows).returned = .ok b)
    ∧ (∀ res json writeThrows, res.writableEnded = true ∨ res.destroyed = true →
        (sendSSE res json writeThrows).returned = .ok false
        ∧ (sendSSE res json writeThrows).writeCalls = 0
        ∧ (sendSSE res json writeThrows).written = [])
    ∧ (∀ res json, (sendSSE res json true).returned = .ok false
        ∧ (sendSSE res json true).written = [])
    ∧ (∀ res text, res.writableEnded = false → res.destroyed = false →
        (sendSSE res (.ok text) false).returned = .ok true
        ∧ (sendSSE res (.ok text) false).writeCalls = 1
        ∧ (sendSSE res (.ok text) false).written = ["data: " ++ text ++ "\n\n"])
    ∧ (∀ res before after,
        writtenBy res (before ++ [.endResponse] ++ after) = writtenBy res (before ++ [.endResponse])
        ∧ writtenBy res (before ++ [.hangUp] ++ after) = writtenBy res (before ++ [.hangUp])) := by
  refine ⟨?_, ?_, ?_, ?_, ?_⟩
  · intro res json writeThrows
    unfold sendSSE
    split
    · exact ⟨false, rfl⟩
    · split
      · exact ⟨false, rfl⟩
      · split
        · exact ⟨false, rfl⟩
        · exact ⟨true, rfl⟩
  · intro res json writeThrows h
    have hclosed : (res.writableEnded || res.destroyed) = true := by
      rcases h with h | h <;> simp [h]
    simp [sendSSE, hclosed]
  · intro res json
    unfold sendSSE
    split
    · exact ⟨rfl, rfl⟩
    · split
      · exact ⟨rfl, rfl⟩
      · exact ⟨rfl, rfl⟩
  · intro res text h1 h2
    simp [sendSSE, h1, h2]
  · intro res before after
    exact ⟨writtenBy_append _ after res (Or.inr (Or.inr (Or.inl (by simp)))),
      writtenBy_append _ after res (Or.inr (Or.inr (Or.inr (by simp))))⟩

/-- C20, at concrete inputs: a frame sent after the timeout handler has ended
the response is not written, and a frame sent on an open response is. -/
theorem sendSSE_never_throws_and_skips_closed_response_witness :
    (sendSSE ⟨true, false⟩ (.ok "\x7b\"stage\":\"complete\"\x7d") false).written = []
    ∧ (sendSSE ⟨false, false⟩ (.ok "\x7b\"chunk\":\"a\"\x7d") false).written
        = ["data: \x7b\"chunk\":\"a\"\x7d\n\n"] :=
  ⟨(sendSSE_never_throws_and_skips_closed_response.2.1 ⟨true, false⟩
      (.ok "\x7b\"stage\":\"complete\"\x7d") false (Or.inl rfl)).2.2,
    (sendSSE_never_throws_and_skips_closed_response.2.2.2.1 ⟨false, false⟩
      "\x7b\"chunk\":\"a\"\x7d" rfl rfl).2.2⟩


/-! ## The handler: critical files (claim C16) -/

theorem missingCriticalFiles_length_pos {missingFiles : List String}
    (h : (missingCriticalFiles missingFiles).length > 0) : missingFiles.length > 0 := by
  cases missingFiles with
  | nil => simp [missingCriticalFiles] at h
  | cons p ps => simp

/-- When no critical file is missing, the code-generation stage hands the files
over to the QA stage, after frames that neither complete nor abort the run. -/
theorem generatingStage_proceeds (req : Request) (o : Outcomes) (fs : FileStructure)
    (files : List FileArtifact) (hcode : o.code.result = .ok files)
    (hcritical : missingCriticalFiles (validateRequiredFiles fs files) = []) :
    ∃ pre, (∀ f ∈ pre, f.isPlain)
      ∧ generatingStage req o fs = (qualityStage req o files).after pre [⟨.generating, false⟩] := by
  unfold generatingStage
  simp only [hcode, hcritical, List.length_nil, Nat.lt_irrefl, if_false]
  split
  · refine ⟨_, ?_, rfl⟩
    intro f hf
    rcases List.mem_append.mp hf with h | h
    · exact generatingOpening_plain _ _ f h
    · rw [List.mem_singleton] at h
      subst h; simp [Frame.isPlain, Frame.isComplete, Frame.isFatalError]
  · exact ⟨_, generatingOpening_plain _ _, rfl⟩

/-- When a critical file is missing, the code-generation stage ends the run with
the warning frame and the error frame that names the missing critical files. -/
theorem generatingStage_aborts (req : Request) (o : Outcomes) (fs : FileStructure)
    (files : List FileArtifact) (hcode : o.code.result = .ok files)
    (hcritical : missingCriticalFiles (validateRequiredFiles fs files) ≠ []) :
    ∃ pre, (∀ f ∈ pre, f.isComplete = false)
      ∧ generatingStage req o fs =
        { frames := pre ++ [generatingErrorFrame
            ("Critical files missing: "
              ++ ", ".intercalate (missingCriticalFiles (validateRequiredFiles fs files))
              ++ ". Cannot proceed with website generation.")
            (codeCallbackErrors o.code.events)],
          calls := [⟨.generating, false⟩] } := by
  have hpos : (missingCriticalFiles (validateRequiredFiles fs files)).length > 0 :=
    List.length_pos.mpr hcritical
  have hmissing := missingCriticalFiles_length_pos hpos
  unfold generatingStage
  simp only [hcode, hpos, hmissing, decide_True, Bool.or_true, if_true]
  refine ⟨_ ++ [_], ?_, by rw [List.append_assoc]; rfl⟩
  intro f hf
  rcases List.mem_append.mp hf with h | h
  · exact (generatingOpening_plain _ _ f h).1
  · rw [List.mem_singleton] at h
    subst h; simp [Frame.isComplete]

theorem qualityStage_last_complete_of_qa_off (req : Request) (o : Outcomes)
    (files : List FileArtifact) (hqa : req.qaEnabled = false) :
    ∃ f, (qualityStage req o files).frames.getLast? = some f ∧ f.isComplete = true := by
  unfold qualityStage
  simp only [hqa, Bool.false_eq_true, if_false]
  exact backendStage_last_complete req o files

/-- C16, as the specification states it, fails: when the artifact of the critical
file `package.json` is the error-marker placeholder (QA off, no backend, the
response open to the end), the run is not aborted: the file's failure is
reported in a per-file notice and in the warning, and the last frame written is
the `complete` frame. -/
theorem failed_critical_file_does_not_abort :
    hasErrorMarker ⟨"package.json", "// Error generating this file: Request timeout"⟩ = true
    ∧ "package.json" ∈ criticalFiles
    ∧ (websiteFramesWritten ⟨some false, false⟩ outcomesWithFailedPackage none none).map
        (fun f => (f.error, f.warning, f.isComplete))
      = [(none, none, false), (none, none, false), (none, none, false), (none, none, false),
         (none, none, false), (some "Failed to generate package.json", none, false),
         (none, none, false), (none, none, false), (none, none, false), (none, none, false),
         (none, none, false), (none, none, false),
         (none, some "1 file(s) failed to generate", false), (none, none, true)] := by
  decide

/-- In a run whose architecture, planning and design stages succeeded and whose
code-generation stage returned files: if no manifest path containing a critical
name is missing from the returned files, the handler goes on to the QA stage
with the returned files, and with QA off the run ends with the `complete`
frame; if such a path is missing, the run ends there with the `error` frame of
stage `generating` that names the missing critical files, and no `complete`
frame is sent. -/
theorem generateWebsite_critical_files (req : Request) (o : Outcomes)
    (value : Option ArchitectureSpec) (fs : FileStructure) (files : List FileArtifact)
    (harch : o.architecture = .ok value) (hchecks : architectureChecks value = .ok fs)
    (hplanning : o.planning = .ok ()) (hdesign : o.design = .ok ())
    (hcode : o.code.result = .ok files) :
    (missingCriticalFiles (validateRequiredFiles fs files) = [] →
      (generateWebsite req o).calls
          = [⟨.architecture, false⟩, ⟨.planning, false⟩, ⟨.designing, false⟩,
             ⟨.generating, false⟩] ++ (qualityStage req o files).calls
      ∧ (∃ pre, (∀ f ∈ pre, f.isComplete = false ∧ f.isFatalError = false)
          ∧ (generateWebsite req o).frames = pre ++ (qualityStage req o files).frames)
      ∧ (req.qaEnabled = false →
          ∃ f, (generateWebsite req o).frames.getLast? = some f ∧ f.isComplete = true))
    ∧ (missingCriticalFiles (validateRequiredFiles fs files) ≠ [] →
      (generateWebsite req o).calls
          = [⟨.architecture, false⟩, ⟨.planning, false⟩, ⟨.designing, false⟩,
             ⟨.generating, false⟩]
      ∧ (generateWebsite req o).frames.getLast?
          = some (generatingErrorFrame
              ("Critical files missing: "
                ++ ", ".intercalate (missingCriticalFiles (validateRequiredFiles fs files))
                ++ ". Cannot proceed with website generation.")
              (codeCallbackErrors o.code.events))
      ∧ (∀ f ∈ (generateWebsite req o).frames, f.isComplete = false)) := by
  have hrun : generateWebsite req o
      = (((generatingStage req o fs).after
            [{ stage := some "designing", progress := some (.num 25),
               message := some "Creating design system..." }] [⟨.designing, false⟩]).after
            [{ stage := some "planning", progress := some (.num 15),
               message := some "Creating technical specifications..." }]
            [⟨.planning, false⟩]).after
          [{ stage := some "architecture", progress := some (.num 5),
             message := some "Planning project structure..." }] [⟨.architecture, false⟩] := by
    simp only [generateWebsite, harch, hchecks, planningStage, hplanning, designStage, hdesign]
  constructor
  · intro hcritical
    obtain ⟨pre, hpre, hgen⟩ := generatingStage_proceeds req o fs files hcode hcritical
    rw [hrun, hgen]
    refine ⟨rfl, ⟨_ :: _ :: _ :: pre, ?_, rfl⟩, ?_⟩
    · intro f hf
      simp only [List.mem_cons] at hf
      rcases hf with h | h | h | h
      · subst h; simp [Frame.isComplete, Frame.isFatalError]
      · subst h; simp [Frame.isComplete, Frame.isFatalError]
      · subst h; simp [Frame.isComplete, Frame.isFatalError]
      · exact hpre f h
    · intro hqa
      obtain ⟨f, hl, hf⟩ := qualityStage_last_complete_of_qa_off req o files hqa
      exact ⟨f, getLast?_append_of_some (_ :: _ :: _ :: pre) _ f hl, hf⟩
  · intro hcritical
    obtain ⟨pre, hpre, hgen⟩ := generatingStage_aborts req o fs files hcode hcritical
    rw [hrun, hgen]
    refine ⟨rfl, ?_, ?_⟩
    · exact getLast?_append_of_some (_ :: _ :: _ :: pre) [_] _ rfl
    · intro f hf
      simp only [Run.after, List.cons_append, List.nil_append, List.mem_cons, List.mem_append,
        List.mem_singleton, List.not_mem_nil, or_false] at hf
      rcases hf with h | h | h | h | h
      · subst h; simp [Frame.isComplete]
      · subst h; simp [Frame.isComplete]
      · subst h; simp [Frame.isComplete]
      · exact hpre f h
      · subst h; exact (generatingErrorFrame_isStageError _ _).2

/-! ## The handler: paths of the delivered files (claim C17) -/

/-- The paths of the result of the multi-file `fixAgent`: the flagged paths that
are input paths, then the paths of the unflagged input files. -/
theorem fixAgent_result_paths (files : List FileArtifact) (qualityReport : QualityReport)
    (gateway : Nat → FixCall → StreamResult) (fixed : List FileArtifact)
    (h : (fixAgent files qualityReport gateway).result = .ok fixed) :
    fixed.map (fun f => f.path)
      = (qualityReport.filesWithIssues.getD []).filter
          (fun p => (fileMapGet files p).isSome)
        ++ (files.filter
            (fun f => !(qualityReport.filesWithIssues.getD []).contains f.path)).map
            (fun f => f.path) := by
  have hne : files ≠ [] := by
    intro hnil
    subst hnil
    simp [fixAgent, fixMultipleFiles] at h
  rw [fixAgent_eq files qualityReport gateway hne] at h
  have hfixed := Except.ok.inj h
  rw [← hfixed, List.map_append,
    (fixLoop_paths files (qualityReport.fileIssues.getD [])
      (qualityReport.crossFileIssues.getD []) gateway
      (qualityReport.filesWithIssues.getD []) 0).1]

/-- With distinct input paths and no repeated entry in `filesWithIssues`, the
result of the multi-file `fixAgent` has distinct paths, all of them input paths. -/
theorem fixAgent_result_nodup (files : List FileArtifact) (qualityReport : QualityReport)
    (gateway : Nat → FixCall → StreamResult) (fixed : List FileArtifact)
    (h : (fixAgent files qualityReport gateway).result = .ok fixed)
    (hpaths : (files.map (fun f => f.path)).Nodup)
    (hflags : (qualityReport.filesWithIssues.getD []).Nodup) :
    (fixed.map (fun f => f.path)).Nodup
      ∧ ∀ p ∈ fixed.map (fun f => f.path), p ∈ files.map (fun f => f.path) := by
  rw [fixAgent_result_paths files qualityReport gateway fixed h]
  constructor
  · rw [List.nodup_append]
    refine ⟨hflags.filter _, ?_, ?_⟩
    · exact hpaths.sublist ((List.filter_sublist _).map _)
    · intro p hp1 hp2
      obtain ⟨f, hf, hfp⟩ := List.mem_map.mp hp2
      have hnot := (List.mem_filter.mp hf).2
      have hin := (List.mem_filter.mp hp1).1
      have hfp1 : f.path = p := hfp
      rw [hfp1] at hnot
      have hc : (qualityReport.filesWithIssues.getD []).contains p = true :=
        List.elem_iff.mpr hin
      rw [hc] at hnot
      cases hnot
  · intro p hp
    rcases List.mem_append.mp hp with h1 | h1
    · exact (fileMapGet_isSome_iff files p).mp (List.mem_filter.mp h1).2
    · obtain ⟨f, hf, hfp⟩ := List.mem_map.mp h1
      exact List.mem_map.mpr ⟨f, (List.mem_filter.mp hf).1, hfp⟩

theorem backendStage_complete_files (req : Request) (o : Outcomes)
    (finalFiles : List FileArtifact) :
    ∀ f ∈ (backendStage req o finalFiles).frames, f.isComplete = true →
      f.files = some (finalFiles ++ backendFilesOf req o) := by
  unfold backendStage backendFilesOf
  split
  · simp only
    split
    · intro f hf hc
      simp only [Run.after, completionStage, List.mem_append, List.mem_cons, List.mem_map,
        List.mem_singleton, List.not_mem_nil, or_false] at hf
      rcases hf with (h | ⟨c, _, h⟩) | h
      · subst h; simp [Frame.isComplete] at hc
      · subst h; simp [Frame.isComplete] at hc
      · subst h; rfl
    · intro f hf hc
      simp only [Run.after, completionStage, List.mem_append, List.mem_cons, List.mem_map,
        List.mem_singleton, List.not_mem_nil, or_false] at hf
      rcases hf with ((h | ⟨c, _, h⟩) | h) | h
      · subst h; simp [Frame.isComplete] at hc
      · subst h; simp [Frame.isComplete] at hc
      · subst h; simp [Frame.isComplete] at hc
      · subst h; simp
  · intro f hf _
    simp only [completionStage, List.mem_singleton] at hf
    subst hf; simp

theorem fixStage_complete_files (req : Request) (o : Outcomes)
    (generatedFiles : List FileArtifact) (qualityReport : QualityReport) :
    ∀ f ∈ (fixStage req o generatedFiles qualityReport).frames, f.isComplete = true →
      f.files = some (generatedFiles ++ backendFilesOf req o)
      ∨ ∃ fixed, (o.fix generatedFiles qualityReport).result = .ok fixed
          ∧ f.files = some (fixed ++ backendFilesOf req o) := by
  unfold fixStage
  split
  · simp only
    split
    · rename_i fixed hres
      intro f hf hc
      simp only [Run.after, List.mem_append, List.mem_cons] at hf
      rcases hf with (h | h) | h
      · subst h; simp [Frame.isComplete] at hc
      · rw [(fixCallbackFrames_plain _ _ _ f h).1] at hc; cases hc
      · exact Or.inr ⟨fixed, hres, backendStage_complete_files req o fixed f h hc⟩
    · intro f hf hc
      simp only [Run.after, List.mem_append, List.mem_cons, List.mem_singleton,
        List.not_mem_nil, or_false] at hf
      rcases hf with ((h | h) | h) | h
      · subst h; simp [Frame.isComplete] at hc
      · rw [(fixCallbackFrames_plain _ _ _ f h).1] at hc; cases hc
      · subst h; simp [Frame.isComplete] at hc
      · exact Or.inl (backendStage_complete_files req o generatedFiles f h hc)
  · intro f hf hc
    exact Or.inl (backendStage_complete_files req o generatedFiles f hf hc)

theorem qualityStage_complete_files (req : Request) (o : Outcomes)
    (generatedFiles : List FileArtifact) :
    ∀ f ∈ (qualityStage req o generatedFiles).frames, f.isComplete = true →
      f.files = some (generatedFiles ++ backendFilesOf req o)
      ∨ ∃ report fixed, o.quality = .ok report
          ∧ (o.fix generatedFiles report).result = .ok fixed
          ∧ f.files = some (fixed ++ backendFilesOf req o) := by
  unfold qualityStage
  split
  · simp only
    split
    · rename_i report hq
      intro f hf hc
      simp only [Run.after, List.mem_append, List.mem_cons, List.mem_singleton,
        List.not_mem_nil, or_false] at hf
      rcases hf with (h | h) | h
      · subst h; simp [Frame.isComplete] at hc
      · subst h; simp [Frame.isComplete] at hc
      · rcases fixStage_complete_files req o generatedFiles report f h hc with h1 | ⟨fx, h1, h2⟩
        · exact Or.inl h1
        · exact Or.inr ⟨report, fx, hq, h1, h2⟩
    · intro f hf hc
      simp only [List.mem_cons, List.mem_singleton, List.not_mem_nil, or_false] at hf
      rcases hf with h | h <;> subst h <;> simp [Frame.isComplete] at hc
  · intro f hf hc
    exact Or.inl (backendStage_complete_files req o generatedFiles f hf hc)

theorem generatingStage_complete_frame (req : Request) (o : Outcomes) (fs : FileStructure) :
    ∀ f ∈ (generatingStage req o fs).frames, f.isComplete = true →
      ∃ files, o.code.result = .ok files ∧ f ∈ (qualityStage req o files).frames := by
  intro f hf hc
  cases hcode : o.code.result with
  | error message =>
    unfold generatingStage at hf
    simp only [hcode, List.mem_append, List.mem_singleton] at hf
    rcases hf with h | h
    · rw [(generatingOpening_plain _ _ f h).1] at hc; cases hc
    · subst h
      rw [(generatingErrorFrame_isStageError _ _).2] at hc; cases hc
  | ok files =>
    refine ⟨files, rfl, ?_⟩
    by_cases hcritical : missingCriticalFiles (validateRequiredFiles fs files) = []
    · obtain ⟨pre, hpre, hgen⟩ := generatingStage_proceeds req o fs files hcode hcritical
      rw [hgen] at hf
      rcases List.mem_append.mp hf with h | h
      · rw [(hpre f h).1] at hc; cases hc
      · exact h
    · obtain ⟨pre, hpre, hgen⟩ := generatingStage_aborts req o fs files hcode hcritical
      rw [hgen] at hf
      rcases List.mem_append.mp hf with h | h
      · rw [hpre f h] at hc; cases hc
      · rw [List.mem_singleton] at h
        subst h
        rw [(generatingErrorFrame_isStageError _ _).2] at hc; cases hc

theorem generateWebsite_complete_frame (req : Request) (o : Outcomes) :
    ∀ f ∈ (generateWebsite req o).frames, f.isComplete = true →
      ∃ files, o.code.result = .ok files ∧ f ∈ (qualityStage req o files).frames := by
  intro f hf hc
  unfold generateWebsite at hf
  simp only at hf
  split at hf
  · simp only [List.mem_cons, List.mem_singleton, List.not_mem_nil, or_false] at hf
    rcases hf with h | h <;> subst h <;> simp [architectureErrorFrame, Frame.isComplete] at hc
  · split at hf
    · simp only [List.mem_cons, List.mem_singleton, List.not_mem_nil, or_false] at hf
      rcases hf with h | h <;> subst h <;> simp [architectureErrorFrame, Frame.isComplete] at hc
    · rename_i fs _
      simp only [Run.after, List.mem_append, List.mem_singleton] at hf
      rcases hf with h | h
      · subst h; simp [Frame.isComplete] at hc
      · unfold planningStage at h
        simp only at h
        split at h
        · simp only [Run.after, List.mem_append, List.mem_singleton] at h
          rcases h with h | h
          · subst h; simp [Frame.isComplete] at hc
          · unfold designStage at h
            simp only at h
            split at h
            · simp only [Run.after, List.mem_append, List.mem_singleton] at h
              rcases h with h | h
              · subst h; simp [Frame.isComplete] at hc
              · exact generatingStage_complete_frame req o fs f h hc
            · simp only [List.mem_cons, List.mem_singleton, List.not_mem_nil, or_false] at h
              rcases h with h | h <;> subst h <;> simp [Frame.isComplete] at hc
        · simp only [List.mem_cons, List.mem_singleton, List.not_mem_nil, or_false] at h
          rcases h with h | h <;> subst h <;> simp [Frame.isComplete] at hc

/-- C17, as the specification states it, fails: the code-generation stage returns
five files with distinct paths, one of them `.env.local.example`; the backend
stage returns `lib/supabase.ts` and `.env.local.example`; the `files` of the
`complete` frame (QA off) then list `.env.local.example` twice: the backend
file is appended, the frontend file is not replaced. -/
theorem backend_file_is_appended_not_replaced :
    (sampleFilesWithEnv.map (fun f => f.path)).Nodup
    ∧ ((generateWebsite ⟨some false, true⟩ outcomesWithSupabaseBackend).frames.getLast?.bind
        (fun f => f.files)).map (fun fl => fl.map (fun f => f.path))
      = some ["package.json", "src/main.jsx", "src/layouts/Layout.jsx", "src/pages/Home.jsx",
              ".env.local.example", "lib/supabase.ts", ".env.local.example"]
    ∧ ¬ (["package.json", "src/main.jsx", "src/layouts/Layout.jsx", "src/pages/Home.jsx",
          ".env.local.example", "lib/supabase.ts", ".env.local.example"] : List String).Nodup := by
  refine ⟨by decide, by decide, by decide⟩

/-- C17, amended. The `files` of a `complete` frame are the result of the fix
stage (or the generated files, when the fix stage did not run or failed)
followed by the backend files: files are appended, never replaced. With the
multi-file `fixAgent` as fix stage, they have pairwise distinct paths whenever
the code-generation stage returned files with pairwise distinct paths, the
report's `filesWithIssues` has no repeated entry, and the backend files have
pairwise distinct paths that differ from every generated path. -/
theorem complete_files_distinct_when_nothing_collides (req : Request) (o : Outcomes)
    (gateway : Nat → FixCall → StreamResult) (generatedFiles : List FileArtifact)
    (hfix : ∀ files report, o.fix files report = fixAgent files report gateway)
    (hcode : o.code.result = .ok generatedFiles)
    (hpaths : (generatedFiles.map (fun f => f.path)).Nodup)
    (hflags : ∀ report, o.quality = .ok report → (report.filesWithIssues.getD []).Nodup)
    (hbackend : ((backendFilesOf req o).map (fun f => f.path)).Nodup)
    (hdisjoint : ∀ p ∈ (backendFilesOf req o).map (fun f => f.path),
      p ∉ generatedFiles.map (fun f => f.path)) :
    ∀ f ∈ (generateWebsite req o).frames, f.isComplete = true →
      ∃ front, f.files = some (front ++ backendFilesOf req o)
        ∧ (front = generatedFiles
            ∨ ∃ report, o.quality = .ok report
                ∧ (fixAgent generatedFiles report gateway).result = .ok front)
        ∧ ((front ++ backendFilesOf req o).map (fun f => f.path)).Nodup := by
  intro f hf hc
  obtain ⟨files, hfiles, hmem⟩ := generateWebsite_complete_frame req o f hf hc
  rw [hcode] at hfiles
  have hfe : generatedFiles = files := Except.ok.inj hfiles
  subst hfe
  rcases qualityStage_complete_files req o generatedFiles f hmem hc with
    h | ⟨report, fixed, hq, hres, h⟩
  · refine ⟨generatedFiles, h, Or.inl rfl, ?_⟩
    rw [List.map_append, List.nodup_append]
    exact ⟨hpaths, hbackend, fun p hp1 hp2 => hdisjoint p hp2 hp1⟩
  · rw [hfix] at hres
    obtain ⟨hnodup, hsub⟩ := fixAgent_result_nodup generatedFiles report gateway fixed hres
      hpaths (hflags report hq)
    refine ⟨fixed, h, Or.inr ⟨report, hq, hres⟩, ?_⟩
    rw [List.map_append, List.nodup_append]
    exact ⟨hnodup, hbackend, fun p hp1 hp2 => hdisjoint p hp2 (hsub p hp1)⟩

/-- C17 amended, at a concrete input: the sample run with QA, a revision and the
Express-style backend file delivers five files with distinct paths. -/
theorem complete_files_distinct_when_nothing_collides_witness :
    ∃ f front, (generateWebsite ⟨some true, true⟩ sampleOutcomes).frames.getLast? = some f
      ∧ f.isComplete = true
      ∧ f.files = some (front ++ backendFilesOf ⟨some true, true⟩ sampleOutcomes)
      ∧ ((front ++ backendFilesOf ⟨some true, true⟩ sampleOutcomes).map
          (fun f => f.path)).Nodup := by
  have hlast : (generateWebsite ⟨some true, true⟩ sampleOutcomes).frames.getLast?.map
      (fun f => f.isComplete) = some true := by decide
  obtain ⟨f, hf, hc⟩ := Option.map_eq_some'.mp hlast
  obtain ⟨front, h1, _, h3⟩ := complete_files_distinct_when_nothing_collides
    ⟨some true, true⟩ sampleOutcomes (fun _ _ => ⟨[], .ok "export default Home2"⟩) sampleFiles
    (fun _ _ => rfl) rfl (by decide)
    (fun report hq => by
      have : sampleReport = report := Except.ok.inj hq
      subst this
      decide)
    (by decide) (by decide) f (List.mem_of_getLast?_eq_some hf) hc
  exact ⟨f, front, hf, hc, h1, h3⟩


/-! ## Quality report validation: claim C18 -/

/-- C18, as the specification states it, fails: a reply of the right shape whose
`filesWithIssues` lists `src/ghost.jsx`, a path that is no key of `fileIssues`
and that no cross-file issue names, passes the validation of the quality stage
and is returned as the report. -/
theorem unexplained_flagged_path_is_accepted :
    qualityAgentMultiFile [⟨"src/App.jsx", "export default App"⟩] (.ok reportWithUnexplainedPath)
      = .ok reportWithUnexplainedPath
    ∧ satisfiesReportInvariant reportWithUnexplainedPath = false := by
  refine ⟨rfl, by decide⟩

/-- C18, amended: every multi-file report that `qualityAgent` returns is the
parsed reply itself: an object without an own key `hasOwnProperty`, whose
`fileIssues` is an object (or array) none of whose entries makes the count of
the issues throw (no entry is null, none is an object whose own `length` cannot
be converted to a primitive), whose `crossFileIssues` and `filesWithIssues` are
arrays, whose `needsRevision` is a boolean and whose `overallQuality` is a
string; and every parsed reply of that shape is returned, for non-empty files
with non-empty paths and contents. The validation checks nothing else: how
`filesWithIssues` relates to the other two fields plays no part. -/
theorem qualityAgent_validates_shape_only (files : List FileArtifact)
    (parsed : Except String Json) (report : Json) :
    qualityAgentMultiFile files parsed = .ok report ↔
      (validateReviewInput files = .ok ()
        ∧ parsed = .ok report
        ∧ ∃ fields fileIssues crossFileIssues filesWithIssues needsRevision overallQuality,
            report = .obj fields
            ∧ fields.lookup "hasOwnProperty" = none
            ∧ fields.lookup "fileIssues" = some fileIssues
            ∧ fileIssues.isObjectType = true
            ∧ fileIssues.values.findSome? lengthError = none
            ∧ fields.lookup "crossFileIssues" = some (.arr crossFileIssues)
            ∧ fields.lookup "filesWithIssues" = some (.arr filesWithIssues)
            ∧ fields.lookup "needsRevision" = some (.bool needsRevision)
            ∧ fields.lookup "overallQuality" = some (.str overallQuality)) := by
  constructor
  · intro h
    unfold qualityAgentMultiFile at h
    split at h
    · cases h
    · rename_i u hin
      split at h
      · cases h
      · rename_i qualityReview
        split at h
        · cases h
        · rename_i r hval
          have hr : r = report := Except.ok.inj h
          subst hr
          refine ⟨by cases u; exact hin, ?_⟩
          unfold validateMultiFileReview at hval
          split at hval
          · cases hval
          · split at hval
            · cases hval
            · rename_i hown
              split at hval
              · cases hval
              · rename_i fileIssues hfi
                split at hval
                · cases hval
                · rename_i crossFileIssues hcfi
                  split at hval
                  · cases hval
                  · rename_i filesWithIssues hfwi
                    split at hval
                    · cases hval
                    · rename_i hobj
                      split at hval
                      · cases hval
                      · rename_i harr1
                        split at hval
                        · cases hval
                        · rename_i harr2
                          split at hval
                          · cases hval
                          · rename_i hcount
                            split at hval
                            · cases hval
                            · split at hval
                              · cases hval
                              · rename_i needsRevision hnr
                                split at hval
                                · cases hval
                                · rename_i overallQuality hoq
                                  split at hval
                                  · cases hval
                                  · rename_i hbool
                                    split at hval
                                    · cases hval
                                    · rename_i hstr
                                      have hq : qualityReview = r := Except.ok.inj hval
                                      subst hq
                                      refine ⟨rfl, ?_⟩
                                      cases qualityReview with
                                      | obj fields =>
                                        cases crossFileIssues <;> simp [Json.isArray] at harr1
                                        cases filesWithIssues <;> simp [Json.isArray] at harr2
                                        cases needsRevision <;> simp [Json.isBoolean] at hbool
                                        cases overallQuality <;> simp [Json.isString] at hstr
                                        exact ⟨fields, fileIssues, _, _, _, _, rfl,
                                          (by
                                            cases hl : fields.lookup "hasOwnProperty" with
                                            | none => rfl
                                            | some v => simp [Json.get, hl] at hown), hfi,
                                          by simpa using hobj, hcount,
                                          hcfi, hfwi, hnr, hoq⟩
                                      | null => simp [Json.get] at hfi
                                      | bool b => simp [Json.get] at hfi
                                      | num n => simp [Json.get] at hfi
                                      | decimal literal => simp [Json.get] at hfi
                                      | str s => simp [Json.get] at hfi
                                      | arr items => simp [Json.get] at hfi
  · rintro ⟨hin, hparsed, fields, fileIssues, cfi, fwi, nr, oq, hrep, h0, h1, h2, h3, h4, h5, h6,
      h7⟩
    subst hparsed
    subst hrep
    simp [qualityAgentMultiFile, hin, validateMultiFileReview, Json.isNull, Json.get, h0, h1, h2,
      h3, h4, h5, h6, h7, Json.isArray, Json.isBoolean, Json.isString, displayThrowsOption,
      Json.displayThrows]

/-- C18 amended, at a concrete input: the reply that flags the unexplained path
has the shape the validation asks for. -/
theorem qualityAgent_validates_shape_only_witness :
    ∃ fields filesWithIssues, reportWithUnexplainedPath = .obj fields
      ∧ fields.lookup "hasOwnProperty" = none
      ∧ fields.lookup "filesWithIssues" = some (.arr filesWithIssues) := by
  obtain ⟨_, _, fields, _, _, filesWithIssues, _, _, hrep, hown, _, _, _, _, hfwi, _, _⟩ :=
    (qualityAgent_validates_shape_only [⟨"src/App.jsx", "export default App"⟩]
      (.ok reportWithUnexplainedPath) reportWithUnexplainedPath).mp rfl
  exact ⟨fields, filesWithIssues, hrep, hown, hfwi⟩

/-- A reply of the stated shape that has an own key `hasOwnProperty` is rejected:
the call of `hasOwnProperty` throws, as the value under that key is no function. -/
theorem qualityAgent_rejects_shadowed_hasOwnProperty :
    qualityAgentMultiFile [⟨"src/App.jsx", "export default App"⟩]
        (.ok (.obj [("fileIssues", .obj []), ("crossFileIssues", .arr []),
                    ("filesWithIssues", .arr []), ("needsRevision", .bool false),
                    ("overallQuality", .str "good"), ("hasOwnProperty", .bool true)]))
      = .error "Quality Agent failed: qualityReview.hasOwnProperty is not a function" := by
  rfl


/-! ## QA and fix gating: claim C19 -/

theorem qaEnabled_iff (req : Request) :
    req.qaEnabled = true ↔ (req.enableQA = none ∨ req.enableQA = some true) := by
  unfold Request.qaEnabled
  cases req.enableQA with
  | none => simp
  | some b => cases b <;> simp

theorem invoked_append (s : Stage) (xs ys : List StageCall) :
    invoked s (xs ++ ys) ↔ invoked s xs ∨ invoked s ys := by
  unfold invoked
  constructor
  · rintro ⟨b, hb⟩
    rcases List.mem_append.mp hb with h | h
    · exact Or.inl ⟨b, h⟩
    · exact Or.inr ⟨b, h⟩
  · rintro (⟨b, hb⟩ | ⟨b, hb⟩)
    · exact ⟨b, List.mem_append_left _ hb⟩
    · exact ⟨b, List.mem_append_right _ hb⟩

theorem invoked_singleton (s t : Stage) (b : Bool) : invoked s [⟨t, b⟩] ↔ s = t := by
  unfold invoked
  constructor
  · rintro ⟨c, hc⟩
    rw [List.mem_singleton] at hc
    exact congrArg StageCall.stage hc
  · intro h
    subst h
    exact ⟨b, List.mem_singleton.mpr rfl⟩

theorem not_invoked_backendStage (s : Stage) (hs : s ≠ .backend) (req : Request) (o : Outcomes)
    (finalFiles : List FileArtifact) : ¬ invoked s (backendStage req o finalFiles).calls := by
  rintro ⟨b, hb⟩
  exact hs (backendStage_calls req o finalFiles _ hb)

theorem fixStage_fixing_iff (req : Request) (o : Outcomes) (generatedFiles : List FileArtifact)
    (report : QualityReport) :
    invoked .fixing (fixStage req o generatedFiles report).calls
      ↔ report.needsRevision = true := by
  unfold fixStage
  split
  · rename_i h
    simp only [h, iff_true]
    split
    · exact (invoked_append _ _ _).mpr (Or.inl ((invoked_singleton _ _ _).mpr rfl))
    · exact (invoked_append _ _ _).mpr (Or.inl ((invoked_singleton _ _ _).mpr rfl))
  · rename_i h
    constructor
    · intro hi
      exact absurd hi (not_invoked_backendStage .fixing (by decide) req o generatedFiles)
    · intro hn
      exact absurd hn h

theorem not_invoked_reviewing_fixStage (req : Request) (o : Outcomes)
    (generatedFiles : List FileArtifact) (report : QualityReport) :
    ¬ invoked .reviewing (fixStage req o generatedFiles report).calls := by
  rintro ⟨b, hb⟩
  rcases fixStage_calls req o generatedFiles report _ hb with h | h <;> cases h

theorem qualityStage_reviewing_iff (req : Request) (o : Outcomes)
    (generatedFiles : List FileArtifact) :
    invoked .reviewing (qualityStage req o generatedFiles).calls ↔ req.qaEnabled = true := by
  unfold qualityStage
  split
  · rename_i h
    simp only [h, iff_true]
    split
    · exact (invoked_append _ _ _).mpr (Or.inl ((invoked_singleton _ _ _).mpr rfl))
    · exact (invoked_singleton _ _ _).mpr rfl
  · rename_i h
    constructor
    · intro hi
      exact absurd hi (not_invoked_backendStage .reviewing (by decide) req o generatedFiles)
    · intro hn
      exact absurd hn h

theorem qualityStage_fixing_iff (req : Request) (o : Outcomes)
    (generatedFiles : List FileArtifact) :
    invoked .fixing (qualityStage req o generatedFiles).calls
      ↔ ∃ report, (⟨.reviewing, false⟩ : StageCall) ∈ (qualityStage req o generatedFiles).calls
          ∧ o.quality = .ok report ∧ report.needsRevision = true := by
  unfold qualityStage
  split
  · simp only
    split
    · rename_i report hq
      simp only [Run.after]
      rw [invoked_append, fixStage_fixing_iff]
      constructor
      · rintro (h | h)
        · exact absurd ((invoked_singleton _ _ _).mp h) (by decide)
        · exact ⟨report, List.mem_append_left _ (List.mem_singleton.mpr rfl), hq, h⟩
      · rintro ⟨r, _, hr, hn⟩
        rw [hq] at hr
        have : report = r := Except.ok.inj hr
        subst this
        exact Or.inr hn
    · rename_i message hq
      constructor
      · intro h
        exact absurd ((invoked_singleton _ _ _).mp h) (by decide)
      · rintro ⟨r, _, hr, _⟩
        rw [hq] at hr
        cases hr
  · constructor
    · intro h
      exact absurd h (not_invoked_backendStage .fixing (by decide) req o generatedFiles)
    · rintro ⟨r, hmem, _, _⟩
      have := backendStage_calls req o generatedFiles _ hmem
      cases this

/-- The calls of a run are those of the first four stages only, or the four
successful calls followed by the calls of the QA stage on some returned files. -/
theorem generateWebsite_calls_cases (req : Request) (o : Outcomes) :
    (∀ c ∈ (generateWebsite req o).calls,
        c.stage = .architecture ∨ c.stage = .planning ∨ c.stage = .designing
          ∨ c.stage = .generating)
    ∨ ∃ files, (generateWebsite req o).calls
        = [⟨.architecture, false⟩, ⟨.planning, false⟩, ⟨.designing, false⟩,
           ⟨.generating, false⟩] ++ (qualityStage req o files).calls := by
  cases ha : o.architecture with
  | error m =>
    left; intro c hc
    simp [generateWebsite, ha] at hc
    subst hc; simp
  | ok value =>
    cases hch : architectureChecks value with
    | error m =>
      left; intro c hc
      simp [generateWebsite, ha, hch] at hc
      subst hc; simp
    | ok fs =>
      cases hp : o.planning with
      | error m =>
        left; intro c hc
        simp [generateWebsite, ha, hch, planningStage, hp, Run.after] at hc
        rcases hc with h | h <;> subst h <;> simp
      | ok u =>
        cases hd : o.design with
        | error m =>
          left; intro c hc
          simp [generateWebsite, ha, hch, planningStage, hp, designStage, hd, Run.after] at hc
          rcases hc with h | h | h <;> subst h <;> simp
        | ok u2 =>
          have hrun : (generateWebsite req o).calls
              = [⟨.architecture, false⟩, ⟨.planning, false⟩, ⟨.designing, false⟩]
                ++ (generatingStage req o fs).calls := by
            simp [generateWebsite, ha, hch, planningStage, hp, designStage, hd, Run.after]
          cases hcode : o.code.result with
          | error message =>
            left
            intro c hc
            rw [hrun] at hc
            simp [generatingStage, hcode] at hc
            rcases hc with h | h | h | h <;> subst h <;> simp
          | ok files =>
            by_cases hcritical : missingCriticalFiles (validateRequiredFiles fs files) = []
            · right
              obtain ⟨pre, _, hgen⟩ := generatingStage_proceeds req o fs files hcode hcritical
              exact ⟨files, by rw [hrun, hgen]; rfl⟩
            · left
              obtain ⟨pre, _, hgen⟩ := generatingStage_aborts req o fs files hcode hcritical
              intro c hc
              rw [hrun, hgen] at hc
              simp at hc
              rcases hc with h | h | h | h <;> subst h <;> simp

theorem invoked_late_iff (s : Stage) (hs : s = .reviewing ∨ s = .fixing)
    (rest : List StageCall) :
    invoked s ([⟨.architecture, false⟩, ⟨.planning, false⟩, ⟨.designing, false⟩,
        ⟨.generating, false⟩] ++ rest) ↔ invoked s rest := by
  rw [invoked_append]
  constructor
  · rintro (⟨b, hb⟩ | h)
    · simp only [List.mem_cons, List.mem_singleton, List.not_mem_nil, or_false,
        StageCall.mk.injEq] at hb
      rcases hs with hs | hs <;> subst hs <;> simp at hb
    · exact h
  · exact Or.inr

theorem distinctStages_generating (frames : List Frame)
    (h : ∀ f ∈ frames, f.stage = some "generating") (stages : List String)
    (hin : stages.contains "generating" = true) :
    frames.foldl
      (fun stages f =>
        match f.stage with
        | some s => if stages.contains s then stages else stages ++ [s]
        | none => stages)
      stages = stages := by
  induction frames with
  | nil => rfl
  | cons f rest ih =>
    rw [List.foldl_cons, h f (List.mem_cons_self _ _)]
    simp only [hin, if_true]
    exact ih (fun g hg => h g (List.mem_cons_of_mem _ hg))

theorem codeCallbackFrames_stage (totalFiles : Nat) (events : List CodeEvent) :
    ∀ (n : Nat), ∀ f ∈ codeCallbackFrames totalFiles n events, f.stage = some "generating" := by
  induction events with
  | nil => intro n f hf; simp [codeCallbackFrames] at hf
  | cons ev rest ih =>
    intro n f hf
    cases ev with
    | fileStart filePath =>
      simp only [codeCallbackFrames, List.mem_cons] at hf
      rcases hf with h | h
      · subst h; rfl
      · exact ih n f h
    | chunk c =>
      simp only [codeCallbackFrames] at hf
      exact ih n f hf
    | fileComplete file =>
      simp only [codeCallbackFrames, List.mem_cons] at hf
      rcases hf with h | h
      · subst h; split <;> rfl
      · exact ih (n + 1) f h


/-- After three successful stages, returned files and no missing critical file,
the run is four opening frames, further frames of stage `generating`, and then
the QA stage on the returned files. -/
theorem generateWebsite_after_generation (req : Request) (o : Outcomes)
    (value : Option ArchitectureSpec) (fs : FileStructure) (files : List FileArtifact)
    (harch : o.architecture = .ok value) (hchecks : architectureChecks value = .ok fs)
    (hplanning : o.planning = .ok ()) (hdesign : o.design = .ok ())
    (hcode : o.code.result = .ok files)
    (hcritical : missingCriticalFiles (validateRequiredFiles fs files) = []) :
    ∃ gpre, (∀ f ∈ gpre, f.stage = some "generating")
      ∧ generateWebsite req o = (qualityStage req o files).after
          ([{ stage := some "architecture", progress := some (.num 5),
              message := some "Planning project structure..." },
            { stage := some "planning", progress := some (.num 15),
              message := some "Creating technical specifications..." },
            { stage := some "designing", progress := some (.num 25),
              message := some "Creating design system..." },
            { stage := some "generating", progress := some (.num 40),
              message := some "Generating website files..." }] ++ gpre)
          [⟨.architecture, false⟩, ⟨.planning, false⟩, ⟨.designing, false⟩,
           ⟨.generating, false⟩] := by
  by_cases hwarn : (decide ((codeCallbackErrors o.code.events).length > 0)
      || decide ((validateRequiredFiles fs files).length > 0)) = true
  · refine ⟨codeCallbackFrames (totalFilesOf fs) 0 o.code.events ++
      [{ stage := some "generating", progress := some (.num 80),
         warning := some (errorSummary (codeCallbackErrors o.code.events)
           (validateRequiredFiles fs files)),
         fileGenerationErrors := some (codeCallbackErrors o.code.events),
         missingFiles := some (validateRequiredFiles fs files),
         message := some "Code generation completed with warnings" }], ?_, ?_⟩
    · intro f hf
      rcases List.mem_append.mp hf with h | h
      · exact codeCallbackFrames_stage _ _ _ f h
      · rw [List.mem_singleton] at h
        subst h; rfl
    · simp only [generateWebsite, harch, hchecks, planningStage, hplanning, designStage, hdesign,
        generatingStage, hcode, hwarn, hcritical, List.length_nil, Nat.lt_irrefl, if_true,
        if_false, Run.after, List.cons_append, List.nil_append, List.append_assoc]
  · refine ⟨codeCallbackFrames (totalFilesOf fs) 0 o.code.events,
      codeCallbackFrames_stage _ _ _, ?_⟩
    simp only [generateWebsite, harch, hchecks, planningStage, hplanning, designStage, hdesign,
      generatingStage, hcode, hwarn, Bool.false_eq_true, if_false, Run.after, List.cons_append,
      List.nil_append, List.append_assoc]

theorem advancedFixStage_fixing_iff (o : AdvancedOutcomes) (generatedCode : String)
    (report : SingleReport) :
    (invoked .fixing (advancedFixStage o generatedCode report).calls
        ↔ report.needsRevision = true)
    ∧ ¬ invoked .reviewing (advancedFixStage o generatedCode report).calls := by
  unfold advancedFixStage
  split
  · rename_i h
    simp only
    split
    · exact ⟨⟨fun _ => h, fun _ => ⟨false, by simp [AdvancedRun.after, advancedCompletion]⟩⟩,
        by rintro ⟨b, hb⟩; simp [AdvancedRun.after, advancedCompletion] at hb⟩
    · exact ⟨⟨fun _ => h, fun _ => ⟨true, by simp⟩⟩, by rintro ⟨b, hb⟩; simp at hb⟩
  · rename_i h
    exact ⟨⟨by rintro ⟨b, hb⟩; simp [advancedCompletion] at hb, fun hn => absurd hn h⟩,
      by rintro ⟨b, hb⟩; simp [advancedCompletion] at hb⟩

theorem advancedQualityStage_gating (enableQA : Option Bool) (o : AdvancedOutcomes)
    (generatedCode : String) :
    (invoked .reviewing (advancedQualityStage enableQA o generatedCode).calls
        ↔ (enableQA = none ∨ enableQA = some true))
    ∧ (invoked .fixing (advancedQualityStage enableQA o generatedCode).calls
        ↔ ∃ report, (⟨.reviewing, false⟩ : StageCall)
              ∈ (advancedQualityStage enableQA o generatedCode).calls
            ∧ o.quality = .ok report ∧ report.needsRevision = true) := by
  have hqa : enableQA.getD true = true ↔ (enableQA = none ∨ enableQA = some true) := by
    cases enableQA with
    | none => simp
    | some b => cases b <;> simp
  unfold advancedQualityStage
  split
  · rename_i h
    simp only
    split
    · rename_i report hq
      refine ⟨⟨fun _ => hqa.mp h, fun _ => ?_⟩, ?_⟩
      · exact (invoked_append _ _ _).mpr (Or.inl ((invoked_singleton _ _ _).mpr rfl))
      · simp only [AdvancedRun.after]
        rw [invoked_append, (advancedFixStage_fixing_iff o generatedCode report).1]
        constructor
        · rintro (h1 | h1)
          · exact absurd ((invoked_singleton _ _ _).mp h1) (by decide)
          · exact ⟨report, List.mem_append_left _ (List.mem_singleton.mpr rfl), hq, h1⟩
        · rintro ⟨r, _, hr, hn⟩
          rw [hq] at hr
          have : report = r := Except.ok.inj hr
          subst this
          exact Or.inr hn
    · rename_i message hq
      refine ⟨⟨fun _ => hqa.mp h, fun _ => (invoked_singleton _ _ _).mpr rfl⟩, ?_⟩
      constructor
      · intro h1
        exact absurd ((invoked_singleton _ _ _).mp h1) (by decide)
      · rintro ⟨r, _, hr, _⟩
        rw [hq] at hr
        cases hr
  · rename_i h
    refine ⟨⟨?_, fun hn => absurd (hqa.mpr hn) h⟩, ⟨?_, ?_⟩⟩
    · rintro ⟨b, hb⟩; simp [advancedCompletion] at hb
    · rintro ⟨b, hb⟩; simp [advancedCompletion] at hb
    · rintro ⟨r, hmem, _, _⟩; simp [advancedCompletion] at hmem

theorem generateAdvanced_calls_cases (enableQA : Option Bool) (o : AdvancedOutcomes) :
    (∀ c ∈ (generateAdvanced enableQA o).calls,
        c.stage = .planning ∨ c.stage = .designing ∨ c.stage = .generating)
    ∨ ∃ code, o.code.result = .ok code ∧ (generateAdvanced enableQA o).calls
        = [⟨.planning, false⟩, ⟨.designing, false⟩, ⟨.generating, false⟩]
          ++ (advancedQualityStage enableQA o code).calls := by
  cases hp : o.planning with
  | error m =>
    left; intro c hc
    simp [generateAdvanced, hp] at hc
    subst hc; simp
  | ok u =>
    cases hd : o.design with
    | error m =>
      left; intro c hc
      simp [generateAdvanced, hp, advancedDesignStage, hd, AdvancedRun.after] at hc
      rcases hc with h | h <;> subst h <;> simp
    | ok u2 =>
      cases hcode : o.code.result with
      | error m =>
        left; intro c hc
        simp [generateAdvanced, hp, advancedDesignStage, hd, advancedGeneratingStage, hcode,
          AdvancedRun.after] at hc
        rcases hc with h | h | h <;> subst h <;> simp
      | ok code =>
        right
        exact ⟨code, rfl, by
          simp [generateAdvanced, hp, advancedDesignStage, hd, advancedGeneratingStage, hcode,
            AdvancedRun.after]⟩

theorem invoked_late_iff_advanced (s : Stage) (hs : s = .reviewing ∨ s = .fixing)
    (rest : List StageCall) :
    invoked s ([⟨.planning, false⟩, ⟨.designing, false⟩, ⟨.generating, false⟩] ++ rest)
      ↔ invoked s rest := by
  rw [invoked_append]
  constructor
  · rintro (⟨b, hb⟩ | h)
    · simp only [List.mem_cons, List.mem_singleton, List.not_mem_nil, or_false,
        StageCall.mk.injEq] at hb
      rcases hs with hs | hs <;> subst hs <;> simp at hb
    · exact h
  · exact Or.inr


/-- The stage names of a run that reaches the QA point with QA off and no
backend requested. -/
theorem distinctStages_of_qa_off (req : Request) (o : Outcomes) (files : List FileArtifact)
    (gpre : List Frame) (calls : List StageCall)
    (hg : ∀ f ∈ gpre, f.stage = some "generating")
    (hqa : req.enableQA = some false) (hbackend : req.includeBackend = false) :
    distinctStages ((qualityStage req o files).after
        ([{ stage := some "architecture", progress := some (.num 5),
            message := some "Planning project structure..." },
          { stage := some "planning", progress := some (.num 15),
            message := some "Creating technical specifications..." },
          { stage := some "designing", progress := some (.num 25),
            message := some "Creating design system..." },
          { stage := some "generating", progress := some (.num 40),
            message := some "Generating website files..." }] ++ gpre) calls).frames
      = ["architecture", "planning", "designing", "generating", "complete"] := by
  have hoff : req.qaEnabled = false := by
    cases h : req.qaEnabled with
    | false => rfl
    | true =>
      rcases (qaEnabled_iff req).mp h with h1 | h1 <;> rw [hqa] at h1 <;> cases h1
  have hpre : List.foldl
      (fun stages (f : Frame) =>
        match f.stage with
        | some s => if stages.contains s then stages else stages ++ [s]
        | none => stages)
      ["architecture", "planning", "designing", "generating"] gpre
        = ["architecture", "planning", "designing", "generating"] :=
    distinctStages_generating gpre hg _ (by decide)
  have hframes : ((qualityStage req o files).after
        ([{ stage := some "architecture", progress := some (.num 5),
            message := some "Planning project structure..." },
          { stage := some "planning", progress := some (.num 15),
            message := some "Creating technical specifications..." },
          { stage := some "designing", progress := some (.num 25),
            message := some "Creating design system..." },
          { stage := some "generating", progress := some (.num 40),
            message := some "Generating website files..." }] ++ gpre) calls).frames
      = [({ stage := some "architecture", progress := some (.num 5),
            message := some "Planning project structure..." } : Frame),
          { stage := some "planning", progress := some (.num 15),
            message := some "Creating technical specifications..." },
          { stage := some "designing", progress := some (.num 25),
            message := some "Creating design system..." },
          { stage := some "generating", progress := some (.num 40),
            message := some "Generating website files..." }]
        ++ (gpre ++ (completionStage req files 0).frames) := by
    simp only [qualityStage, hoff, backendStage, hbackend, Run.after, Bool.false_eq_true,
      if_false, List.append_assoc]
  rw [hframes]
  unfold distinctStages
  rw [List.foldl_append, List.foldl_append]
  have h4 : List.foldl
      (fun stages (f : Frame) =>
        match f.stage with
        | some s => if stages.contains s then stages else stages ++ [s]
        | none => stages)
      []
      [({ stage := some "architecture", progress := some (.num 5),
            message := some "Planning project structure..." } : Frame),
          { stage := some "planning", progress := some (.num 15),
            message := some "Creating technical specifications..." },
          { stage := some "designing", progress := some (.num 25),
            message := some "Creating design system..." },
          { stage := some "generating", progress := some (.num 40),
            message := some "Generating website files..." }]
        = ["architecture", "planning", "designing", "generating"] := by decide
  rw [h4, hpre]
  simp only [completionStage, List.foldl_cons, List.foldl_nil]
  decide


/-- In both handlers a reviewing call is made only with `enableQA` omitted or
true, and a fixing call only after a review that returned a report whose
`needsRevision` is true, whatever the outcomes of the stages. -/
theorem qa_stages_only_when_gated (req : Request) (o : Outcomes) (ao : AdvancedOutcomes) :
    (invoked .reviewing (generateWebsite req o).calls
        → req.enableQA = none ∨ req.enableQA = some true)
    ∧ (invoked .fixing (generateWebsite req o).calls
        → ∃ report, (⟨.reviewing, false⟩ : StageCall) ∈ (generateWebsite req o).calls
            ∧ o.quality = .ok report ∧ report.needsRevision = true)
    ∧ (invoked .reviewing (generateAdvanced req.enableQA ao).calls
        → req.enableQA = none ∨ req.enableQA = some true)
    ∧ (invoked .fixing (generateAdvanced req.enableQA ao).calls
        → ∃ report, (⟨.reviewing, false⟩ : StageCall) ∈ (generateAdvanced req.enableQA ao).calls
            ∧ ao.quality = .ok report ∧ report.needsRevision = true) := by
  have early : ∀ (s : Stage) (calls : List StageCall), (s = .reviewing ∨ s = .fixing) →
      (∀ c ∈ calls, c.stage = .architecture ∨ c.stage = .planning ∨ c.stage = .designing
          ∨ c.stage = .generating) → ¬ invoked s calls := by
    rintro s calls hs h ⟨b, hb⟩
    have := h _ hb
    rcases hs with hs | hs <;> subst hs <;> simp at this
  have early3 : ∀ (s : Stage) (calls : List StageCall), (s = .reviewing ∨ s = .fixing) →
      (∀ c ∈ calls, c.stage = .planning ∨ c.stage = .designing ∨ c.stage = .generating) →
      ¬ invoked s calls := by
    rintro s calls hs h ⟨b, hb⟩
    have := h _ hb
    rcases hs with hs | hs <;> subst hs <;> simp at this
  refine ⟨?_, ?_, ?_, ?_⟩
  · intro hi
    rcases generateWebsite_calls_cases req o with h | ⟨files, h⟩
    · exact absurd hi (early _ _ (Or.inl rfl) h)
    · rw [h, invoked_late_iff _ (Or.inl rfl), qualityStage_reviewing_iff, qaEnabled_iff] at hi
      exact hi
  · intro hi
    rcases generateWebsite_calls_cases req o with h | ⟨files, h⟩
    · exact absurd hi (early _ _ (Or.inr rfl) h)
    · rw [h, invoked_late_iff _ (Or.inr rfl), qualityStage_fixing_iff] at hi
      obtain ⟨report, hm, hq, hn⟩ := hi
      exact ⟨report, by rw [h]; exact List.mem_append_right _ hm, hq, hn⟩
  · intro hi
    rcases generateAdvanced_calls_cases req.enableQA ao with h | ⟨code, _, h⟩
    · exact absurd hi (early3 _ _ (Or.inl rfl) h)
    · rw [h, invoked_late_iff_advanced _ (Or.inl rfl)] at hi
      exact (advancedQualityStage_gating req.enableQA ao code).1.mp hi
  · intro hi
    rcases generateAdvanced_calls_cases req.enableQA ao with h | ⟨code, _, h⟩
    · exact absurd hi (early3 _ _ (Or.inr rfl) h)
    · rw [h, invoked_late_iff_advanced _ (Or.inr rfl)] at hi
      obtain ⟨report, hm, hq, hn⟩ := (advancedQualityStage_gating req.enableQA ao code).2.mp hi
      exact ⟨report, by rw [h]; exact List.mem_append_right _ hm, hq, hn⟩

/-- In a run of `/generate-website` that reaches the QA point (architecture,
planning, design and generation succeed and no critical file is missing) and in
a run of `/generate-advanced` that reaches it (planning, design and generation
succeed), the reviewing agent is called iff `enableQA` is omitted or true, and
the fixing agent is called iff the review returned a report whose
`needsRevision` is true; and with `enableQA` false and no backend requested the
distinct stage names of the frames sent by `/generate-website` are, in order,
architecture, planning, designing, generating, complete. -/
theorem qa_and_fix_gating_at_qa_point (req : Request) (o : Outcomes) (value : Option ArchitectureSpec)
    (fs : FileStructure) (files : List FileArtifact) (ao : AdvancedOutcomes) (code : String)
    (harch : o.architecture = .ok value) (hchecks : architectureChecks value = .ok fs)
    (hplanning : o.planning = .ok ()) (hdesign : o.design = .ok ())
    (hcode : o.code.result = .ok files)
    (hcritical : missingCriticalFiles (validateRequiredFiles fs files) = [])
    (haplanning : ao.planning = .ok ()) (hadesign : ao.design = .ok ())
    (hacode : ao.code.result = .ok code) :
    (invoked .reviewing (generateWebsite req o).calls
        ↔ (req.enableQA = none ∨ req.enableQA = some true))
    ∧ (invoked .fixing (generateWebsite req o).calls
        ↔ ∃ report, (⟨.reviewing, false⟩ : StageCall) ∈ (generateWebsite req o).calls
            ∧ o.quality = .ok report ∧ report.needsRevision = true)
    ∧ (req.enableQA = some false → req.includeBackend = false →
        distinctStages (generateWebsite req o).frames
          = ["architecture", "planning", "designing", "generating", "complete"])
    ∧ (invoked .reviewing (generateAdvanced req.enableQA ao).calls
        ↔ (req.enableQA = none ∨ req.enableQA = some true))
    ∧ (invoked .fixing (generateAdvanced req.enableQA ao).calls
        ↔ ∃ report, (⟨.reviewing, false⟩ : StageCall) ∈ (generateAdvanced req.enableQA ao).calls
            ∧ ao.quality = .ok report ∧ report.needsRevision = true) := by
  obtain ⟨gpre, hg, hrun⟩ := generateWebsite_after_generation req o value fs files harch hchecks
    hplanning hdesign hcode hcritical
  have hcalls : (generateWebsite req o).calls
      = [⟨.architecture, false⟩, ⟨.planning, false⟩, ⟨.designing, false⟩, ⟨.generating, false⟩]
        ++ (qualityStage req o files).calls := by
    rw [hrun]; rfl
  have hacalls : (generateAdvanced req.enableQA ao).calls
      = [⟨.planning, false⟩, ⟨.designing, false⟩, ⟨.generating, false⟩]
        ++ (advancedQualityStage req.enableQA ao code).calls := by
    simp [generateAdvanced, haplanning, advancedDesignStage, hadesign, advancedGeneratingStage,
      hacode, AdvancedRun.after]
  have hmem : ∀ rest : List StageCall,
      (⟨.reviewing, false⟩ : StageCall) ∈ ([⟨.architecture, false⟩, ⟨.planning, false⟩,
        ⟨.designing, false⟩, ⟨.generating, false⟩] : List StageCall) ++ rest
        ↔ (⟨.reviewing, false⟩ : StageCall) ∈ rest := by
    intro rest; simp
  have hamem : ∀ rest : List StageCall,
      (⟨.reviewing, false⟩ : StageCall) ∈ ([⟨.planning, false⟩,
        ⟨.designing, false⟩, ⟨.generating, false⟩] : List StageCall) ++ rest
        ↔ (⟨.reviewing, false⟩ : StageCall) ∈ rest := by
    intro rest; simp
  refine ⟨?_, ?_, ?_, ?_, ?_⟩
  · rw [hcalls, invoked_late_iff _ (Or.inl rfl), qualityStage_reviewing_iff, qaEnabled_iff]
  · rw [hcalls, invoked_late_iff _ (Or.inr rfl), qualityStage_fixing_iff]
    simp only [hmem]
  · intro hqa hbackend
    rw [hrun]
    exact distinctStages_of_qa_off req o files gpre _ hg hqa hbackend
  · rw [hacalls, invoked_late_iff_advanced _ (Or.inl rfl)]
    exact (advancedQualityStage_gating req.enableQA ao code).1
  · rw [hacalls, invoked_late_iff_advanced _ (Or.inr rfl)]
    simp only [hamem]
    exact (advancedQualityStage_gating req.enableQA ao code).2

/-! ## Request validation: claim C23 -/

theorem jsLength_eq_zero (s : String) : jsLength s = 0 ↔ s = "" := by
  cases s with
  | mk data =>
    cases data with
    | nil => simp [jsLength]
    | cons c rest =>
      simp only [jsLength, List.map_cons, List.sum_cons]
      constructor
      · intro h
        split at h <;> omega
      · intro h
        have := congrArg String.data h
        simp at this

theorem promptRejected_iff (body : Json) :
    promptRejected (body.get "prompt") = true ↔ PromptUnusable body := by
  unfold PromptUnusable
  cases h : body.get "prompt" with
  | none => simp [promptRejected]
  | some v =>
    cases v with
    | str s =>
      simp only [promptRejected, Bool.or_eq_true, beq_iff_eq, jsLength_eq_zero, Option.some.injEq,
        Json.str.injEq, forall_eq']
      constructor
      · rintro (h1 | h1)
        · subst h1; rfl
        · exact h1
      · exact Or.inr
    | _ => simp [promptRejected]

theorem templateRejected_iff (body : Json) :
    templateRejected (body.get "template") = true ↔ TemplateInvalid body := by
  unfold TemplateInvalid
  cases h : body.get "template" with
  | none => simp [templateRejected]
  | some v =>
    cases v with
    | str s =>
      simp only [templateRejected, Bool.not_eq_true', Option.some.injEq, exists_eq_left', ne_eq,
        Json.str.injEq]
      constructor
      · intro hc t ht hst
        subst hst
        rw [List.contains_eq_any_beq, List.any_eq_false] at hc
        exact hc s ht (by simp)
      · intro hc
        rw [List.contains_eq_any_beq, List.any_eq_false]
        intro t ht
        simp only [beq_iff_eq]
        exact fun hst => hc t ht hst
    | _ => simp [templateRejected]

theorem historyRejected_iff (body : Json) :
    historyRejected (body.get "conversationHistory") = true ↔ HistoryInvalid body := by
  unfold HistoryInvalid
  cases h : body.get "conversationHistory" with
  | none => simp [historyRejected]
  | some v => cases v <;> simp [historyRejected, Json.isArray]


theorem templateUnprintable_iff (body : Json) :
    displayThrowsOption (body.get "template") = true ↔ TemplateUnprintable body := by
  unfold TemplateUnprintable
  cases h : body.get "template" with
  | none => simp [displayThrowsOption]
  | some v => simp [displayThrowsOption]

/-- A template that cannot be printed is not one of the valid names. -/
theorem templateInvalid_of_unprintable (body : Json) (h : TemplateUnprintable body) :
    TemplateInvalid body := by
  obtain ⟨v, hv, hthrows⟩ := h
  refine ⟨v, hv, ?_⟩
  intro t _ hvt
  subst hvt
  simp [Json.displayThrows] at hthrows

/-- C23, as the specification states it, fails: a body with a usable prompt whose
template is an object with an own key `toString` has a template that is present
and not one of the three valid names, yet the answer is status 500, not 400:
printing the template into the error message throws, and the outer `catch`
answers. -/
theorem unprintable_template_is_answered_with_500 :
    ¬ PromptUnusable bodyWithUnprintableTemplate
    ∧ TemplateInvalid bodyWithUnprintableTemplate
    ∧ handleGenerateWebsite bodyWithUnprintableTemplate (fun _ => sampleOutcomes)
        = .json 500 "Cannot convert object to primitive value"
    ∧ (handleGenerateWebsite bodyWithUnprintableTemplate
        (fun _ => sampleOutcomes)).isBadRequest = false := by
  refine ⟨?_, ?_, rfl, rfl⟩
  · intro h
    exact absurd (h "Create a website" rfl) (by decide)
  · exact templateInvalid_of_unprintable _ ⟨_, rfl, rfl⟩

/-- C23, amended: `/generate-website` answers with a JSON error body (no SSE
header, no frame, no stage call), and with status 400, exactly when the prompt
is missing, not a string or blank after trimming, or else the template can be
printed and either the template is present and not one of the three valid names
or conversationHistory is present and not an array; the three checks are made in
that order, each with its own message. With a usable prompt and a template that
cannot be converted to a string (an object with an own key `toString`, or an
array holding one) the answer is a JSON error body with status 500. Every other
body starts the pipeline, with template `vite-react` when the body has none. -/
theorem website_rejects_exactly_malformed_bodies (body : Json) (outcomes : Json → Outcomes) :
    ((handleGenerateWebsite body outcomes).isBadRequest = true
        ↔ PromptUnusable body
          ∨ (¬ TemplateUnprintable body ∧ (TemplateInvalid body ∨ HistoryInvalid body)))
    ∧ (PromptUnusable body → handleGenerateWebsite body outcomes
        = .json 400 "Prompt is required and must be a non-empty string")
    ∧ (¬ PromptUnusable body → TemplateInvalid body → ¬ TemplateUnprintable body →
        handleGenerateWebsite body outcomes
          = .json 400 ("Invalid template: " ++ displayOption (body.get "template")
              ++ ". Must be one of: vite-react, nextjs, vite-react-ts"))
    ∧ (¬ PromptUnusable body → TemplateUnprintable body →
        handleGenerateWebsite body outcomes
          = .json 500 "Cannot convert object to primitive value")
    ∧ (¬ PromptUnusable body → ¬ TemplateInvalid body → HistoryInvalid body →
        handleGenerateWebsite body outcomes = .json 400 "conversationHistory must be an array")
    ∧ (¬ PromptUnusable body → ¬ TemplateInvalid body → ¬ HistoryInvalid body →
        handleGenerateWebsite body outcomes
          = .stream (selectedTemplate body,
              generateWebsite (requestOf body) (outcomes (selectedTemplate body)))
        ∧ selectedTemplate body ∈ validTemplates.map Json.str
        ∧ (body.get "template" = none → selectedTemplate body = .str "vite-react")) := by
  have himp : TemplateUnprintable body → TemplateInvalid body :=
    templateInvalid_of_unprintable body
  rw [← promptRejected_iff, ← templateRejected_iff, ← historyRejected_iff,
    ← templateUnprintable_iff] at *
  unfold handleGenerateWebsite
  cases hp : promptRejected (body.get "prompt") <;>
    cases ht : templateRejected (body.get "template") <;>
    cases hu : displayThrowsOption (body.get "template") <;>
    cases hh : historyRejected (body.get "conversationHistory") <;>
    simp [Response.isBadRequest, hu, ht] at himp ⊢
  all_goals try
    (rw [String.append_assoc]
     exact congrArg _ (by decide))
  all_goals
    unfold selectedTemplate
    cases htv : body.get "template" with
    | none => simp [validTemplates]
    | some v =>
      rw [htv] at ht
      cases v with
      | str s =>
        simp only [templateRejected, Bool.not_eq_false'] at ht
        have hmem : s ∈ validTemplates := by
          rw [List.contains_eq_any_beq, List.any_eq_true] at ht
          obtain ⟨t, ht1, ht2⟩ := ht
          rw [beq_iff_eq] at ht2
          subst ht2
          exact ht1
        have hne : s ≠ "" := by
          intro hs
          subst hs
          revert hmem
          decide
        simp [Json.truthy, hne, hmem]
      | _ => simp [templateRejected] at ht

/-- C23 amended, at concrete bodies: an invalid template (given together with an
invalid conversationHistory) is answered with the template message, a template
that cannot be printed with status 500, and a body with only a prompt starts
the pipeline with template `vite-react`. -/
theorem website_rejects_exactly_malformed_bodies_witness :
    handleGenerateWebsite bodyWithInvalidTemplate (fun _ => sampleOutcomes)
      = .json 400
          "Invalid template: invalid-template. Must be one of: vite-react, nextjs, vite-react-ts"
    ∧ handleGenerateWebsite bodyWithUnprintableTemplate (fun _ => sampleOutcomes)
      = .json 500 "Cannot convert object to primitive value"
    ∧ handleGenerateWebsite bodyWithPromptOnly (fun _ => sampleOutcomes)
      = .stream (.str "vite-react", generateWebsite ⟨some false, false⟩ sampleOutcomes) := by
  have hprompt : ∀ body s, body.get "prompt" = some (.str s) → jsTrim s ≠ "" →
      ¬ PromptUnusable body := fun body s h hs hu => hs (hu s h)
  have h1 := (website_rejects_exactly_malformed_bodies bodyWithInvalidTemplate
    (fun _ => sampleOutcomes)).2.2.1
    (hprompt _ "Create a website" rfl (by decide))
    ((templateRejected_iff bodyWithInvalidTemplate).mp (by decide))
    (fun h => absurd ((templateUnprintable_iff bodyWithInvalidTemplate).mpr h) (by decide))
  have h2 := (website_rejects_exactly_malformed_bodies bodyWithUnprintableTemplate
    (fun _ => sampleOutcomes)).2.2.2.1
    (hprompt _ "Create a website" rfl (by decide)) ⟨_, rfl, rfl⟩
  have h3 := ((website_rejects_exactly_malformed_bodies bodyWithPromptOnly
    (fun _ => sampleOutcomes)).2.2.2.2.2
    (hprompt _ "Create a simple website" rfl (by decide))
    (by rintro ⟨v, hv, _⟩; cases hv)
    (by rintro ⟨v, hv, _⟩; cases hv)).1
  exact ⟨h1, h2, h3⟩


/-! ## The `/generate-simple` handler: claim C28 -/

theorem chunksOf_append (xs ys : List CallEvent) :
    chunksOf (xs ++ ys) = chunksOf xs ++ chunksOf ys := by
  induction xs with
  | nil => rfl
  | cons x xs ih => cases x <;> simp [chunksOf, ih]

/-- When no failed attempt delivers a fragment, the chunks handed to `onChunk`
during the whole call are those of the attempt that succeeded. -/
theorem callGroqStreamLoop_chunks_of_clean_failures (create : Nat → StreamAttempt)
    (retries : Nat)
    (hclean : ∀ n, (create n).failure ≠ none → contentFragments (create n).fragments = []) :
    ∀ (remaining attempt : Nat) (lastError : Option JsError) (text : String),
      (callGroqStreamLoop create retries remaining attempt lastError).result = .ok text →
      String.join (chunksOf (callGroqStreamLoop create retries remaining attempt lastError).events)
        = text := by
  intro remaining
  induction remaining with
  | zero =>
    intro attempt lastError text h
    simp [callGroqStreamLoop] at h
  | succ remaining ih =>
    intro attempt lastError text h
    simp only [callGroqStreamLoop] at h ⊢
    cases hf : (create attempt).failure with
    | none =>
      rw [hf] at h
      simp only at h
      simp only [hf, chunksOf, chunksOf_chunks]
      exact Except.ok.inj h
    | some error =>
      rw [hf] at h
      have hnone := hclean attempt (by rw [hf]; exact Option.some_ne_none _)
      simp only [hf, hnone, List.map_nil] at h ⊢
      by_cases hr : isRetryableError error = true
      · simp only [hr, Bool.not_true, Bool.false_eq_true, if_false] at h ⊢
        by_cases hlt : attempt < retries
        · simp only [hlt, if_true, CallRun.after] at h ⊢
          rw [chunksOf_append]
          simpa [chunksOf] using ih _ _ _ h
        · simp only [hlt, if_false, CallRun.after] at h ⊢
          rw [chunksOf_append]
          simpa [chunksOf] using ih _ _ _ h
      · simp [hr] at h

/-- When no failed attempt of the gateway call delivers a fragment (in
particular when the first attempt succeeds), the `complete` frame of
`/generate-simple` carries the text that the gateway call returns. -/
theorem simple_code_is_gateway_text_of_clean_failures (systemPrompt : String) (body : Json)
    (create : Nat → StreamAttempt) (text : String)
    (hprompt : promptRejected (body.get "prompt") = false)
    (hhistory : historyRejected (body.get "conversationHistory") = false)
    (hclean : ∀ n, (create n).failure ≠ none → contentFragments (create n).fragments = [])
    (hresult : (callGroqStream true true (.array (simpleMessages systemPrompt body)) create 3).result
      = .ok text) :
    ∃ chunkFrames, generateSimple systemPrompt body create
      = .stream (chunkFrames ++ [{ stage := some "complete", code := some text }]) := by
  have hloop : callGroqStream true true (.array (simpleMessages systemPrompt body)) create 3
      = callGroqStreamLoop create 3 3 1 none := by
    simp [callGroqStream, MessagesArg.invalid, simpleMessages]
  rw [hloop] at hresult
  have hjoin := callGroqStreamLoop_chunks_of_clean_failures create 3 hclean 3 1 none text hresult
  refine ⟨(chunksOf (callGroqStreamLoop create 3 3 1 none).events).map
    (fun c => ({ chunk := some c } : SimpleFrame)), ?_⟩
  simp only [generateSimple, hprompt, hhistory, Bool.false_eq_true, if_false, hloop, simpleFrames,
    hresult, hjoin]

/-- C28 fails on the code when a failed attempt has delivered fragments: the
first attempt delivers `const a` and breaks off with a network error, the
second attempt delivers `const a` and ` = 1` and succeeds; the gateway call
returns `const a = 1`, but the `complete` frame carries `const aconst a = 1`,
the fragments of both attempts. -/
theorem simple_code_repeats_fragments_of_failed_attempt :
    (callGroqStream true true
        (.array (simpleMessages "You generate code." (.obj [("prompt", .str "a constant")])))
        streamRestartedOnce 3).result = .ok "const a = 1"
    ∧ generateSimple "You generate code." (.obj [("prompt", .str "a constant")])
        streamRestartedOnce
      = .stream [{ chunk := some "const a" }, { chunk := some "const a" },
                 { chunk := some " = 1" },
                 { stage := some "complete", code := some "const aconst a = 1" }] := by
  refine ⟨congrArg Except.ok (by decide), congrArg Response.stream (by decide)⟩


/-! ## Error frames and their stage: claim C22 -/

theorem string_append_ne_empty (label m : String) (h : label ≠ "") : label ++ m ≠ "" := by
  intro hc
  apply h
  have hd := congrArg String.data hc
  rw [String.data_append] at hd
  have : label.data = [] := (List.append_eq_nil.mp hd).1
  cases label
  simp_all

theorem namesStage_of_noError {calls : List StageCall} {f : Frame} (h : f.hasError = false) :
    f.NamesStage calls := by
  intro e he
  simp [Frame.hasError, he] at h

theorem namesStage_mono {calls : List StageCall} (pre : List StageCall) {f : Frame}
    (h : f.NamesStage calls) : f.NamesStage (pre ++ calls) := by
  intro e he
  obtain ⟨h1, s, h2, h3⟩ := h e he
  exact ⟨h1, s, h2, (invoked_append _ _ _).mpr (Or.inr h3)⟩

theorem namesStage_after (pre : List Frame) (calls : List StageCall) (rest : Run)
    (hpre : ∀ f ∈ pre, f.NamesStage (calls ++ rest.calls))
    (hrest : ∀ f ∈ rest.frames, f.NamesStage rest.calls) :
    ∀ f ∈ (rest.after pre calls).frames, f.NamesStage (rest.after pre calls).calls := by
  intro f hf
  simp only [Run.after] at hf ⊢
  rcases List.mem_append.mp hf with h | h
  · exact hpre f h
  · exact namesStage_mono calls (hrest f h)

theorem namesStage_of_error {calls : List StageCall} {f : Frame} (s : Stage) (label m : String)
    (hlabel : label ≠ "") (he : f.error = some (label ++ m)) (hs : f.stage = some s.name)
    (hi : invoked s calls) : f.NamesStage calls := by
  intro e he2
  rw [he] at he2
  cases he2
  exact ⟨string_append_ne_empty label m hlabel, s, hs, hi⟩

theorem codeCallbackFrames_namesStage (totalFiles : Nat) (events : List CodeEvent)
    (calls : List StageCall) (hi : invoked .generating calls) :
    ∀ (n : Nat), ∀ f ∈ codeCallbackFrames totalFiles n events, f.NamesStage calls := by
  induction events with
  | nil => intro n f hf; simp [codeCallbackFrames] at hf
  | cons ev rest ih =>
    intro n f hf
    cases ev with
    | fileStart filePath =>
      simp only [codeCallbackFrames, List.mem_cons] at hf
      rcases hf with h | h
      · subst h
        exact namesStage_of_noError rfl
      · exact ih n f h
    | chunk c =>
      simp only [codeCallbackFrames] at hf
      exact ih n f hf
    | fileComplete file =>
      simp only [codeCallbackFrames, List.mem_cons] at hf
      rcases hf with h | h
      · subst h
        split
        · exact namesStage_of_error .generating "Failed to generate " file.path (by decide) rfl rfl hi
        · exact namesStage_of_noError rfl
      · exact ih (n + 1) f h

theorem backendStage_namesStage (req : Request) (o : Outcomes) (finalFiles : List FileArtifact) :
    ∀ f ∈ (backendStage req o finalFiles).frames,
      f.NamesStage (backendStage req o finalFiles).calls :=
  fun f hf => namesStage_of_noError (backendStage_noError req o finalFiles f hf)

theorem fixStage_namesStage (req : Request) (o : Outcomes) (generatedFiles : List FileArtifact)
    (qualityReport : QualityReport) :
    ∀ f ∈ (fixStage req o generatedFiles qualityReport).frames,
      f.NamesStage (fixStage req o generatedFiles qualityReport).calls := by
  unfold fixStage
  split
  · simp only
    split
    · apply namesStage_after _ _ _ _ (backendStage_namesStage _ _ _)
      intro f hf
      rcases List.mem_cons.mp hf with h | h
      · subst h
        exact namesStage_of_noError rfl
      · exact namesStage_of_noError (fixCallbackFrames_noError _ _ _ f h)
    · apply namesStage_after _ _ _ _ (backendStage_namesStage _ _ _)
      intro f hf
      rcases List.mem_append.mp hf with h | h
      · rcases List.mem_cons.mp h with h | h
        · subst h
          exact namesStage_of_noError rfl
        · exact namesStage_of_noError (fixCallbackFrames_noError _ _ _ f h)
      · rw [List.mem_singleton] at h
        subst h
        exact namesStage_of_error .fixing "Fix stage failed: " _ (by decide) rfl rfl
          ((invoked_append _ _ _).mpr (Or.inl ((invoked_singleton _ _ _).mpr rfl)))
  · exact backendStage_namesStage _ _ _

theorem qualityStage_namesStage (req : Request) (o : Outcomes)
    (generatedFiles : List FileArtifact) :
    ∀ f ∈ (qualityStage req o generatedFiles).frames,
      f.NamesStage (qualityStage req o generatedFiles).calls := by
  unfold qualityStage
  split
  · simp only
    split
    · apply namesStage_after _ _ _ _ (fixStage_namesStage _ _ _ _)
      intro f hf
      simp only [List.mem_cons, List.mem_singleton, List.not_mem_nil, or_false] at hf
      rcases hf with h | h <;> subst h <;> exact namesStage_of_noError rfl
    · intro f hf
      simp only [List.mem_cons, List.mem_singleton, List.not_mem_nil, or_false] at hf
      rcases hf with h | h
      · subst h
        exact namesStage_of_noError rfl
      · subst h
        exact namesStage_of_error .reviewing "Quality review stage failed: " _ (by decide) rfl rfl
          ((invoked_singleton _ _ _).mpr rfl)
  · exact backendStage_namesStage _ _ _


theorem generatingErrorFrame_namesStage (message : String) (errors : List FileGenError)
    (calls : List StageCall) (hi : invoked .generating calls) :
    (generatingErrorFrame message errors).NamesStage calls := by
  unfold generatingErrorFrame
  split
  · exact namesStage_of_error .generating "Code generation stage failed: " message (by decide)
      rfl rfl hi
  · exact namesStage_of_error .generating "Code generation stage failed: " message (by decide)
      rfl rfl hi

theorem generatingStage_namesStage (req : Request) (o : Outcomes) (fs : FileStructure) :
    ∀ f ∈ (generatingStage req o fs).frames, f.NamesStage (generatingStage req o fs).calls := by
  have hopening : ∀ (calls : List StageCall), invoked .generating calls →
      ∀ f ∈ ({ stage := some "generating", progress := some (.num 40),
               message := some "Generating website files..." } : Frame)
            :: codeCallbackFrames (totalFilesOf fs) 0 o.code.events, f.NamesStage calls := by
    intro calls hi f hf
    rcases List.mem_cons.mp hf with h | h
    · subst h
      exact namesStage_of_noError rfl
    · exact codeCallbackFrames_namesStage _ _ calls hi 0 f h
  unfold generatingStage
  simp only
  split
  · intro f hf
    have hi : invoked .generating [⟨.generating, true⟩] := (invoked_singleton _ _ _).mpr rfl
    rcases List.mem_append.mp hf with h | h
    · exact hopening _ hi f h
    · rw [List.mem_singleton] at h
      subst h
      exact generatingErrorFrame_namesStage _ _ _ hi
  · have hi : ∀ rest : List StageCall, invoked .generating ([⟨.generating, false⟩] ++ rest) :=
      fun rest => (invoked_append _ _ _).mpr (Or.inl ((invoked_singleton _ _ _).mpr rfl))
    split
    · split
      · intro f hf
        have hi1 : invoked .generating [⟨.generating, false⟩] := (invoked_singleton _ _ _).mpr rfl
        rcases List.mem_append.mp hf with h | h
        · exact hopening _ hi1 f h
        · simp only [List.mem_cons, List.mem_singleton, List.not_mem_nil, or_false] at h
          rcases h with h | h
          · subst h
            exact namesStage_of_noError rfl
          · subst h
            exact generatingErrorFrame_namesStage _ _ _ hi1
      · apply namesStage_after _ _ _ _ (qualityStage_namesStage _ _ _)
        intro f hf
        rcases List.mem_append.mp hf with h | h
        · exact hopening _ (hi _) f h
        · rw [List.mem_singleton] at h
          subst h
          exact namesStage_of_noError rfl
    · exact namesStage_after _ _ _ (hopening _ (hi _)) (qualityStage_namesStage _ _ _)

theorem designStage_namesStage (req : Request) (o : Outcomes) (fs : FileStructure) :
    ∀ f ∈ (designStage req o fs).frames, f.NamesStage (designStage req o fs).calls := by
  unfold designStage
  simp only
  split
  · apply namesStage_after _ _ _ _ (generatingStage_namesStage _ _ _)
    intro f hf
    rw [List.mem_singleton] at hf
    subst hf
    exact namesStage_of_noError rfl
  · intro f hf
    simp only [List.mem_cons, List.mem_singleton, List.not_mem_nil, or_false] at hf
    rcases hf with h | h
    · subst h
      exact namesStage_of_noError rfl
    · subst h
      exact namesStage_of_error .designing "Design stage failed: " _ (by decide) rfl rfl
        ((invoked_singleton _ _ _).mpr rfl)

theorem planningStage_namesStage (req : Request) (o : Outcomes) (fs : FileStructure) :
    ∀ f ∈ (planningStage req o fs).frames, f.NamesStage (planningStage req o fs).calls := by
  unfold planningStage
  simp only
  split
  · apply namesStage_after _ _ _ _ (designStage_namesStage _ _ _)
    intro f hf
    rw [List.mem_singleton] at hf
    subst hf
    exact namesStage_of_noError rfl
  · intro f hf
    simp only [List.mem_cons, List.mem_singleton, List.not_mem_nil, or_false] at hf
    rcases hf with h | h
    · subst h
      exact namesStage_of_noError rfl
    · subst h
      exact namesStage_of_error .planning "Planning stage failed: " _ (by decide) rfl rfl
        ((invoked_singleton _ _ _).mpr rfl)

theorem generateWebsite_namesStage (req : Request) (o : Outcomes) :
    ∀ f ∈ (generateWebsite req o).frames, f.NamesStage (generateWebsite req o).calls := by
  have herr : ∀ (message : String) (threw : Bool),
      ∀ f ∈ [({ stage := some "architecture", progress := some (.num 5),
                message := some "Planning project structure..." } : Frame),
             architectureErrorFrame message], f.NamesStage [⟨.architecture, threw⟩] := by
    intro message threw f hf
    simp only [List.mem_cons, List.mem_singleton, List.not_mem_nil, or_false] at hf
    rcases hf with h | h
    · subst h
      exact namesStage_of_noError rfl
    · subst h
      exact namesStage_of_error .architecture "Architecture planning failed: " message (by decide)
        rfl rfl ((invoked_singleton _ _ _).mpr rfl)
  unfold generateWebsite
  simp only
  split
  · exact herr _ _
  · split
    · exact herr _ _
    · apply namesStage_after _ _ _ _ (planningStage_namesStage _ _ _)
      intro f hf
      rw [List.mem_singleton] at hf
      subst hf
      exact namesStage_of_noError rfl


theorem advanced_namesStage_of_noError {calls : List StageCall} {f : AdvancedFrame}
    (h : f.error = none) : f.NamesStage calls := by
  intro e he
  rw [h] at he
  cases he

theorem advanced_namesStage_of_error {calls : List StageCall} {f : AdvancedFrame} (s : Stage)
    (label m : String) (hlabel : label ≠ "") (he : f.error = some (label ++ m))
    (hs : f.stage = some s.name) (hi : invoked s calls) : f.NamesStage calls := by
  intro e he2
  rw [he] at he2
  cases he2
  exact ⟨string_append_ne_empty label m hlabel, s, hs, hi⟩

theorem advanced_namesStage_after (pre : List AdvancedFrame) (calls : List StageCall)
    (rest : AdvancedRun) (hpre : ∀ f ∈ pre, f.error = none)
    (hrest : ∀ f ∈ rest.frames, f.NamesStage rest.calls) :
    ∀ f ∈ (rest.after pre calls).frames, f.NamesStage (rest.after pre calls).calls := by
  intro f hf
  simp only [AdvancedRun.after] at hf ⊢
  rcases List.mem_append.mp hf with h | h
  · exact advanced_namesStage_of_noError (hpre f h)
  · intro e he
    obtain ⟨h1, s, h2, h3⟩ := hrest f h e he
    exact ⟨h1, s, h2, (invoked_append _ _ _).mpr (Or.inr h3)⟩

theorem advanced_failure_namesStage (pre : List AdvancedFrame) (s : Stage) (label m : String)
    (hlabel : label ≠ "") (hpre : ∀ f ∈ pre, f.error = none) :
    ∀ f ∈ pre ++ [({ error := some (label ++ m), stage := some s.name } : AdvancedFrame)],
      f.NamesStage [⟨s, true⟩] := by
  intro f hf
  rcases List.mem_append.mp hf with h | h
  · exact advanced_namesStage_of_noError (hpre f h)
  · rw [List.mem_singleton] at h
    subst h
    exact advanced_namesStage_of_error s label m hlabel rfl rfl ((invoked_singleton _ _ _).mpr rfl)

theorem chunkFrames_noError (opening : AdvancedFrame) (hopening : opening.error = none)
    (chunks : List String) :
    ∀ f ∈ opening :: chunks.map (fun c => ({ chunk := some c } : AdvancedFrame)),
      f.error = none := by
  intro f hf
  rcases List.mem_cons.mp hf with h | h
  · subst h
    exact hopening
  · obtain ⟨c, _, hc⟩ := List.mem_map.mp h
    subst hc
    rfl

theorem advancedCompletion_namesStage (finalCode : String) :
    ∀ f ∈ (advancedCompletion finalCode).frames,
      f.NamesStage (advancedCompletion finalCode).calls := by
  intro f hf
  simp only [advancedCompletion, List.mem_singleton] at hf
  subst hf
  exact advanced_namesStage_of_noError rfl

theorem advancedFixStage_namesStage (o : AdvancedOutcomes) (generatedCode : String)
    (report : SingleReport) :
    ∀ f ∈ (advancedFixStage o generatedCode report).frames,
      f.NamesStage (advancedFixStage o generatedCode report).calls := by
  unfold advancedFixStage
  split
  · simp only
    split
    · exact advanced_namesStage_after _ _ _ (chunkFrames_noError _ rfl _)
        (advancedCompletion_namesStage _)
    · exact advanced_failure_namesStage _ .fixing "Fix stage failed: " _ (by decide)
        (chunkFrames_noError _ rfl _)
  · exact advancedCompletion_namesStage _

theorem advancedQualityStage_namesStage (enableQA : Option Bool) (o : AdvancedOutcomes)
    (generatedCode : String) :
    ∀ f ∈ (advancedQualityStage enableQA o generatedCode).frames,
      f.NamesStage (advancedQualityStage enableQA o generatedCode).calls := by
  unfold advancedQualityStage
  split
  · simp only
    split
    · apply advanced_namesStage_after _ _ _ _ (advancedFixStage_namesStage _ _ _)
      intro f hf
      simp only [List.mem_cons, List.mem_singleton, List.not_mem_nil, or_false] at hf
      rcases hf with h | h <;> subst h <;> rfl
    · exact advanced_failure_namesStage [_] .reviewing "Quality review stage failed: " _
        (by decide) (by intro f hf; rw [List.mem_singleton] at hf; subst hf; rfl)
  · exact advancedCompletion_namesStage _

theorem advancedGeneratingStage_namesStage (enableQA : Option Bool) (o : AdvancedOutcomes) :
    ∀ f ∈ (advancedGeneratingStage enableQA o).frames,
      f.NamesStage (advancedGeneratingStage enableQA o).calls := by
  unfold advancedGeneratingStage
  simp only
  split
  · exact advanced_namesStage_after _ _ _ (chunkFrames_noError _ rfl _)
      (advancedQualityStage_namesStage _ _ _)
  · exact advanced_failure_namesStage _ .generating "Code generation stage failed: " _ (by decide)
      (chunkFrames_noError _ rfl _)

theorem advancedDesignStage_namesStage (enableQA : Option Bool) (o : AdvancedOutcomes) :
    ∀ f ∈ (advancedDesignStage enableQA o).frames,
      f.NamesStage (advancedDesignStage enableQA o).calls := by
  unfold advancedDesignStage
  simp only
  split
  · apply advanced_namesStage_after _ _ _ _ (advancedGeneratingStage_namesStage _ _)
    intro f hf
    rw [List.mem_singleton] at hf
    subst hf
    rfl
  · exact advanced_failure_namesStage [_] .designing "Design stage failed: " _
      (by decide) (by intro f hf; rw [List.mem_singleton] at hf; subst hf; rfl)

theorem generateAdvanced_namesStage (enableQA : Option Bool) (o : AdvancedOutcomes) :
    ∀ f ∈ (generateAdvanced enableQA o).frames,
      f.NamesStage (generateAdvanced enableQA o).calls := by
  unfold generateAdvanced
  simp only
  split
  · apply advanced_namesStage_after _ _ _ _ (advancedDesignStage_namesStage _ _)
    intro f hf
    rw [List.mem_singleton] at hf
    subst hf
    rfl
  · exact advanced_failure_namesStage [_] .planning "Planning stage failed: " _
      (by decide) (by intro f hf; rw [List.mem_singleton] at hf; subst hf; rfl)


theorem mem_withTimeout {α : Type} (timeoutFrame : α) (frames : List α) (firedAfter : Option Nat)
    (f : α) (hf : f ∈ withTimeout timeoutFrame frames firedAfter) :
    f ∈ frames ∨ f = timeoutFrame := by
  unfold withTimeout at hf
  split at hf
  · split at hf
    · rcases List.mem_append.mp hf with h | h
      · exact Or.inl (List.mem_of_mem_take h)
      · exact Or.inr (List.mem_singleton.mp h)
    · exact Or.inl hf
  · exact Or.inl hf

theorem messageOr_ne_empty (error : JsError) (fallback : String) (h : fallback ≠ "") :
    messageOr error fallback ≠ "" := by
  unfold messageOr
  split
  · split
    · exact h
    · assumption
  · exact h

/-- C22, as the specification states it, fails: the frame that the 120-second
timer of `/generate-website` writes (here after three frames of the sample
run) carries `error` and no `stage`, and so does the error frame of
`/generate-simple` (here after the gateway refused the call). -/
theorem timeout_and_simple_error_frames_have_no_stage :
    (withTimeout websiteTimeoutFrame (generateWebsite ⟨none, false⟩ sampleOutcomes).frames
        (some 3)).map (fun f => (f.error, f.stage))
      = [(none, some "architecture"), (none, some "planning"), (none, some "designing"),
         (some "Request timeout - generation took longer than 120 seconds", none)]
    ∧ generateSimple "You generate code." (.obj [("prompt", .str "a constant")]) streamRefused
      = .stream [{ error := some "Invalid API Key", stage := none }] := by
  refine ⟨by decide, congrArg Response.stream (by decide)⟩

/-- C22, amended. Every frame with an `error` field that the handlers write
carries a non-empty error text. In `/generate-website` and `/generate-advanced`
such a frame, unless it is the frame of the wall-clock timer, also carries a
`stage` field that names a stage whose agent was called in the run; the frame
of the timer carries no `stage`. In `/generate-simple` no frame with an `error`
field carries a `stage`. -/
theorem error_frames_name_stage_except_timeout_and_simple (req : Request) (o : Outcomes)
    (enableQA : Option Bool) (ao : AdvancedOutcomes) (run : CallRun String)
    (firedAfter : Option Nat) :
    (∀ f ∈ withTimeout websiteTimeoutFrame (generateWebsite req o).frames firedAfter,
      ∀ e, f.error = some e →
        e ≠ "" ∧ ((f = websiteTimeoutFrame ∧ f.stage = none)
          ∨ ∃ s : Stage, f.stage = some s.name ∧ invoked s (generateWebsite req o).calls))
    ∧ (∀ f ∈ withTimeout advancedTimeoutFrame (generateAdvanced enableQA ao).frames firedAfter,
      ∀ e, f.error = some e →
        e ≠ "" ∧ ((f = advancedTimeoutFrame ∧ f.stage = none)
          ∨ ∃ s : Stage, f.stage = some s.name ∧ invoked s (generateAdvanced enableQA ao).calls))
    ∧ (∀ f ∈ withTimeout simpleTimeoutFrame (simpleFrames run) firedAfter,
      ∀ e, f.error = some e → e ≠ "" ∧ f.stage = none) := by
  refine ⟨?_, ?_, ?_⟩
  · intro f hf e he
    rcases mem_withTimeout _ _ _ f hf with h | h
    · obtain ⟨h1, h2⟩ := generateWebsite_namesStage req o f h e he
      exact ⟨h1, Or.inr h2⟩
    · subst h
      cases he
      exact ⟨by decide, Or.inl ⟨rfl, rfl⟩⟩
  · intro f hf e he
    rcases mem_withTimeout _ _ _ f hf with h | h
    · obtain ⟨h1, h2⟩ := generateAdvanced_namesStage enableQA ao f h e he
      exact ⟨h1, Or.inr h2⟩
    · subst h
      cases he
      exact ⟨by decide, Or.inl ⟨rfl, rfl⟩⟩
  · intro f hf e he
    rcases mem_withTimeout _ _ _ f hf with h | h
    · unfold simpleFrames at h
      simp only at h
      split at h
      · rcases List.mem_append.mp h with h | h
        · obtain ⟨c, _, hc⟩ := List.mem_map.mp h
          subst hc
          cases he
        · rw [List.mem_singleton] at h
          subst h
          cases he
      · rcases List.mem_append.mp h with h | h
        · obtain ⟨c, _, hc⟩ := List.mem_map.mp h
          subst hc
          cases he
        · rw [List.mem_singleton] at h
          subst h
          cases he
          exact ⟨messageOr_ne_empty _ _ (by decide), rfl⟩
    · subst h
      cases he
      exact ⟨by decide, rfl⟩

/-- C22 amended, at concrete inputs: in the run whose design stage fails, the
error frame carries the stage `designing`, whose agent was called. -/
theorem error_frames_name_stage_except_timeout_and_simple_witness :
    ∃ s : Stage, (some "designing" : Option String) = some s.name
      ∧ invoked s (generateWebsite ⟨none, false⟩
          { sampleOutcomes with design := .error "model unavailable" }).calls := by
  have h := (error_frames_name_stage_except_timeout_and_simple ⟨none, false⟩
    { sampleOutcomes with design := .error "model unavailable" } none sampleAdvancedOutcomes
    ⟨.ok "", []⟩ none).1
    { error := some "Design stage failed: model unavailable", stage := some "designing" }
    (by decide) "Design stage failed: model unavailable" rfl
  rcases h.2 with h1 | h1
  · exact absurd h1.1 (by decide)
  · exact h1


/-! ## Messages of the design and planning agents: claims C26, C27 -/

/-- C26 fails on the code: the call `designAgent(A, P, H)` of the design stage
of `/generate-website`, for objects `A` and `P` and a history array `H`, binds
`P` to the second parameter and `H` to the third (`planningSpec`), so the
messages sent are the system prompt and one user message that presents `P`
under "Architecture Specification:" and the history `H` under "Planning
Specification:"; `A` is not presented and no message of `H` is sent. -/
theorem website_design_call_misplaces_its_arguments (designPrompt : String)
    (architectureFields planningFields : List (String × Json)) (historyItems : List Json) :
    websiteDesignCall designPrompt (.obj architectureFields) (.obj planningFields)
        (some (.arr historyItems))
      = .ok [chatMessage "system" designPrompt,
             chatMessage "user"
               ("Architecture Specification:\n" ++ jsonStringifyPretty (.obj planningFields)
                ++ "\n\nPlanning Specification:\n" ++ jsonStringifyPretty (.arr historyItems)
                ++ "\n\nBased on these specifications, create a comprehensive design system for the entire website with component-specific styling guidelines, layout system, breakpoints, and global styles.")] := by
  simp [websiteDesignCall, designAgentMessages, Json.truthy, Json.isNull, Json.typeofObject,
    Json.isArray, spreadItems]

/-- The call with four arguments, `designAgent(T, A, P, H)`, is the one that
sends what the documentation of the new signature describes: the system
prompt, the messages of `H` in order, and a user message that presents `A`
under "Architecture Specification:" and `P` under "Planning Specification:". -/
theorem designAgent_four_argument_call (designPrompt : String) (technicalSpec : Option Json)
    (architectureFields planningFields : List (String × Json)) (historyItems : List Json) :
    designAgentMessages designPrompt technicalSpec (some (.obj architectureFields))
        (some (.obj planningFields)) (some (.arr historyItems))
      = .ok (chatMessage "system" designPrompt :: historyItems ++
             [chatMessage "user"
               ("Architecture Specification:\n" ++ jsonStringifyPretty (.obj architectureFields)
                ++ "\n\nPlanning Specification:\n" ++ jsonStringifyPretty (.obj planningFields)
                ++ "\n\nBased on these specifications, create a comprehensive design system for the entire website with component-specific styling guidelines, layout system, breakpoints, and global styles.")]) := by
  simp [designAgentMessages, Json.truthy, Json.isNull, Json.typeofObject, Json.isArray,
    spreadItems]

/-- C27 fails on the code: the call `planningAgent(prompt, conversationHistory ||
[])` of `/generate-advanced` binds the history array to `architectureSpec`, and
an array is truthy, so the agent runs in multi-page mode. For the body with
only the prompt `Create a login form`, the user message is not the bare prompt,
and a well-formed single-component specification is rejected for the missing
multi-page fields; with a history of one message, that message is not sent
between the system prompt and the user message but printed inside the user
message. -/
theorem advanced_planning_runs_in_multi_page_mode :
    (advancedPlanningCall "PLANNING_PROMPT" (.obj [("prompt", .str "Create a login form")])
        (.ok sampleSingleComponentSpec)).messages
      = some [chatMessage "system" "PLANNING_PROMPT",
              chatMessage "user"
                ("User Request: Create a login form\n\nArchitecture Specification:\n[]"
                 ++ "\n\nBased on the architecture specification above, create detailed technical specifications for each page and component.")]
    ∧ (advancedPlanningCall "PLANNING_PROMPT" (.obj [("prompt", .str "Create a login form")])
        (.ok sampleSingleComponentSpec)).result
      = .error ("Planning Agent failed: Missing required fields in technical specification: "
          ++ "pages, sharedComponents, routing")
    ∧ validateSingleComponentSpec sampleSingleComponentSpec = .ok ()
    ∧ ((advancedPlanningCall "PLANNING_PROMPT"
          (.obj [("prompt", .str "Create a login form"),
                 ("conversationHistory", .arr [chatMessage "user" "Use a dark theme"])])
          (.ok sampleSingleComponentSpec)).messages.map List.length) = some 2 := by
  refine ⟨rfl, rfl, rfl, rfl⟩

/-- Called as documented, `planningAgent(prompt, null, history)`, the agent runs
in single-component mode: the messages are the system prompt, the history in
order and the bare prompt, and a reply that passes the single-component
validation is returned. -/
theorem planningAgent_single_component_mode (planningPrompt text : String)
    (historyItems : List Json) (technicalSpec : Json) (htext : text ≠ "")
    (hvalid : validateSingleComponentSpec technicalSpec = .ok ()) :
    (planningAgent planningPrompt (some (.str text)) none (some (.arr historyItems))
        (.ok technicalSpec)).messages
      = some (chatMessage "system" planningPrompt :: historyItems ++ [chatMessage "user" text])
    ∧ (planningAgent planningPrompt (some (.str text)) none (some (.arr historyItems))
        (.ok technicalSpec)).result = .ok technicalSpec := by
  simp [planningAgent, htext, Json.truthy, spreadItems, hvalid]


/-! ## Per-file progress: claim C29 -/

/-- With exact arithmetic the rounded progress is the value of `fileProgress`. -/
theorem fileProgressRounded_id (k n : Nat) :
    fileProgressRounded id k n = ((40 + k * 40 / n : Nat) : Int) := by
  unfold fileProgressRounded
  simp only [id]
  have h : (k : ℚ) / (n : ℚ) * 40 = ((k * 40 : Nat) : ℚ) / (n : ℚ) := by
    push_cast
    ring
  rw [h, Rat.floor_natCast_div_natCast]
  push_cast
  rfl

/-- The band, the monotonicity and the two end values of the per-file progress,
for every rounding that is monotone and exact on 0, 1 and 40, as rounding to
the nearest double is. -/
theorem fileProgressRounded_band (round : ℚ → ℚ) (hmono : Monotone round)
    (h0 : round 0 = 0) (h1 : round 1 = 1) (h40 : round 40 = 40)
    (k m n : Nat) (hn : 1 ≤ n) (hkm : k ≤ m) (hmn : m ≤ n) :
    40 ≤ fileProgressRounded round k n
    ∧ fileProgressRounded round k n ≤ fileProgressRounded round m n
    ∧ fileProgressRounded round m n ≤ 80
    ∧ fileProgressRounded round 0 n = 40
    ∧ fileProgressRounded round n n = 80 := by
  have hnpos : (0 : ℚ) < (n : ℚ) := by exact_mod_cast hn
  have hq0 : ∀ j : Nat, (0 : ℚ) ≤ (j : ℚ) / (n : ℚ) := fun j =>
    div_nonneg (Nat.cast_nonneg j) hnpos.le
  have hq1 : ∀ j : Nat, j ≤ n → (j : ℚ) / (n : ℚ) ≤ 1 := fun j hj =>
    (div_le_one hnpos).mpr (by exact_mod_cast hj)
  have hlo : ∀ j : Nat, (0 : ℤ) ≤ ⌊round (round ((j : ℚ) / (n : ℚ)) * 40)⌋ := by
    intro j
    have hr : (0 : ℚ) ≤ round ((j : ℚ) / (n : ℚ)) := by
      have := hmono (hq0 j)
      rwa [h0] at this
    have hp : (0 : ℚ) ≤ round (round ((j : ℚ) / (n : ℚ)) * 40) := by
      have := hmono (mul_nonneg hr (by norm_num : (0 : ℚ) ≤ 40))
      rwa [h0] at this
    exact Int.floor_nonneg.mpr hp
  have hhi : ∀ j : Nat, j ≤ n → ⌊round (round ((j : ℚ) / (n : ℚ)) * 40)⌋ ≤ (40 : ℤ) := by
    intro j hj
    have hr : round ((j : ℚ) / (n : ℚ)) ≤ 1 := by
      have := hmono (hq1 j hj)
      rwa [h1] at this
    have hp : round (round ((j : ℚ) / (n : ℚ)) * 40) ≤ round 40 :=
      hmono (by linarith)
    rw [h40] at hp
    have := Int.floor_mono hp
    simpa using this
  have hstep : ⌊round (round ((k : ℚ) / (n : ℚ)) * 40)⌋
      ≤ ⌊round (round ((m : ℚ) / (n : ℚ)) * 40)⌋ := by
    apply Int.floor_mono
    apply hmono
    have hq : (k : ℚ) / (n : ℚ) ≤ (m : ℚ) / (n : ℚ) :=
      div_le_div_of_nonneg_right (by exact_mod_cast hkm) hnpos.le
    have := hmono hq
    linarith
  unfold fileProgressRounded
  refine ⟨by have := hlo k; omega, by omega, by have := hhi m hmn; omega, ?_, ?_⟩
  · simp [h0]
  · have hnn : (n : ℚ) / (n : ℚ) = 1 := div_self hnpos.ne'
    rw [hnn, h1, one_mul, h40]
    simp


theorem categoryLength_ofJson (fileStructure : Json) (category : String) :
    categoryLength (categoryOfJson fileStructure category)
      = (categoryItems fileStructure category).length := by
  unfold categoryLength categoryOfJson categoryItems
  split <;> simp

/-- A specification that passes the checks on `fileStructure` has at least one
page and one layout. -/
theorem validateFileStructure_accepts (spec : Json) (h : validateFileStructure spec = .ok ()) :
    ∃ fileStructure, spec.get "fileStructure" = some fileStructure
      ∧ 1 ≤ (categoryItems fileStructure "pages").length
      ∧ 1 ≤ (categoryItems fileStructure "layouts").length := by
  unfold validateFileStructure at h
  split at h
  · cases h
  · cases h
  · split at h
    · cases h
    · split at h
      · cases h
      · split at h
        · cases h
        · rename_i fileStructure hfs
          split at h
          · cases h
          · split at h
            · cases h
            · cases h
            · split at h
              · cases h
              · split at h
                · cases h
                · split at h
                  · cases h
                  · split at h
                    · cases h
                    · refine ⟨fileStructure, hfs, ?_, ?_⟩ <;> omega

/-- C29: for `totalFiles >= 1` and `0 <= filesCompleted <= totalFiles` the
per-file progress `40 + floor(filesCompleted / totalFiles * 40)` is a number in
the band from 40 to 80, does not decrease when `filesCompleted` grows, is 40 at
0 and 80 at `totalFiles`; the same holds when the quotient and the product are
rounded, for every monotone rounding that is exact on 0, 1 and 40; and for
every specification that `validateArchitectureSpec` accepts, `totalFiles` is at
least 2. -/
theorem file_progress_stays_in_band (filesCompleted later totalFiles : Nat) (spec : Json)
    (htotal : 1 ≤ totalFiles) (hlater : filesCompleted ≤ later) (hle : later ≤ totalFiles)
    (hvalid : validateArchitectureSpec spec = .ok ()) :
    (∃ p q, fileProgress filesCompleted totalFiles = .num p
        ∧ fileProgress later totalFiles = .num q ∧ 40 ≤ p ∧ p ≤ q ∧ q ≤ 80)
    ∧ fileProgress 0 totalFiles = .num 40
    ∧ fileProgress totalFiles totalFiles = .num 80
    ∧ fileProgress filesCompleted totalFiles
        = .num (fileProgressRounded id filesCompleted totalFiles).toNat
    ∧ (∀ round : ℚ → ℚ, Monotone round → round 0 = 0 → round 1 = 1 → round 40 = 40 →
        40 ≤ fileProgressRounded round filesCompleted totalFiles
        ∧ fileProgressRounded round filesCompleted totalFiles
            ≤ fileProgressRounded round later totalFiles
        ∧ fileProgressRounded round later totalFiles ≤ 80
        ∧ fileProgressRounded round 0 totalFiles = 40
        ∧ fileProgressRounded round totalFiles totalFiles = 80)
    ∧ ∃ fileStructure, spec.get "fileStructure" = some fileStructure
        ∧ 2 ≤ totalFilesOf (FileStructure.ofJson fileStructure) := by
  have hne : totalFiles ≠ 0 := by omega
  have hb := fileProgress_bounds filesCompleted later totalFiles hlater hle
  refine ⟨⟨40 + filesCompleted * 40 / totalFiles, 40 + later * 40 / totalFiles, ?_, ?_, ?_, hb.1,
    hb.2⟩, ?_, ?_, ?_, ?_, ?_⟩
  · simp [fileProgress, hne]
  · simp [fileProgress, hne]
  · exact Nat.le_add_right 40 _
  · simp [fileProgress, hne]
  · have : totalFiles * 40 / totalFiles = 40 := Nat.mul_div_cancel_left 40 (by omega)
    simp [fileProgress, hne, this]
  · rw [fileProgressRounded_id, Int.toNat_ofNat]
    simp [fileProgress, hne]
  · intro round hmono h0 h1 h40
    exact fileProgressRounded_band round hmono h0 h1 h40 _ _ _ htotal hlater hle
  · have hfs : validateFileStructure spec = .ok () := by
      unfold validateArchitectureSpec at hvalid
      split at hvalid
      · cases hvalid
      · rename_i u hu
        cases u
        exact hu
    obtain ⟨fileStructure, hget, hpages, hlayouts⟩ := validateFileStructure_accepts spec hfs
    refine ⟨fileStructure, hget, ?_⟩
    simp only [totalFilesOf, FileStructure.ofJson, categoryLength_ofJson]
    omega

/-- C29 at concrete inputs: with 4 files the progress after 1 and 2 files is 50
and 60, and the sample architecture specification, which is accepted, declares
2 files. -/
theorem file_progress_stays_in_band_witness :
    fileProgress 1 4 = .num (fileProgressRounded id 1 4).toNat
    ∧ fileProgress 0 4 = .num 40 ∧ fileProgress 4 4 = .num 80
    ∧ ∃ fileStructure, sampleArchitectureJson.get "fileStructure" = some fileStructure
        ∧ 2 ≤ totalFilesOf (FileStructure.ofJson fileStructure) := by
  have h := file_progress_stays_in_band 1 2 4 sampleArchitectureJson (by decide) (by decide)
    (by decide) rfl
  exact ⟨h.2.2.2.1, h.2.1, h.2.2.1, h.2.2.2.2.2⟩


/-! ## `JSON.parse` and whitespace around the text -/

theorem isJsWhitespace_cases (c : Char) (h : isJsWhitespace c = true) :
    c.toNat = 9 ∨ c.toNat = 10 ∨ c.toNat = 11 ∨ c.toNat = 12 ∨ c.toNat = 13 ∨ c.toNat = 32
      ∨ 160 ≤ c.toNat := by
  simp only [isJsWhitespace, Bool.or_eq_true, Bool.and_eq_true, decide_eq_true_eq] at h
  omega

/-- A whitespace character of JavaScript that the scanner accepts between
tokens is one of the four whitespace characters of JSON. -/
theorem startToken_of_jsWhitespace (c : Char) (r : LexState × List JsonToken)
    (hws : isJsWhitespace c = true) (h : startToken c = some r) : r = (.ready, []) := by
  have hc := isJsWhitespace_cases c hws
  by_cases hjson : isJsonWhitespace c = true
  · rw [startToken, if_pos hjson] at h
    exact (Option.some.inj h).symm
  · have hrange : c.toNat < 33 ∨ 125 < c.toNat := by omega
    rw [startToken, if_neg hjson, if_pos hrange] at h
    cases h


theorem lex_cons (state : LexState) (c : Char) (rest : List Char) (tokens : List JsonToken) :
    lex state (c :: rest) = some tokens ↔
      ∃ next first more, lexStep state c = some (next, first) ∧ lex next rest = some more
        ∧ tokens = first ++ more := by
  rw [lex]
  cases hstep : lexStep state c with
  | none => simp
  | some r =>
    obtain ⟨next, first⟩ := r
    simp only [Option.map_eq_some', Option.some.injEq, Prod.mk.injEq]
    constructor
    · rintro ⟨more, hmore, heq⟩
      exact ⟨next, first, more, ⟨rfl, rfl⟩, hmore, heq.symm⟩
    · rintro ⟨next2, first2, more, ⟨h1, h2⟩, hmore, heq⟩
      subst h1 h2
      exact ⟨more, hmore, heq.symm⟩

/-- Whitespace of JavaScript in front of a valid text is whitespace of JSON and
is skipped. -/
theorem lex_dropWhile_jsWhitespace (cs : List Char) (tokens : List JsonToken)
    (h : lex .ready cs = some tokens) :
    lex .ready (cs.dropWhile isJsWhitespace) = some tokens := by
  induction cs with
  | nil => exact h
  | cons c rest ih =>
    by_cases hws : isJsWhitespace c = true
    · rw [List.dropWhile_cons_of_pos hws]
      obtain ⟨next, first, more, hstep, hmore, heq⟩ := (lex_cons _ _ _ _).mp h
      have hr := startToken_of_jsWhitespace c _ hws hstep
      cases hr
      rw [List.nil_append] at heq
      subst heq
      exact ih hmore
    · rw [List.dropWhile_cons_of_neg hws]
      exact h


theorem isDigit_range (c : Char) (h : c.isDigit = true) : 48 ≤ c.toNat ∧ c.toNat ≤ 57 := by
  simp only [Char.isDigit, Bool.and_eq_true, decide_eq_true_eq] at h
  obtain ⟨h1, h2⟩ := h
  rw [ge_iff_le, UInt32.le_def] at h1
  rw [UInt32.le_def] at h2
  exact ⟨h1, h2⟩

theorem isLower_range (c : Char) (h : c.isLower = true) : 97 ≤ c.toNat ∧ c.toNat ≤ 122 := by
  simp only [Char.isLower, Bool.and_eq_true, decide_eq_true_eq] at h
  obtain ⟨h1, h2⟩ := h
  rw [ge_iff_le, UInt32.le_def] at h1
  rw [UInt32.le_def] at h2
  exact ⟨h1, h2⟩

theorem isNumberChar_range (c : Char) (h : isNumberChar c = true) :
    43 ≤ c.toNat ∧ c.toNat ≤ 101 := by
  simp only [isNumberChar, Bool.or_eq_true, decide_eq_true_eq] at h
  rcases h with ((((h | h) | h) | h) | h) | h
  · have := isDigit_range c h
    omega
  all_goals (subst h; decide)

theorem toNat_of_eq (c d : Char) (n : Nat) (hd : d.toNat = n) (h : c = d) : c.toNat = n := by
  rw [h, hd]

/-- Whitespace of JavaScript at the end of a valid text is whitespace of JSON
after the last token. -/
theorem lexFinish_of_jsWhitespace (tail : List Char) :
    ∀ (state : LexState) (tokens : List JsonToken), tail.all isJsWhitespace = true →
      lex state tail = some tokens → lexFinish state = some tokens := by
  induction tail with
  | nil => intro state tokens _ h; simpa [lex] using h
  | cons c tail ih =>
    intro state tokens hall h
    rw [List.all_cons, Bool.and_eq_true] at hall
    obtain ⟨hws, hrest⟩ := hall
    have hc := isJsWhitespace_cases c hws
    obtain ⟨next, first, more, hstep, hmore, heq⟩ := (lex_cons _ _ _ _).mp h
    have hfinish := ih next more hrest hmore
    have hquote : c ≠ quoteMark := fun hq => by
      have := toNat_of_eq c quoteMark 34 (by decide) hq
      omega
    have hsolidus : c ≠ reverseSolidus := fun hq => by
      have := toNat_of_eq c reverseSolidus 92 (by decide) hq
      omega
    cases state with
    | ready =>
      have hr := startToken_of_jsWhitespace c _ hws hstep
      cases hr
      rw [heq, List.nil_append]
      exact hfinish
    | inString units =>
      simp only [lexStep, if_neg hquote, if_neg hsolidus] at hstep
      split at hstep
      · cases hstep
      · cases hstep
        simp [lexFinish] at hfinish
    | escape units =>
      simp only [lexStep] at hstep
      split at hstep
      · cases hstep
        simp [lexFinish] at hfinish
      · obtain ⟨u, _, hu⟩ := Option.map_eq_some'.mp hstep
        cases hu
        simp [lexFinish] at hfinish
    | unicode units digits =>
      simp only [lexStep] at hstep
      obtain ⟨d, _, hd⟩ := Option.map_eq_some'.mp hstep
      split at hd
      · cases hd
        simp [lexFinish] at hfinish
      · cases hd
        simp [lexFinish] at hfinish
    | inNumber literal =>
      have hnum : ¬ isNumberChar c = true := fun hn => by
        have := isNumberChar_range c hn
        omega
      simp only [lexStep, if_neg hnum] at hstep
      split at hstep
      · rename_i hvalid
        obtain ⟨r, hr, hr2⟩ := Option.map_eq_some'.mp hstep
        have := startToken_of_jsWhitespace c r hws hr
        subst this
        cases hr2
        simp only [lexFinish, Option.some.injEq] at hfinish
        subst hfinish
        simp [lexFinish, hvalid, heq]
      · cases hstep
    | inWord token expected =>
      have hlower : ¬ (c.isLower = true) := fun hl => by
        have := isLower_range c hl
        omega
      simp only [lexStep] at hstep
      split at hstep
      · cases hstep
      · rw [if_neg (fun hh => hlower hh.1)] at hstep
        cases hstep
      · rw [if_neg (fun hh => hlower hh.1)] at hstep
        cases hstep

theorem lex_of_append_jsWhitespace (cs tail : List Char) (htail : tail.all isJsWhitespace = true) :
    ∀ (state : LexState) (tokens : List JsonToken),
      lex state (cs ++ tail) = some tokens → lex state cs = some tokens := by
  induction cs with
  | nil =>
    intro state tokens h
    rw [List.nil_append] at h
    rw [lex]
    exact lexFinish_of_jsWhitespace tail state tokens htail h
  | cons c rest ih =>
    intro state tokens h
    rw [List.cons_append] at h
    obtain ⟨next, first, more, hstep, hmore, heq⟩ := (lex_cons _ _ _ _).mp h
    exact (lex_cons _ _ _ _).mpr ⟨next, first, more, hstep, ih next more hmore, heq⟩

/-- A line feed after a valid text leaves its tokens as they are. -/
theorem lex_append_lineFeed (cs : List Char) :
    ∀ (state : LexState) (tokens : List JsonToken),
      lex state cs = some tokens → lex state (cs ++ ['\n']) = some tokens := by
  induction cs with
  | nil =>
    intro state tokens h
    rw [lex] at h
    rw [List.nil_append]
    cases state with
    | ready =>
      cases h
      rfl
    | inNumber literal =>
      simp only [lexFinish] at h
      split at h
      · rename_i hvalid
        cases h
        apply (lex_cons _ _ _ _).mpr
        refine ⟨.ready, [.number literal.reverse], [], ?_, rfl, rfl⟩
        have hnum : ¬ isNumberChar '\n' = true := by decide
        simp only [lexStep, if_neg hnum, if_pos hvalid]
        rfl
      · cases h
    | inString units => simp [lexFinish] at h
    | escape units => simp [lexFinish] at h
    | unicode units digits => simp [lexFinish] at h
    | inWord token expected => simp [lexFinish] at h
  | cons c rest ih =>
    intro state tokens h
    rw [List.cons_append]
    obtain ⟨next, first, more, hstep, hmore, heq⟩ := (lex_cons _ _ _ _).mp h
    exact (lex_cons _ _ _ _).mpr ⟨next, first, more, hstep, ih next more hmore, heq⟩

theorem jsTrimChars_decomposition (cs : List Char) :
    ∃ tail, tail.all isJsWhitespace = true
      ∧ cs.dropWhile isJsWhitespace = jsTrimChars cs ++ tail := by
  refine ⟨((cs.dropWhile isJsWhitespace).reverse.takeWhile isJsWhitespace).reverse, ?_, ?_⟩
  · rw [List.all_reverse, List.all_eq_true]
    intro x hx
    exact List.mem_takeWhile_imp hx
  · unfold jsTrimChars
    rw [← List.reverse_append, List.takeWhile_append_dropWhile, List.reverse_reverse]

/-- The tokens of a valid text are those of the trimmed text. -/
theorem lex_jsTrimChars (cs : List Char) (tokens : List JsonToken)
    (h : lex .ready cs = some tokens) : lex .ready (jsTrimChars cs) = some tokens := by
  obtain ⟨tail, htail, hdec⟩ := jsTrimChars_decomposition cs
  have h1 := lex_dropWhile_jsWhitespace cs tokens h
  rw [hdec] at h1
  exact lex_of_append_jsWhitespace _ tail htail .ready tokens h1

theorem jsonParse_of_lex_eq (a b : String) (tokens : List JsonToken)
    (ha : lex .ready a.data = some tokens) (hb : lex .ready b.data = some tokens) :
    jsonParse a = jsonParse b := by
  simp only [jsonParse, ha, hb]

theorem lex_of_jsonParse (t : String) (v : Json) (h : jsonParse t = some v) :
    ∃ tokens, lex .ready t.data = some tokens := by
  unfold jsonParse at h
  cases hl : lex .ready t.data with
  | none => rw [hl] at h; cases h
  | some tokens => exact ⟨tokens, rfl⟩


/-! ## `parseJSON`: claims C24, C25, C30 -/

theorem isPrefixOf_of_append (p q : List Char) :
    ∀ s : List Char, (p ++ q).isPrefixOf s = true → p.isPrefixOf s = true := by
  induction p with
  | nil => intro s _; simp
  | cons a p ih =>
    intro s h
    cases s with
    | nil => simp [List.isPrefixOf] at h
    | cons b s =>
      simp only [List.cons_append, List.isPrefixOf, Bool.and_eq_true] at h ⊢
      exact ⟨h.1, ih s h.2⟩

theorem includesChars_of_append (p q : List Char) :
    ∀ text : List Char, includesChars text p = false → includesChars text (p ++ q) = false := by
  intro text
  induction text with
  | nil =>
    intro h
    cases p with
    | nil => simp [includesChars] at h
    | cons a p => simp [includesChars, List.isPrefixOf]
  | cons c rest ih =>
    intro h
    simp only [includesChars, Bool.or_eq_false_iff] at h ⊢
    refine ⟨?_, ih h.2⟩
    cases hp : (p ++ q).isPrefixOf (c :: rest) with
    | false => rfl
    | true =>
      have := isPrefixOf_of_append p q _ hp
      rw [this] at h
      exact absurd h.1 (by simp)

theorem isPrefixOf_append_lineFeed (pattern : List Char) (hpattern : '\n' ∉ pattern) :
    ∀ (s rest : List Char), pattern.isPrefixOf (s ++ '\n' :: rest) = true →
      pattern.isPrefixOf s = true := by
  induction pattern with
  | nil => intro s rest _; simp
  | cons a pattern ih =>
    intro s rest h
    have ha : a ≠ '\n' := fun hc => hpattern (hc ▸ List.mem_cons_self _ _)
    have hrest : '\n' ∉ pattern := fun hc => hpattern (List.mem_cons_of_mem _ hc)
    cases s with
    | nil =>
      simp only [List.nil_append, List.isPrefixOf, Bool.and_eq_true, beq_iff_eq] at h
      exact absurd h.1 ha
    | cons b s =>
      simp only [List.cons_append, List.isPrefixOf, Bool.and_eq_true] at h ⊢
      exact ⟨h.1, ih hrest s rest h.2⟩

theorem removePattern_nil (pattern : List Char) (skip : Nat) :
    removePattern pattern skip [] = [] := by
  cases skip <;> rfl

theorem removePattern_keep (pattern : List Char) (c : Char) (rest : List Char)
    (h : pattern.isPrefixOf (c :: rest) = false) :
    removePattern pattern 0 (c :: rest) = c :: removePattern pattern 0 rest := by
  rw [removePattern, if_neg (by rw [h]; exact Bool.false_ne_true)]

/-- A text in which the pattern does not occur is left as it is. -/
theorem removePattern_of_not_includes (pattern : List Char) :
    ∀ text : List Char, includesChars text pattern = false →
      removePattern pattern 0 text = text := by
  intro text
  induction text with
  | nil => intro _; rfl
  | cons c rest ih =>
    intro h
    simp only [includesChars, Bool.or_eq_false_iff] at h
    rw [removePattern_keep _ _ _ h.1, ih h.2]

/-- In front of a line feed, a text in which the pattern does not occur is
left as it is: no occurrence reaches over the line feed. -/
theorem removePattern_append_lineFeed (pattern : List Char) (hpattern : '\n' ∉ pattern)
    (rest : List Char) :
    ∀ text : List Char, includesChars text pattern = false →
      removePattern pattern 0 (text ++ '\n' :: rest)
        = text ++ '\n' :: removePattern pattern 0 rest := by
  intro text
  induction text with
  | nil =>
    intro h
    rw [List.nil_append, List.nil_append]
    apply removePattern_keep
    cases pattern with
    | nil => simp [includesChars] at h
    | cons a pattern =>
      have ha : a ≠ '\n' := fun hc => hpattern (hc ▸ List.mem_cons_self _ _)
      simp [List.isPrefixOf, ha]
  | cons c text ih =>
    intro h
    simp only [includesChars, Bool.or_eq_false_iff] at h
    rw [List.cons_append, List.cons_append, removePattern_keep, ih h.2]
    cases hp : pattern.isPrefixOf (c :: (text ++ '\n' :: rest)) with
    | false => rfl
    | true =>
      have := isPrefixOf_append_lineFeed pattern hpattern (c :: text) rest hp
      rw [this] at h
      exact absurd h.1 (by simp)

theorem includesChars_json_fence (text : List Char)
    (h : includesChars text "```".data = false) :
    includesChars text "```json".data = false :=
  includesChars_of_append "```".data "json".data text h

theorem removePattern_skip (pattern : List Char) (rest : List Char) :
    ∀ (skipped : List Char), removePattern pattern skipped.length (skipped ++ rest)
      = removePattern pattern 0 rest := by
  intro skipped
  induction skipped with
  | nil => rfl
  | cons c skipped ih =>
    rw [List.length_cons, List.cons_append, removePattern]
    exact ih

/-- An occurrence of the pattern that a line feed follows is left out together
with the line feed. -/
theorem removePattern_match (pattern rest : List Char) (hpattern : pattern ≠ []) :
    removePattern pattern 0 (pattern ++ '\n' :: rest) = removePattern pattern 0 rest := by
  cases pattern with
  | nil => exact absurd rfl hpattern
  | cons a pattern =>
    have hprefix : (a :: pattern).isPrefixOf (a :: (pattern ++ '\n' :: rest)) = true := by
      rw [List.isPrefixOf_iff_prefix]
      exact List.prefix_append (a :: pattern) ('\n' :: rest)
    have hget : (a :: (pattern ++ '\n' :: rest)).get? (a :: pattern).length = some '\n' := by
      rw [List.get?_eq_getElem?, List.length_cons, List.getElem?_cons_succ,
        List.getElem?_append_right (le_refl _)]
      simp
    rw [List.cons_append, removePattern, if_pos hprefix, if_pos hget]
    have hlen : (a :: pattern).length - 1 + 1 = (pattern ++ ['\n']).length := by simp
    rw [hlen]
    have happ : pattern ++ '\n' :: rest = (pattern ++ ['\n']) ++ rest := by simp
    rw [happ]
    exact removePattern_skip _ rest _

/-- The two replacements take the fence with the language tag off a text that
holds no fence, and leave the text and one line feed. -/
theorem removePattern_json_fence (text : List Char)
    (h : includesChars text "```".data = false) :
    removePattern "```".data 0
        (removePattern "```json".data 0 ("```json\n".data ++ text ++ "\n```".data))
      = text ++ ['\n'] := by
  have h1 : "```json\n".data ++ text ++ "\n```".data
      = "```json".data ++ '\n' :: (text ++ '\n' :: "```".data) := by
    simp
  rw [h1, removePattern_match _ _ (by decide),
    removePattern_append_lineFeed _ (by decide) _ _ (includesChars_json_fence text h),
    removePattern_append_lineFeed _ (by decide) _ _ h]
  have h2 : removePattern "```json".data 0 "```".data = "```".data := by decide
  rw [h2]
  have h3 : removePattern "```".data 0 "```".data = [] := by decide
  rw [h3]

/-- The same for the bare fence. -/
theorem removePattern_bare_fence (text : List Char)
    (h : includesChars text "```".data = false) :
    removePattern "```".data 0
        (removePattern "```json".data 0 ("```\n".data ++ text ++ "\n```".data))
      = text ++ ['\n'] := by
  have h1 : "```\n".data ++ text ++ "\n```".data
      = "```".data ++ '\n' :: (text ++ '\n' :: "```".data) := by
    simp
  rw [h1, removePattern_append_lineFeed _ (by decide) _ "```".data (by decide),
    removePattern_append_lineFeed _ (by decide) _ _ (includesChars_json_fence text h)]
  have h2 : removePattern "```json".data 0 "```".data = "```".data := by decide
  rw [h2, removePattern_match _ _ (by decide), removePattern_append_lineFeed _ (by decide) _ _ h]
  have h3 : removePattern "```".data 0 "```".data = [] := by decide
  rw [h3]


/-- The tokens of the trimmed text with a line feed appended are the tokens of
the text, when the text is valid. -/
theorem jsonParse_trim_lineFeed (t : String) (v : Json) (h : jsonParse t = some v) :
    jsonParse (jsTrim (String.mk (t.data ++ ['\n']))) = some v
    ∧ jsonParse (jsTrim t) = some v := by
  obtain ⟨tokens, htokens⟩ := lex_of_jsonParse t v h
  have h1 := lex_jsTrimChars _ _ (lex_append_lineFeed t.data .ready tokens htokens)
  have h2 := lex_jsTrimChars _ _ htokens
  constructor
  · rw [← h]
    exact jsonParse_of_lex_eq _ _ tokens h1 htokens
  · rw [← h]
    exact jsonParse_of_lex_eq _ _ tokens h2 htokens

/-- C24: for a valid JSON text `t` without a triple backtick, `parseJSON` of `t`
wrapped in a fence with the tag `json`, or in a bare fence, returns the value
that `JSON.parse(t)` returns. -/
theorem parseJSON_of_fenced_json (syntaxErrorMessage : String → String) (t : String) (v : Json)
    (hvalid : jsonParse t = some v) (hfence : jsIncludes t "```" = false) :
    parseJSON syntaxErrorMessage ("```json\n" ++ t ++ "\n```") = .ok v
    ∧ parseJSON syntaxErrorMessage ("```\n" ++ t ++ "\n```") = .ok v := by
  have h1 : cleanText ("```json\n" ++ t ++ "\n```") = jsTrim (String.mk (t.data ++ ['\n'])) := by
    unfold cleanText
    rw [String.data_append, String.data_append, removePattern_json_fence t.data hfence]
  have h2 : cleanText ("```\n" ++ t ++ "\n```") = jsTrim (String.mk (t.data ++ ['\n'])) := by
    unfold cleanText
    rw [String.data_append, String.data_append, removePattern_bare_fence t.data hfence]
  have hparse := (jsonParse_trim_lineFeed t v hvalid).1
  constructor
  · simp only [parseJSON, h1, hparse]
  · simp only [parseJSON, h2, hparse]

/-- C24 at a concrete input: the fenced text of the object with `a` equal to 1
yields that object. -/
theorem parseJSON_of_fenced_json_witness :
    parseJSON (fun _ => "Unexpected token") "```json\n\x7b\"a\":1\x7d\n```"
      = .ok (.obj [("a", .num 1)]) :=
  (parseJSON_of_fenced_json (fun _ => "Unexpected token") "\x7b\"a\":1\x7d"
    (.obj [("a", .num 1)]) rfl (by decide)).1

/-- C25: when the text, with the fences taken off and trimmed, is not valid
JSON, `parseJSON` throws and returns no value; the message is `Failed to parse
JSON: `, the message of the SyntaxError, `. Text: `, the first 100 code units
of the text as given, and three dots. -/
theorem parseJSON_throws_on_invalid_text (syntaxErrorMessage : String → String) (text : String)
    (hinvalid : jsonParse (cleanText text) = none) :
    parseJSON syntaxErrorMessage text
      = .error ("Failed to parse JSON: " ++ syntaxErrorMessage (cleanText text) ++ ". Text: "
          ++ substringTo 100 text ++ "...")
    ∧ ∀ v, parseJSON syntaxErrorMessage text ≠ .ok v := by
  have h : parseJSON syntaxErrorMessage text
      = .error ("Failed to parse JSON: " ++ syntaxErrorMessage (cleanText text) ++ ". Text: "
          ++ substringTo 100 text ++ "...") := by
    simp only [parseJSON, hinvalid]
  refine ⟨h, ?_⟩
  intro v hv
  rw [h] at hv
  cases hv

/-- C25 at a concrete input: the text `not json`. -/
theorem parseJSON_throws_on_invalid_text_witness :
    parseJSON (fun _ => "Unexpected token o in JSON at position 1") "not json"
      = .error ("Failed to parse JSON: Unexpected token o in JSON at position 1. "
          ++ "Text: not json...") :=
  (parseJSON_throws_on_invalid_text (fun _ => "Unexpected token o in JSON at position 1")
    "not json" rfl).1

/-- A valid JSON text without a triple backtick is parsed as `JSON.parse` parses
it: only whitespace around it is taken off. -/
theorem parseJSON_of_json_without_fence (syntaxErrorMessage : String → String) (t : String)
    (v : Json) (hvalid : jsonParse t = some v) (hfence : jsIncludes t "```" = false) :
    parseJSON syntaxErrorMessage t = .ok v := by
  have h1 : cleanText t = jsTrim t := by
    unfold cleanText
    rw [removePattern_of_not_includes _ _ (includesChars_json_fence t.data hfence),
      removePattern_of_not_includes _ _ hfence]
  simp only [parseJSON, h1, (jsonParse_trim_lineFeed t v hvalid).2]

/-- C30 fails on the code: the text of a file artifact whose content is a fenced
shell command is valid JSON, and `parseJSON` returns an object whose `content`
has lost both fences. -/
theorem parseJSON_alters_fences_inside_strings :
    jsonParse readmeArtifactText
      = some (.obj [("path", .str "README.md"), ("content", .str "```bash\nnpm install\n```")])
    ∧ parseJSON (fun _ => "Unexpected token") readmeArtifactText
      = .ok (.obj [("path", .str "README.md"), ("content", .str "bash\nnpm install\n")]) := by
  exact ⟨rfl, rfl⟩


/-! ## `JSON.parse` after `JSON.stringify`: strings -/

theorem char_valid (c : Char) : c.toNat < 55296 ∨ (57343 < c.toNat ∧ c.toNat < 1114112) :=
  c.valid

/-- The characters of a string are recovered from its UTF-16 code units. -/
theorem utf16Decode_units (cs : List Char) : utf16Decode (cs.flatMap utf16Units) = cs := by
  induction cs with
  | nil => rfl
  | cons c rest ih =>
    rw [List.flatMap_cons]
    have hv := char_valid c
    by_cases hbmp : c.toNat < 65536
    · have hunits : utf16Units c = [c.toNat] := by simp [utf16Units, hbmp]
      have hchar : unitChar c.toNat = c := by
        have hnot : ¬ (55296 ≤ c.toNat ∧ c.toNat < 57344) := by omega
        rw [unitChar, if_neg hnot, Char.ofNat_toNat]
      rw [hunits, List.singleton_append]
      cases hrest : rest.flatMap utf16Units with
      | nil =>
        rw [hrest] at ih
        rw [utf16Decode, hchar, ← ih]
        rfl
      | cons lo more =>
        rw [hrest] at ih
        have hnot : ¬ (55296 ≤ c.toNat ∧ c.toNat < 56320 ∧ 56320 ≤ lo ∧ lo < 57344) := by omega
        rw [utf16Decode, if_neg hnot, hchar, ih]
    · have hunits : utf16Units c
          = [55296 + (c.toNat - 65536) / 1024, 56320 + (c.toNat - 65536) % 1024] := by
        simp [utf16Units, hbmp]
      have hpair : 55296 ≤ 55296 + (c.toNat - 65536) / 1024
          ∧ 55296 + (c.toNat - 65536) / 1024 < 56320
          ∧ 56320 ≤ 56320 + (c.toNat - 65536) % 1024
          ∧ 56320 + (c.toNat - 65536) % 1024 < 57344 := by omega
      have hvalue : 65536 + (55296 + (c.toNat - 65536) / 1024 - 55296) * 1024
          + (56320 + (c.toNat - 65536) % 1024 - 56320) = c.toNat := by omega
      rw [hunits, List.cons_append, List.singleton_append, utf16Decode, if_pos hpair, hvalue,
        Char.ofNat_toNat, ih]

theorem hexValue_hexDigitChar : ∀ n, n < 16 → hexValue (hexDigitChar n) = some n := by
  decide

theorem utf16Units_of_lt (c : Char) (h : c.toNat < 65536) : utf16Units c = [c.toNat] := by
  simp [utf16Units, h]


theorem lex_step (state next : LexState) (c : Char) (rest : List Char)
    (h : lexStep state c = some (next, [])) : lex state (c :: rest) = lex next rest := by
  simp only [lex, h]
  cases lex next rest <;> simp

theorem lex_of_lexSilently (cs : List Char) :
    ∀ (state next : LexState) (tail : List Char), lexSilently state cs = some next →
      lex state (cs ++ tail) = lex next tail := by
  induction cs with
  | nil =>
    intro state next tail h
    simp only [lexSilently, Option.some.injEq] at h
    subst h
    rfl
  | cons c cs ih =>
    intro state next tail h
    simp only [lexSilently] at h
    split at h
    · rename_i mid hstep
      rw [List.cons_append, lex_step _ _ _ _ hstep]
      exact ih _ _ _ h
    · cases h

/-- Reading the escaped form of a character inside a string literal adds the
code units of the character. -/
theorem lex_quoteChar (c : Char) (units : List Nat) (tail : List Char) :
    lex (.inString units) (quoteChar c ++ tail)
      = lex (.inString ((utf16Units c).reverse ++ units)) tail := by
  by_cases hspecial : c.toNat < 32 ∨ c.toNat = 34 ∨ c.toNat = 92
  · obtain ⟨n, hn⟩ : ∃ n, c.toNat = n := ⟨_, rfl⟩
    have hc : c = Char.ofNat n := by rw [← hn, Char.ofNat_toNat]
    rw [hn] at hspecial
    subst hc
    clear hn
    rcases hspecial with h | h | h
    · interval_cases n <;> exact lex_of_lexSilently _ _ _ _ rfl
    · subst h; exact lex_of_lexSilently _ _ _ _ rfl
    · subst h; exact lex_of_lexSilently _ _ _ _ rfl
  · have hquote : c ≠ quoteMark := fun hq =>
      hspecial (Or.inr (Or.inl (toNat_of_eq c quoteMark 34 (by decide) hq)))
    have hsolidus : c ≠ reverseSolidus := fun hq =>
      hspecial (Or.inr (Or.inr (toNat_of_eq c reverseSolidus 92 (by decide) hq)))
    have h8 : ¬ c.toNat = 8 := by omega
    have h9 : ¬ c.toNat = 9 := by omega
    have h10 : ¬ c.toNat = 10 := by omega
    have h12 : ¬ c.toNat = 12 := by omega
    have h13 : ¬ c.toNat = 13 := by omega
    have h32 : ¬ c.toNat < 32 := by omega
    have hq : quoteChar c = [c] := by
      simp only [quoteChar, if_neg hquote, if_neg hsolidus, if_neg h8, if_neg h9, if_neg h10,
        if_neg h12, if_neg h13, if_neg h32]
    rw [hq, List.singleton_append]
    apply lex_step
    simp only [lexStep, if_neg hquote, if_neg hsolidus, if_neg h32]

/-- Reading a quoted string from inside the literal gives the string token. -/
theorem lex_quoted (cs : List Char) :
    ∀ (units : List Nat) (rest : List Char),
      lex (.inString units) (cs.flatMap quoteChar ++ quoteMark :: rest)
        = (lex .ready rest).map (fun more =>
            JsonToken.string
              (String.mk (utf16Decode ((cs.flatMap utf16Units).reverse ++ units).reverse)) :: more) := by
  induction cs with
  | nil =>
    intro units rest
    simp only [List.flatMap_nil, List.nil_append, List.reverse_nil]
    rw [lex]
    simp only [lexStep, if_true]
    cases lex .ready rest <;> rfl
  | cons c cs ih =>
    intro units rest
    rw [List.flatMap_cons, List.append_assoc, lex_quoteChar, ih]
    simp only [List.flatMap_cons, List.reverse_append, List.append_assoc]

/-- Reading a quoted string gives its token: the string itself. -/
theorem lex_quoteChars (cs rest : List Char) :
    lex .ready (quoteChars cs ++ rest)
      = (lex .ready rest).map (fun more => JsonToken.string (String.mk cs) :: more) := by
  have hstart : lexStep .ready quoteMark = some (.inString [], []) := by decide
  have hshape : quoteChars cs ++ rest
      = quoteMark :: (cs.flatMap quoteChar ++ quoteMark :: rest) := by
    simp [quoteChars]
  rw [hshape, lex_step _ _ _ _ hstart, lex_quoted]
  simp only [List.append_nil, List.reverse_reverse, utf16Decode_units]


/-! ## `JSON.parse` after `JSON.stringify`: numbers -/

theorem startToken_number (c : Char) (h : c = '-' ∨ c.isDigit = true) :
    startToken c = some (.inNumber [c], []) := by
  have hrange : c.toNat = 45 ∨ (48 ≤ c.toNat ∧ c.toNat ≤ 57) := by
    rcases h with h | h
    · exact Or.inl (toNat_of_eq c '-' 45 (by decide) h)
    · exact Or.inr (isDigit_range c h)
  have hws : ¬ isJsonWhitespace c = true := by
    simp only [isJsonWhitespace, Bool.or_eq_true, decide_eq_true_eq]
    omega
  have hguard : ¬ (c.toNat < 33 ∨ 125 < c.toNat) := by omega
  have h123 : ¬ c.toNat = 123 := by omega
  have h125 : ¬ c.toNat = 125 := by omega
  have hne : ∀ d : Char, (d.toNat = 91 ∨ d.toNat = 93 ∨ d.toNat = 58 ∨ d.toNat = 44
      ∨ d.toNat = 34) → ¬ c = d := by
    intro d hd hcd
    rw [hcd] at hrange
    omega
  have hstart : (c = '-' || c.isDigit) = true := by
    rcases h with h | h
    · simp [h]
    · simp [h]
  rw [startToken, if_neg hws, if_neg hguard, if_neg h123, if_neg h125,
    if_neg (hne '[' (by decide)), if_neg (hne ']' (by decide)), if_neg (hne ':' (by decide)),
    if_neg (hne ',' (by decide)), if_neg (hne quoteMark (by decide)), if_pos hstart]

theorem lex_inNumber_chars (cs : List Char) :
    ∀ (literal rest : List Char), cs.all isNumberChar = true →
      lex (.inNumber literal) (cs ++ rest) = lex (.inNumber (cs.reverse ++ literal)) rest := by
  induction cs with
  | nil => intro literal rest _; rfl
  | cons c cs ih =>
    intro literal rest h
    rw [List.all_cons, Bool.and_eq_true] at h
    have hstep : lexStep (.inNumber literal) c = some (.inNumber (c :: literal), []) := by
      simp only [lexStep, if_pos h.1]
    rw [List.cons_append, lex_step _ _ _ _ hstep, ih _ _ h.2]
    simp

theorem lex_inNumber_end (literal rest : List Char) (hrest : Terminated rest)
    (hvalid : isJsonNumber literal.reverse = true) :
    lex (.inNumber literal) rest
      = (lex .ready rest).map (fun more => JsonToken.number literal.reverse :: more) := by
  cases rest with
  | nil => simp [lex, lexFinish, hvalid]
  | cons c rest =>
    have hc : ¬ isNumberChar c = true := by
      rw [hrest c rfl]
      exact Bool.false_ne_true
    simp only [lex, lexStep, if_neg hc, if_pos hvalid]
    cases hs : startToken c with
    | none => simp
    | some r =>
      obtain ⟨next, first⟩ := r
      simp only [Option.map_some']
      cases hl : lex next rest with
      | none => simp
      | some more => simp


theorem digitChar_spec : ∀ d, d < 10 →
    (Char.ofNat (48 + d)).toNat = 48 + d ∧ (Char.ofNat (48 + d)).isDigit = true := by
  decide

theorem isDigit_ne_minus (c : Char) (h : c.isDigit = true) : c ≠ '-' := by
  intro hc
  have := isDigit_range c h
  have := toNat_of_eq c '-' 45 (by decide) hc
  omega

theorem isNumberChar_of_isDigit (c : Char) (h : c.isDigit = true) : isNumberChar c = true := by
  simp [isNumberChar, h]

/-- A run of digits without a leading zero is a number literal, and so is the
run with a minus in front; their values are the number that the digits denote
and its negative. -/
theorem digits_literal (ds : List Char) (hdigits : ds.all Char.isDigit = true)
    (hform : ds = ['0'] ∨ (ds ≠ [] ∧ ds.head? ≠ some '0')) :
    isJsonNumber ds = true ∧ isJsonNumber ('-' :: ds) = true
    ∧ numberValue ds = .num (digitsValue ds)
    ∧ numberValue ('-' :: ds) = .num (-(digitsValue ds : Int)) := by
  have htake : ds.takeWhile Char.isDigit = ds := by
    rw [List.takeWhile_eq_self_iff]
    exact fun c hc => List.all_eq_true.mp hdigits c hc
  have hdrop : ds.dropWhile Char.isDigit = [] := by
    rw [List.dropWhile_eq_nil_iff]
    exact fun c hc => List.all_eq_true.mp hdigits c hc
  have hne : ds ≠ [] := by
    rcases hform with h | h
    · rw [h]; exact List.cons_ne_nil _ _
    · exact h.1
  have hinteger : (ds = ['0'] || (!ds.isEmpty && ds.head? != some '0')) = true := by
    rcases hform with h | h
    · simp [h]
    · have h1 : ds.isEmpty = false := by
        cases ds with
        | nil => exact absurd rfl h.1
        | cons c cs => rfl
      have h2 : (ds.head? != some '0') = true := by
        simp only [bne_iff_ne, ne_eq]
        exact h.2
      simp [h1, h2]
  have hminus : isJsonNumber ('-' :: ds) = true := by
    simp only [isJsonNumber, htake, hdrop, hinteger, isFractionAndExponent, isExponent,
      Bool.and_self]
  cases ds with
  | nil => exact absurd rfl hne
  | cons c cs =>
    have hc : c.isDigit = true := by
      rw [List.all_cons, Bool.and_eq_true] at hdigits
      exact hdigits.1
    have hcm : c ≠ '-' := isDigit_ne_minus c hc
    refine ⟨?_, hminus, ?_, ?_⟩
    · have hunsigned : (match c :: cs with
          | '-' :: rest => rest
          | _ => c :: cs) = c :: cs := by
        split
        · rename_i rest heq
          exact absurd (List.cons.inj heq).1 hcm
        · rfl
      simp only [isJsonNumber, hunsigned, htake, hdrop, hinteger, isFractionAndExponent,
        isExponent, Bool.and_self]
    · unfold numberValue
      split
      · rename_i digits heq
        exact absurd (List.cons.inj heq).1 hcm
      · rw [if_pos hdigits]
    · unfold numberValue
      simp only [hdigits, if_true]


theorem digitsValue_of_digits (digits : List Nat) (h : ∀ d ∈ digits, d < 10) :
    digitsValue ((digits.map (fun d => Char.ofNat (48 + d))).reverse) = Nat.ofDigits 10 digits := by
  unfold digitsValue
  rw [List.foldl_reverse, List.foldr_map]
  induction digits with
  | nil => rfl
  | cons d rest ih =>
    have hd := (digitChar_spec d (h d (List.mem_cons_self _ _))).1
    rw [List.foldr_cons, ih (fun x hx => h x (List.mem_cons_of_mem _ hx)), Nat.ofDigits_cons, hd]
    omega

theorem decimalDigits_spec (n : Nat) :
    (decimalDigits n).all Char.isDigit = true
    ∧ (decimalDigits n = ['0'] ∨ (decimalDigits n ≠ [] ∧ (decimalDigits n).head? ≠ some '0'))
    ∧ digitsValue (decimalDigits n) = n := by
  by_cases hn : n = 0
  · subst hn
    exact ⟨by decide, Or.inl rfl, by decide⟩
  · have hlt : ∀ d ∈ Nat.digits 10 n, d < 10 := fun d hd => Nat.digits_lt_base (by norm_num) hd
    have hnil : Nat.digits 10 n ≠ [] := Nat.digits_ne_nil_iff_ne_zero.mpr hn
    have hdef : decimalDigits n
        = ((Nat.digits 10 n).map (fun d => Char.ofNat (48 + d))).reverse := by
      simp [decimalDigits, hn]
    rw [hdef]
    refine ⟨?_, Or.inr ⟨?_, ?_⟩, ?_⟩
    · rw [List.all_eq_true]
      intro c hc
      rw [List.mem_reverse, List.mem_map] at hc
      obtain ⟨d, hd, hdc⟩ := hc
      rw [← hdc]
      exact (digitChar_spec d (hlt d hd)).2
    · intro hempty
      rw [List.reverse_eq_nil_iff, List.map_eq_nil_iff] at hempty
      exact hnil hempty
    · rw [List.head?_reverse, List.getLast?_map, List.getLast?_eq_getLast _ hnil]
      intro hzero
      simp only [Option.map_some', Option.some.injEq] at hzero
      have hlast := Nat.getLast_digit_ne_zero 10 hn
      have hd := (digitChar_spec _ (hlt _ (List.getLast_mem hnil))).1
      rw [hzero] at hd
      have h48 : ('0' : Char).toNat = 48 := by decide
      omega
    · rw [digitsValue_of_digits _ hlt, Nat.ofDigits_digits]

/-- The text that `JSON.stringify` writes for an integer is a number literal
whose value is the integer. -/
theorem integerChars_spec (n : Int) :
    isJsonNumber (integerChars n) = true ∧ numberValue (integerChars n) = .num n
    ∧ (integerChars n).all isNumberChar = true
    ∧ ∃ c cs, integerChars n = c :: cs ∧ (c = '-' ∨ c.isDigit = true) := by
  have hall : ∀ ds : List Char, ds.all Char.isDigit = true → ds.all isNumberChar = true := by
    intro ds h
    rw [List.all_eq_true] at h ⊢
    exact fun c hc => isNumberChar_of_isDigit c (h c hc)
  cases n with
  | ofNat m =>
    obtain ⟨h1, h2, h3⟩ := decimalDigits_spec m
    obtain ⟨l1, _, l3, _⟩ := digits_literal _ h1 h2
    refine ⟨l1, ?_, hall _ h1, ?_⟩
    · simp only [integerChars, l3, h3]
      rfl
    · simp only [integerChars]
      cases hd : decimalDigits m with
      | nil =>
        rcases h2 with h | h
        · rw [hd] at h; cases h
        · exact absurd hd h.1
      | cons c cs =>
        rw [hd, List.all_cons, Bool.and_eq_true] at h1
        exact ⟨c, cs, rfl, Or.inr h1.1⟩
  | negSucc m =>
    obtain ⟨h1, h2, h3⟩ := decimalDigits_spec (m + 1)
    obtain ⟨_, l2, _, l4⟩ := digits_literal _ h1 h2
    refine ⟨l2, ?_, ?_, ⟨'-', _, rfl, Or.inl rfl⟩⟩
    · simp only [integerChars, l4, h3]
      rfl
    · simp only [integerChars, List.all_cons, hall _ h1, Bool.and_true]
      decide

/-- Reading the text of an integer gives its number token. -/
theorem lex_integerChars (n : Int) (rest : List Char) (hrest : Terminated rest) :
    lex .ready (integerChars n ++ rest)
      = (lex .ready rest).map (fun more => JsonToken.number (integerChars n) :: more) := by
  obtain ⟨hvalid, _, hall, c, cs, hshape, hfirst⟩ := integerChars_spec n
  rw [hshape] at hall hvalid ⊢
  rw [List.all_cons, Bool.and_eq_true] at hall
  have hstart : lexStep .ready c = some (.inNumber [c], []) := startToken_number c hfirst
  rw [List.cons_append, lex_step _ _ _ _ hstart,
    lex_inNumber_chars cs [c] rest hall.2, lex_inNumber_end _ rest hrest]
  · simp
  · simpa using hvalid


/-! ## `JSON.parse` after `JSON.stringify`: the scanner -/

theorem lex_emit (state next : LexState) (c : Char) (rest : List Char) (first : List JsonToken)
    (h : lexStep state c = some (next, first)) :
    lex state (c :: rest) = (lex next rest).map (fun more => first ++ more) := by
  simp only [lex, h]

theorem terminated_cons (c : Char) (rest : List Char) (h : isNumberChar c = false) :
    Terminated (c :: rest) := by
  intro d hd
  simp only [List.head?_cons, Option.some.injEq] at hd
  rw [← hd]
  exact h

theorem lex_word_null (rest : List Char) :
    lex .ready ("null".data ++ rest)
      = (lex .ready rest).map (fun more => [JsonToken.literalNull] ++ more) := by
  show lex .ready ('n' :: 'u' :: 'l' :: 'l' :: rest) = _
  rw [lex_step .ready (.inWord .literalNull ['u', 'l', 'l']) _ _ (by decide),
    lex_step _ (.inWord .literalNull ['l', 'l']) _ _ (by decide),
    lex_step _ (.inWord .literalNull ['l']) _ _ (by decide),
    lex_emit _ .ready _ _ [.literalNull] (by decide)]

theorem lex_word_true (rest : List Char) :
    lex .ready ("true".data ++ rest)
      = (lex .ready rest).map (fun more => [JsonToken.literalTrue] ++ more) := by
  show lex .ready ('t' :: 'r' :: 'u' :: 'e' :: rest) = _
  rw [lex_step .ready (.inWord .literalTrue ['r', 'u', 'e']) _ _ (by decide),
    lex_step _ (.inWord .literalTrue ['u', 'e']) _ _ (by decide),
    lex_step _ (.inWord .literalTrue ['e']) _ _ (by decide),
    lex_emit _ .ready _ _ [.literalTrue] (by decide)]

theorem lex_word_false (rest : List Char) :
    lex .ready ("false".data ++ rest)
      = (lex .ready rest).map (fun more => [JsonToken.literalFalse] ++ more) := by
  show lex .ready ('f' :: 'a' :: 'l' :: 's' :: 'e' :: rest) = _
  rw [lex_step .ready (.inWord .literalFalse ['a', 'l', 's', 'e']) _ _ (by decide),
    lex_step _ (.inWord .literalFalse ['l', 's', 'e']) _ _ (by decide),
    lex_step _ (.inWord .literalFalse ['s', 'e']) _ _ (by decide),
    lex_step _ (.inWord .literalFalse ['e']) _ _ (by decide),
    lex_emit _ .ready _ _ [.literalFalse] (by decide)]

theorem option_map_append (first second : List JsonToken) (o : Option (List JsonToken)) :
    (o.map (fun more => second ++ more)).map (fun more => first ++ more)
      = o.map (fun more => (first ++ second) ++ more) := by
  cases o <;> simp

mutual
/-- The scanner reads the text of a serialisable value into its tokens. -/
theorem lex_chars : ∀ (v : Json), v.serialisable = true → ∀ rest : List Char, Terminated rest →
    lex .ready (v.chars ++ rest) = (lex .ready rest).map (fun more => v.tokens ++ more)
  | .null, _, rest, _ => by
    simp only [Json.chars, Json.tokens]
    exact lex_word_null rest
  | .bool true, _, rest, _ => by
    simp only [Json.chars, Json.tokens, if_true]
    exact lex_word_true rest
  | .bool false, _, rest, _ => by
    simp only [Json.chars, Json.tokens, Bool.false_eq_true, if_false]
    exact lex_word_false rest
  | .num n, _, rest, hrest => by
    simp only [Json.chars, Json.tokens]
    exact lex_integerChars n rest hrest
  | .decimal _, h, _, _ => by simp [Json.serialisable] at h
  | .str s, _, rest, _ => by
    simp only [Json.chars, Json.tokens]
    exact lex_quoteChars s.data rest
  | .arr items, h, rest, _ => by
    have hitems : itemsSerialisable items = true := by simpa [Json.serialisable] using h
    have hstep := lex_itemsChars items hitems (']' :: rest) (terminated_cons _ _ (by decide))
    simp only [Json.chars, Json.tokens, List.cons_append, List.append_assoc,
      List.singleton_append, List.nil_append]
    rw [lex_emit .ready .ready '[' _ [.beginArray] (by decide), hstep,
      lex_emit .ready .ready ']' _ [.endArray] (by decide), option_map_append,
      option_map_append]
    simp
  | .obj fields, h, rest, _ => by
    have hfields : fieldsSerialisable fields = true := by
      simp only [Json.serialisable, Bool.and_eq_true] at h
      exact h.2
    have hstep := lex_fieldsChars fields hfields (Char.ofNat 125 :: rest)
      (terminated_cons _ _ (by decide))
    simp only [Json.chars, Json.tokens, List.cons_append, List.append_assoc,
      List.singleton_append, List.nil_append]
    rw [lex_emit .ready .ready (Char.ofNat 123) _ [.beginObject] (by decide), hstep,
      lex_emit .ready .ready (Char.ofNat 125) _ [.endObject] (by decide), option_map_append,
      option_map_append]
    simp
/-- The same for the elements of an array. -/
theorem lex_itemsChars : ∀ (items : List Json), itemsSerialisable items = true →
    ∀ rest : List Char, Terminated rest →
    lex .ready (itemsChars items ++ rest)
      = (lex .ready rest).map (fun more => itemsTokens items ++ more)
  | [], _, rest, _ => by
    simp only [itemsChars, itemsTokens, List.nil_append]
    cases lex .ready rest <;> simp
  | [v], h, rest, hrest => by
    have hv : v.serialisable = true := by
      simp only [itemsSerialisable, Bool.and_true] at h
      exact h
    simp only [itemsChars, itemsTokens]
    exact lex_chars v hv rest hrest
  | v :: w :: more, h, rest, hrest => by
    simp only [itemsSerialisable, Bool.and_eq_true] at h
    have hv := lex_chars v h.1 (',' :: (itemsChars (w :: more) ++ rest))
      (terminated_cons _ _ (by decide))
    have hrec := lex_itemsChars (w :: more)
      (by simp only [itemsSerialisable, Bool.and_eq_true]; exact h.2) rest hrest
    simp only [itemsChars, itemsTokens, List.append_assoc, List.cons_append]
    rw [hv, lex_emit .ready .ready ',' _ [.comma] (by decide), hrec, option_map_append,
      option_map_append]
    simp
/-- The same for the members of an object. -/
theorem lex_fieldsChars : ∀ (fields : List (String × Json)), fieldsSerialisable fields = true →
    ∀ rest : List Char, Terminated rest →
    lex .ready (fieldsChars fields ++ rest)
      = (lex .ready rest).map (fun more => fieldsTokens fields ++ more)
  | [], _, rest, _ => by
    simp only [fieldsChars, fieldsTokens, List.nil_append]
    cases lex .ready rest <;> simp
  | [(k, v)], h, rest, hrest => by
    have hv : v.serialisable = true := by
      simp only [fieldsSerialisable, Bool.and_true] at h
      exact h
    simp only [fieldsChars, fieldsTokens, List.append_assoc, List.cons_append]
    rw [lex_quoteChars, lex_emit .ready .ready ':' _ [.colon] (by decide),
      lex_chars v hv rest hrest, option_map_append]
    cases lex .ready rest <;> simp
  | (k, v) :: kw :: more, h, rest, hrest => by
    simp only [fieldsSerialisable, Bool.and_eq_true] at h
    have hv := lex_chars v h.1 (',' :: (fieldsChars (kw :: more) ++ rest))
      (terminated_cons _ _ (by decide))
    have hrec := lex_fieldsChars (kw :: more)
      (by simp only [fieldsSerialisable, Bool.and_eq_true]; exact h.2) rest hrest
    simp only [fieldsChars, fieldsTokens, List.append_assoc, List.cons_append]
    rw [lex_quoteChars, lex_emit .ready .ready ':' _ [.colon] (by decide), hv,
      lex_emit .ready .ready ',' _ [.comma] (by decide), hrec, option_map_append,
      option_map_append, option_map_append]
    cases lex .ready rest <;> simp
end


/-! ## `JSON.parse` after `JSON.stringify`: the parser -/

theorem tokens_head (v : Json) : ∃ t ts, v.tokens = t :: ts ∧ t ≠ .endArray := by
  cases v with
  | bool b => cases b <;> exact ⟨_, _, rfl, by simp⟩
  | null => exact ⟨_, _, rfl, by simp⟩
  | num n => exact ⟨_, _, rfl, by simp⟩
  | decimal literal => exact ⟨_, _, rfl, by simp⟩
  | str s => exact ⟨_, _, rfl, by simp⟩
  | arr items => exact ⟨_, _, by simp only [Json.tokens]; rfl, by simp⟩
  | obj fields => exact ⟨_, _, by simp only [Json.tokens]; rfl, by simp⟩

theorem itemsTokens_head (v : Json) (more : List Json) :
    ∃ t ts, itemsTokens (v :: more) = t :: ts ∧ t ≠ .endArray := by
  obtain ⟨t, ts, h, ht⟩ := tokens_head v
  cases more with
  | nil => exact ⟨t, ts, by simp only [itemsTokens]; exact h, ht⟩
  | cons w more =>
    exact ⟨t, ts ++ .comma :: itemsTokens (w :: more),
      by simp only [itemsTokens]; rw [h]; rfl, ht⟩

theorem parseValue_array (fuel : Nat) (t : JsonToken) (ts : List JsonToken)
    (ht : t ≠ .endArray) :
    parseValue (fuel + 1) (.beginArray :: t :: ts)
      = (parseItems fuel (t :: ts)).map (fun r => (.arr r.1, r.2)) := by
  cases t <;> first | exact absurd rfl ht | simp only [parseValue]

theorem parseValue_object (fuel : Nat) (key : String) (ts : List JsonToken) :
    parseValue (fuel + 1) (.beginObject :: .string key :: ts)
      = (parseMembers fuel [] (.string key :: ts)).map (fun r => (.obj r.1, r.2)) := by
  simp only [parseValue]

theorem setField_new (fields : List (String × Json)) (key : String) (value : Json)
    (h : key ∉ fields.map (fun kv => kv.1)) :
    setField fields key value = fields ++ [(key, value)] := by
  have hany : fields.any (fun kv => kv.1 == key) = false := by
    rw [List.any_eq_false]
    intro kv hkv hc
    rw [beq_iff_eq] at hc
    exact h (List.mem_map.mpr ⟨kv, hkv, hc⟩)
  simp [setField, hany]

theorem fieldsTokens_cons (k : String) (v : Json) (more : List (String × Json)) :
    ∃ ts, fieldsTokens ((k, v) :: more) = .string k :: .colon :: ts
      ∧ ts = v.tokens ++ (match more with
                          | [] => []
                          | kw :: rest => .comma :: fieldsTokens (kw :: rest)) := by
  cases more with
  | nil => exact ⟨v.tokens, by simp only [fieldsTokens], by simp⟩
  | cons kw rest =>
    exact ⟨v.tokens ++ .comma :: fieldsTokens (kw :: rest), by simp [fieldsTokens], rfl⟩

mutual
/-- The parser reads the tokens of a serialisable value back into the value. -/
theorem parse_tokens : ∀ (v : Json), v.serialisable = true →
    ∀ (fuel : Nat) (rest : List JsonToken), v.tokens.length ≤ fuel →
      parseValue fuel (v.tokens ++ rest) = some (v, rest)
  | .null, _, fuel, rest, hf => by
    cases fuel with
    | zero => simp [Json.tokens] at hf
    | succ f => simp [Json.tokens, parseValue]
  | .bool b, _, fuel, rest, hf => by
    cases fuel with
    | zero => simp [Json.tokens] at hf
    | succ f => cases b <;> simp [Json.tokens, parseValue]
  | .num n, _, fuel, rest, hf => by
    cases fuel with
    | zero => simp [Json.tokens] at hf
    | succ f => simp [Json.tokens, parseValue, (integerChars_spec n).2.1]
  | .decimal _, h, _, _, _ => by simp [Json.serialisable] at h
  | .str s, _, fuel, rest, hf => by
    cases fuel with
    | zero => simp [Json.tokens] at hf
    | succ f => simp [Json.tokens, parseValue]
  | .arr [], _, fuel, rest, hf => by
    cases fuel with
    | zero => simp [Json.tokens] at hf
    | succ f => simp [Json.tokens, itemsTokens, parseValue]
  | .arr (v :: more), h, fuel, rest, hf => by
    have hitems : itemsSerialisable (v :: more) = true := by simpa [Json.serialisable] using h
    cases fuel with
    | zero => simp [Json.tokens] at hf
    | succ f =>
      obtain ⟨t, ts, hshape, ht⟩ := itemsTokens_head v more
      have hlen : (itemsTokens (v :: more)).length + 1 ≤ f := by
        simp only [Json.tokens, List.length_cons, List.length_append, List.length_nil] at hf
        omega
      have hrec := parse_items (v :: more) hitems f rest hlen (by simp)
      simp only [Json.tokens, List.cons_append, List.append_assoc, List.singleton_append,
        List.nil_append]
      rw [hshape] at hrec ⊢
      rw [List.cons_append, parseValue_array f t _ ht]
      rw [List.cons_append] at hrec
      rw [hrec]
      rfl
  | .obj [], _, fuel, rest, hf => by
    cases fuel with
    | zero => simp [Json.tokens] at hf
    | succ f => simp [Json.tokens, fieldsTokens, parseValue]
  | .obj ((k, v) :: more), h, fuel, rest, hf => by
    simp only [Json.serialisable, Bool.and_eq_true, decide_eq_true_eq] at h
    cases fuel with
    | zero => simp [Json.tokens] at hf
    | succ f =>
      obtain ⟨ts, hshape, _⟩ := fieldsTokens_cons k v more
      have hlen : (fieldsTokens ((k, v) :: more)).length + 1 ≤ f := by
        simp only [Json.tokens, List.length_cons, List.length_append, List.length_nil] at hf
        omega
      have hrec := parse_members ((k, v) :: more) h.2 [] h.1 (by simp) f rest hlen
      simp only [Json.tokens, List.cons_append, List.append_assoc, List.singleton_append,
        List.nil_append]
      rw [hshape] at hrec ⊢
      rw [List.cons_append, List.cons_append, parseValue_object]
      rw [List.cons_append, List.cons_append] at hrec
      rw [hrec]
      rfl
/-- The same for the elements of an array up to the closing bracket. -/
theorem parse_items : ∀ (items : List Json), itemsSerialisable items = true →
    ∀ (fuel : Nat) (rest : List JsonToken), (itemsTokens items).length + 1 ≤ fuel →
      items ≠ [] →
      parseItems fuel (itemsTokens items ++ .endArray :: rest) = some (items, rest)
  | [], _, _, _, _, hne => absurd rfl hne
  | [v], h, fuel, rest, hf, _ => by
    have hv : v.serialisable = true := by
      simp only [itemsSerialisable, Bool.and_true] at h
      exact h
    cases fuel with
    | zero => omega
    | succ f =>
      simp only [itemsTokens] at hf ⊢
      have := parse_tokens v hv f (.endArray :: rest) (by omega)
      simp only [parseItems, List.append_eq, this]
  | v :: w :: more, h, fuel, rest, hf, _ => by
    simp only [itemsSerialisable, Bool.and_eq_true] at h
    cases fuel with
    | zero => omega
    | succ f =>
      simp only [itemsTokens, List.length_append, List.length_cons] at hf
      have hv := parse_tokens v h.1 f (.comma :: (itemsTokens (w :: more) ++ .endArray :: rest))
        (by omega)
      have hrec := parse_items (w :: more)
        (by simp only [itemsSerialisable, Bool.and_eq_true]; exact h.2) f rest (by omega)
        (by simp)
      simp only [itemsTokens, List.append_assoc, List.cons_append]
      simp only [parseItems, List.append_eq, hv, hrec, Option.map_some']
/-- The same for the members of an object up to the closing brace. -/
theorem parse_members : ∀ (fields : List (String × Json)), fieldsSerialisable fields = true →
    ∀ (read : List (String × Json)),
      ((read ++ fields).map (fun kv => kv.1)).Nodup → fields ≠ [] →
    ∀ (fuel : Nat) (rest : List JsonToken), (fieldsTokens fields).length + 1 ≤ fuel →
      parseMembers fuel read (fieldsTokens fields ++ .endObject :: rest)
        = some (read ++ fields, rest)
  | [], _, _, _, hne, _, _, _ => absurd rfl hne
  | [(k, v)], h, read, hkeys, _, fuel, rest, hf => by
    have hv : v.serialisable = true := by
      simp only [fieldsSerialisable, Bool.and_true] at h
      exact h
    have hnew : k ∉ read.map (fun kv => kv.1) := by
      rw [List.map_append, List.nodup_append] at hkeys
      exact fun hk => hkeys.2.2 hk (by simp)
    cases fuel with
    | zero => omega
    | succ f =>
      simp only [fieldsTokens, List.length_cons] at hf
      have := parse_tokens v hv f (.endObject :: rest) (by omega)
      simp only [fieldsTokens, List.cons_append, parseMembers, List.append_eq, this,
        setField_new _ _ _ hnew]
  | (k, v) :: kw :: more, h, read, hkeys, _, fuel, rest, hf => by
    simp only [fieldsSerialisable, Bool.and_eq_true] at h
    have hnew : k ∉ read.map (fun kv => kv.1) := by
      rw [List.map_append, List.nodup_append] at hkeys
      exact fun hk => hkeys.2.2 hk (by simp)
    cases fuel with
    | zero => omega
    | succ f =>
      simp only [fieldsTokens, List.length_append, List.length_cons] at hf
      have hv := parse_tokens v h.1 f
        (.comma :: (fieldsTokens (kw :: more) ++ .endObject :: rest)) (by omega)
      have hrec := parse_members (kw :: more)
        (by simp only [fieldsSerialisable, Bool.and_eq_true]; exact h.2)
        (read ++ [(k, v)]) (by simpa [List.append_assoc] using hkeys) (by simp) f rest (by omega)
      simp only [fieldsTokens, List.append_assoc, List.cons_append]
      simp only [parseMembers, List.append_eq, hv, setField_new _ _ _ hnew, hrec,
        List.append_assoc, List.singleton_append]
end


/-- `JSON.parse` gives back every serialisable value from the text that
`JSON.stringify` writes for it. -/
theorem jsonParse_jsonStringify (v : Json) (h : v.serialisable = true) :
    jsonParse (jsonStringify v) = some v := by
  have hlex := lex_chars v h [] (fun c hc => by cases hc)
  rw [List.append_nil] at hlex
  have htokens : lex .ready (jsonStringify v).data = some v.tokens := by
    show lex .ready v.chars = _
    rw [hlex]
    simp [lex, lexFinish]
  have hparse := parse_tokens v h (v.tokens.length + 1) [] (Nat.le_succ _)
  rw [List.append_nil] at hparse
  simp only [jsonParse, htokens, hparse]

/-! ## The text of a value holds no line feed -/

theorem hexDigitChar_ne_lineFeed : ∀ n, n < 16 → hexDigitChar n ≠ '\n' := by
  decide

theorem quoteChar_no_lineFeed (c : Char) : '\n' ∉ quoteChar c := by
  unfold quoteChar
  split
  · decide
  · split
    · decide
    · split
      · decide
      · split
        · decide
        · split
          · decide
          · split
            · decide
            · split
              · decide
              · split
                · rename_i h32
                  have h1 := hexDigitChar_ne_lineFeed (c.toNat / 16) (by omega)
                  have h2 := hexDigitChar_ne_lineFeed (c.toNat % 16) (by omega)
                  simp only [List.mem_cons, List.mem_singleton, List.not_mem_nil, or_false,
                    not_or]
                  exact ⟨by decide, by decide, by decide, by decide, fun hc => h1 hc.symm,
                    fun hc => h2 hc.symm⟩
                · rename_i h10 _ _ _
                  rw [List.mem_singleton]
                  intro hc
                  exact h10 (by rw [← hc]; decide)

theorem quoteChars_no_lineFeed (cs : List Char) : '\n' ∉ quoteChars cs := by
  unfold quoteChars
  intro h
  simp only [List.mem_cons, List.mem_append, List.mem_flatMap, List.mem_singleton,
    List.not_mem_nil, or_false] at h
  have hq : ¬ '\n' = quoteMark := by decide
  rcases h with (h | ⟨c, _, hc⟩) | h
  · exact hq h
  · exact quoteChar_no_lineFeed c hc
  · exact hq h

theorem integerChars_no_lineFeed (n : Int) : '\n' ∉ integerChars n := by
  intro h
  have hall := (integerChars_spec n).2.2.1
  have := List.all_eq_true.mp hall _ h
  exact absurd this (by decide)

mutual
/-- The text that `JSON.stringify` writes for a serialisable value holds no
line feed. -/
theorem chars_no_lineFeed : ∀ (v : Json), v.serialisable = true → '\n' ∉ v.chars
  | .null, _ => by simp only [Json.chars]; decide
  | .bool true, _ => by simp only [Json.chars, if_true]; decide
  | .bool false, _ => by simp only [Json.chars, Bool.false_eq_true, if_false]; decide
  | .num n, _ => by simp only [Json.chars]; exact integerChars_no_lineFeed n
  | .decimal _, h => by simp [Json.serialisable] at h
  | .str s, _ => by simp only [Json.chars]; exact quoteChars_no_lineFeed s.data
  | .arr items, h => by
    have hitems : itemsSerialisable items = true := by simpa [Json.serialisable] using h
    have := itemsChars_no_lineFeed items hitems
    have h1 : ¬ '\n' = '[' := by decide
    have h2 : ¬ '\n' = ']' := by decide
    intro hmem
    simp only [Json.chars, List.mem_cons, List.mem_append, List.mem_singleton, List.not_mem_nil,
      or_false] at hmem
    tauto
  | .obj fields, h => by
    have hfields : fieldsSerialisable fields = true := by
      simp only [Json.serialisable, Bool.and_eq_true] at h
      exact h.2
    have := fieldsChars_no_lineFeed fields hfields
    have h1 : ¬ '\n' = Char.ofNat 123 := by decide
    have h2 : ¬ '\n' = Char.ofNat 125 := by decide
    intro hmem
    simp only [Json.chars, List.mem_cons, List.mem_append, List.mem_singleton, List.not_mem_nil,
      or_false] at hmem
    tauto
/-- The same for the elements of an array. -/
theorem itemsChars_no_lineFeed : ∀ (items : List Json), itemsSerialisable items = true →
    '\n' ∉ itemsChars items
  | [], _ => by simp [itemsChars]
  | [v], h => by
    have hv : v.serialisable = true := by
      simp only [itemsSerialisable, Bool.and_true] at h
      exact h
    simp only [itemsChars]
    exact chars_no_lineFeed v hv
  | v :: w :: more, h => by
    simp only [itemsSerialisable, Bool.and_eq_true] at h
    have hv := chars_no_lineFeed v h.1
    have hrec := itemsChars_no_lineFeed (w :: more)
      (by simp only [itemsSerialisable, Bool.and_eq_true]; exact h.2)
    have h1 : ¬ '\n' = ',' := by decide
    intro hmem
    simp only [itemsChars, List.mem_append, List.mem_cons] at hmem
    tauto
/-- The same for the members of an object. -/
theorem fieldsChars_no_lineFeed : ∀ (fields : List (String × Json)),
    fieldsSerialisable fields = true → '\n' ∉ fieldsChars fields
  | [], _ => by simp [fieldsChars]
  | [(k, v)], h => by
    have hv : v.serialisable = true := by
      simp only [fieldsSerialisable, Bool.and_true] at h
      exact h
    have hk := quoteChars_no_lineFeed k.data
    have hvc := chars_no_lineFeed v hv
    have h1 : ¬ '\n' = ':' := by decide
    intro hmem
    simp only [fieldsChars, List.mem_append, List.mem_cons] at hmem
    tauto
  | (k, v) :: kw :: more, h => by
    simp only [fieldsSerialisable, Bool.and_eq_true] at h
    have hv := chars_no_lineFeed v h.1
    have hrec := fieldsChars_no_lineFeed (kw :: more)
      (by simp only [fieldsSerialisable, Bool.and_eq_true]; exact h.2)
    have hk := quoteChars_no_lineFeed k.data
    have h1 : ¬ '\n' = ':' := by decide
    have h2 : ¬ '\n' = ',' := by decide
    intro hmem
    simp only [fieldsChars, List.mem_append, List.mem_cons] at hmem
    tauto
end


/-! ## SSE framing: claim C21 -/

theorem splitBlankLines_keep (current : List Char) (c : Char) (rest : List Char)
    (h : ¬ (c = '\n' ∧ current.head? = some '\n')) :
    splitBlankLines current (c :: rest) = splitBlankLines (c :: current) rest := by
  rw [splitBlankLines, if_neg h]

theorem splitBlankLines_cut (current : List Char) (rest : List Char) :
    splitBlankLines ('\n' :: current) ('\n' :: rest)
      = current.reverse :: splitBlankLines [] rest := by
  rw [splitBlankLines, if_pos ⟨rfl, rfl⟩]
  rfl

theorem splitBlankLines_ne_nil (text : List Char) :
    ∀ current, splitBlankLines current text ≠ [] := by
  induction text with
  | nil => intro current; simp [splitBlankLines]
  | cons c rest ih =>
    intro current
    rw [splitBlankLines]
    split
    · exact List.cons_ne_nil _ _
    · exact ih _

/-- Characters other than the line feed are added to the piece being read. -/
theorem splitBlankLines_run (line : List Char) :
    ∀ (current rest : List Char), '\n' ∉ line →
      splitBlankLines current (line ++ rest) = splitBlankLines (line.reverse ++ current) rest := by
  induction line with
  | nil => intro current rest _; rfl
  | cons c line ih =>
    intro current rest h
    have hc : c ≠ '\n' := fun hc => h (hc ▸ List.mem_cons_self _ _)
    rw [List.cons_append, splitBlankLines_keep _ _ _ (fun hh => hc hh.1),
      ih _ _ (fun hm => h (List.mem_cons_of_mem _ hm))]
    simp

/-- A line without a line feed, followed by a blank line, is the next piece. -/
theorem splitBlankLines_line (line rest : List Char) (h : '\n' ∉ line) :
    splitBlankLines [] (line ++ '\n' :: '\n' :: rest) = line :: splitBlankLines [] rest := by
  rw [splitBlankLines_run line [] _ h, List.append_nil]
  have hhead : ¬ ('\n' = '\n' ∧ line.reverse.head? = some '\n') := by
    rintro ⟨_, hh⟩
    exact h (List.mem_reverse.mp (List.mem_of_mem_head? hh))
  rw [splitBlankLines_keep _ _ _ hhead, splitBlankLines_cut, List.reverse_reverse]

theorem frameText_data (event : Json) :
    (frameText event).data = ("data: ".data ++ event.chars) ++ '\n' :: '\n' :: [] := by
  simp only [frameText, String.data_append, jsonStringify]

theorem join_data (texts : List String) :
    (String.join texts).data = (texts.map String.data).flatten := by
  have h : ∀ (acc : String) (l : List String),
      (l.foldl (fun r s => r ++ s) acc).data = acc.data ++ (l.map String.data).flatten := by
    intro acc l
    induction l generalizing acc with
    | nil => simp
    | cons s l ih => simp [ih, String.data_append]
  simpa [String.join] using h "" texts

/-- The pieces of the stream of serialisable events: one line per event, and
an empty rest. -/
theorem splitBlankLines_frames (events : List Json)
    (hevents : ∀ e ∈ events, e.serialisable = true) :
    splitBlankLines [] (String.join (events.map frameText)).data
      = events.map (fun e => "data: ".data ++ e.chars) ++ [[]] := by
  rw [join_data]
  induction events with
  | nil => rfl
  | cons e rest ih =>
    have hline : '\n' ∉ "data: ".data ++ e.chars := by
      intro hmem
      rcases List.mem_append.mp hmem with h | h
      · exact absurd h (by decide)
      · exact chars_no_lineFeed e (hevents e (List.mem_cons_self _ _)) h
    have hshape : (List.map String.data (List.map frameText (e :: rest))).flatten
        = ("data: ".data ++ e.chars)
          ++ '\n' :: '\n' :: (List.map String.data (List.map frameText rest)).flatten := by
      rw [List.map_cons, List.map_cons, List.flatten_cons, frameText_data, List.append_assoc]
      rfl
    rw [hshape, splitBlankLines_line _ _ hline,
      ih (fun x hx => hevents x (List.mem_cons_of_mem _ hx))]
    rfl

theorem decodeLine_frame (event : Json) (h : event.serialisable = true) :
    decodeLine ("data: ".data ++ event.chars) = some (some event) := by
  have hprefix : "data: ".data.isPrefixOf ("data: ".data ++ event.chars) = true := by
    rw [List.isPrefixOf_iff_prefix]
    exact List.prefix_append _ _
  have hdrop : ("data: ".data ++ event.chars).drop 6 = event.chars :=
    List.drop_left' (by decide)
  rw [decodeLine, if_pos hprefix, hdrop]
  exact congrArg some (jsonParse_jsonStringify event h)

theorem decodeLines_frames (events : List Json)
    (hevents : ∀ e ∈ events, e.serialisable = true) :
    (events.map (fun e => "data: ".data ++ e.chars)).filterMap decodeLine
      = events.map some := by
  induction events with
  | nil => rfl
  | cons e rest ih =>
    rw [List.map_cons, List.filterMap_cons,
      decodeLine_frame e (hevents e (List.mem_cons_self _ _)),
      ih (fun x hx => hevents x (List.mem_cons_of_mem _ hx))]
    rfl

/-- Decoding the whole stream of serialisable events gives the events. -/
theorem decodeStream_frames (events : List Json)
    (hevents : ∀ e ∈ events, e.serialisable = true) :
    decodeStream (String.join (events.map frameText)) = events.map some := by
  rw [decodeStream, splitBlankLines_frames events hevents, List.dropLast_concat,
    decodeLines_frames events hevents]

/-- On a response that stays open, `sendSSE` writes the frame text of each event,
in order. -/
theorem writtenBy_events (events : List Json) :
    writtenBy ⟨false, false⟩ (events.map sendEvent) = events.map frameText := by
  induction events with
  | nil => rfl
  | cons e rest ih =>
    simp only [List.map_cons, sendEvent, writtenBy, sendSSE, Bool.or_self,
      Bool.false_eq_true, if_false, List.singleton_append]
    simp only [sendEvent] at ih
    rw [ih]
    rfl


/-- Reading a text without a blank line only extends the piece being read. -/
theorem splitBlankLines_noBlankLine (line : List Char) :
    ∀ (current rest : List Char), NoBlankLine (current.reverse ++ line) →
      splitBlankLines current (line ++ rest) = splitBlankLines (line.reverse ++ current) rest := by
  induction line with
  | nil => intro current rest _; rfl
  | cons c line ih =>
    intro current rest h
    have hkeep : ¬ (c = '\n' ∧ current.head? = some '\n') := by
      rintro ⟨hc, hhead⟩
      cases current with
      | nil => simp at hhead
      | cons d current =>
        simp only [List.head?_cons, Option.some.injEq] at hhead
        subst hc hhead
        have hinfix : ['\n', '\n'] <:+: (('\n' :: current).reverse ++ '\n' :: line) :=
          ⟨current.reverse, line, by simp⟩
        have hpair := List.Chain'.infix h hinfix
        simp [List.chain'_cons] at hpair
    have hnext : NoBlankLine ((c :: current).reverse ++ line) := by
      simpa [NoBlankLine] using h
    rw [List.cons_append, splitBlankLines_keep _ _ _ hkeep, ih _ _ hnext]
    simp

/-- The last piece of a split holds no blank line. -/
theorem splitBlankLines_last_noBlankLine (text : List Char) :
    ∀ current, NoBlankLine current.reverse →
      NoBlankLine ((splitBlankLines current text).getLast?.getD []) := by
  induction text with
  | nil => intro current h; simpa [splitBlankLines] using h
  | cons c rest ih =>
    intro current h
    rw [splitBlankLines]
    split
    · obtain ⟨p, ps, hps⟩ := List.exists_cons_of_ne_nil (splitBlankLines_ne_nil rest [])
      have hlast := ih [] List.chain'_nil
      rw [hps] at hlast
      rw [hps, List.getLast?_cons_cons]
      exact hlast
    · rename_i hkeep
      apply ih
      rw [List.reverse_cons]
      refine List.chain'_append.mpr ⟨h, List.chain'_singleton c, ?_⟩
      intro x hx y hy
      rw [List.getLast?_reverse] at hx
      simp only [List.head?_cons, Option.mem_def, Option.some.injEq] at hy
      rintro ⟨hx1, hy1⟩
      subst hy
      exact hkeep ⟨hy1, by rw [← hx1]; exact hx⟩

/-- Splitting a text in two parts: the pieces of the first part but the last,
then the pieces of the last piece continued by the second part. -/
theorem splitBlankLines_append (first second : List Char) :
    ∀ current, splitBlankLines current (first ++ second)
      = (splitBlankLines current first).dropLast
        ++ splitBlankLines ((splitBlankLines current first).getLast?.getD []).reverse second := by
  induction first with
  | nil => intro current; simp [splitBlankLines]
  | cons c rest ih =>
    intro current
    rw [List.cons_append, splitBlankLines, splitBlankLines]
    split
    · obtain ⟨p, ps, hps⟩ := List.exists_cons_of_ne_nil (splitBlankLines_ne_nil rest [])
      rw [ih [], hps]
      simp [List.dropLast, List.getLast?_cons_cons]
    · exact ih _


theorem decodeChunks_buffered (chunks : List String) :
    ∀ buffer, NoBlankLine buffer →
      decodeChunks buffer chunks
        = (splitBlankLines [] (buffer ++ (String.join chunks).data)).dropLast.filterMap
            decodeLine := by
  induction chunks with
  | nil =>
    intro buffer h
    have hsplit := splitBlankLines_noBlankLine buffer [] [] (by simpa using h)
    simp only [List.append_nil] at hsplit
    have hjoin : (String.join []).data = [] := rfl
    rw [decodeChunks, hjoin, List.append_nil, hsplit]
    simp [splitBlankLines]
  | cons chunk rest ih =>
    intro buffer _
    have hlast := splitBlankLines_last_noBlankLine (buffer ++ chunk.data) [] List.chain'_nil
    have hjoin : (String.join (chunk :: rest)).data = chunk.data ++ (String.join rest).data := by
      rw [join_data, join_data, List.map_cons, List.flatten_cons]
    have hnext := splitBlankLines_noBlankLine
      ((splitBlankLines [] (buffer ++ chunk.data)).getLast?.getD []) []
      (String.join rest).data (by simpa using hlast)
    simp only [List.append_nil] at hnext
    rw [decodeChunks, ih _ hlast, hjoin, ← List.append_assoc,
      splitBlankLines_append (buffer ++ chunk.data) (String.join rest).data [], ← hnext,
      List.dropLast_append_of_ne_nil _ (splitBlankLines_ne_nil _ _), List.filterMap_append]

/-- Decoding chunk by chunk, as the tests do, gives what decoding the whole
stream gives, however the stream is cut in chunks. -/
theorem decodeChunks_eq_decodeStream (chunks : List String) :
    decodeChunks [] chunks = decodeStream (String.join chunks) := by
  rw [decodeChunks_buffered chunks [] List.chain'_nil, decodeStream, List.nil_append]

/-- C21: for every sequence of JSON-serialisable events sent with `sendSSE` on an
open response, the texts written are `data: ` followed by `JSON.stringify(event)`
and a blank line, one per event and in order; decoding the stream as the tests do
(split on the blank line, drop the six characters `data: `, `JSON.parse`), on the
whole stream or chunk by chunk for any cut in chunks, recovers exactly the events
in the order sent; and no payload holds a line feed, so none holds a blank line. -/
theorem sse_stream_decodes_to_events (events : List Json)
    (hevents : ∀ e ∈ events, e.serialisable = true) (chunks : List String)
    (hchunks : String.join chunks = String.join (events.map frameText)) :
    writtenBy ⟨false, false⟩ (events.map sendEvent) = events.map frameText
    ∧ (∀ e ∈ events, frameText e = "data: " ++ jsonStringify e ++ "\n\n")
    ∧ decodeStream (String.join (events.map frameText)) = events.map some
    ∧ decodeChunks [] chunks = events.map some
    ∧ ∀ e ∈ events, '\n' ∉ (jsonStringify e).data ∧ NoBlankLine (jsonStringify e).data := by
  refine ⟨writtenBy_events events, fun _ _ => rfl, decodeStream_frames events hevents, ?_, ?_⟩
  · rw [decodeChunks_eq_decodeStream, hchunks]
    exact decodeStream_frames events hevents
  · intro e he
    have hfree : '\n' ∉ (jsonStringify e).data := chars_no_lineFeed e (hevents e he)
    refine ⟨hfree, ?_⟩
    generalize (jsonStringify e).data = cs at hfree
    induction cs with
    | nil => exact List.chain'_nil
    | cons c cs ih =>
      have hc : c ≠ '\n' := fun hc => hfree (hc ▸ List.mem_cons_self _ _)
      refine List.chain'_cons'.mpr ⟨?_, ih (fun hm => hfree (List.mem_cons_of_mem _ hm))⟩
      intro y _ hh
      exact hc hh.1


set_option maxRecDepth 100000 in
theorem sse_stream_decodes_to_events_witness :
    (∀ e ∈ sampleEvents, e.serialisable = true)
    ∧ String.join sampleChunks = String.join (sampleEvents.map frameText)
    ∧ writtenBy ⟨false, false⟩ (sampleEvents.map sendEvent) = sampleEvents.map frameText
    ∧ decodeStream (String.join (sampleEvents.map frameText)) = sampleEvents.map some
    ∧ decodeChunks [] sampleChunks = sampleEvents.map some :=
  have hevents : ∀ e ∈ sampleEvents, e.serialisable = true := by decide
  have h15 : integerChars 15 = ['1', '5'] := by
    show decimalDigits 15 = _
    simp [decimalDigits]
  have h100 : integerChars 100 = ['1', '0', '0'] := by
    show decimalDigits 100 = _
    simp [decimalDigits]
  have hchunks : String.join sampleChunks = String.join (sampleEvents.map frameText) := by
    simp only [sampleEvents, List.map_cons, List.map_nil, frameText, jsonStringify, Json.chars,
      fieldsChars, itemsChars, h15, h100]
    decide
  have h := sse_stream_decodes_to_events sampleEvents hevents sampleChunks hchunks
  ⟨hevents, hchunks, h.1, h.2.2.1, h.2.2.2.1⟩


/-! ## The frames that reach the client -/

theorem withTimeout_of_le {α : Type} (timeoutFrame : α) (frames : List α)
    (firedAfter : Option Nat) (h : ∀ k, firedAfter = some k → frames.length ≤ k) :
    withTimeout timeoutFrame frames firedAfter = frames := by
  cases firedAfter with
  | none => rfl
  | some k =>
    have hk := h k rfl
    simp only [withTimeout]
    rw [if_neg (by omega)]

/-- On a response that stays open every frame of the run is written. -/
theorem framesWritten_of_staysOpen {α : Type} (timeoutFrame : α) (frames : List α)
    (firedAfter closedAfter : Option Nat) (h : StaysOpen frames firedAfter closedAfter) :
    framesWritten timeoutFrame frames firedAfter closedAfter = frames := by
  cases closedAfter with
  | none => exact withTimeout_of_le timeoutFrame frames firedAfter h.1
  | some k =>
    simp only [framesWritten]
    rw [withTimeout_of_le timeoutFrame frames firedAfter h.1]
    exact List.take_of_length_le (h.2 k rfl)

theorem withTimeout_sublist {α : Type} (timeoutFrame : α) (frames : List α)
    (firedAfter : Option Nat) :
    (withTimeout timeoutFrame frames firedAfter).Sublist (frames ++ [timeoutFrame]) := by
  cases firedAfter with
  | none => exact List.sublist_append_left _ _
  | some k =>
    simp only [withTimeout]
    split
    · exact List.Sublist.append (List.take_sublist _ _) (List.Sublist.refl _)
    · exact List.sublist_append_left _ _

/-- The frames written are frames of the run in their order, with the timer's
frame possibly after them. -/
theorem framesWritten_sublist {α : Type} (timeoutFrame : α) (frames : List α)
    (firedAfter closedAfter : Option Nat) :
    (framesWritten timeoutFrame frames firedAfter closedAfter).Sublist
      (frames ++ [timeoutFrame]) := by
  cases closedAfter with
  | none => exact withTimeout_sublist timeoutFrame frames firedAfter
  | some k =>
    exact (List.take_sublist _ _).trans (withTimeout_sublist timeoutFrame frames firedAfter)

theorem framesWritten_mem {α : Type} {timeoutFrame : α} {frames : List α}
    {firedAfter closedAfter : Option Nat} {f : α}
    (h : f ∈ framesWritten timeoutFrame frames firedAfter closedAfter) :
    f ∈ frames ∨ f = timeoutFrame := by
  have := (framesWritten_sublist timeoutFrame frames firedAfter closedAfter).subset h
  simpa using this

/-- Cutting the stream does not add frames of a kind that the timer's frame is
not of. -/
theorem framesWritten_filter_length_le {α : Type} (timeoutFrame : α) (frames : List α)
    (firedAfter closedAfter : Option Nat) (p : α → Bool) (hp : p timeoutFrame = false) :
    ((framesWritten timeoutFrame frames firedAfter closedAfter).filter p).length
      ≤ (frames.filter p).length := by
  have h := ((framesWritten_sublist timeoutFrame frames firedAfter closedAfter).filter p).length_le
  simpa [List.filter_append, List.filter_cons, hp] using h


/-! ## The handler: stage failures on a response that may close (claim C3) -/

theorem websiteTimeoutFrame_kind :
    websiteTimeoutFrame.isComplete = false
    ∧ (∀ s : Stage, websiteTimeoutFrame.isStageError s = false)
    ∧ (∀ s : Stage, websiteTimeoutFrame.isErrorTagged s = false)
    ∧ websiteTimeoutFrame.stage = none := by
  refine ⟨rfl, ?_, ?_, rfl⟩
  · intro s; simp [Frame.isStageError, websiteTimeoutFrame]
  · intro s; simp [Frame.isErrorTagged, websiteTimeoutFrame]

/-- No `complete` frame is written when the run sends none. -/
theorem websiteFramesWritten_not_complete (req : Request) (o : Outcomes)
    (firedAfter closedAfter : Option Nat)
    (h : ∀ f ∈ (generateWebsite req o).frames, f.isComplete = false) :
    ∀ f ∈ websiteFramesWritten req o firedAfter closedAfter, f.isComplete = false := by
  intro f hf
  rcases framesWritten_mem hf with h1 | h1
  · exact h f h1
  · rw [h1]; rfl

/-- C3, amended. For the stages architecture, planning, designing, generating and
reviewing of `/generate-website`: if the call of the stage throws, that call is
the last stage call of the run and no frame with stage `complete` is written;
at most one frame reporting the failure of that stage is written (an `error`
frame tagged with its name, not counting the per-file failure notices of the
generating stage, which carry `fileName`); and on a response that stays open
(the client connected, the 120-second timer not fired before the report is sent)
exactly one is written, as the last frame. For the fixing stage: if the call
throws, at most one `error` frame tagged `fixing` is written, the backend stage,
when requested, is still called, and on a response that stays open exactly one
such frame is written and the last frame written has stage `complete`. -/
theorem stage_failure_handling (req : Request) (o : Outcomes)
    (firedAfter closedAfter : Option Nat) :
    (∀ s : Stage, s ≠ .fixing → s ≠ .backend →
      (⟨s, true⟩ : StageCall) ∈ (generateWebsite req o).calls →
        (generateWebsite req o).calls.getLast? = some ⟨s, true⟩
        ∧ (∀ f ∈ websiteFramesWritten req o firedAfter closedAfter, f.isComplete = false)
        ∧ ((websiteFramesWritten req o firedAfter closedAfter).filter
            (Frame.isStageError s)).length ≤ 1
        ∧ (s ≠ .generating →
            ((websiteFramesWritten req o firedAfter closedAfter).filter
              (Frame.isErrorTagged s)).length ≤ 1)
        ∧ (StaysOpen (generateWebsite req o).frames firedAfter closedAfter →
            ((websiteFramesWritten req o firedAfter closedAfter).filter
              (Frame.isStageError s)).length = 1
            ∧ (s ≠ .generating →
                ((websiteFramesWritten req o firedAfter closedAfter).filter
                  (Frame.isErrorTagged s)).length = 1)
            ∧ ∃ f, (websiteFramesWritten req o firedAfter closedAfter).getLast? = some f
                ∧ f.isStageError s = true))
    ∧ ((⟨.fixing, true⟩ : StageCall) ∈ (generateWebsite req o).calls →
        ((websiteFramesWritten req o firedAfter closedAfter).filter
          (Frame.isErrorTagged .fixing)).length ≤ 1
        ∧ (req.includeBackend = true →
            ∃ b, (generateWebsite req o).calls.getLast? = some ⟨.backend, b⟩)
        ∧ (StaysOpen (generateWebsite req o).frames firedAfter closedAfter →
            ((websiteFramesWritten req o firedAfter closedAfter).filter
              (Frame.isErrorTagged .fixing)).length = 1
            ∧ ∃ f, (websiteFramesWritten req o firedAfter closedAfter).getLast? = some f
                ∧ f.isComplete = true)) := by
  constructor
  · intro s hs1 hs2 hmem
    obtain ⟨hlast, hcomplete, hone, htagged, hfinal⟩ :=
      generateWebsite_truncated s hs1 hs2 req o hmem
    refine ⟨hlast, websiteFramesWritten_not_complete req o _ _ hcomplete, ?_, ?_, ?_⟩
    · rw [← hone]
      exact framesWritten_filter_length_le _ _ _ _ _ (websiteTimeoutFrame_kind.2.1 s)
    · intro hs
      rw [← htagged hs]
      exact framesWritten_filter_length_le _ _ _ _ _ (websiteTimeoutFrame_kind.2.2.1 s)
    · intro hopen
      rw [websiteFramesWritten, framesWritten_of_staysOpen _ _ _ _ hopen]
      exact ⟨hone, htagged, hfinal⟩
  · intro hmem
    obtain ⟨hone, hfinal, hbackend⟩ := generateWebsite_continues req o hmem
    refine ⟨?_, hbackend, ?_⟩
    · rw [← hone]
      exact framesWritten_filter_length_le _ _ _ _ _ (websiteTimeoutFrame_kind.2.2.1 .fixing)
    · intro hopen
      rw [websiteFramesWritten, framesWritten_of_staysOpen _ _ _ _ hopen]
      exact ⟨hone, hfinal⟩

/-- C3 amended, at concrete inputs: a run whose planning call throws ends with
the planning error frame when the response stays open, and writes no such frame
when the timer has fired after the first frame; a run whose fix call throws
still completes. -/
theorem stage_failure_handling_witness :
    ((generateWebsite ⟨none, false⟩
        { sampleOutcomes with planning := .error "Planning Agent failed: bad JSON" }).calls.getLast?
        = some ⟨.planning, true⟩
      ∧ ((websiteFramesWritten ⟨none, false⟩
          { sampleOutcomes with planning := .error "Planning Agent failed: bad JSON" }
          none none).filter (Frame.isStageError .planning)).length = 1
      ∧ ((websiteFramesWritten ⟨none, false⟩
          { sampleOutcomes with planning := .error "Planning Agent failed: bad JSON" }
          (some 1) none).filter (Frame.isStageError .planning)).length ≤ 1)
    ∧ ((websiteFramesWritten ⟨some true, true⟩ outcomesWithFailedFix none none).filter
        (Frame.isErrorTagged .fixing)).length = 1 := by
  have h1 := (stage_failure_handling ⟨none, false⟩
    { sampleOutcomes with planning := .error "Planning Agent failed: bad JSON" } none none).1
    .planning (by decide) (by decide) (by decide)
  have h2 := (stage_failure_handling ⟨none, false⟩
    { sampleOutcomes with planning := .error "Planning Agent failed: bad JSON" } (some 1) none).1
    .planning (by decide) (by decide) (by decide)
  have h3 := (stage_failure_handling ⟨some true, true⟩ outcomesWithFailedFix none none).2
    (by decide)
  have hopen : ∀ frames : List Frame, StaysOpen frames none none := fun _ =>
    ⟨fun _ h => Option.noConfusion h, fun _ h => Option.noConfusion h⟩
  exact ⟨⟨h1.1, (h1.2.2.2.2 (hopen _)).1, h2.2.2.1⟩, (h3.2.2 (hopen _)).1⟩


/-! ## The handler: critical files on a response that may close (claim C16) -/

theorem staysOpen_none {α : Type} (frames : List α) : StaysOpen frames none none :=
  ⟨fun _ h => Option.noConfusion h, fun _ h => Option.noConfusion h⟩

/-- Every placeholder handed to `onFileComplete` gets its per-file notice. -/
theorem codeCallbackFrames_notice (totalFiles : Nat) (file : FileArtifact)
    (hmark : hasErrorMarker file = true) :
    ∀ (events : List CodeEvent) (n : Nat), CodeEvent.fileComplete file ∈ events →
      ∃ f ∈ codeCallbackFrames totalFiles n events,
        f.stage = some "generating" ∧ f.error = some ("Failed to generate " ++ file.path)
          ∧ f.fileName = some file.path := by
  intro events
  induction events with
  | nil => intro n h; cases h
  | cons e rest ih =>
    intro n h
    rcases List.mem_cons.mp h with h1 | h1
    · subst h1
      rw [codeCallbackFrames, if_pos hmark]
      exact ⟨_, List.mem_cons_self _ _, rfl, rfl, rfl⟩
    · cases e with
      | fileStart filePath =>
        obtain ⟨f, hf, hprops⟩ := ih n h1
        exact ⟨f, by rw [codeCallbackFrames]; exact List.mem_cons_of_mem _ hf, hprops⟩
      | chunk content =>
        obtain ⟨f, hf, hprops⟩ := ih n h1
        exact ⟨f, by rw [codeCallbackFrames]; exact hf, hprops⟩
      | fileComplete other =>
        obtain ⟨f, hf, hprops⟩ := ih (n + 1) h1
        exact ⟨f, by rw [codeCallbackFrames]; exact List.mem_cons_of_mem _ hf, hprops⟩

/-- Every placeholder handed to `onFileComplete` is listed in `fileGenerationErrors`. -/
theorem codeCallbackErrors_mem (file : FileArtifact) (hmark : hasErrorMarker file = true) :
    ∀ (events : List CodeEvent), CodeEvent.fileComplete file ∈ events →
      (⟨file.path, "File generation failed"⟩ : FileGenError) ∈ codeCallbackErrors events := by
  intro events
  induction events with
  | nil => intro h; cases h
  | cons e rest ih =>
    intro h
    rcases List.mem_cons.mp h with h1 | h1
    · subst h1
      rw [codeCallbackErrors, if_pos hmark]
      exact List.mem_cons_self _ _
    · cases e with
      | fileStart filePath => simpa [codeCallbackErrors] using ih h1
      | chunk content => simpa [codeCallbackErrors] using ih h1
      | fileComplete other =>
        rw [codeCallbackErrors]
        split
        · exact List.mem_cons_of_mem _ (ih h1)
        · exact ih h1


/-- When the code-generation stage returns its files, the failure of a file
handed to `onFileComplete` with the placeholder is sent in a per-file notice and
listed in the warning frame. -/
theorem generatingStage_notices (req : Request) (o : Outcomes) (fs : FileStructure)
    (files : List FileArtifact) (hcode : o.code.result = .ok files) (file : FileArtifact)
    (hevent : CodeEvent.fileComplete file ∈ o.code.events) (hmark : hasErrorMarker file = true) :
    (∃ f ∈ (generatingStage req o fs).frames,
        f.stage = some "generating" ∧ f.error = some ("Failed to generate " ++ file.path)
          ∧ f.fileName = some file.path)
    ∧ (∃ w ∈ (generatingStage req o fs).frames,
        w.stage = some "generating" ∧ w.error = none ∧ w.warning.isSome = true
          ∧ ∃ errs, w.fileGenerationErrors = some errs
              ∧ (⟨file.path, "File generation failed"⟩ : FileGenError) ∈ errs) := by
  obtain ⟨f, hf, hprops⟩ := codeCallbackFrames_notice (totalFilesOf fs) file hmark
    o.code.events 0 hevent
  have herr := codeCallbackErrors_mem file hmark o.code.events hevent
  have hpos : (codeCallbackErrors o.code.events).length > 0 := List.length_pos_of_mem herr
  have hwarning : ∀ w : Frame,
      w = { stage := some "generating", progress := some (.num 80),
            warning := some (errorSummary (codeCallbackErrors o.code.events)
              (validateRequiredFiles fs files)),
            fileGenerationErrors := some (codeCallbackErrors o.code.events),
            missingFiles := some (validateRequiredFiles fs files),
            message := some "Code generation completed with warnings" } →
      w.stage = some "generating" ∧ w.error = none ∧ w.warning.isSome = true
        ∧ ∃ errs, w.fileGenerationErrors = some errs
            ∧ (⟨file.path, "File generation failed"⟩ : FileGenError) ∈ errs := by
    intro w hw
    subst hw
    exact ⟨rfl, rfl, rfl, _, rfl, herr⟩
  unfold generatingStage
  simp only [hcode, hpos, decide_True, Bool.true_or, if_true]
  split
  · refine ⟨⟨f, ?_, hprops⟩, ⟨_, ?_, hwarning _ rfl⟩⟩
    · exact List.mem_append_left _ (List.mem_cons_of_mem _ hf)
    · exact List.mem_append_right _ (List.mem_cons_self _ _)
  · refine ⟨⟨f, ?_, hprops⟩, ⟨_, ?_, hwarning _ rfl⟩⟩
    · exact List.mem_append_left _ (List.mem_append_left _ (List.mem_cons_of_mem _ hf))
    · exact List.mem_append_left _ (List.mem_append_right _ (List.mem_singleton.mpr rfl))

theorem generateWebsite_frames_of_generating (req : Request) (o : Outcomes)
    (value : Option ArchitectureSpec) (fs : FileStructure)
    (harch : o.architecture = .ok value) (hchecks : architectureChecks value = .ok fs)
    (hplanning : o.planning = .ok ()) (hdesign : o.design = .ok ()) :
    ∃ pre, (generateWebsite req o).frames = pre ++ (generatingStage req o fs).frames := by
  refine ⟨[{ stage := some "architecture", progress := some (.num 5),
               message := some "Planning project structure..." },
             { stage := some "planning", progress := some (.num 15),
               message := some "Creating technical specifications..." },
             { stage := some "designing", progress := some (.num 25),
               message := some "Creating design system..." }], ?_⟩
  simp only [generateWebsite, harch, hchecks, planningStage, hplanning, designStage, hdesign,
    Run.after]
  rfl

/-- C16, amended. In a run of `/generate-website` whose architecture, planning and
design stages succeeded and whose code-generation stage returned files, the run
is aborted at the generating stage exactly when a manifest path containing a
critical name is missing from the returned files: then the generating call is
the last stage call, no `complete` frame is written, and on a response that
stays open the last frame written is the `error` frame of stage `generating`
that names the missing critical files. When no such path is missing the handler
goes on to the QA stage with the returned files, after frames that neither
complete nor abort the run, and with QA off and the response open the last
frame written has stage `complete`. A placeholder does not abort the run: for
every file handed to `onFileComplete` with the error marker in its content,
critical or not, a per-file notice and a warning frame that lists the file in
`fileGenerationErrors` are sent, and written when the response stays open. -/
theorem critical_files_abort_only_when_missing (req : Request) (o : Outcomes)
    (value : Option ArchitectureSpec) (fs : FileStructure) (files : List FileArtifact)
    (firedAfter closedAfter : Option Nat)
    (harch : o.architecture = .ok value) (hchecks : architectureChecks value = .ok fs)
    (hplanning : o.planning = .ok ()) (hdesign : o.design = .ok ())
    (hcode : o.code.result = .ok files) :
    (missingCriticalFiles (validateRequiredFiles fs files) = [] →
      (generateWebsite req o).calls
          = [⟨.architecture, false⟩, ⟨.planning, false⟩, ⟨.designing, false⟩,
             ⟨.generating, false⟩] ++ (qualityStage req o files).calls
      ∧ (∃ pre, (∀ f ∈ pre, f.isComplete = false ∧ f.isFatalError = false)
          ∧ (generateWebsite req o).frames = pre ++ (qualityStage req o files).frames)
      ∧ (req.qaEnabled = false →
          StaysOpen (generateWebsite req o).frames firedAfter closedAfter →
          ∃ f, (websiteFramesWritten req o firedAfter closedAfter).getLast? = some f
            ∧ f.isComplete = true))
    ∧ (missingCriticalFiles (validateRequiredFiles fs files) ≠ [] →
      (generateWebsite req o).calls
          = [⟨.architecture, false⟩, ⟨.planning, false⟩, ⟨.designing, false⟩,
             ⟨.generating, false⟩]
      ∧ (∀ f ∈ websiteFramesWritten req o firedAfter closedAfter, f.isComplete = false)
      ∧ (StaysOpen (generateWebsite req o).frames firedAfter closedAfter →
          (websiteFramesWritten req o firedAfter closedAfter).getLast?
            = some (generatingErrorFrame
                ("Critical files missing: "
                  ++ ", ".intercalate (missingCriticalFiles (validateRequiredFiles fs files))
                  ++ ". Cannot proceed with website generation.")
                (codeCallbackErrors o.code.events))))
    ∧ (∀ file, CodeEvent.fileComplete file ∈ o.code.events → hasErrorMarker file = true →
        (∃ f ∈ (generateWebsite req o).frames,
            f.stage = some "generating" ∧ f.error = some ("Failed to generate " ++ file.path)
              ∧ f.fileName = some file.path
              ∧ (StaysOpen (generateWebsite req o).frames firedAfter closedAfter →
                  f ∈ websiteFramesWritten req o firedAfter closedAfter))
        ∧ (∃ w ∈ (generateWebsite req o).frames,
            w.stage = some "generating" ∧ w.error = none ∧ w.warning.isSome = true
              ∧ (∃ errs, w.fileGenerationErrors = some errs
                  ∧ (⟨file.path, "File generation failed"⟩ : FileGenError) ∈ errs)
              ∧ (StaysOpen (generateWebsite req o).frames firedAfter closedAfter →
                  w ∈ websiteFramesWritten req o firedAfter closedAfter))) := by
  obtain ⟨hproceed, habort⟩ := generateWebsite_critical_files req o value fs files harch hchecks
    hplanning hdesign hcode
  have hwritten : StaysOpen (generateWebsite req o).frames firedAfter closedAfter →
      websiteFramesWritten req o firedAfter closedAfter = (generateWebsite req o).frames :=
    fun hopen => framesWritten_of_staysOpen _ _ _ _ hopen
  refine ⟨?_, ?_, ?_⟩
  · intro hcritical
    obtain ⟨hcalls, hframes, hlast⟩ := hproceed hcritical
    refine ⟨hcalls, hframes, ?_⟩
    intro hqa hopen
    rw [hwritten hopen]
    exact hlast hqa
  · intro hcritical
    obtain ⟨hcalls, hlast, hcomplete⟩ := habort hcritical
    refine ⟨hcalls, websiteFramesWritten_not_complete req o _ _ hcomplete, ?_⟩
    intro hopen
    rw [hwritten hopen]
    exact hlast
  · intro file hevent hmark
    obtain ⟨pre, hpre⟩ := generateWebsite_frames_of_generating req o value fs harch hchecks
      hplanning hdesign
    obtain ⟨⟨f, hf, hf1, hf2, hf3⟩, ⟨w, hw, hw1, hw2, hw3, hw4⟩⟩ :=
      generatingStage_notices req o fs files hcode file hevent hmark
    have hfmem : f ∈ (generateWebsite req o).frames := by
      rw [hpre]; exact List.mem_append_right _ hf
    have hwmem : w ∈ (generateWebsite req o).frames := by
      rw [hpre]; exact List.mem_append_right _ hw
    exact ⟨⟨f, hfmem, hf1, hf2, hf3, fun hopen => by rw [hwritten hopen]; exact hfmem⟩,
      ⟨w, hwmem, hw1, hw2, hw3, hw4, fun hopen => by rw [hwritten hopen]; exact hwmem⟩⟩

/-- C16 amended, at concrete inputs: with the placeholder for `package.json`
returned the last frame written is the `complete` frame and the failure of
`package.json` is written in a per-file notice; with `package.json` missing from
the returned files the last frame written names it. -/
theorem critical_files_abort_only_when_missing_witness :
    (∃ f, (websiteFramesWritten ⟨some false, false⟩ outcomesWithFailedPackage none
          none).getLast? = some f
        ∧ f.isComplete = true)
    ∧ (∃ f ∈ websiteFramesWritten ⟨some false, false⟩ outcomesWithFailedPackage none none,
        f.error = some "Failed to generate package.json")
    ∧ ((websiteFramesWritten ⟨some false, false⟩ outcomesWithMissingPackage none
          none).getLast?.bind (fun f => f.error))
      = some ("Code generation stage failed: Critical files missing: package.json. "
          ++ "Cannot proceed with website generation.") := by
  have h1 := critical_files_abort_only_when_missing ⟨some false, false⟩
    outcomesWithFailedPackage (some ⟨some sampleStructure⟩) sampleStructure
    sampleFilesWithFailedPackage none none rfl rfl rfl rfl rfl
  have h2 := (critical_files_abort_only_when_missing ⟨some false, false⟩
    outcomesWithMissingPackage (some ⟨some sampleStructure⟩) sampleStructure
    sampleFiles.tail none none rfl rfl rfl rfl rfl).2.1 (by decide)
  obtain ⟨⟨f, _, _, hf2, _, hf4⟩, _⟩ := h1.2.2
    ⟨"package.json", "// Error generating this file: Request timeout"⟩ (by decide) (by decide)
  refine ⟨(h1.1 (by decide)).2.2 rfl (staysOpen_none _), ⟨f, hf4 (staysOpen_none _), hf2⟩, ?_⟩
  rw [h2.2.2 (staysOpen_none _)]
  decide


/-! ## QA and fix gating in every run (claim C19) -/

/-- C19, as the specification states it, fails: with `enableQA` omitted, a run of
either handler whose planning call throws ends before the QA point and never
calls the reviewing agent. -/
theorem review_not_invoked_when_planning_fails :
    (generateWebsite ⟨none, false⟩
        { sampleOutcomes with planning := .error "Planning Agent failed: bad JSON" }).calls
      = [⟨.architecture, false⟩, ⟨.planning, true⟩]
    ∧ (generateAdvanced none
        { sampleAdvancedOutcomes with planning := .error "Planning Agent failed: bad JSON" }).calls
      = [⟨.planning, true⟩]
    ∧ ¬ invoked .reviewing (generateWebsite ⟨none, false⟩
        { sampleOutcomes with planning := .error "Planning Agent failed: bad JSON" }).calls
    ∧ ¬ invoked .reviewing (generateAdvanced none
        { sampleAdvancedOutcomes with planning := .error "Planning Agent failed: bad JSON" }).calls := by
  refine ⟨by decide, by decide, ?_, ?_⟩
  · rintro ⟨b, hb⟩
    revert hb
    cases b <;> decide
  · rintro ⟨b, hb⟩
    revert hb
    cases b <;> decide

/-- C19, amended. In every run of `/generate-website` and of `/generate-advanced`
the reviewing agent is called only if `enableQA` is omitted or truthy, and the
fixing agent only if the reviewing call returned a report whose `needsRevision`
is true. In a run that reaches the QA point (for `/generate-website`: the
architecture, planning, design and generation stages succeed and no critical
file is missing; for `/generate-advanced`: planning, design and generation
succeed) the converse holds as well: the reviewing agent is called iff
`enableQA` is omitted or truthy, and the fixing agent iff the review returned a
report with `needsRevision` true. In such a run of `/generate-website` with
`enableQA` false and no backend requested, on a response that stays open, the
distinct stage names of the frames written are, in order, architecture,
planning, designing, generating, complete. -/
theorem qa_and_fix_gating (req : Request) (o : Outcomes) (ao : AdvancedOutcomes)
    (firedAfter closedAfter : Option Nat) :
    ((invoked .reviewing (generateWebsite req o).calls
        → req.enableQA = none ∨ req.enableQA = some true)
      ∧ (invoked .fixing (generateWebsite req o).calls
        → ∃ report, (⟨.reviewing, false⟩ : StageCall) ∈ (generateWebsite req o).calls
            ∧ o.quality = .ok report ∧ report.needsRevision = true)
      ∧ (invoked .reviewing (generateAdvanced req.enableQA ao).calls
        → req.enableQA = none ∨ req.enableQA = some true)
      ∧ (invoked .fixing (generateAdvanced req.enableQA ao).calls
        → ∃ report, (⟨.reviewing, false⟩ : StageCall) ∈ (generateAdvanced req.enableQA ao).calls
            ∧ ao.quality = .ok report ∧ report.needsRevision = true))
    ∧ (∀ (value : Option ArchitectureSpec) (fs : FileStructure) (files : List FileArtifact),
        o.architecture = .ok value → architectureChecks value = .ok fs →
        o.planning = .ok () → o.design = .ok () → o.code.result = .ok files →
        missingCriticalFiles (validateRequiredFiles fs files) = [] →
          (invoked .reviewing (generateWebsite req o).calls
            ↔ (req.enableQA = none ∨ req.enableQA = some true))
          ∧ (invoked .fixing (generateWebsite req o).calls
            ↔ ∃ report, (⟨.reviewing, false⟩ : StageCall) ∈ (generateWebsite req o).calls
                ∧ o.quality = .ok report ∧ report.needsRevision = true)
          ∧ (req.enableQA = some false → req.includeBackend = false →
              StaysOpen (generateWebsite req o).frames firedAfter closedAfter →
              distinctStages (websiteFramesWritten req o firedAfter closedAfter)
                = ["architecture", "planning", "designing", "generating", "complete"]))
    ∧ (∀ code : String,
        ao.planning = .ok () → ao.design = .ok () → ao.code.result = .ok code →
          (invoked .reviewing (generateAdvanced req.enableQA ao).calls
            ↔ (req.enableQA = none ∨ req.enableQA = some true))
          ∧ (invoked .fixing (generateAdvanced req.enableQA ao).calls
            ↔ ∃ report,
                (⟨.reviewing, false⟩ : StageCall) ∈ (generateAdvanced req.enableQA ao).calls
                ∧ ao.quality = .ok report ∧ report.needsRevision = true)) := by
  refine ⟨qa_stages_only_when_gated req o ao, ?_, ?_⟩
  · intro value fs files harch hchecks hplanning hdesign hcode hcritical
    have h := qa_and_fix_gating_at_qa_point req o value fs files sampleAdvancedOutcomes
      "export default App" harch hchecks hplanning hdesign hcode hcritical rfl rfl rfl
    refine ⟨h.1, h.2.1, ?_⟩
    intro hqa hbackend hopen
    rw [websiteFramesWritten, framesWritten_of_staysOpen _ _ _ _ hopen]
    exact h.2.2.1 hqa hbackend
  · intro code hplanning hdesign hcode
    have h := qa_and_fix_gating_at_qa_point req sampleOutcomes (some ⟨some sampleStructure⟩)
      sampleStructure sampleFiles ao code rfl rfl rfl rfl rfl (by decide) hplanning hdesign hcode
    exact ⟨h.2.2.2.1, h.2.2.2.2⟩

/-- C19 amended, at concrete inputs: on the sample outcomes with `enableQA` false
and no backend, the stage names written are the five of the scenario and neither
handler calls the reviewing agent; with `enableQA` omitted both handlers call the
reviewing and the fixing agent. -/
theorem qa_and_fix_gating_witness :
    distinctStages (websiteFramesWritten ⟨some false, false⟩ sampleOutcomes none none)
        = ["architecture", "planning", "designing", "generating", "complete"]
    ∧ ¬ invoked .reviewing (generateWebsite ⟨some false, false⟩ sampleOutcomes).calls
    ∧ ¬ invoked .reviewing (generateAdvanced (some false) sampleAdvancedOutcomes).calls
    ∧ invoked .reviewing (generateWebsite ⟨none, false⟩ sampleOutcomes).calls
    ∧ invoked .fixing (generateWebsite ⟨none, false⟩ sampleOutcomes).calls
    ∧ invoked .reviewing (generateAdvanced none sampleAdvancedOutcomes).calls
    ∧ invoked .fixing (generateAdvanced none sampleAdvancedOutcomes).calls := by
  have hoff := qa_and_fix_gating ⟨some false, false⟩ sampleOutcomes sampleAdvancedOutcomes
    none none
  have hon := qa_and_fix_gating ⟨none, false⟩ sampleOutcomes sampleAdvancedOutcomes none none
  have hoffw := hoff.2.1 (some ⟨some sampleStructure⟩) sampleStructure sampleFiles
    rfl rfl rfl rfl rfl (by decide)
  have honw := hon.2.1 (some ⟨some sampleStructure⟩) sampleStructure sampleFiles
    rfl rfl rfl rfl rfl (by decide)
  have hona := hon.2.2 "export default App" rfl rfl rfl
  refine ⟨hoffw.2.2 rfl rfl (staysOpen_none _), ?_, ?_, honw.1.mpr (Or.inl rfl), ?_,
    hona.1.mpr (Or.inl rfl), ?_⟩
  · intro h
    rcases hoff.1.1 h with h1 | h1 <;> cases h1
  · intro h
    rcases hoff.1.2.2.1 h with h1 | h1 <;> cases h1
  · exact honw.2.1.mpr ⟨sampleReport, by decide, rfl, by decide⟩
  · exact hona.2.mpr ⟨⟨["missing alt text"], true, "needs-work"⟩, by decide, rfl, rfl⟩

end AiBuilder
